import Mathlib

/-!
# Text subtitle demuxer (`modules/demux/subtitle.c`)

A shallow embedding of the subtitle demuxer: the single-precision arithmetic of
the timeline adjuster, the table of frame-rate ratios, the bubble sort `Fix`, the
tail of `Open` that derives the total length, and the format probe of `Open`
with the `sscanf` / `str*` primitives it relies on.

Conventions.
* `int64_t` values are `Int`; `wrap64` is applied where the C code adds.
* `float` values are `F32`: an IEEE-754 binary32 number, stored as an integer
  count of `2^-149` (the spacing of the smallest subnormals), or an infinity, or
  a NaN.  Every finite binary32 number is such a multiple, so the representation
  is exact; the sign of zero is not tracked.
* C strings are `List Char`; the terminating NUL is the end of the list.
-/

namespace Subtitle

/-! ## Machine integers -/

def INT64_MIN : Int := -(2 ^ 63)

def INT64_MAX : Int := 2 ^ 63 - 1

/-- Two's complement reduction of an integer to the `int64_t` range. -/
def wrap64 (x : Int) : Int := (x + 2 ^ 63) % 2 ^ 64 - 2 ^ 63

/-- Membership in the `int64_t` range. -/
def isInt64 (x : Int) : Prop := INT64_MIN ≤ x ∧ x ≤ INT64_MAX

instance (x : Int) : Decidable (isInt64 x) :=
  inferInstanceAs (Decidable (INT64_MIN ≤ x ∧ x ≤ INT64_MAX))

/-! ## Single-precision floats -/

/-- An IEEE-754 binary32 value.  `fin u` is the finite number `u * 2^-149`. -/
inductive F32 where
  | fin (u : Int)
  | inf (neg : Bool)
  | nan
  deriving DecidableEq, Repr

namespace F32

/-- The number of `2^-149` steps in `1.0`. -/
def unit : Nat := 2 ^ 149

/-- Floor of the base-2 logarithm (`0` for `0` and `1`), by repeated halving. -/
def bitLog : Nat → Nat → Nat
  | 0, _ => 0
  | fuel + 1, n => if n < 2 then 0 else bitLog fuel (n / 2) + 1

/-- Round the non-negative rational `n / d` (counted in steps of `2^-149`) to
the binary32 grid, ties to even.  Below `2^24` steps the grid spacing is one
step (subnormals and the first normal binade); above, it is `2^(e-23)` steps
where `e` is the exponent of `n / d`. -/
def roundMag (n d : Nat) : Nat :=
  let sh := bitLog (n / d) (n / d) - 23
  let g := d * 2 ^ sh
  let f := n / g
  let r := n % g
  let m := if 2 * r < g then f else if g < 2 * r then f + 1 else if f % 2 = 0 then f else f + 1
  m * 2 ^ sh

/-- Rounding of a signed rational `± n / d` steps, overflowing to infinity at `2^128`. -/
def round (neg : Bool) (n d : Nat) : F32 :=
  let m := roundMag n d
  if unit * 2 ^ 128 ≤ m then inf neg else fin (if neg then -(m : Int) else m)

/-- Conversion `(float)x` of an integer. -/
def ofInt (t : Int) : F32 := round (decide (t < 0)) (t.natAbs * unit) 1

/-- A decimal literal `n / d` with the `f` suffix, e.g. `23.976f` is `ofRatio 23976 1000`. -/
def ofRatio (n d : Nat) : F32 := round false (n * unit) d

/-- Single-precision division `a / b`. -/
def div : F32 → F32 → F32
  | fin a, fin b =>
      if b = 0 then (if a = 0 then nan else inf (decide (a < 0)))
      else round (decide (a < 0) != decide (b < 0)) (a.natAbs * unit) b.natAbs
  | fin _, inf _ => fin 0
  | inf n, fin b => inf (n != decide (b < 0))
  | _, _ => nan

/-- Negation. -/
def neg : F32 → F32
  | fin a => fin (-a)
  | inf n => inf (!n)
  | nan => nan

/-- Single-precision addition `a + b`. -/
def add : F32 → F32 → F32
  | fin a, fin b => round (decide (a + b < 0)) (a + b).natAbs 1
  | fin _, inf n => inf n
  | inf n, fin _ => inf n
  | inf n, inf m => if n = m then inf n else nan
  | _, _ => nan

/-- Single-precision subtraction `a - b`. -/
def sub (a b : F32) : F32 := add a (neg b)

/-- Single-precision multiplication `a * b`. -/
def mul : F32 → F32 → F32
  | fin a, fin b => round (decide (a < 0) != decide (b < 0)) (a.natAbs * b.natAbs) unit
  | fin a, inf n => if a = 0 then nan else inf (decide (a < 0) != n)
  | inf n, fin b => if b = 0 then nan else inf (n != decide (b < 0))
  | inf n, inf m => inf (n != m)
  | _, _ => nan

/-- The comparison `a < b` (false when either side is NaN). -/
def lt : F32 → F32 → Bool
  | fin a, fin b => decide (a < b)
  | fin _, inf n => !n
  | inf n, fin _ => n
  | inf n, inf m => n && !m
  | _, _ => false

/-- The comparison `a <= b` (false when either side is NaN). -/
def le : F32 → F32 → Bool
  | fin a, fin b => decide (a ≤ b)
  | fin _, inf n => !n
  | inf n, fin _ => n
  | inf n, inf m => n || !m
  | _, _ => false

/-- The absolute value `fabs`. -/
def fabs : F32 → F32
  | fin a => fin (a.natAbs : Int)
  | inf _ => inf false
  | nan => nan

/-- Conversion `(int64_t)x`: truncation toward zero.  Out of range (and for
infinities and NaN) ISO C leaves the result undefined; the value modelled is the
one the x86-64 conversion instruction delivers, `INT64_MIN`. -/
def toInt64 : F32 → Int
  | fin u =>
      let t := Int.tdiv u unit
      if INT64_MIN ≤ t ∧ t ≤ INT64_MAX then t else INT64_MIN
  | _ => INT64_MIN

/-- Conversion `(int)x`: truncation toward zero.  Out of range (and for
infinities and NaN) ISO C leaves the result undefined; the value modelled is the
one the x86-64 conversion instruction delivers, `INT_MIN`. -/
def toInt32 : F32 → Int
  | fin u =>
      let t := Int.tdiv u unit
      if -(2 ^ 31) ≤ t ∧ t ≤ 2 ^ 31 - 1 then t else -(2 ^ 31)
  | _ => -(2 ^ 31)

/-- The macro `__MAX( a, b )`, that is `a > b ? a : b`. -/
def max (a b : F32) : F32 := if lt b a then a else b

/-- The rational value of a finite float (`0` for infinities and NaN). -/
def toRat : F32 → ℚ
  | fin u => (u : ℚ) / 2 ^ 149
  | _ => 0

/-- An integer that `(float)` converts without rounding: its magnitude is a
multiple of the grid spacing at its own exponent. -/
def exactInt (t : Int) : Prop := 2 ^ (bitLog t.natAbs t.natAbs - 23) ∣ t.natAbs

instance (t : Int) : Decidable (exactInt t) :=
  inferInstanceAs (Decidable (2 ^ (bitLog t.natAbs t.natAbs - 23) ∣ t.natAbs))

/-- A finite float of at least one half. -/
def atLeastHalf : F32 → Prop
  | fin u => (unit : Int) ≤ 2 * u
  | _ => False

instance (x : F32) : Decidable (atLeastHalf x) :=
  match x with
  | fin u => inferInstanceAs (Decidable ((unit : Int) ≤ 2 * u))
  | inf _ => inferInstanceAs (Decidable False)
  | nan => inferInstanceAs (Decidable False)

end F32

/-! ## Double-precision floats -/

/-- The power `2^n`, by repeated doubling. -/
def pow2 : Nat → Nat
  | 0 => 1
  | n + 1 => 2 * pow2 n

/-- Round the non-negative rational `n / d` (counted in steps of the smallest
subnormal) to a binary grid with `k + 1` significant bits, ties to even: below
`2^(k+1)` steps the grid spacing is one step; above, it is `2^(e-k)` steps where
`e` is the exponent of `n / d`.  With `k = 23` this is `F32.roundMag`. -/
def roundMagP (k n d : Nat) : Nat :=
  let sh := F32.bitLog (n / d) (n / d) - k
  let g := d * pow2 sh
  let f := n / g
  let r := n % g
  let m := if 2 * r < g then f else if g < 2 * r then f + 1 else if f % 2 = 0 then f else f + 1
  m * pow2 sh

/-- An IEEE-754 binary64 value.  `fin u` is the finite number `u * 2^-1074`. -/
inductive F64 where
  | fin (u : Int)
  | inf (neg : Bool)
  | nan
  deriving DecidableEq, Repr

namespace F64

/-- The number of `2^-1074` steps in `1.0`, that is `2^1074`. -/
def unit : Nat := pow2 1074

/-- The value `2^1024` at which a double overflows, in units of `1.0`. -/
def huge : Nat := pow2 1024

/-- Rounding of a signed rational `± n / d` steps, overflowing to infinity at `2^1024`. -/
def round (neg : Bool) (n d : Nat) : F64 :=
  let m := roundMagP 52 n d
  if unit * huge ≤ m then inf neg else fin (if neg then -(m : Int) else m)

/-- Conversion `(double)x` of an integer. -/
def ofInt (t : Int) : F64 := round (decide (t < 0)) (t.natAbs * unit) 1

/-- Double-precision division `a / b`. -/
def div : F64 → F64 → F64
  | fin a, fin b =>
      if b = 0 then (if a = 0 then nan else inf (decide (a < 0)))
      else round (decide (a < 0) != decide (b < 0)) (a.natAbs * unit) b.natAbs
  | fin _, inf _ => fin 0
  | inf n, fin b => inf (n != decide (b < 0))
  | _, _ => nan

/-- Double-precision multiplication `a * b`. -/
def mul : F64 → F64 → F64
  | fin a, fin b => round (decide (a < 0) != decide (b < 0)) (a.natAbs * b.natAbs) unit
  | fin a, inf n => if a = 0 then nan else inf (decide (a < 0) != n)
  | inf n, fin b => if b = 0 then nan else inf (n != decide (b < 0))
  | inf n, inf m => inf (n != m)
  | _, _ => nan

/-- The comparison `a <= b` (false when either side is NaN). -/
def le : F64 → F64 → Bool
  | fin a, fin b => decide (a ≤ b)
  | fin _, inf n => !n
  | inf n, fin _ => n
  | inf n, inf m => n || !m
  | _, _ => false

/-- Conversion `(int64_t)x`: truncation toward zero.  Out of range (and for
infinities and NaN) ISO C leaves the result undefined; the value modelled is the
one the x86-64 conversion instruction delivers, `INT64_MIN`. -/
def toInt64 : F64 → Int
  | fin u =>
      let t := Int.tdiv u unit
      if INT64_MIN ≤ t ∧ t ≤ INT64_MAX then t else INT64_MIN
  | _ => INT64_MIN

/-- The rational value of a finite double (`0` for infinities and NaN). -/
def toRat : F64 → ℚ
  | fin u => (u : ℚ) / (unit : ℚ)
  | _ => 0

end F64

/-! ## Session state -/

/-- The enum of subtitle types (`SUB_TYPE_UNKNOWN = -1`, then counting from 0). -/
inductive SubType where
  | SUB_TYPE_UNKNOWN
  | SUB_TYPE_MICRODVD
  | SUB_TYPE_SUBRIP
  | SUB_TYPE_SSA1
  | SUB_TYPE_SSA2_4
  | SUB_TYPE_ASS
  | SUB_TYPE_VPLAYER
  | SUB_TYPE_SAMI
  | SUB_TYPE_SUBVIEWER
  | SUB_TYPE_DVDSUBTITLE
  | SUB_TYPE_MPL2
  | SUB_TYPE_AQT
  | SUB_TYPE_PJS
  | SUB_TYPE_MPSUB
  | SUB_TYPE_JACOSUB
  | SUB_TYPE_PSB
  | SUB_TYPE_RT
  | SUB_TYPE_DKS
  | SUB_TYPE_SUBVIEW1
  | SUB_TYPE_VTT
  deriving DecidableEq, Repr

open SubType

/-- One cue: `i_start` and `i_stop` are the original timestamps in microseconds. -/
structure subtitle_t where
  i_start : Int
  i_stop : Int
  psz_text : List Char
  deriving DecidableEq, Repr

/-- One entry of the table of frame-rate ratios. -/
structure sub_fps_adjust where
  fps_ratio : F32
  sz_desc : String
  deriving DecidableEq, Repr

structure sub_speed_delay where
  sub_delay : Int
  idx_sub_fps_adjust : Int
  deriving DecidableEq, Repr

structure subtitle_delaybookmarks_t where
  i_time_subtitle : Int
  i_time_audio : Int
  i_time_subtitle_n_1 : Int
  i_time_audio_n_1 : Int
  deriving DecidableEq, Repr

/-- The loaded text: its lines (`i_line_count` is their number) and the read
position `i_line`. -/
structure text_t where
  line : List (List Char)
  i_line : Nat
  deriving DecidableEq, Repr

/-- The fields of `demux_sys_t` that carry the loaded text, the cue store and
the sync state.  `i_subtitles` is the length of `subtitle`. -/
structure demux_sys_t where
  i_type : SubType
  txt : text_t
  psz_header : Option (List Char)
  i_next_demux_date : Int
  i_last_demux_date : Int
  i_microsecperframe : Int
  i_subtitle : Nat
  subtitle : List subtitle_t
  i_length : Int
  subtitle_delaybookmarks : subtitle_delaybookmarks_t
  sub_fps_adjusts : List sub_fps_adjust
  sub_speed_delay_user_confirm : sub_speed_delay
  sub_speed_delay_current : sub_speed_delay
  deriving Repr

/-! ## The table of frame-rate ratios -/

def NB_SUB_FPS_ADJUSTS : Nat := 13

/-- The array `fps_list` of `fill_sub_fps_adjusts`: `{ 23.976f, 24.f, 25.f, 30.f }`. -/
def fps_list : List F32 :=
  [F32.ofRatio 23976 1000, F32.ofRatio 24 1, F32.ofRatio 25 1, F32.ofRatio 30 1]

/-- What `%.6g` prints for the entries of `fps_list`. -/
def fps_text : List String := ["23.976", "24", "25", "30"]

/-- A store into `sub_fps_adjusts[cur_id]`; `none` when the index is outside the array. -/
def store_adjust (tbl : List sub_fps_adjust) (cur_id : Nat) (e : sub_fps_adjust) :
    Option (List sub_fps_adjust) :=
  if cur_id < tbl.length then some (tbl.set cur_id e) else none

/-- The entry the loop body builds for the pair `(i, j)`: the ratio
`fps_list[i] / fps_list[j]` and the description `"%.6g->%.6g fps"` (at most 14
characters, so the 15-byte buffer never truncates it). -/
def fps_entry (i j : Nat) : sub_fps_adjust :=
  { fps_ratio := F32.div (fps_list.getD i F32.nan) (fps_list.getD j F32.nan),
    sz_desc := fps_text.getD i "" ++ "->" ++ fps_text.getD j "" ++ " fps" }

/-- Body of the inner loop of `fill_sub_fps_adjusts` for one pair `(i, j)`. -/
def fill_step (i j : Nat) (st : List sub_fps_adjust × Nat) :
    Option (List sub_fps_adjust × Nat) :=
  if j ≠ i then
    match store_adjust st.1 st.2 (fps_entry i j) with
    | some tbl => some (tbl, st.2 + 1)
    | none => none
  else some st

/-- The inner loop `for (j = 0; j < nb_fps; j++)`. -/
def fill_inner (i : Nat) (st : List sub_fps_adjust × Nat) :
    Option (List sub_fps_adjust × Nat) :=
  (List.range 4).foldlM (fun s j => fill_step i j s) st

/-- Embedding of `fill_sub_fps_adjusts`: entry 0 is set to ratio `1.f` with an empty
description, then the double loop stores the ratios from index `cur_id = 1` on.
`tbl` is the array as allocated (13 entries of arbitrary content). -/
def fill_sub_fps_adjusts (tbl : List sub_fps_adjust) : Option (List sub_fps_adjust × Nat) :=
  match store_adjust tbl 0 { fps_ratio := F32.ofRatio 1 1, sz_desc := "" } with
  | some t0 => (List.range 4).foldlM (fun s i => fill_inner i s) (t0, 1)
  | none => none

/-- The table as `Open` leaves it, starting from a zero-filled allocation. -/
def sub_fps_table : List sub_fps_adjust :=
  match fill_sub_fps_adjusts (List.replicate NB_SUB_FPS_ADJUSTS ⟨F32.fin 0, ""⟩) with
  | some r => r.1
  | none => []

/-! ## Timeline adjuster -/

/-- Embedding of `GetDemuxSubSpeed`: the ratio of the table entry at the current
index.  A read outside the array (undefined in C) is modelled as NaN. -/
def GetDemuxSubSpeed (p_sys : demux_sys_t) : F32 :=
  if p_sys.sub_speed_delay_current.idx_sub_fps_adjust < 0 then F32.nan
  else
    match p_sys.sub_fps_adjusts.get? p_sys.sub_speed_delay_current.idx_sub_fps_adjust.toNat with
    | some e => e.fps_ratio
    | none => F32.nan

/-- Embedding of `GetDemuxSubDelay`. -/
def GetDemuxSubDelay (p_sys : demux_sys_t) : Int :=
  p_sys.sub_speed_delay_current.sub_delay

/-- Embedding of `adjust_subtitle_time`:
`(int64_t)( (float)i64_when / sub_speed ) + sub_delay`. -/
def adjust_subtitle_time (p_sys : demux_sys_t) (i64_when : Int) : Int :=
  let sub_delay := GetDemuxSubDelay p_sys
  let sub_speed := GetDemuxSubSpeed p_sys
  wrap64 (F32.toInt64 (F32.div (F32.ofInt i64_when) sub_speed) + sub_delay)

/-- A session as `Open` initialises the sync state, with a given cue store,
delay and ratio index. -/
def session (subs : List subtitle_t) (delay : Int) (idx : Int) : demux_sys_t :=
  { i_type := SUB_TYPE_SUBRIP
    txt := ⟨[], 0⟩
    psz_header := none
    i_next_demux_date := 0
    i_last_demux_date := 0
    i_microsecperframe := 40000
    i_subtitle := 0
    subtitle := subs
    i_length := 0
    subtitle_delaybookmarks := ⟨0, 0, -1, -1⟩
    sub_fps_adjusts := sub_fps_table
    sub_speed_delay_user_confirm := ⟨0, -1⟩
    sub_speed_delay_current := ⟨delay, idx⟩ }

/-! ## Cue store post-processing -/

/-- The `for` loop of `Fix` with `k` iterations left, at index `i_index`:
when `subtitle[i_index].i_start < subtitle[i_index - 1].i_start` the two entries
are exchanged and `b_done` is cleared. -/
def Fix_for : Nat → Nat → List subtitle_t → Bool → List subtitle_t × Bool
  | 0, _, subtitle, b_done => (subtitle, b_done)
  | k + 1, i_index, subtitle, b_done =>
      match subtitle.get? (i_index - 1), subtitle.get? i_index with
      | some before, some here =>
          if here.i_start < before.i_start then
            Fix_for k (i_index + 1) ((subtitle.set (i_index - 1) here).set i_index before) false
          else
            Fix_for k (i_index + 1) subtitle b_done
      | _, _ => (subtitle, b_done)

/-- The body of the `do ... while` of `Fix`: `b_done = true`, then the `for` loop
over `i_index = 1 .. i_subtitles - 1`. -/
def Fix_pass (subtitle : List subtitle_t) : List subtitle_t × Bool :=
  Fix_for (subtitle.length - 1) 1 subtitle true

/-- The `do ... while( !b_done )` loop of `Fix`, with a bound on the number of
passes; `none` when the bound is reached before a pass without exchange. -/
def Fix_loop : Nat → List subtitle_t → Option (List subtitle_t)
  | 0, _ => none
  | fuel + 1, subs =>
      if (Fix_pass subs).2 then some (Fix_pass subs).1 else Fix_loop fuel (Fix_pass subs).1

/-- Embedding of `Fix`.  Each pass that exchanges removes at least one of the at
most `n * n` inversions, so `n * n + 1` passes always suffice (`Fix_spec`). -/
def Fix (subs : List subtitle_t) : Option (List subtitle_t) :=
  Fix_loop (subs.length * subs.length + 1) subs

/-- The store is in non-decreasing order of `i_start`:
`store[i].i_start <= store[i+1].i_start` for every adjacent pair. -/
def StartSorted (subs : List subtitle_t) : Prop :=
  List.Chain' (fun a b => a.i_start ≤ b.i_start) subs

instance (subs : List subtitle_t) : Decidable (StartSorted subs) :=
  inferInstanceAs
    (Decidable (List.Chain' (fun (a b : subtitle_t) => a.i_start ≤ b.i_start) subs))

/-- The total length `Open` derives from the store: the `i_stop` of the last
entry, or its `i_start + 1` when that is not positive; `0` for an empty store. -/
def Open_length (subs : List subtitle_t) : Int :=
  match subs.getLast? with
  | none => 0
  | some last => if last.i_stop ≤ 0 then wrap64 (last.i_start + 1) else last.i_stop

/-- The tail of `Open` after the parse loop, on the session `p_sys` whose
`subtitle` holds the cues in parse order: the cursor is reset, the length is
derived, and for the three SSA/ASS types `Fix` is run. -/
def Open_finish (p_sys : demux_sys_t) : Option demux_sys_t :=
  let p1 := { p_sys with i_subtitle := 0, i_length := Open_length p_sys.subtitle }
  if p1.i_type = SUB_TYPE_SSA1 ∨ p1.i_type = SUB_TYPE_SSA2_4 ∨ p1.i_type = SUB_TYPE_ASS then
    match Fix p1.subtitle with
    | some fixed => some { p1 with subtitle := fixed }
    | none => none
  else
    some p1

/-- The session `Open` hands to its tail: sync state reset, table filled, type
decided and the cues in parse order. -/
def Open_parsed (i_type : SubType) (parsed : List subtitle_t) : demux_sys_t :=
  { session parsed 0 0 with i_type := i_type }

/-! ## C library primitives used by the probe -/

/-- The `isspace` of the C locale. -/
def isspace (c : Char) : Bool :=
  c = ' ' ∨ c = '\t' ∨ c = '\n' ∨ c = '\x0b' ∨ c = '\x0c' ∨ c = '\r'

/-- The `tolower` of the C locale. -/
def tolower (c : Char) : Char := c.toLower

/-- Whether `needle` is found at the very start of `s`, comparing with `eq`. -/
def matchesAt (eq : Char → Char → Bool) : List Char → List Char → Bool
  | _, [] => true
  | [], _ :: _ => false
  | c :: s, n :: needle => eq c n && matchesAt eq s needle

/-- Substring search: the suffix of `s` starting at the first occurrence of `needle`. -/
def strstr_by (eq : Char → Char → Bool) : List Char → List Char → Option (List Char)
  | [], needle => if matchesAt eq [] needle then some [] else none
  | c :: s, needle =>
      if matchesAt eq (c :: s) needle then some (c :: s) else strstr_by eq s needle

/-- The C `strstr`. -/
def strstr (s : List Char) (needle : String) : Option (List Char) :=
  strstr_by (fun a b => a == b) s needle.data

/-- The C `strcasestr`: `strstr` ignoring letter case. -/
def strcasestr (s : List Char) (needle : String) : Option (List Char) :=
  strstr_by (fun a b => tolower a == tolower b) s needle.data

/-- Comparison of at most `n` characters ignoring case; the end of a list is the NUL. -/
def strncasecmp_go : Nat → List Char → List Char → Int
  | 0, _, _ => 0
  | _ + 1, [], [] => 0
  | _ + 1, [], b :: _ => -((tolower b).toNat : Int)
  | _ + 1, a :: _, [] => ((tolower a).toNat : Int)
  | n + 1, a :: s1, b :: s2 =>
      if tolower a = tolower b then strncasecmp_go n s1 s2
      else ((tolower a).toNat : Int) - ((tolower b).toNat : Int)

/-- The C `strncasecmp`. -/
def strncasecmp (s1 : List Char) (s2 : String) (n : Nat) : Int :=
  strncasecmp_go n s1 s2.data

/-- A directive of a `scanf` format: an ordinary character, white space, `%d`,
`%c`, `%s`, a scanset `%[...]` / `%[^...]` with an optional maximum field
width (`0` when none is given), or `%*d`, a `%d` whose value is not stored. -/
inductive ScanDir where
  | lit (c : Char)
  | ws
  | int
  | chr
  | str
  | set (negated : Bool) (members : List Char) (width : Nat)
  | skipInt
  deriving DecidableEq, Repr

/-- A value stored by a conversion. -/
inductive ScanVal where
  | int (v : Int)
  | chr (c : Char)
  | str (s : List Char)
  deriving DecidableEq, Repr

/-- Where the reading of a format string stands: between directives, after a
`%` (with the field width read so far), right after `%[`, inside a scanset, or
after `%*`. -/
inductive FormatMode where
  | plain
  | spec (width : Nat)
  | setHead (width : Nat)
  | setBody (negated : Bool) (members : List Char) (width : Nat)
  | skip

/-- Reading of a format string, one character at a time.  A `]` that comes first
in a scanset is a member of it; a conversion other than `d`, `c`, `s`, `[`, `*d`
ends the reading. -/
def parseFormatFrom : FormatMode → List Char → List ScanDir
  | _, [] => []
  | FormatMode.plain, c :: rest =>
      if c = '%' then parseFormatFrom (FormatMode.spec 0) rest
      else (if isspace c then ScanDir.ws else ScanDir.lit c) :: parseFormatFrom FormatMode.plain rest
  | FormatMode.spec w, c :: rest =>
      if c.isDigit then parseFormatFrom (FormatMode.spec (10 * w + (c.toNat - '0'.toNat))) rest
      else if c = 'd' then ScanDir.int :: parseFormatFrom FormatMode.plain rest
      else if c = 'c' then ScanDir.chr :: parseFormatFrom FormatMode.plain rest
      else if c = 's' then ScanDir.str :: parseFormatFrom FormatMode.plain rest
      else if c = '[' then parseFormatFrom (FormatMode.setHead w) rest
      else if c = '*' then parseFormatFrom FormatMode.skip rest
      else []
  | FormatMode.setHead w, c :: rest =>
      if c = '^' then parseFormatFrom (FormatMode.setBody true [] w) rest
      else parseFormatFrom (FormatMode.setBody false [c] w) rest
  | FormatMode.setBody n m w, c :: rest =>
      if c = ']' ∧ m ≠ [] then ScanDir.set n m w :: parseFormatFrom FormatMode.plain rest
      else parseFormatFrom (FormatMode.setBody n (m ++ [c]) w) rest
  | FormatMode.skip, c :: rest =>
      if c = 'd' then ScanDir.skipInt :: parseFormatFrom FormatMode.plain rest else []

/-- Reading of a format string: `%d`, `%c`, `%s`, scansets, `%*d`, white space,
ordinary characters. -/
def parseFormat (fmt : List Char) : List ScanDir :=
  parseFormatFrom FormatMode.plain fmt

/-- Removal of leading white space. -/
def skipSpace : List Char → List Char
  | [] => []
  | c :: s => if isspace c then skipSpace s else c :: s

/-- The leading decimal digits of the input, and what follows them. -/
def spanDigits : List Char → List Char × List Char
  | [] => ([], [])
  | c :: s => if c.isDigit then (c :: (spanDigits s).1, (spanDigits s).2) else ([], c :: s)

/-- The leading characters of the input that are not white space (the field of
`%s`), and what follows them. -/
def spanNonSpace : List Char → List Char × List Char
  | [] => ([], [])
  | c :: s =>
      if isspace c then ([], c :: s) else (c :: (spanNonSpace s).1, (spanNonSpace s).2)

/-- The leading characters of the input, at most `limit` of them, that a
scanset accepts (members of `%[...]`, non-members of `%[^...]`), and what
follows them. -/
def spanSet (negated : Bool) (members : List Char) : Nat → List Char → List Char × List Char
  | 0, s => ([], s)
  | _, [] => ([], [])
  | limit + 1, c :: s =>
      if (members.contains c) != negated then
        (c :: (spanSet negated members limit s).1, (spanSet negated members limit s).2)
      else ([], c :: s)

/-- Value of a string of decimal digits. -/
def digitsValue (ds : List Char) : Nat :=
  ds.foldl (fun acc c => 10 * acc + (c.toNat - '0'.toNat)) 0

/-- Storage of a `%d` result: `strtol` saturates to the `long` range and the
value is then truncated to `int`. -/
def storeInt (v : Int) : Int :=
  let l := max INT64_MIN (min INT64_MAX v)
  (l + 2 ^ 31) % 2 ^ 32 - 2 ^ 31

/-- The outcome of one conversion. -/
inductive ScanStep where
  | ok (v : ScanVal) (rest : List Char)
  | matchFail
  | inputFail

/-- The `%d` conversion on input from which white space has been skipped:
an optional sign, then at least one digit. -/
def scanInt (s : List Char) : ScanStep :=
  match s with
  | [] => ScanStep.inputFail
  | c :: t =>
      let body := if c = '-' ∨ c = '+' then t else c :: t
      let sp := spanDigits body
      if sp.1 = [] then ScanStep.matchFail
      else
        let v : Int := digitsValue sp.1
        ScanStep.ok (ScanVal.int (storeInt (if c = '-' then -v else v))) sp.2

/-- Execution of the directives: the values stored so far, and whether the scan
ended on an input failure (end of string). -/
def sscanf_go : List ScanDir → List Char → List ScanVal → List ScanVal × Bool
  | [], _, acc => (acc, false)
  | ScanDir.ws :: ds, s, acc => sscanf_go ds (skipSpace s) acc
  | ScanDir.lit c :: ds, s, acc =>
      match s with
      | [] => (acc, true)
      | x :: t => if x = c then sscanf_go ds t acc else (acc, false)
  | ScanDir.int :: ds, s, acc =>
      match scanInt (skipSpace s) with
      | ScanStep.ok v rest => sscanf_go ds rest (acc ++ [v])
      | ScanStep.matchFail => (acc, false)
      | ScanStep.inputFail => (acc, true)
  | ScanDir.chr :: ds, s, acc =>
      match s with
      | [] => (acc, true)
      | x :: t => sscanf_go ds t (acc ++ [ScanVal.chr x])
  | ScanDir.str :: ds, s, acc =>
      match skipSpace s with
      | [] => (acc, true)
      | x :: t =>
          sscanf_go ds (spanNonSpace (x :: t)).2 (acc ++ [ScanVal.str (spanNonSpace (x :: t)).1])
  | ScanDir.set n m w :: ds, s, acc =>
      match s with
      | [] => (acc, true)
      | x :: t =>
          if (spanSet n m (if w = 0 then (x :: t).length else w) (x :: t)).1 = [] then (acc, false)
          else
            sscanf_go ds (spanSet n m (if w = 0 then (x :: t).length else w) (x :: t)).2
              (acc ++ [ScanVal.str (spanSet n m (if w = 0 then (x :: t).length else w) (x :: t)).1])
  | ScanDir.skipInt :: ds, s, acc =>
      match scanInt (skipSpace s) with
      | ScanStep.ok _ rest => sscanf_go ds rest acc
      | ScanStep.matchFail => (acc, false)
      | ScanStep.inputFail => (acc, true)

/-- The values `sscanf( s, fmt, ... )` stores, in order. -/
def sscanf_vals (s : List Char) (fmt : String) : List ScanVal :=
  (sscanf_go (parseFormat fmt.data) s []).1

/-- The return value of `sscanf( s, fmt, ... )`: the number of conversions
stored, or `EOF = -1` when the input ends before the first one. -/
def sscanf (s : List Char) (fmt : String) : Int :=
  let r := sscanf_go (parseFormat fmt.data) s []
  if r.2 ∧ r.1 = [] then -1 else r.1.length

/-- The first value stored by a scan, when it is a character (the `p_dummy` of
`FORMAT=TIM%c`). -/
def scanChar? (vs : List ScanVal) : Option Char :=
  match vs with
  | ScanVal.chr c :: _ => some c
  | _ => none

/-! ## Format probe -/

/-- The chain of tests `Open` applies to one probed line, in source order;
`SUB_TYPE_UNKNOWN` when none succeeds.  In the format strings `\x7b` and `\x7d`
are the braces `{` and `}`. -/
def Open_probe_line (s : List Char) : SubType :=
  if (strcasestr s "<SAMI>").isSome then SUB_TYPE_SAMI
  else if sscanf s "\x7b%d\x7d\x7b%d\x7d" = 2 ∨ sscanf s "\x7b%d\x7d\x7b\x7d" = 1 then
    SUB_TYPE_MICRODVD
  else if sscanf s "%d:%d:%d,%d --> %d:%d:%d,%d" = 8 ∨
      sscanf s "%d:%d:%d --> %d:%d:%d,%d" = 7 ∨
      sscanf s "%d:%d:%d,%d --> %d:%d:%d" = 7 ∨
      sscanf s "%d:%d:%d.%d --> %d:%d:%d.%d" = 8 ∨
      sscanf s "%d:%d:%d --> %d:%d:%d.%d" = 7 ∨
      sscanf s "%d:%d:%d.%d --> %d:%d:%d" = 7 ∨
      sscanf s "%d:%d:%d --> %d:%d:%d" = 6 then
    SUB_TYPE_SUBRIP
  else if strncasecmp s "!: This is a Sub Station Alpha v1" 33 = 0 then SUB_TYPE_SSA1
  else if strncasecmp s "ScriptType: v4.00+" 18 = 0 then SUB_TYPE_ASS
  else if strncasecmp s "ScriptType: v4.00" 17 = 0 then SUB_TYPE_SSA2_4
  else if strncasecmp s "Dialogue: Marked" 16 = 0 then SUB_TYPE_SSA2_4
  else if strncasecmp s "Dialogue:" 9 = 0 then SUB_TYPE_ASS
  else if (strcasestr s "[INFORMATION]").isSome then SUB_TYPE_SUBVIEWER
  else if sscanf s "%d:%d:%d.%d %d:%d:%d" = 7 ∨ sscanf s "@%d @%d" = 2 then SUB_TYPE_JACOSUB
  else if sscanf s "%d:%d:%d:" = 3 ∨ sscanf s "%d:%d:%d " = 3 then SUB_TYPE_VPLAYER
  else if sscanf s "\x7bT %d:%d:%d:%d" = 4 then SUB_TYPE_DVDSUBTITLE
  else if sscanf s "[%d:%d:%d]%c" = 4 then SUB_TYPE_DKS
  else if (strstr s "*** START SCRIPT").isSome then SUB_TYPE_SUBVIEW1
  else if sscanf s "[%d][%d]" = 2 ∨ sscanf s "[%d][]" = 1 then SUB_TYPE_MPL2
  else if sscanf s "FORMAT=%d" = 1 ∨
      (sscanf s "FORMAT=TIM%c" = 1 ∧ scanChar? (sscanf_vals s "FORMAT=TIM%c") = some 'E') then
    SUB_TYPE_MPSUB
  else if sscanf s "-->> %d" = 1 then SUB_TYPE_AQT
  else if sscanf s "%d,%d," = 2 then SUB_TYPE_PJS
  else if sscanf s "\x7b%d:%d:%d\x7d" = 3 then SUB_TYPE_PSB
  else if (strcasestr s "<time").isSome then SUB_TYPE_RT
  else if strncasecmp s "WEBVTT" 6 = 0 then SUB_TYPE_VTT
  else SUB_TYPE_UNKNOWN

/-- The probe loop `for( i_try = 0; i_try < 256; i_try++ )` with `tries` rounds
left, over the lines `stream_ReadLine` still has to deliver. -/
def Open_probe_loop : Nat → List (List Char) → SubType
  | 0, _ => SUB_TYPE_UNKNOWN
  | _ + 1, [] => SUB_TYPE_UNKNOWN
  | tries + 1, s :: rest =>
      if Open_probe_line s ≠ SUB_TYPE_UNKNOWN then Open_probe_line s
      else Open_probe_loop tries rest

/-- Format detection of `Open` on a stream given as its lines (after the byte
order mark, if any, has been skipped). -/
def Open_probe (lines : List (List Char)) : SubType :=
  Open_probe_loop 256 lines

/-! ## Type selection in `Open` -/

def VLC_SUCCESS : Int := 0

def VLC_EGENERIC : Int := -1

/-- The array `ppsz_sub_type`: the names offered for the `sub-type` option. -/
def ppsz_sub_type : List String :=
  ["auto", "microdvd", "subrip", "subviewer", "ssa1",
   "ssa2-4", "ass", "vplayer", "sami", "dvdsubtitle", "mpl2",
   "aqt", "pjs", "mpsub", "jacosub", "psb", "realtext", "dks",
   "subviewer1", "vtt"]

/-- The table `sub_read_subtitle_function` without its terminating entry:
`psz_type_name`, `i_type`, `psz_name` (the parser is `pf_read_of` of the type). -/
def sub_read_subtitle_function : List (String × SubType × String) :=
  [("microdvd", SUB_TYPE_MICRODVD, "MicroDVD"),
   ("subrip", SUB_TYPE_SUBRIP, "SubRIP"),
   ("subviewer", SUB_TYPE_SUBVIEWER, "SubViewer"),
   ("ssa1", SUB_TYPE_SSA1, "SSA-1"),
   ("ssa2-4", SUB_TYPE_SSA2_4, "SSA-2/3/4"),
   ("ass", SUB_TYPE_ASS, "SSA/ASS"),
   ("vplayer", SUB_TYPE_VPLAYER, "VPlayer"),
   ("sami", SUB_TYPE_SAMI, "SAMI"),
   ("dvdsubtitle", SUB_TYPE_DVDSUBTITLE, "DVDSubtitle"),
   ("mpl2", SUB_TYPE_MPL2, "MPL2"),
   ("aqt", SUB_TYPE_AQT, "AQTitle"),
   ("pjs", SUB_TYPE_PJS, "PhoenixSub"),
   ("mpsub", SUB_TYPE_MPSUB, "MPSub"),
   ("jacosub", SUB_TYPE_JACOSUB, "JacoSub"),
   ("psb", SUB_TYPE_PSB, "PowerDivx"),
   ("realtext", SUB_TYPE_RT, "RealText"),
   ("dks", SUB_TYPE_DKS, "DKS"),
   ("subviewer1", SUB_TYPE_SUBVIEW1, "Subviewer 1"),
   ("text/vtt", SUB_TYPE_VTT, "WebVTT")]

/-- The loop of `Open` over the table: the type of the first entry whose
`psz_type_name` equals `psz_type` (`strcmp`), `SUB_TYPE_UNKNOWN` when the
terminating entry is reached. -/
def Open_lookup (psz_type : List Char) : List (String × SubType × String) → SubType
  | [] => SUB_TYPE_UNKNOWN
  | e :: rest => if e.1.data = psz_type then e.2.1 else Open_lookup psz_type rest

/-- The type `Open` takes from the `sub-type` variable: unknown when the
variable is unset or empty, otherwise the result of the table lookup. -/
def Open_override (psz_type : Option (List Char)) : SubType :=
  match psz_type with
  | none => SUB_TYPE_UNKNOWN
  | some [] => SUB_TYPE_UNKNOWN
  | some (c :: s) => Open_lookup (c :: s) sub_read_subtitle_function

/-- The head of `Open` up to the point where the type is settled: the demuxer
declines unless forced, takes the type from the `sub-type` override, probes the
stream when that leaves the type unknown, and quits with `VLC_EGENERIC` on an
unknown type.  The result is the error code or the type. -/
def Open_select (b_force : Bool) (psz_type : Option (List Char))
    (lines : List (List Char)) : Except Int SubType :=
  if !b_force then Except.error VLC_EGENERIC
  else
    let i_type := Open_override psz_type
    let i_type := if i_type = SUB_TYPE_UNKNOWN then Open_probe lines else i_type
    if i_type = SUB_TYPE_UNKNOWN then Except.error VLC_EGENERIC else Except.ok i_type

/-! ## Format parsers -/

/-- The lines `TextGetLine` has not yet returned: `txt->line[txt->i_line ..]`. -/
def text_rest (txt : text_t) : List (List Char) := txt.line.drop txt.i_line

/-- Embedding of `TextGetLine`: the line at the read position, which advances; `none`
(`NULL`) once every line has been returned. -/
def TextGetLine (txt : text_t) : Option (List Char) × text_t :=
  if txt.i_line ≥ txt.line.length then (none, txt)
  else (txt.line.get? txt.i_line, { txt with i_line := txt.i_line + 1 })

/-- Embedding of `TextPreviousLine`: step the read position back by one line. -/
def TextPreviousLine (txt : text_t) : text_t :=
  if txt.i_line > 0 then { txt with i_line := txt.i_line - 1 } else txt

/-- The read position after a parser has left `rest` of the unread lines
unread: every line `TextGetLine` returned advanced it by one. -/
def text_seek (txt : text_t) (rest : List (List Char)) : text_t :=
  { txt with i_line := txt.i_line + ((text_rest txt).length - rest.length) }

/-- The `int` stored by the `i`-th conversion of a scan (`0` when there is none). -/
def scanIntAt (vs : List ScanVal) (i : Nat) : Int :=
  match vs.get? i with
  | some (ScanVal.int v) => v
  | _ => 0

/-- The string stored by the `i`-th conversion of a scan. -/
def scanStrAt (vs : List ScanVal) (i : Nat) : List Char :=
  match vs.get? i with
  | some (ScanVal.str s) => s
  | _ => []

/-- The `int` variables after a scan: the `k`-th value stored goes to the
variable numbered by the `k`-th target, also when the scan stops early. -/
def assignInts : List Int → List Nat → List ScanVal → List Int
  | vars, t :: ts, ScanVal.int v :: vs => assignInts (vars.set t v) ts vs
  | vars, _, _ => vars

/-- The variable numbered `i`. -/
def intVar (vars : List Int) (i : Nat) : Int := (vars.get? i).getD 0

/-- The expression `( (int64_t)h * 3600*1000 + (int64_t)m * 60*1000 +
(int64_t)s * 1000 + (int64_t)d ) * 1000` on `int` operands. -/
def timeValue (h m s d : Int) : Int :=
  wrap64 ((h * 3600 * 1000 + m * 60 * 1000 + s * 1000 + d) * 1000)

/-- Embedding of `subtitle_ParseSubRipTimingValue`: `h:m:s,d`, `h:m:s.d` or `h:m:s` (then
`d1` keeps its initial 0), in microseconds; `none` is `VLC_EGENERIC`. -/
def subtitle_ParseSubRipTimingValue (s : List Char) : Option Int :=
  let v0 := [0, 0, 0, 0]
  let v1 := assignInts v0 [0, 1, 2, 3] (sscanf_vals s "%d:%d:%d,%d")
  if sscanf s "%d:%d:%d,%d" = 4 then
    some (timeValue (intVar v1 0) (intVar v1 1) (intVar v1 2) (intVar v1 3))
  else
    let v2 := assignInts v1 [0, 1, 2, 3] (sscanf_vals s "%d:%d:%d.%d")
    if sscanf s "%d:%d:%d.%d" = 4 then
      some (timeValue (intVar v2 0) (intVar v2 1) (intVar v2 2) (intVar v2 3))
    else
      let v3 := assignInts v2 [0, 1, 2] (sscanf_vals s "%d:%d:%d")
      if sscanf s "%d:%d:%d" = 3 then
        some (timeValue (intVar v3 0) (intVar v3 1) (intVar v3 2) (intVar v3 3))
      else none

/-- Embedding of `subtitle_ParseSubRipTiming`: two blank-separated words around `-->`, each
a SubRip timing value; the result is `(i_start, i_stop)`. -/
def subtitle_ParseSubRipTiming (s : List Char) : Option (Int × Int) :=
  if sscanf s "%s --> %s" = 2 then
    match subtitle_ParseSubRipTimingValue (scanStrAt (sscanf_vals s "%s --> %s") 0) with
    | none => none
    | some i_start =>
        match subtitle_ParseSubRipTimingValue (scanStrAt (sscanf_vals s "%s --> %s") 1) with
        | none => none
        | some i_stop => some (i_start, i_stop)
  else none

/-- Embedding of `subtitle_ParseSubViewerTiming`: `h1:m1:s1.d1,h2:m2:s2.d2`. -/
def subtitle_ParseSubViewerTiming (s : List Char) : Option (Int × Int) :=
  let v := sscanf_vals s "%d:%d:%d.%d,%d:%d:%d.%d"
  if sscanf s "%d:%d:%d.%d,%d:%d:%d.%d" = 8 then
    some (timeValue (scanIntAt v 0) (scanIntAt v 1) (scanIntAt v 2) (scanIntAt v 3),
      timeValue (scanIntAt v 4) (scanIntAt v 5) (scanIntAt v 6) (scanIntAt v 7))
  else none

/-- The first loop of `ParseSubRipSubViewer` over the unread lines: lines are
taken until one parses as a timing with `i_start < i_stop`.  The result is the
timing and the lines left unread; `none` is `VLC_EGENERIC` at the end of the text. -/
def ParseSubRipSubViewer_timing (pf_parse_timing : List Char → Option (Int × Int)) :
    List (List Char) → Option ((Int × Int) × List (List Char))
  | [] => none
  | s :: rest =>
      match pf_parse_timing s with
      | some (i_start, i_stop) =>
          if i_start < i_stop then some ((i_start, i_stop), rest)
          else ParseSubRipSubViewer_timing pf_parse_timing rest
      | none => ParseSubRipSubViewer_timing pf_parse_timing rest

/-- One turn of the `[br]` loop: the leftmost `[br]` (found by `strstr`) becomes
a newline and the tail moves up; `none` when there is no `[br]`. -/
def replace_br_once : List Char → Option (List Char)
  | [] => none
  | c :: r =>
      if matchesAt (fun a b => a == b) (c :: r) "[br]".data then some ('\n' :: r.drop 3)
      else (replace_br_once r).map (fun t => c :: t)

/-- The loop `while( ( p = strstr( psz_text, "[br]" ) ) )`; each turn shortens
the text, so `budget` turns suffice when `budget` is its length. -/
def replace_br : Nat → List Char → List Char
  | 0, t => t
  | budget + 1, t =>
      match replace_br_once t with
      | none => t
      | some t2 => replace_br budget t2

/-- The second loop of `ParseSubRipSubViewer`: lines are appended to the text,
each followed by a newline, until an empty line or the end of the text. -/
def ParseSubRipSubViewer_text (b_replace_br : Bool) :
    List (List Char) → List Char → List Char × List (List Char)
  | [], psz_text => (psz_text, [])
  | s :: rest, psz_text =>
      if s.length ≤ 0 then (psz_text, rest)
      else
        let t := psz_text ++ s ++ ['\n']
        ParseSubRipSubViewer_text b_replace_br rest
          (if b_replace_br then replace_br t.length t else t)

/-- Embedding of `ParseSubRipSubViewer`: the cue read (or `none` for `VLC_EGENERIC`) and the
state with the read position advanced. -/
def ParseSubRipSubViewer (p_sys : demux_sys_t)
    (pf_parse_timing : List Char → Option (Int × Int)) (b_replace_br : Bool) :
    Option subtitle_t × demux_sys_t :=
  match ParseSubRipSubViewer_timing pf_parse_timing (text_rest p_sys.txt) with
  | none => (none, { p_sys with txt := text_seek p_sys.txt [] })
  | some ((i_start, i_stop), rest) =>
      let r := ParseSubRipSubViewer_text b_replace_br rest []
      (some ⟨i_start, i_stop, r.1⟩, { p_sys with txt := text_seek p_sys.txt r.2 })

/-- Embedding of `ParseSubRip`. -/
def ParseSubRip (p_sys : demux_sys_t) (_i_idx : Int) : Option subtitle_t × demux_sys_t :=
  ParseSubRipSubViewer p_sys subtitle_ParseSubRipTiming false

/-- Embedding of `ParseSubViewer`. -/
def ParseSubViewer (p_sys : demux_sys_t) (_i_idx : Int) : Option subtitle_t × demux_sys_t :=
  ParseSubRipSubViewer p_sys subtitle_ParseSubViewerTiming true

/-- The timing test of `ParseVTT` on one line.  The eight variables `h1 m1 s1
d1 h2 m2 s2 d2` (numbered 0 to 7) start at 0; each of the four scans stores
what it converts before it stops, and the first that converts all its fields
ends the test. -/
def ParseVTT_timing (s : List Char) : Option (Int × Int) :=
  let v0 := [0, 0, 0, 0, 0, 0, 0, 0]
  let v1 := assignInts v0 [0, 1, 2, 3, 4, 5, 6, 7] (sscanf_vals s "%d:%d:%d.%d --> %d:%d:%d.%d")
  let v2 := assignInts v1 [0, 1, 2, 3, 5, 6, 7] (sscanf_vals s "%d:%d:%d.%d --> %d:%d.%d")
  let v3 := assignInts v2 [1, 2, 3, 4, 5, 6, 7] (sscanf_vals s "%d:%d.%d --> %d:%d:%d.%d")
  let v4 := assignInts v3 [1, 2, 3, 5, 6, 7] (sscanf_vals s "%d:%d.%d --> %d:%d.%d")
  let times := fun (v : List Int) =>
    (timeValue (intVar v 0) (intVar v 1) (intVar v 2) (intVar v 3),
      timeValue (intVar v 4) (intVar v 5) (intVar v 6) (intVar v 7))
  if sscanf s "%d:%d:%d.%d --> %d:%d:%d.%d" = 8 then some (times v1)
  else if sscanf s "%d:%d:%d.%d --> %d:%d.%d" = 7 then some (times v2)
  else if sscanf s "%d:%d.%d --> %d:%d:%d.%d" = 7 then some (times v3)
  else if sscanf s "%d:%d.%d --> %d:%d.%d" = 6 then some (times v4)
  else none

/-- Embedding of `ParseVTT`: the timing loop keeps a line only when `i_start < i_stop`; the
text loop is that of SubRip. -/
def ParseVTT (p_sys : demux_sys_t) (_i_idx : Int) : Option subtitle_t × demux_sys_t :=
  ParseSubRipSubViewer p_sys ParseVTT_timing false

/-- Replacement of every `c_from` by `c_to` in a text (the loops `replace | by \n`). -/
def replace_char (c_from c_to : Char) (psz_text : List Char) : List Char :=
  psz_text.map (fun c => if c = c_from then c_to else c)

/-- The loop of `ParseMicroDvd` over the unread lines, with the current
`i_microsecperframe`.  A line `\x7b1\x7d\x7b1\x7dfps` is not a cue: it sets the frame
duration when `us_strtod` reads a positive rate from it and the `sub-fps`
variable is not positive.  The result is `(i_start, i_stop, psz_text)` of the
first cue line, the frame duration and the lines left unread. -/
def ParseMicroDvd_loop (us_strtod : List Char → F32) (sub_fps : F32) :
    List (List Char) → Int → Option (Int × Int × List Char) × Int × List (List Char)
  | [], i_microsecperframe => (none, i_microsecperframe, [])
  | s :: rest, i_microsecperframe =>
      let v1 := sscanf_vals s "\x7b%d\x7d\x7b\x7d%[^\r\n]"
      let v2 := sscanf_vals s "\x7b%d\x7d\x7b%d\x7d%[^\r\n]"
      let found : Option (Int × Int × List Char) :=
        if sscanf s "\x7b%d\x7d\x7b\x7d%[^\r\n]" = 2 then
          some (scanIntAt v1 0, -1, scanStrAt v1 1)
        else if sscanf s "\x7b%d\x7d\x7b%d\x7d%[^\r\n]" = 3 then
          some (scanIntAt v2 0, scanIntAt v2 1, scanStrAt v2 2)
        else none
      match found with
      | none => ParseMicroDvd_loop us_strtod sub_fps rest i_microsecperframe
      | some (i_start, i_stop, psz_text) =>
          if i_start ≠ 1 ∨ i_stop ≠ 1 then
            (some (i_start, i_stop, psz_text), i_microsecperframe, rest)
          else
            ParseMicroDvd_loop us_strtod sub_fps rest
              (if F32.lt (F32.fin 0) (us_strtod psz_text) && F32.le sub_fps (F32.fin 0) then
                F32.toInt64 (F32.div (F32.ofInt 1000000) (us_strtod psz_text))
              else i_microsecperframe)

/-- Embedding of `ParseMicroDvd`.  The C-locale `strtod` and the value of the `sub-fps`
variable come from the host. -/
def ParseMicroDvd (us_strtod : List Char → F32) (sub_fps : F32) (p_sys : demux_sys_t)
    (_i_idx : Int) : Option subtitle_t × demux_sys_t :=
  match ParseMicroDvd_loop us_strtod sub_fps (text_rest p_sys.txt) p_sys.i_microsecperframe with
  | (none, f, rest) =>
      (none, { p_sys with txt := text_seek p_sys.txt rest, i_microsecperframe := f })
  | (some (i_start, i_stop, psz_text), f, rest) =>
      (some ⟨wrap64 (i_start * f), if i_stop ≥ 0 then wrap64 (i_stop * f) else -1,
          replace_char '|' '\n' psz_text⟩,
        { p_sys with txt := text_seek p_sys.txt rest, i_microsecperframe := f })

/-- The loop of `ParsePSB` over the unread lines. -/
def ParsePSB_loop : List (List Char) → Option (subtitle_t × List (List Char))
  | [] => none
  | s :: rest =>
      let v := sscanf_vals s "\x7b%d:%d:%d\x7d\x7b%d:%d:%d\x7d%[^\r\n]"
      if sscanf s "\x7b%d:%d:%d\x7d\x7b%d:%d:%d\x7d%[^\r\n]" = 7 then
        some (⟨timeValue (scanIntAt v 0) (scanIntAt v 1) (scanIntAt v 2) 0,
            timeValue (scanIntAt v 3) (scanIntAt v 4) (scanIntAt v 5) 0,
            replace_char '|' '\n' (scanStrAt v 6)⟩, rest)
      else ParsePSB_loop rest

/-- Embedding of `ParsePSB`. -/
def ParsePSB (p_sys : demux_sys_t) (_i_idx : Int) : Option subtitle_t × demux_sys_t :=
  match ParsePSB_loop (text_rest p_sys.txt) with
  | none => (none, { p_sys with txt := text_seek p_sys.txt [] })
  | some (cue, rest) => (some cue, { p_sys with txt := text_seek p_sys.txt rest })

/-- The C `atoi`: white space, an optional sign, decimal digits; `0` when
there is no digit. -/
def atoi (s : List Char) : Int :=
  match scanInt (skipSpace s) with
  | ScanStep.ok (ScanVal.int v) _ => v
  | _ => 0

/-- The conversion `%d` of `printf`. -/
def format_d (v : Int) : List Char :=
  if v < 0 then '-' :: Nat.toDigits 10 v.natAbs else Nat.toDigits 10 v.natAbs

/-- The loop of `ParseSSA` over the unread lines, with the header gathered so
far: a `Dialogue:` line gives the cue, any other line is appended to the
header with a newline. -/
def ParseSSA_loop (i_type : SubType) (i_idx : Int) :
    List (List Char) → Option (List Char) →
      Option subtitle_t × Option (List Char) × List (List Char)
  | [], psz_header => (none, psz_header, [])
  | s :: rest, psz_header =>
      let v := sscanf_vals s "Dialogue: %15[^,],%d:%d:%d.%d,%d:%d:%d.%d,%[^\r\n]"
      if sscanf s "Dialogue: %15[^,],%d:%d:%d.%d,%d:%d:%d.%d,%[^\r\n]" = 10 then
        let psz_text :=
          if i_type = SubType.SUB_TYPE_SSA1 then ',' :: scanStrAt v 9
          else
            format_d i_idx ++ [','] ++
              format_d (if i_type = SubType.SUB_TYPE_ASS then atoi (scanStrAt v 0) else 0) ++
              [','] ++ scanStrAt v 9
        (some ⟨timeValue (scanIntAt v 1) (scanIntAt v 2) (scanIntAt v 3) (scanIntAt v 4 * 10),
            timeValue (scanIntAt v 5) (scanIntAt v 6) (scanIntAt v 7) (scanIntAt v 8 * 10),
            psz_text⟩, psz_header, rest)
      else ParseSSA_loop i_type i_idx rest (some (psz_header.getD [] ++ s ++ ['\n']))

/-- Embedding of `ParseSSA`. -/
def ParseSSA (p_sys : demux_sys_t) (i_idx : Int) : Option subtitle_t × demux_sys_t :=
  match ParseSSA_loop p_sys.i_type i_idx (text_rest p_sys.txt) p_sys.psz_header with
  | (cue, psz_header, rest) =>
      (cue, { p_sys with txt := text_seek p_sys.txt rest, psz_header := psz_header })

/-- The parse loop of `Open`: `pf_read` is called with the number of cues read
so far until it fails; each cue it returns is appended to the store.  `none`
stands for `fuel` running out.  When every call that succeeds consumes a line,
`fuel` calls suffice once `fuel` exceeds the number of lines
(`Open_parse_loop_returns`); `ParseSami` can succeed without consuming one. -/
def Open_parse_loop (pf_read : demux_sys_t → Int → Option subtitle_t × demux_sys_t) :
    Nat → demux_sys_t → Option demux_sys_t
  | 0, _ => none
  | fuel + 1, p_sys =>
      match pf_read p_sys p_sys.subtitle.length with
      | (none, p) => some p
      | (some cue, p) => Open_parse_loop pf_read fuel { p with subtitle := p.subtitle ++ [cue] }

/-- The part of `Open` from `TextLoad` to `TextUnload`: the lines of the whole
stream are loaded, parsed into the cue store, and released. -/
def Open_parse (pf_read : demux_sys_t → Int → Option subtitle_t × demux_sys_t)
    (p_sys : demux_sys_t) (lines : List (List Char)) : Option demux_sys_t :=
  match Open_parse_loop pf_read (lines.length + 1) { p_sys with txt := ⟨lines, 0⟩ } with
  | none => none
  | some p => some { p with txt := ⟨[], 0⟩ }

/-- The `int` arithmetic of C on a result out of range: ISO C leaves signed
overflow undefined; the value modelled is the two's complement one. -/
def wrap32 (x : Int) : Int := (x + 2 ^ 31) % 2 ^ 32 - 2 ^ 31

/-- Embedding of `ParseRealTime` for the variables `*h`, `*m`, `*s`, `*f` (numbered 0 to 3)
as the caller passes them: the time in microseconds, `0` for an empty string,
`VLC_EGENERIC` when no scan succeeds.  Each of the five scans stores what it
converts before it stops, also when it fails, and a scan is made only when the
ones before it have failed.  The products by `1000 * 1000` and `10 * 1000` are
`int64_t` ones of `int` values and cannot overflow. -/
def ParseRealTime (psz : List Char) (h m s f : Int) : Int :=
  if psz = [] then 0
  else
    let v0 := [h, m, s, f]
    let v1 := assignInts v0 [0, 1, 2, 3] (sscanf_vals psz "%d:%d:%d.%d")
    let v2 := assignInts v1 [1, 2, 3] (sscanf_vals psz "%d:%d.%d")
    let v3 := assignInts v2 [2, 3] (sscanf_vals psz "%d.%d")
    let v4 := assignInts v3 [1, 2] (sscanf_vals psz "%d:%d")
    let v5 := assignInts v4 [2] (sscanf_vals psz "%d")
    let time := fun (v : List Int) =>
      wrap32 ((intVar v 0 * 60 + intVar v 1) * 60 + intVar v 2) * 1000 * 1000 +
        intVar v 3 * 10 * 1000
    if sscanf psz "%d:%d:%d.%d" = 4 then time v1
    else if sscanf psz "%d:%d.%d" = 3 then time v2
    else if sscanf psz "%d.%d" = 2 then time v3
    else if sscanf psz "%d:%d" = 2 then time v4
    else if sscanf psz "%d" = 1 then time v5
    else VLC_EGENERIC

/-- The value of a character as a digit of `base` (digits, then letters of
either case from 10 on), when it is one. -/
def digitOf (base : Nat) (c : Char) : Option Nat :=
  let v :=
    if c.isDigit then c.toNat - '0'.toNat
    else if c.isLower then c.toNat - 'a'.toNat + 10
    else if c.isUpper then c.toNat - 'A'.toNat + 10
    else 36
  if v < base then some v else none

/-- The leading digits of `base` in the input: their value on top of `acc`, and
what follows them. -/
def spanBase (base : Nat) : List Char → Nat → Nat × List Char
  | [], acc => (acc, [])
  | c :: s, acc =>
      match digitOf base c with
      | some v => spanBase base s (base * acc + v)
      | none => (acc, c :: s)

/-- The C `strtol( s, &end, 0 )` with a 64-bit `long`: white space, an optional
sign, a leading `0x` or `0X` when a hexadecimal digit follows it (base 16), or
a leading `0` (base 8), otherwise base 10, then the digits.  The value
saturates to the range of `long`; without any digit the value is 0 and `end` is
`s`.  The result is the value and `end`. -/
def strtol0 (s : List Char) : Int × List Char :=
  let t := skipSpace s
  let body := if t.head? = some '-' ∨ t.head? = some '+' then t.tail else t
  let hex : Bool :=
    match body with
    | '0' :: x :: d :: _ => (x = 'x' ∨ x = 'X') ∧ (digitOf 16 d).isSome
    | _ => false
  let base := if hex then 16 else if body.head? = some '0' then 8 else 10
  let digits := if hex then body.drop 2 else body
  match digits.head?.bind (digitOf base) with
  | none => (0, s)
  | some _ =>
      let sp := spanBase base digits 0
      let v : Int := if t.head? = some '-' then -(sp.1 : Int) else sp.1
      (max INT64_MIN (min INT64_MAX v), sp.2)

/-- The loop of `ParseSamiSearch` over the unread lines, up to the first line
that contains `psz_str` ignoring case: the text after that occurrence, the line
it is in, and the lines left unread; `none` is `NULL`, every line has been
read. -/
def ParseSamiSearch_loop (psz_str : String) :
    List (List Char) → Option (List Char × List Char × List (List Char))
  | [] => none
  | p :: rest =>
      match strcasestr p psz_str with
      | some s => some (s.drop psz_str.length, p, rest)
      | none => ParseSamiSearch_loop psz_str rest

/-- Embedding of `ParseSamiSearch` on the unread lines: the search starts in `psz_start`
when that is not `NULL` and goes on in the following lines.  `cur` is the line
`psz_start` points into, the last one `TextGetLine` returned. -/
def ParseSamiSearch (lines : List (List Char)) (cur : List Char)
    (psz_start : Option (List Char)) (psz_str : String) :
    Option (List Char × List Char × List (List Char)) :=
  match psz_start with
  | some start =>
      match strcasestr start psz_str with
      | some s => some (s.drop psz_str.length, cur, lines)
      | none => ParseSamiSearch_loop psz_str lines
  | none => ParseSamiSearch_loop psz_str lines

/-- The number of characters of the lines, each counted with its terminator. -/
def text_size : List (List Char) → Nat
  | [] => 0
  | l :: rest => l.length + 1 + text_size rest

/-- The loop of `ParseSami` that gathers the text, from the position `s` in the
line `cur` with `lines` unread: at the end of a line the next one is taken; a
tag is skipped up to its `>`, `<br` giving a newline; a tag other than `<br` on
a line whose remainder contains `Start=` ends the cue and the line is handed
back (`TextPreviousLine`); `&nbsp;` and a tab give a blank.  The buffer holds
8191 characters.  The result is the text and the lines left unread.  Each turn
consumes a character or a line; `none` stands for `fuel` running out. -/
def ParseSami_text : Nat → List (List Char) → List Char → Option (List Char) → List Char →
    Option (List Char × List (List Char))
  | 0, _, _, _, _ => none
  | fuel + 1, lines, cur, s, text =>
      match s with
      | none => some (text, lines)
      | some [] =>
          match lines with
          | [] => some (text, [])
          | l :: rest => ParseSami_text fuel rest l (some l) text
      | some (c :: t) =>
          let put := fun (ch : Char) =>
            if ch ≠ '\x00' ∧ text.length + 1 < 8192 then text ++ [ch] else text
          if c = '<' then
            if strncasecmp (c :: t) "<br" 3 ≠ 0 ∧ (strcasestr (c :: t) "Start=").isSome then
              some (text, cur :: lines)
            else
              let ch := if strncasecmp (c :: t) "<br" 3 = 0 then '\n' else '\x00'
              match ParseSamiSearch lines cur (some (c :: t)) ">" with
              | none => ParseSami_text fuel [] cur none (put ch)
              | some (s2, cur2, rest) => ParseSami_text fuel rest cur2 (some s2) (put ch)
          else if matchesAt (fun a b => a == b) (c :: t) "&nbsp;".data then
            ParseSami_text fuel lines cur (some (t.drop 5)) (put ' ')
          else if c = '\t' then ParseSami_text fuel lines cur (some t) (put ' ')
          else ParseSami_text fuel lines cur (some t) (put c)

/-- Embedding of `ParseSami`: the start is the number after the first `Start=`, in
milliseconds; the text begins after the `>` that closes the following `<P`.
The fuel handed to the text loop always suffices (`ParseSami_text_returns`). -/
def ParseSami (p_sys : demux_sys_t) (_i_idx : Int) : Option subtitle_t × demux_sys_t :=
  match ParseSamiSearch (text_rest p_sys.txt) [] none "Start=" with
  | none => (none, { p_sys with txt := text_seek p_sys.txt [] })
  | some (s1, cur1, rest1) =>
      match ParseSamiSearch rest1 cur1 (some (strtol0 s1).2) "<P" with
      | none => (none, { p_sys with txt := text_seek p_sys.txt [] })
      | some (s2, cur2, rest2) =>
          match ParseSamiSearch rest2 cur2 (some s2) ">" with
          | none => (none, { p_sys with txt := text_seek p_sys.txt [] })
          | some (s3, cur3, rest3) =>
              match ParseSami_text (s3.length + text_size rest3 + 2) rest3 cur3 (some s3) [] with
              | none => (none, { p_sys with txt := text_seek p_sys.txt [] })
              | some (text, rest) =>
                  (some ⟨wrap64 ((strtol0 s1).1 * 1000), -1, text⟩,
                    { p_sys with txt := text_seek p_sys.txt rest })

/-- The `jss` member of `demux_sys_t`, the state `ParseJSS` keeps between calls. -/
structure jss_t where
  b_inited : Bool
  i_comment : Int
  i_time_resolution : Int
  i_time_shift : Int
  deriving DecidableEq, Repr

/-- The C `isalpha` of the C locale. -/
def isalpha (c : Char) : Bool := c.isAlpha

/-- The C `toupper` of the C locale. -/
def toupper (c : Char) : Char := c.toUpper

/-- The division of two `int` values; `none` where C leaves it undefined: a
zero divisor, or `INT_MIN / -1`. -/
def int_div (a b : Int) : Option Int :=
  if b = 0 ∨ (a = -(2 ^ 31) ∧ b = -1) then none else some (Int.tdiv a b)

/-- The start of `ParseJSS`: the first call sets the resolution to 30 and the
shift to 0. -/
def ParseJSS_init (jss : jss_t) : jss_t :=
  if jss.b_inited then jss else ⟨true, 0, 30, 0⟩

/-- The directive `#S` of `ParseJSS` on the text `t` after it: the new
`i_time_shift`.  A scan whose return value is not 0 counts as done, also when
it returns `EOF`; the variables `h m sec f` (numbered 0 to 3) start at
`0 0 1 1`. -/
def ParseJSS_shift (t : List Char) (jss : jss_t) : Int :=
  if sscanf t "%d" = 0 then jss.i_time_shift
  else
    let h0 := intVar (assignInts [0] [0] (sscanf_vals t "%d")) 0
    let inv : Int := if h0 < 0 then -1 else 1
    let h := if h0 < 0 then wrap32 (h0 * -1) else h0
    let v1 := assignInts [h, 0, 1, 1] [1] (sscanf_vals t "%*d:%d")
    let v :=
      if sscanf t "%*d:%d" ≠ 0 then
        let v2 := assignInts v1 [2] (sscanf_vals t "%*d:%*d:%d")
        if sscanf t "%*d:%*d:%d" ≠ 0 then
          assignInts v2 [3] (sscanf_vals t "%*d:%*d:%*d.%d")
        else
          let v3 := assignInts (v2.set 0 0) [1, 2, 3] (sscanf_vals t "%d:%d.%d")
          v3.set 1 (wrap32 (intVar v3 1 * inv))
      else
        let v3 := assignInts ((v1.set 0 0).set 1 0) [2, 3] (sscanf_vals t "%d.%d")
        v3.set 2 (wrap32 (intVar v3 2 * inv))
    wrap32 (((intVar v 0 * 3600 + intVar v 1 * 60 + intVar v 2) * jss.i_time_resolution +
      intVar v 3) * inv)

/-- A directive line of `ParseJSS` (first character `#`): `S` sets the shift and
`T` the resolution, from the text after 2 characters, or after 6 (for `S`) or 8
(for `T`) when the third character is a letter.  `none` when that start lies
beyond the end of the line, a read outside the copy of the line that C leaves
undefined. -/
def ParseJSS_directive (s : List Char) (jss : jss_t) : Option jss_t :=
  let c1 := toupper ((s.get? 1).getD '\x00')
  let alpha := isalpha ((s.get? 2).getD '\x00')
  if c1 = 'S' then
    let shift := if alpha then 6 else 2
    if s.length < shift then none
    else some { jss with i_time_shift := ParseJSS_shift (s.drop shift) jss }
  else if c1 = 'T' then
    let shift := if alpha then 8 else 2
    if s.length < shift then none
    else
      some { jss with
        i_time_resolution :=
          intVar (assignInts [jss.i_time_resolution] [0] (sscanf_vals (s.drop shift) "%d")) 0 }
  else some jss

/-- The outcome of the first loop of `ParseJSS`: an operation C leaves
undefined, the end of the text (`VLC_EGENERIC`), or a timing line with its
times, its text, the state and the lines left unread. -/
inductive ParseJSS_outcome where
  | undefined
  | eof (jss : jss_t)
  | timing (i_start i_stop : Int) (psz_text : List Char) (jss : jss_t)
      (rest : List (List Char))
  deriving DecidableEq, Repr

/-- The first loop of `ParseJSS` (`Parse the main lines`) over the unread lines:
a complete time line `h:m:s.f h:m:s.f text` or a short one `@f @f text` gives
the times, the frame fields being shifted and divided by the resolution; a
directive line updates the state; any other line is skipped. -/
def ParseJSS_loop : List (List Char) → jss_t → ParseJSS_outcome
  | [], jss => ParseJSS_outcome.eof jss
  | s :: rest, jss =>
      let v := sscanf_vals s "%d:%d:%d.%d %d:%d:%d.%d %[^\n\r]"
      let w := sscanf_vals s "@%d @%d %[^\n\r]"
      if sscanf s "%d:%d:%d.%d %d:%d:%d.%d %[^\n\r]" = 9 then
        match int_div (wrap32 (scanIntAt v 3 + jss.i_time_shift)) jss.i_time_resolution,
          int_div (wrap32 (scanIntAt v 7 + jss.i_time_shift)) jss.i_time_resolution with
        | some q1, some q2 =>
            ParseJSS_outcome.timing
              (wrap64 ((wrap32 (scanIntAt v 0 * 3600 + scanIntAt v 1 * 60 + scanIntAt v 2) + q1) *
                1000000))
              (wrap64 ((wrap32 (scanIntAt v 4 * 3600 + scanIntAt v 5 * 60 + scanIntAt v 6) + q2) *
                1000000))
              (scanStrAt v 8) jss rest
        | _, _ => ParseJSS_outcome.undefined
      else if sscanf s "@%d @%d %[^\n\r]" = 3 then
        match int_div (wrap32 (scanIntAt w 0 + jss.i_time_shift)) jss.i_time_resolution,
          int_div (wrap32 (scanIntAt w 1 + jss.i_time_shift)) jss.i_time_resolution with
        | some q1, some q2 =>
            ParseJSS_outcome.timing (q1 * 1000000) (q2 * 1000000) (scanStrAt w 2) jss rest
        | _, _ => ParseJSS_outcome.undefined
      else if s.head? = some '#' then
        match ParseJSS_directive s jss with
        | some jss2 => ParseJSS_loop rest jss2
        | none => ParseJSS_outcome.undefined
      else ParseJSS_loop rest jss

/-! ## Adjusted export and emission -/

/-- The module instance: its private state and the two variables of the parent
object that it writes, `spu-delay` and `sub-srt-file-content`.  The on-screen
messages (`key-osdmessage`) and the debug log are not part of the model. -/
structure demux_t where
  p_sys : demux_sys_t
  spu_delay : Int
  sub_srt_file_content : List Char
  deriving Repr

/-- The conversions `%02i` and `%03i` of `printf`: decimal digits padded with
zeros to `width` characters, the sign of a negative number counting as one. -/
def format_0i (width : Nat) (v : Int) : List Char :=
  if v < 0 then
    '-' :: (List.replicate (width - 1 - (Nat.toDigits 10 v.natAbs).length) '0' ++
      Nat.toDigits 10 v.natAbs)
  else
    List.replicate (width - (Nat.toDigits 10 v.natAbs).length) '0' ++ Nat.toDigits 10 v.natAbs

/-- Embedding of `WriteSubViewerTiming`: `HH:MM:SS,mmm` for a time in microseconds, computed
through single-precision seconds; `snprintf` keeps at most `dstLength - 1`
characters. -/
def WriteSubViewerTiming (dstLength : Nat) (time : Int) : List Char :=
  let seconds_total_float := F32.div (F32.ofInt time) (F32.mul (F32.ofInt 1000) (F32.ofInt 1000))
  let seconds_total := F32.toInt32 seconds_total_float
  let decimals_float := F32.sub seconds_total_float (F32.ofInt (F32.toInt32 seconds_total_float))
  let decimals_int :=
    F32.toInt32 (F32.add (F32.mul decimals_float (F32.ofInt 1000)) (F32.ofRatio 1 2))
  let seconds := Int.tmod seconds_total 60
  let minutes_total := Int.tdiv (seconds_total - seconds) 60
  let minutes := Int.tmod minutes_total 60
  let hours_total := Int.tdiv (minutes_total - minutes) 60
  (format_0i 2 hours_total ++ [':'] ++ format_0i 2 minutes ++ [':'] ++ format_0i 2 seconds ++
    [','] ++ format_0i 3 decimals_int).take (dstLength - 1)

/-- The text of a cue as the export prints it: the first 2000 characters
(`strncpy`; a longer text leaves the array unterminated, which C does not
define), cut before the last character when that is a newline.  The first test
compares one character with both `\r` and `\n`. -/
def StoreAdjustedSubsAsSubRip_content (psz_text : List Char) : List Char :=
  let subtitleContent := psz_text.take 2000
  let len := subtitleContent.length
  let c1 :=
    if len ≥ 2 ∧ subtitleContent.get? (len - 2) = some '\r' ∧
        subtitleContent.get? (len - 2) = some '\n' then subtitleContent.take (len - 2)
    else subtitleContent
  if len ≥ 1 ∧ subtitleContent.get? (len - 1) = some '\n' then c1.take (len - 1) else c1

/-- The record `StoreAdjustedSubsAsSubRip` prints for the cue at index `i`:
`"%s\r\n%s\r\n%s\r\n\r\n"` of the index `i + 1`, the adjusted timing and the text. -/
def StoreAdjustedSubsAsSubRip_one (p_sys : demux_sys_t) (i : Nat) (p_subtitle : subtitle_t) :
    List Char :=
  let i_start_adjust := adjust_subtitle_time p_sys p_subtitle.i_start
  let i_end_adjust := adjust_subtitle_time p_sys p_subtitle.i_stop
  let subIndexBuffer := (format_d ((i : Int) + 1)).take 19
  let timingBuffer :=
    (WriteSubViewerTiming 40 i_start_adjust ++ " --> ".data ++
      WriteSubViewerTiming 40 i_end_adjust).take 99
  (subIndexBuffer ++ "\r\n".data ++ timingBuffer ++ "\r\n".data ++
    StoreAdjustedSubsAsSubRip_content p_subtitle.psz_text ++ "\r\n\r\n".data).take 2999

/-- The loop of `StoreAdjustedSubsAsSubRip` from index `i` on. -/
def StoreAdjustedSubsAsSubRip_from (p_sys : demux_sys_t) : Nat → List subtitle_t → List Char
  | _, [] => []
  | i, c :: rest =>
      StoreAdjustedSubsAsSubRip_one p_sys i c ++ StoreAdjustedSubsAsSubRip_from p_sys (i + 1) rest

/-- Embedding of `StoreAdjustedSubsAsSubRip`: the whole store printed as SubRip with adjusted
times, stored in the variable `sub-srt-file-content`. -/
def StoreAdjustedSubsAsSubRip (p_demux : demux_t) : demux_t :=
  { p_demux with
    sub_srt_file_content := StoreAdjustedSubsAsSubRip_from p_demux.p_sys 0 p_demux.p_sys.subtitle }

/-- The loop of `set_current_subtitle_by_time` from cursor `i` on: the first cue
whose adjusted start, or adjusted stop when `i_stop > i_start`, is after `i64_when`. -/
def set_current_subtitle_by_time_loop (p_sys : demux_sys_t) (i64_when : Int) :
    List subtitle_t → Nat → Nat
  | [], i => i
  | c :: rest, i =>
      if adjust_subtitle_time p_sys c.i_start > i64_when then i
      else if c.i_stop > c.i_start ∧ adjust_subtitle_time p_sys c.i_stop > i64_when then i
      else set_current_subtitle_by_time_loop p_sys i64_when rest (i + 1)

/-- Embedding of `set_current_subtitle_by_time`: the cursor is set; the export is refreshed
unless the cursor ran past the last cue. -/
def set_current_subtitle_by_time (p_demux : demux_t) (i64_when : Int) : Int × demux_t :=
  let i := set_current_subtitle_by_time_loop p_demux.p_sys i64_when p_demux.p_sys.subtitle 0
  let p := { p_demux with p_sys := { p_demux.p_sys with i_subtitle := i } }
  if i ≥ p.p_sys.subtitle.length then (VLC_EGENERIC, p)
  else (VLC_SUCCESS, StoreAdjustedSubsAsSubRip p)

/-- A block sent to the decoder.  `i_length` is `none` when `Demux` leaves the
field as `block_Alloc` made it. -/
structure block_t where
  i_pts : Int
  i_dts : Int
  i_length : Option Int
  p_buffer : List Char
  deriving DecidableEq, Repr

/-- The `while` loop of `Demux` over the cues from the cursor on: the number of
cues passed and the blocks sent.  A cue with an empty text or a negative start
is passed without a block. -/
def Demux_loop (VLC_TS_0 : Int) (p_sys : demux_sys_t) (i_maxdate : Int) :
    List subtitle_t → Nat × List block_t
  | [] => (0, [])
  | c :: rest =>
      if adjust_subtitle_time p_sys c.i_start < i_maxdate then
        let r := Demux_loop VLC_TS_0 p_sys i_maxdate rest
        if c.psz_text.length + 1 ≤ 1 ∨ c.i_start < 0 then (r.1 + 1, r.2)
        else
          (r.1 + 1,
            { i_pts := wrap64 (VLC_TS_0 + adjust_subtitle_time p_sys c.i_start)
              i_dts := wrap64 (VLC_TS_0 + adjust_subtitle_time p_sys c.i_start)
              i_length :=
                if c.i_stop ≥ 0 ∧ c.i_stop ≥ c.i_start then
                  some (wrap64 (adjust_subtitle_time p_sys c.i_stop -
                    adjust_subtitle_time p_sys c.i_start))
                else none
              p_buffer := c.psz_text } :: r.2)
      else (0, [])

/-- Embedding of `Demux`: the return value, the state and the blocks sent to the decoder.
`VLC_TS_0` is the origin of the host's timestamps. -/
def Demux (VLC_TS_0 : Int) (p_sys : demux_sys_t) : Int × demux_sys_t × List block_t :=
  if p_sys.i_subtitle ≥ p_sys.subtitle.length then (0, p_sys, [])
  else
    let i_maxdate :=
      if p_sys.i_next_demux_date ≤ 0 ∧ p_sys.i_subtitle < p_sys.subtitle.length then
        match p_sys.subtitle.get? p_sys.i_subtitle with
        | some c => wrap64 (adjust_subtitle_time p_sys c.i_start + 1)
        | none => p_sys.i_next_demux_date
      else p_sys.i_next_demux_date
    let r := Demux_loop VLC_TS_0 p_sys i_maxdate (p_sys.subtitle.drop p_sys.i_subtitle)
    (1,
      { p_sys with
        i_subtitle := p_sys.i_subtitle + r.1
        i_last_demux_date := p_sys.i_next_demux_date
        i_next_demux_date := 0 },
      r.2)

/-! ## Sync engine -/

/-- Embedding of `SetDemuxSubDelay`.  Writing `spu-delay` runs the callbacks registered on
that variable; the module's own, `subtitle_external_callback`, has no branch for
the name `spu-delay` and changes nothing. -/
def SetDemuxSubDelay (p_demux : demux_t) (delay : Int) : demux_t :=
  { p_demux with
    p_sys := { p_demux.p_sys with
      sub_speed_delay_current := { p_demux.p_sys.sub_speed_delay_current with sub_delay := delay } }
    spu_delay := delay }

/-- The literal `0.33` stored in the `float max_error_applicable` (its `double`
value is not half-way between two floats, so rounding it again gives the float
nearest to `33 / 100`). -/
def max_error_applicable : F32 := F32.ofRatio 33 100

/-- One turn of the loop of `ComputeSubSpeedAndDelay` over the table: entry `i`
becomes the closest ratio when its error is below `max_error_applicable` and
below the smallest error so far. -/
def ComputeSubSpeedAndDelay_step (p_sys : demux_sys_t) (sub_speed : F32)
    (st : Int × F32) (i : Nat) : Int × F32 :=
  let fps_ratio :=
    match p_sys.sub_fps_adjusts.get? i with
    | some e => e.fps_ratio
    | none => F32.nan
  let ratio_ratio :=
    F32.div (F32.sub sub_speed (F32.ofInt 1)) (F32.sub fps_ratio (F32.ofInt 1))
  let error_this_ratio := F32.fabs (F32.sub ratio_ratio (F32.ofInt 1))
  if F32.lt error_this_ratio max_error_applicable && F32.lt error_this_ratio st.2 then
    ((i : Int), error_this_ratio)
  else st

/-- Embedding of `ComputeSubSpeedAndDelay`: the proposal (delay and table index) when a
change of speed is advisable (return value 1), `none` otherwise (return value 0).
The arithmetic is IEEE single precision, one rounding per operation. -/
def ComputeSubSpeedAndDelay (p_sys : demux_sys_t) : Option sub_speed_delay :=
  let b := p_sys.subtitle_delaybookmarks
  if b.i_time_audio_n_1 ≤ 0 ∨ b.i_time_subtitle_n_1 ≤ 0 then none
  else if wrap64 (b.i_time_subtitle - b.i_time_subtitle_n_1) < 45 * 1000 * 1000 then none
  else if p_sys.sub_speed_delay_current.idx_sub_fps_adjust ≠ 0 ∧
      wrap64 (b.i_time_subtitle - b.i_time_subtitle_n_1) < 60 * 5 * 1000 * 1000 then none
  else
    let audio0 := F32.div (F32.ofInt b.i_time_audio_n_1) (F32.ofInt 1000)
    let subtitle0 := F32.div (F32.ofInt b.i_time_subtitle_n_1) (F32.ofInt 1000)
    let audio1 := F32.div (F32.ofInt b.i_time_audio) (F32.ofInt 1000)
    let subtitle1 := F32.div (F32.ofInt b.i_time_subtitle) (F32.ofInt 1000)
    let time0 := F32.max audio0 subtitle0
    let time1 := F32.max audio1 subtitle1
    let i_delay0 := GetDemuxSubDelay p_sys
    let delay0 := F32.div (F32.ofInt i_delay0) (F32.ofInt 1000)
    let i_additional_subdelay := wrap64 (b.i_time_audio - b.i_time_subtitle)
    let delay1 := F32.add delay0 (F32.div (F32.ofInt i_additional_subdelay) (F32.ofInt 1000))
    let sub_speed :=
      F32.mul
        (F32.div (F32.ofInt 1) (F32.sub (F32.add time1 delay1) (F32.add time0 delay0)))
        (F32.sub time1 time0)
    let closest :=
      (List.range NB_SUB_FPS_ADJUSTS).foldl (ComputeSubSpeedAndDelay_step p_sys sub_speed)
        (-1, F32.ofInt 100000)
    if closest.1 ≥ 0 then
      let spu_delay_applicable :=
        F32.add delay0
          (F32.div (F32.mul (F32.sub (F32.fin 0) time0) (F32.sub delay1 delay0))
            (F32.sub time1 time0))
      some ⟨F32.toInt64 (F32.mul spu_delay_applicable (F32.ofInt 1000)), closest.1⟩
    else none

/-- Embedding of `ComputeSubDelay_Only`: the new total delay with the current table index
when both current bookmarks are set, `none` (return value 0) otherwise. -/
def ComputeSubDelay_Only (p_sys : demux_sys_t) : Option sub_speed_delay :=
  let b := p_sys.subtitle_delaybookmarks
  if b.i_time_audio = 0 ∨ b.i_time_subtitle = 0 then none
  else
    let i_previous_subdelay := GetDemuxSubDelay p_sys
    let i_additional_subdelay := wrap64 (b.i_time_audio - b.i_time_subtitle)
    some ⟨wrap64 (i_previous_subdelay + i_additional_subdelay),
      p_sys.sub_speed_delay_current.idx_sub_fps_adjust⟩

/-- Embedding of `Apply_sub_speed_delay`: the pair becomes the current one, the delay is
published and the cursor is set again for the date of the last `Demux`. -/
def Apply_sub_speed_delay (p_demux : demux_t) (speed_delay : sub_speed_delay)
    (_enable_osd : Bool) : demux_t :=
  let p1 := { p_demux with p_sys := { p_demux.p_sys with sub_speed_delay_current := speed_delay } }
  let p2 := SetDemuxSubDelay p1 speed_delay.sub_delay
  (set_current_subtitle_by_time p2 p2.p_sys.i_last_demux_date).2

/-- The end of `ApplySubtitleDelay`: the current bookmarks become the previous
ones and are cleared. -/
def ApplySubtitleDelay_rotate (p_demux : demux_t) : demux_t :=
  { p_demux with
    p_sys := { p_demux.p_sys with
      subtitle_delaybookmarks :=
        { i_time_audio_n_1 := p_demux.p_sys.subtitle_delaybookmarks.i_time_audio
          i_time_subtitle_n_1 := p_demux.p_sys.subtitle_delaybookmarks.i_time_subtitle
          i_time_audio := 0
          i_time_subtitle := 0 } } }

/-- Embedding of `ApplySubtitleDelay`. -/
def ApplySubtitleDelay (p_demux : demux_t) : demux_t :=
  let p_sys := p_demux.p_sys
  let reconciled :=
    if p_sys.sub_speed_delay_user_confirm.idx_sub_fps_adjust ≥ 0 ∧
        p_sys.subtitle_delaybookmarks.i_time_audio = 0 ∧
        p_sys.subtitle_delaybookmarks.i_time_subtitle = 0 then
      let p1 := Apply_sub_speed_delay p_demux p_sys.sub_speed_delay_user_confirm true
      { p1 with p_sys := { p1.p_sys with
          sub_speed_delay_user_confirm :=
            { p1.p_sys.sub_speed_delay_user_confirm with idx_sub_fps_adjust := -1 } } }
    else
      let p1 : demux_t := { p_demux with p_sys := { p_sys with
          sub_speed_delay_user_confirm :=
            { p_sys.sub_speed_delay_user_confirm with idx_sub_fps_adjust := -1 } } }
      let fit := ComputeSubSpeedAndDelay p1.p_sys
      let p2 : demux_t :=
        match fit with
        | some speed_delay =>
            { p1 with p_sys := { p1.p_sys with sub_speed_delay_user_confirm := speed_delay } }
        | none => p1
      match ComputeSubDelay_Only p2.p_sys with
      | some speed_delay => Apply_sub_speed_delay p2 speed_delay fit.isNone
      | none => p2
  ApplySubtitleDelay_rotate reconciled

/-- Embedding of `subtitle_external_callback` for the variable `variable_name` with the new
value `new_value`: the return value and the state.  The tests are made one
after the other; only the reset branch returns early. -/
def subtitle_external_callback (p_demux : demux_t) (variable_name : String) (new_value : Int) :
    Int × demux_t :=
  let p1 : demux_t :=
    if variable_name = "sub-bookmarkaudio" then
      { p_demux with p_sys := { p_demux.p_sys with
          subtitle_delaybookmarks := { p_demux.p_sys.subtitle_delaybookmarks with
            i_time_audio := p_demux.p_sys.i_last_demux_date } } }
    else p_demux
  let p2 : demux_t :=
    if variable_name = "sub-bookmarksubtitle" then
      { p1 with p_sys := { p1.p_sys with
          subtitle_delaybookmarks := { p1.p_sys.subtitle_delaybookmarks with
            i_time_subtitle := p1.p_sys.i_last_demux_date } } }
    else p1
  let p3 : demux_t := if variable_name = "sub-syncbookmarks" then ApplySubtitleDelay p2 else p2
  if variable_name = "sub-syncreset" then
    let q1 := SetDemuxSubDelay p3 0
    let q2 : demux_t := { q1 with p_sys := { q1.p_sys with
        sub_speed_delay_current := { q1.p_sys.sub_speed_delay_current with idx_sub_fps_adjust := 0 }
        subtitle_delaybookmarks := ⟨0, 0, 0, 0⟩ } }
    (VLC_SUCCESS, (set_current_subtitle_by_time q2 q2.p_sys.i_last_demux_date).2)
  else if variable_name = "spu-delau" then
    let q1 : demux_t := { p3 with p_sys := { p3.p_sys with
        sub_speed_delay_current := { p3.p_sys.sub_speed_delay_current with sub_delay := new_value } } }
    (VLC_SUCCESS, (set_current_subtitle_by_time q1 q1.p_sys.i_last_demux_date).2)
  else (VLC_SUCCESS, p3)

/-! ## Control and the emission trace -/

/-- The horizon `i_maxdate` of one `Demux` pass: `i_next_demux_date`, or, when
that is not positive, the adjusted start of the cue at the cursor plus one. -/
def Demux_maxdate (p_sys : demux_sys_t) : Int :=
  if p_sys.i_next_demux_date ≤ 0 ∧ p_sys.i_subtitle < p_sys.subtitle.length then
    match p_sys.subtitle.get? p_sys.i_subtitle with
    | some c => wrap64 (adjust_subtitle_time p_sys c.i_start + 1)
    | none => p_sys.i_next_demux_date
  else p_sys.i_next_demux_date

/-- The block `Demux` builds for the cue `c`. -/
def Demux_block (VLC_TS_0 : Int) (p_sys : demux_sys_t) (c : subtitle_t) : block_t :=
  { i_pts := wrap64 (VLC_TS_0 + adjust_subtitle_time p_sys c.i_start)
    i_dts := wrap64 (VLC_TS_0 + adjust_subtitle_time p_sys c.i_start)
    i_length :=
      if c.i_stop ≥ 0 ∧ c.i_stop ≥ c.i_start then
        some (wrap64 (adjust_subtitle_time p_sys c.i_stop -
          adjust_subtitle_time p_sys c.i_start))
      else none
    p_buffer := c.psz_text }

/-- The `while` loop of `Demux` with the store index of every block it sends:
the loop runs over the cues from index `i` on, and each `es_out_Send` is
recorded with the value of `i_subtitle` at that moment. -/
def Demux_sent (VLC_TS_0 : Int) (p_sys : demux_sys_t) (i_maxdate : Int) :
    List subtitle_t → Nat → List (Nat × block_t)
  | [], _ => []
  | c :: rest, i =>
      if adjust_subtitle_time p_sys c.i_start < i_maxdate then
        if c.psz_text.length + 1 ≤ 1 ∨ c.i_start < 0 then
          Demux_sent VLC_TS_0 p_sys i_maxdate rest (i + 1)
        else (i, Demux_block VLC_TS_0 p_sys c) :: Demux_sent VLC_TS_0 p_sys i_maxdate rest (i + 1)
      else []

/-- The blocks of one `Demux` pass, each with the store index of its cue. -/
def Demux_trace (VLC_TS_0 : Int) (p_sys : demux_sys_t) : List (Nat × block_t) :=
  if p_sys.i_subtitle ≥ p_sys.subtitle.length then []
  else
    Demux_sent VLC_TS_0 p_sys (Demux_maxdate p_sys) (p_sys.subtitle.drop p_sys.i_subtitle)
      p_sys.i_subtitle

/-- The queries of `Control` that the module answers; `other` stands for every
query it declines. -/
inductive demux_query where
  | DEMUX_GET_LENGTH
  | DEMUX_GET_TIME
  | DEMUX_SET_TIME (i64 : Int)
  | DEMUX_GET_POSITION
  | DEMUX_SET_POSITION (f : F64)
  | DEMUX_SET_NEXT_DEMUX_TIME (i64 : Int)
  | other (i_query : Int)

/-- What `Control` writes through the pointer argument of a query. -/
inductive control_out where
  | nothing
  | i64 (v : Int)
  | f64 (v : F64)
  deriving DecidableEq, Repr

/-- The loop of `DEMUX_SET_POSITION` from cursor `i` on: the first cue whose
adjusted start is not before `i64`. -/
def Control_set_position_loop (p_sys : demux_sys_t) (i64 : Int) : List subtitle_t → Nat → Nat
  | [], i => i
  | c :: rest, i =>
      if adjust_subtitle_time p_sys c.i_start < i64 then
        Control_set_position_loop p_sys i64 rest (i + 1)
      else i

/-- Embedding of `Control`: the return value, the value written for the caller and the
state. -/
def Control (p_demux : demux_t) (i_query : demux_query) : Int × control_out × demux_t :=
  let p_sys := p_demux.p_sys
  match i_query with
  | demux_query.DEMUX_GET_LENGTH => (VLC_SUCCESS, control_out.i64 p_sys.i_length, p_demux)
  | demux_query.DEMUX_GET_TIME =>
      match p_sys.subtitle.get? p_sys.i_subtitle with
      | some c =>
          (VLC_SUCCESS, control_out.i64 (adjust_subtitle_time p_sys c.i_start), p_demux)
      | none => (VLC_EGENERIC, control_out.nothing, p_demux)
  | demux_query.DEMUX_SET_TIME i64 =>
      ((set_current_subtitle_by_time p_demux i64).1, control_out.nothing,
        (set_current_subtitle_by_time p_demux i64).2)
  | demux_query.DEMUX_GET_POSITION =>
      if p_sys.i_subtitle ≥ p_sys.subtitle.length then
        (VLC_SUCCESS, control_out.f64 (F64.ofInt 1), p_demux)
      else if p_sys.subtitle.length > 0 then
        match p_sys.subtitle.get? p_sys.i_subtitle with
        | some c =>
            (VLC_SUCCESS,
              control_out.f64
                (F64.div (F64.ofInt (adjust_subtitle_time p_sys c.i_start))
                  (F64.ofInt p_sys.i_length)),
              p_demux)
        | none => (VLC_SUCCESS, control_out.f64 (F64.fin 0), p_demux)
      else (VLC_SUCCESS, control_out.f64 (F64.fin 0), p_demux)
  | demux_query.DEMUX_SET_POSITION f =>
      let i64 := F64.toInt64 (F64.mul f (F64.ofInt p_sys.i_length))
      let i := Control_set_position_loop p_sys i64 p_sys.subtitle 0
      let p := { p_demux with p_sys := { p_sys with i_subtitle := i } }
      if i ≥ p_sys.subtitle.length then (VLC_EGENERIC, control_out.nothing, p)
      else (VLC_SUCCESS, control_out.nothing, p)
  | demux_query.DEMUX_SET_NEXT_DEMUX_TIME i64 =>
      (VLC_SUCCESS, control_out.nothing,
        { p_demux with p_sys := { p_sys with i_next_demux_date := i64 } })
  | demux_query.other _ => (VLC_EGENERIC, control_out.nothing, p_demux)

/-- A run of `Demux` passes with no event in between: before each pass the
host sets the horizon with `DEMUX_SET_NEXT_DEMUX_TIME`.  The result is the final
state and, for each pass in order, the cursor it leaves and the indices of the
cues it sent. -/
def Demux_passes (VLC_TS_0 : Int) : List Int → demux_t → demux_t × List (Nat × List Nat)
  | [], p_demux => (p_demux, [])
  | h :: horizons, p_demux =>
      let p1 := (Control p_demux (demux_query.DEMUX_SET_NEXT_DEMUX_TIME h)).2.2
      let sent := (Demux_trace VLC_TS_0 p1.p_sys).map Prod.fst
      let p2 : demux_t := { p1 with p_sys := (Demux VLC_TS_0 p1.p_sys).2.1 }
      let r := Demux_passes VLC_TS_0 horizons p2
      (r.1, (p2.p_sys.i_subtitle, sent) :: r.2)

/-! ## The end-to-end example -/

/-- The lines of the SubRip stream of the end-to-end example. -/
def srt_example : List (List Char) :=
  ["1".data, "00:00:00,000 --> 00:00:01,000".data, "Hello".data, [],
   "2".data, "00:00:02,000 --> 00:00:03,000".data, "World".data, []]

/-- The two cues `ParseSubRip` reads from `srt_example`. -/
def store_example : List subtitle_t :=
  [⟨0, 1000000, "Hello\n".data⟩, ⟨2000000, 3000000, "World\n".data⟩]

/-! ## Shapes of probed lines -/

/-- The decimal digit character of a digit value. -/
def digitChar (d : Fin 10) : Char := Char.ofNat ('0'.toNat + d.val)

/-- A decimal field written with the given digits (leading zeros allowed). -/
def numeral (ds : List (Fin 10)) : List Char := ds.map digitChar

/-- A SubRip timing line `H:M:S,ms --> H:M:S,ms`. -/
def subripTimingLine (h1 m1 s1 f1 h2 m2 s2 f2 : List (Fin 10)) : List Char :=
  numeral h1 ++ ':' :: (numeral m1 ++ ':' :: (numeral s1 ++ ',' :: (numeral f1 ++
    ' ' :: '-' :: '-' :: '>' :: ' ' ::
      (numeral h2 ++ ':' :: (numeral m2 ++ ':' :: (numeral s2 ++ ',' :: numeral f2))))))

/-- A MicroDVD line `{int}{int}text`. -/
def microDvdLine (a b : List (Fin 10)) (text : List Char) : List Char :=
  '\x7b' :: (numeral a ++ '\x7d' :: '\x7b' :: (numeral b ++ '\x7d' :: text))

/-- A PowerDivx line `{h:m:s}{h:m:s}text`. -/
def powerDivxLine (h1 m1 s1 h2 m2 s2 : List (Fin 10)) (text : List Char) : List Char :=
  '\x7b' :: (numeral h1 ++ ':' :: (numeral m1 ++ ':' :: (numeral s1 ++ '\x7d' :: '\x7b' ::
    (numeral h2 ++ ':' :: (numeral m2 ++ ':' :: (numeral s2 ++ '\x7d' :: text))))))

/-! ## Measures used in the proofs -/

/-- The magnitude of `(int64_t)( (float)t / r )` for `|t| = a` and the ratio of
`r` steps: two roundings, then the integer part. -/
def adjust_mag (r a : Nat) : Nat :=
  F32.roundMag (F32.roundMag (a * F32.unit) 1 * F32.unit) r / F32.unit

/-- The sweep of `Fix_for` in recursive form: `prev` is the current content of
`subtitle[i_index - 1]` and the list holds `subtitle[i_index ..]`.  After an
exchange the former predecessor moves on to be compared with the next entry
(`Fix_for_eq_sweep`). -/
def Fix_sweep (prev : subtitle_t) : List subtitle_t → List subtitle_t × Bool
  | [] => ([prev], true)
  | cur :: rest =>
      if cur.i_start < prev.i_start then
        (cur :: (Fix_sweep prev rest).1, false)
      else
        (prev :: (Fix_sweep cur rest).1, (Fix_sweep cur rest).2)

/-- Number of pairs of positions `i < j` whose entries are out of order
(`subs[j].i_start < subs[i].i_start`). -/
def inversions : List subtitle_t → Nat
  | [] => 0
  | x :: xs => List.countP (fun y => decide (y.i_start < x.i_start)) xs + inversions xs

/-- The cues of a store that start at time `t`, in store order. -/
def cuesAt (t : Int) (subs : List subtitle_t) : List subtitle_t :=
  subs.filter (fun c => decide (c.i_start = t))

/-- The rational value of `a` steps of `2^-149`. -/
def realOf (a : Int) : ℚ := (a : ℚ) / 2 ^ 149

/-- The speed candidate `sub_speed` of `ComputeSubSpeedAndDelay`, from the
bookmarks and the current delay. -/
def fit_speed (b : subtitle_delaybookmarks_t) (i_delay0 : Int) : F32 :=
  let audio0 := F32.div (F32.ofInt b.i_time_audio_n_1) (F32.ofInt 1000)
  let subtitle0 := F32.div (F32.ofInt b.i_time_subtitle_n_1) (F32.ofInt 1000)
  let audio1 := F32.div (F32.ofInt b.i_time_audio) (F32.ofInt 1000)
  let subtitle1 := F32.div (F32.ofInt b.i_time_subtitle) (F32.ofInt 1000)
  let time0 := F32.max audio0 subtitle0
  let time1 := F32.max audio1 subtitle1
  let delay0 := F32.div (F32.ofInt i_delay0) (F32.ofInt 1000)
  let i_additional_subdelay := wrap64 (b.i_time_audio - b.i_time_subtitle)
  let delay1 := F32.add delay0 (F32.div (F32.ofInt i_additional_subdelay) (F32.ofInt 1000))
  F32.mul
    (F32.div (F32.ofInt 1) (F32.sub (F32.add time1 delay1) (F32.add time0 delay0)))
    (F32.sub time1 time0)

/-- The delay `spu_delay_applicable` of `ComputeSubSpeedAndDelay`, in
milliseconds, from the bookmarks and the current delay. -/
def fit_delay (b : subtitle_delaybookmarks_t) (i_delay0 : Int) : F32 :=
  let audio0 := F32.div (F32.ofInt b.i_time_audio_n_1) (F32.ofInt 1000)
  let subtitle0 := F32.div (F32.ofInt b.i_time_subtitle_n_1) (F32.ofInt 1000)
  let audio1 := F32.div (F32.ofInt b.i_time_audio) (F32.ofInt 1000)
  let subtitle1 := F32.div (F32.ofInt b.i_time_subtitle) (F32.ofInt 1000)
  let time0 := F32.max audio0 subtitle0
  let time1 := F32.max audio1 subtitle1
  let delay0 := F32.div (F32.ofInt i_delay0) (F32.ofInt 1000)
  let i_additional_subdelay := wrap64 (b.i_time_audio - b.i_time_subtitle)
  let delay1 := F32.add delay0 (F32.div (F32.ofInt i_additional_subdelay) (F32.ofInt 1000))
  F32.add delay0
    (F32.div (F32.mul (F32.sub (F32.fin 0) time0) (F32.sub delay1 delay0))
      (F32.sub time1 time0))

/-- The signed rounding of `z / d` steps. -/
def srnd (z : Int) (d : Nat) : F32 := F32.round (decide (z < 0)) z.natAbs d

/-- The error of a table ratio against a speed candidate, as computed in the
loop of `ComputeSubSpeedAndDelay`:
`fabs( ( sub_speed - 1.f ) / ( fps_ratio - 1.f ) - 1.f )`. -/
def fit_error (fps_ratio sub_speed : F32) : F32 :=
  F32.fabs (F32.sub (F32.div (F32.sub sub_speed (F32.ofInt 1))
    (F32.sub fps_ratio (F32.ofInt 1))) (F32.ofInt 1))

/-- The ratio of table entry `j` as the loop reads it. -/
def fit_ratio (p_sys : demux_sys_t) (j : Nat) : F32 :=
  match p_sys.sub_fps_adjusts.get? j with
  | some e => e.fps_ratio
  | none => F32.nan

/-- The signed value `( x - 1.f ) / c - 1.f` whose magnitude is the error, for
a speed of `x` steps and a finite `fps_ratio - 1.f` of `c` steps. -/
def fit_signed (c x : Int) : F32 :=
  F32.sub (F32.div (F32.sub (F32.fin x) (F32.ofInt 1)) (F32.fin c)) (F32.ofInt 1)

/-- Bounds on the signed error over a window `[lo, hi]` of speeds, from its
values at the two ends (the signed error is monotone in the speed); `none`
when `fps_ratio - 1.f` is zero or an end is not finite. -/
def fit_between (fps_ratio : F32) (lo hi : Int) : Option (Int × Int) :=
  match F32.sub fps_ratio (F32.ofInt 1) with
  | F32.fin c =>
      if c = 0 then none
      else
        match fit_signed c lo, fit_signed c hi with
        | F32.fin p, F32.fin q => some (min p q, max p q)
        | _, _ => none
  | _ => none

/-- Whether a table ratio has, over the whole window, an error above `B`. -/
def fit_worse (B : Int) (fps_ratio : F32) (lo hi : Int) : Bool :=
  match F32.sub fps_ratio (F32.ofInt 1) with
  | F32.fin c =>
      if c = 0 then decide ((F32.unit : Int) < lo)
      else
        match fit_between fps_ratio lo hi with
        | some (a, b) => decide (B < a) || decide (b < -B)
        | none => false
  | _ => false

/-- Whether, for every speed in the window `[lo, hi]`, entry `i` of the table
has an error below `max_error_applicable` and every other entry a larger one. -/
def fit_window_ok (i : Nat) (lo hi : Int) : Bool :=
  match sub_fps_table.get? i with
  | some ei =>
      match fit_between ei.fps_ratio lo hi with
      | some (a, b) =>
          F32.lt (F32.fin (max (-a) b)) max_error_applicable &&
            F32.lt (F32.fin (max (-a) b)) (F32.ofInt 100000) &&
            (List.range NB_SUB_FPS_ADJUSTS).all (fun j =>
              decide (j = i) ||
                match sub_fps_table.get? j with
                | some ej => fit_worse (max (-a) b) ej.fps_ratio lo hi
                | none => false)
      | none => false
  | none => false

/-- The ratio of table entry `i`, in steps (`0` outside the table). -/
def fit_steps (i : Nat) : Int :=
  match sub_fps_table.get? i with
  | some e =>
      match e.fps_ratio with
      | F32.fin r => r
      | _ => 0
  | none => 0

/-- The float `time0` of `ComputeSubSpeedAndDelay`, `__MAX( audio0, subtitle0 )`,
in milliseconds. -/
def fit_time0 (b : subtitle_delaybookmarks_t) : F32 :=
  F32.max (F32.div (F32.ofInt b.i_time_audio_n_1) (F32.ofInt 1000))
    (F32.div (F32.ofInt b.i_time_subtitle_n_1) (F32.ofInt 1000))

/-- The float `time1` of `ComputeSubSpeedAndDelay`, `__MAX( audio1, subtitle1 )`,
in milliseconds. -/
def fit_time1 (b : subtitle_delaybookmarks_t) : F32 :=
  F32.max (F32.div (F32.ofInt b.i_time_audio) (F32.ofInt 1000))
    (F32.div (F32.ofInt b.i_time_subtitle) (F32.ofInt 1000))

/-- The float `delay0` of `ComputeSubSpeedAndDelay`, in milliseconds. -/
def fit_delay0 (i_delay0 : Int) : F32 := F32.div (F32.ofInt i_delay0) (F32.ofInt 1000)

/-- The float `delay1` of `ComputeSubSpeedAndDelay`, in milliseconds. -/
def fit_delay1 (b : subtitle_delaybookmarks_t) (i_delay0 : Int) : F32 :=
  F32.add (fit_delay0 i_delay0)
    (F32.div (F32.ofInt (wrap64 (b.i_time_audio - b.i_time_subtitle))) (F32.ofInt 1000))

/-! ## Lemmas on the single-precision arithmetic -/

namespace F32

theorem bitLog_spec (fuel n : Nat) (hf : n ≤ fuel) (hn : 0 < n) :
    2 ^ bitLog fuel n ≤ n ∧ n < 2 ^ (bitLog fuel n + 1) := by
  induction fuel generalizing n with
  | zero => omega
  | succ f ih =>
    unfold bitLog
    by_cases h2 : n < 2
    · rw [if_pos h2]
      have : n = 1 := by omega
      subst this
      simp
    · rw [if_neg h2]
      obtain ⟨h3, h4⟩ := ih (n / 2) (by omega) (by omega)
      rw [pow_succ] at h4 ⊢
      rw [pow_succ]
      constructor <;> omega

theorem bitLog_unique (n e : Nat) (h1 : 2 ^ e ≤ n) (h2 : n < 2 ^ (e + 1)) : bitLog n n = e := by
  have hn : 0 < n := lt_of_lt_of_le (by positivity) h1
  obtain ⟨h3, h4⟩ := bitLog_spec n n le_rfl hn
  have a1 : bitLog n n < e + 1 := (Nat.pow_lt_pow_iff_right (by norm_num : 1 < 2)).mp (lt_of_le_of_lt h3 h2)
  have a2 : e < bitLog n n + 1 := (Nat.pow_lt_pow_iff_right (by norm_num : 1 < 2)).mp (lt_of_le_of_lt h1 h4)
  omega

theorem roundMag_zero (d : Nat) (hd : 0 < d) : roundMag 0 d = 0 := by
  simp [roundMag, bitLog, hd]

theorem roundMag_exact (a d : Nat) (hd : 0 < d) (h : 2 ^ (bitLog a a - 23) ∣ a) :
    roundMag (a * d) d = a := by
  obtain ⟨k, hk⟩ := h
  have hq : a * d / d = a := Nat.mul_div_cancel a hd
  have hg : 0 < d * 2 ^ (bitLog a a - 23) := by positivity
  have hn : a * d = k * (d * 2 ^ (bitLog a a - 23)) := by
    conv_lhs => rw [hk]
    ring
  unfold roundMag
  simp only [hq]
  rw [hn, Nat.mul_mod_left, Nat.mul_div_cancel k hg, if_pos (by omega)]
  conv_rhs => rw [hk]
  ring

theorem roundMag_le (n d : Nat) : roundMag n d ≤ 2 * (n / d) + 1 := by
  unfold roundMag
  set q := n / d with hqdef
  set sh := bitLog q q - 23 with hsh
  have hf : n / (d * 2 ^ sh) * 2 ^ sh ≤ q := by
    rw [← Nat.div_div_eq_div_mul]
    exact Nat.div_mul_le_self _ _
  have hp : 2 ^ sh ≤ q + 1 := by
    rcases Nat.eq_zero_or_pos q with h0 | hpos
    · have : sh = 0 := by rw [hsh, h0]; simp [bitLog]
      simp [this]
    · have h1 := (bitLog_spec q q le_rfl hpos).1
      have : (2:Nat) ^ sh ≤ 2 ^ bitLog q q := Nat.pow_le_pow_right (by norm_num) (by omega)
      omega
  have hm : ∀ m : Nat, m ≤ n / (d * 2 ^ sh) + 1 → m * 2 ^ sh ≤ 2 * q + 1 := by
    intro m hm
    calc m * 2 ^ sh ≤ (n / (d * 2 ^ sh) + 1) * 2 ^ sh := Nat.mul_le_mul_right _ hm
      _ = n / (d * 2 ^ sh) * 2 ^ sh + 2 ^ sh := by ring
      _ ≤ 2 * q + 1 := by omega
  apply hm
  split_ifs <;> omega


theorem bitLog_mul_unit (a : Nat) (ha : 0 < a) : bitLog (a * unit) (a * unit) = bitLog a a + 149 := by
  obtain ⟨h1, h2⟩ := bitLog_spec a a le_rfl ha
  apply bitLog_unique
  · rw [pow_add]; exact Nat.mul_le_mul_right _ h1
  · have : 2 ^ (bitLog a a + 149 + 1) = 2 ^ (bitLog a a + 1) * unit := by
      rw [unit, ← pow_add, Nat.add_right_comm]
    rw [this]
    exact Nat.mul_lt_mul_of_pos_right h2 (by unfold unit; positivity)

theorem exact_mul_unit (a : Nat) (h : 2 ^ (bitLog a a - 23) ∣ a) :
    2 ^ (bitLog (a * unit) (a * unit) - 23) ∣ a * unit := by
  rcases Nat.eq_zero_or_pos a with h0 | hpos
  · subst h0; simp
  · rw [bitLog_mul_unit a hpos]
    by_cases hb : 23 ≤ bitLog a a
    · have : bitLog a a + 149 - 23 = (bitLog a a - 23) + 149 := by omega
      rw [this, pow_add]
      exact Nat.mul_dvd_mul h (dvd_refl _)
    · have : (2:Nat) ^ (bitLog a a + 149 - 23) ∣ unit := by
        unfold unit
        exact Nat.pow_dvd_pow 2 (by omega)
      exact Dvd.dvd.mul_left this a

theorem ofInt_exact (t : Int) (h : exactInt t) (hr : t.natAbs < 2 ^ 128) :
    ofInt t = fin (t * unit) := by
  unfold exactInt at h
  have hu : 0 < unit := by unfold unit; positivity
  have hm : roundMag (t.natAbs * unit) 1 = t.natAbs * unit := by
    have := roundMag_exact (t.natAbs * unit) 1 (by norm_num) (exact_mul_unit _ h)
    simpa using this
  unfold ofInt round
  simp only [hm]
  have hlt : ¬ unit * 2 ^ 128 ≤ t.natAbs * unit := by
    rw [Nat.mul_comm unit]
    intro hc
    have := Nat.le_of_mul_le_mul_right hc hu
    omega
  rw [if_neg hlt]
  congr 1
  by_cases hneg : t < 0
  · simp only [hneg, decide_True, if_true]
    have : (t.natAbs : Int) = -t := by omega
    rw [Nat.cast_mul, this]; ring
  · simp only [hneg, decide_False, Bool.false_eq_true, if_false]
    have : (t.natAbs : Int) = t := by omega
    rw [Nat.cast_mul, this]

theorem div_one_exact (t : Int) (h : exactInt t) (hr : t.natAbs < 2 ^ 128) :
    div (fin (t * unit)) (fin unit) = fin (t * unit) := by
  unfold exactInt at h
  have hu : 0 < unit := by unfold unit; positivity
  have hu' : (0 : Int) < (unit : Int) := by exact_mod_cast hu
  have hna : (t * (unit : Int)).natAbs = t.natAbs * unit := by
    rw [Int.natAbs_mul]; simp
  have hm : roundMag (t.natAbs * unit * unit) unit = t.natAbs * unit :=
    roundMag_exact (t.natAbs * unit) unit hu (exact_mul_unit _ h)
  have hlt : ¬ unit * 2 ^ 128 ≤ t.natAbs * unit := by
    rw [Nat.mul_comm unit]
    intro hc
    have := Nat.le_of_mul_le_mul_right hc hu
    omega
  have hb : ¬ ((unit : Int) = 0) := by omega
  have hb2 : ¬ ((unit : Int) < 0) := by omega
  simp only [div, hb, if_false, round, hna, Int.natAbs_ofNat, hm, hlt, hb2, decide_False,
    Bool.bne_false]
  congr 1
  by_cases hneg : t < 0
  · have h1 : t * (unit : Int) < 0 := Int.mul_neg_of_neg_of_pos hneg hu'
    simp only [h1, decide_True, if_true]
    have : (t.natAbs : Int) = -t := by omega
    rw [Nat.cast_mul, this]; ring
  · have h1 : ¬ t * (unit : Int) < 0 := by
      have : 0 ≤ t * (unit : Int) := Int.mul_nonneg (by omega) (by omega)
      omega
    simp only [h1, decide_False, Bool.false_eq_true, if_false]
    have : (t.natAbs : Int) = t := by omega
    rw [Nat.cast_mul, this]

theorem toInt64_mul_unit (t : Int) (h : isInt64 t) : toInt64 (fin (t * unit)) = t := by
  have hu : (unit : Int) ≠ 0 := by unfold unit; positivity
  unfold toInt64
  simp only [Int.mul_tdiv_cancel _ hu]
  unfold isInt64 at h
  rw [if_pos h]

theorem wrap64_of_isInt64 (x : Int) (h : isInt64 x) : wrap64 x = x := by
  unfold isInt64 INT64_MIN INT64_MAX at h
  unfold wrap64
  omega


end F32

set_option maxRecDepth 8000 in
theorem sub_fps_table_entry (i : Fin 13) :
    ∃ e, sub_fps_table.get? i.val = some e ∧ F32.atLeastHalf e.fps_ratio := by
  fin_cases i <;> exact ⟨_, rfl, by decide⟩

set_option maxRecDepth 8000 in
theorem sub_fps_table_zero : sub_fps_table.get? 0 = some ⟨F32.fin F32.unit, ""⟩ := by
  decide

theorem GetDemuxSubSpeed_table (p_sys : demux_sys_t) (htbl : p_sys.sub_fps_adjusts = sub_fps_table)
    (h0 : 0 ≤ p_sys.sub_speed_delay_current.idx_sub_fps_adjust)
    (h1 : p_sys.sub_speed_delay_current.idx_sub_fps_adjust < 13) :
    ∃ r : Nat, GetDemuxSubSpeed p_sys = F32.fin r ∧ F32.unit ≤ 2 * r := by
  have hlt : p_sys.sub_speed_delay_current.idx_sub_fps_adjust.toNat < 13 := by omega
  obtain ⟨e, he, hh⟩ := sub_fps_table_entry ⟨_, hlt⟩
  unfold GetDemuxSubSpeed
  rw [htbl, if_neg (by omega)]
  simp only [] at he
  rw [he]
  simp only []
  cases hr : e.fps_ratio with
  | fin u =>
    rw [hr] at hh
    unfold F32.atLeastHalf at hh
    have hu : (0:Int) ≤ (F32.unit : Int) := by positivity
    refine ⟨u.toNat, ?_, ?_⟩
    · congr 1; omega
    · have : ((F32.unit : Nat) : Int) ≤ 2 * (u.toNat : Int) := by omega
      exact_mod_cast this
  | inf n => rw [hr] at hh; exact absurd hh (by simp [F32.atLeastHalf])
  | nan => rw [hr] at hh; exact absurd hh (by simp [F32.atLeastHalf])


namespace F32

/-- The float conversion of an integer is finite, of the sign of the integer,
and at most twice its magnitude (plus one step). -/
theorem ofInt_fin (t : Int) (ht : t.natAbs ≤ 2 ^ 59) :
    ∃ m : Nat, ofInt t = fin (if t < 0 then -(m : Int) else m) ∧
      m ≤ 2 * (t.natAbs * unit) + 1 := by
  have hm := roundMag_le (t.natAbs * unit) 1
  rw [Nat.div_one] at hm
  refine ⟨roundMag (t.natAbs * unit) 1, ?_, hm⟩
  unfold ofInt round
  have hlt : ¬ unit * 2 ^ 128 ≤ roundMag (t.natAbs * unit) 1 := by
    unfold unit at hm ⊢
    omega
  simp only [hlt, if_false]
  by_cases hneg : t < 0 <;> simp [hneg]

/-- Division of a finite float by a finite float of at least one half. -/
theorem div_fin (s : Int) (r : Nat) (hr : unit ≤ 2 * r) (hs : s.natAbs ≤ 2 ^ 61 * unit) :
    ∃ m : Nat, div (fin s) (fin r) = fin (if s < 0 then -(m : Int) else m) ∧
      m ≤ 4 * s.natAbs + 1 ∧ (s.natAbs = 0 → m = 0) := by
  have hu : 0 < unit := by unfold unit; positivity
  have hr0 : 0 < r := by omega
  have hq : s.natAbs * unit / r ≤ 2 * s.natAbs := by
    apply Nat.div_le_of_le_mul
    calc s.natAbs * unit ≤ s.natAbs * (2 * r) := Nat.mul_le_mul_left _ hr
      _ = r * (2 * s.natAbs) := by ring
  have hm := roundMag_le (s.natAbs * unit) r
  refine ⟨roundMag (s.natAbs * unit) r, ?_, by omega, ?_⟩
  swap
  · intro h0
    rw [h0, Nat.zero_mul]
    exact roundMag_zero r hr0
  have hb : ¬ ((r : Int) = 0) := by omega
  have hb2 : ¬ ((r : Int) < 0) := by omega
  have hlt : ¬ unit * 2 ^ 128 ≤ roundMag (s.natAbs * unit) r := by
    have hunit : unit = 2 ^ 149 := rfl
    generalize roundMag (s.natAbs * unit) r = m2 at hm ⊢
    generalize s.natAbs * unit / r = q at hm hq
    generalize s.natAbs = a at hs hq
    rw [hunit] at hs ⊢
    omega
  simp only [div, hb, if_false, round, Int.natAbs_ofNat, hlt, hb2, decide_False, Bool.bne_false]
  by_cases hneg : s < 0 <;> simp [hneg]

theorem toInt64_nat (m : Nat) (hm : m / unit ≤ 2 ^ 62) :
    toInt64 (fin (m : Int)) = ⌊((m : Int) : ℚ) / 2 ^ 149⌋ ∧
      toInt64 (fin (-(m : Int))) = ⌈((-(m : Int) : Int) : ℚ) / 2 ^ 149⌉ := by
  have hfl : ⌊((m : Int) : ℚ) / 2 ^ 149⌋ = ((m / unit : Nat) : Int) := by
    have := Rat.floor_intCast_div_natCast (m : Int) unit
    rw [show ((unit : Nat) : ℚ) = 2 ^ 149 by unfold unit; norm_num] at this
    rw [this]
    rfl
  have hce : ⌈((-(m : Int) : Int) : ℚ) / 2 ^ 149⌉ = -((m / unit : Nat) : Int) := by
    rw [Int.cast_neg, neg_div, Int.ceil_neg, hfl]
  have htd : Int.tdiv (m : Int) (unit : Int) = ((m / unit : Nat) : Int) := rfl
  have hpos : toInt64 (fin (m : Int)) = ((m / unit : Nat) : Int) := by
    show (if INT64_MIN ≤ Int.tdiv (m : Int) (unit : Int) ∧
      Int.tdiv (m : Int) (unit : Int) ≤ INT64_MAX then Int.tdiv (m : Int) (unit : Int)
      else INT64_MIN) = _
    rw [htd]
    generalize m / unit = k at hm ⊢
    unfold INT64_MIN INT64_MAX
    rw [if_pos (by omega)]
  have hneg : toInt64 (fin (-(m : Int))) = -((m / unit : Nat) : Int) := by
    show (if INT64_MIN ≤ Int.tdiv (-(m : Int)) (unit : Int) ∧
      Int.tdiv (-(m : Int)) (unit : Int) ≤ INT64_MAX then Int.tdiv (-(m : Int)) (unit : Int)
      else INT64_MIN) = _
    rw [Int.neg_tdiv, htd]
    clear hpos
    generalize m / unit = k at hm ⊢
    unfold INT64_MIN INT64_MAX
    rw [if_pos (by omega)]
  rw [hfl, hce, hpos, hneg]
  exact ⟨rfl, rfl⟩

end F32


theorem adjust_bound_aux (a m1 m2 : Nat) (ha : a ≤ 2 ^ 59)
    (h1 : m1 ≤ 2 * (a * 2 ^ 149) + 1) (h2 : m2 ≤ 4 * m1 + 1) :
    m1 ≤ 2 ^ 61 * 2 ^ 149 ∧ m2 < (2 ^ 62 + 1) * 2 ^ 149 := by
  omega

theorem exactInt_of_small (t : Int) (h : t.natAbs ≤ 2 ^ 24) : F32.exactInt t := by
  unfold F32.exactInt
  rcases Nat.eq_zero_or_pos t.natAbs with h0 | hpos
  · rw [h0]; simp
  · obtain ⟨h1, _⟩ := F32.bitLog_spec t.natAbs t.natAbs le_rfl hpos
    have hb : F32.bitLog t.natAbs t.natAbs ≤ 24 := by
      by_contra hc
      have : (2:Nat) ^ 25 ≤ 2 ^ F32.bitLog t.natAbs t.natAbs :=
        Nat.pow_le_pow_right (by norm_num) (by omega)
      omega
    rcases Nat.lt_or_ge (F32.bitLog t.natAbs t.natAbs) 24 with hlt | hge
    · have : F32.bitLog t.natAbs t.natAbs - 23 = 0 := by omega
      rw [this]; simp
    · have hb24 : F32.bitLog t.natAbs t.natAbs = 24 := by omega
      rw [hb24] at h1 ⊢
      have : t.natAbs = 2 ^ 24 := by omega
      rw [this]
      norm_num

/-! ## Lemmas on `Fix` -/

theorem Fix_sweep_perm (prev : subtitle_t) (l : List subtitle_t) :
    List.Perm (Fix_sweep prev l).1 (prev :: l) := by
  induction l generalizing prev with
  | nil => simp [Fix_sweep]
  | cons cur rest ih =>
    unfold Fix_sweep
    split
    · exact ((ih prev).cons cur).trans (List.Perm.swap prev cur rest)
    · exact (ih cur).cons prev

theorem Fix_sweep_cuesAt (t : Int) (prev : subtitle_t) (l : List subtitle_t) :
    cuesAt t (Fix_sweep prev l).1 = cuesAt t (prev :: l) := by
  induction l generalizing prev with
  | nil => simp [Fix_sweep]
  | cons cur rest ih =>
    unfold Fix_sweep
    split
    · rename_i hlt
      have h1 := ih prev
      simp only [cuesAt, List.filter_cons] at h1 ⊢
      rw [h1]
      by_cases hc : cur.i_start = t
      · have hp : ¬ prev.i_start = t := by omega
        simp [hc, hp]
      · simp [hc]
    · have h1 := ih cur
      simp only [cuesAt, List.filter_cons] at h1 ⊢
      rw [h1]

theorem Fix_sweep_done (prev : subtitle_t) (l : List subtitle_t)
    (h : (Fix_sweep prev l).2 = true) :
    (Fix_sweep prev l).1 = prev :: l ∧ StartSorted (prev :: l) := by
  induction l generalizing prev with
  | nil => simp [Fix_sweep, StartSorted]
  | cons cur rest ih =>
    unfold Fix_sweep at h ⊢
    split at h
    · simp at h
    · rename_i hlt
      rw [if_neg hlt]
      obtain ⟨h1, h2⟩ := ih cur h
      refine ⟨by simp [h1], ?_⟩
      unfold StartSorted at h2 ⊢
      exact List.Chain'.cons (by omega) h2

theorem Fix_sweep_inversions (prev : subtitle_t) (l : List subtitle_t) :
    inversions (Fix_sweep prev l).1 ≤ inversions (prev :: l) ∧
      ((Fix_sweep prev l).2 = false → inversions (Fix_sweep prev l).1 < inversions (prev :: l)) := by
  induction l generalizing prev with
  | nil => simp [Fix_sweep]
  | cons cur rest ih =>
    unfold Fix_sweep
    split
    · rename_i hlt
      have hperm := Fix_sweep_perm prev rest
      have hc := hperm.countP_eq (fun y => decide (y.i_start < cur.i_start))
      have hi := (ih prev).1
      have hnp : ¬ prev.i_start < cur.i_start := by omega
      simp only [inversions, List.countP_cons, hc, hlt, hnp, decide_True, decide_False] at hi ⊢
      simp only [if_true, Bool.false_eq_true, if_false] at hi ⊢
      refine ⟨by omega, fun _ => by omega⟩
    · rename_i hlt
      have hperm := Fix_sweep_perm cur rest
      have hc := hperm.countP_eq (fun y => decide (y.i_start < prev.i_start))
      have hi := ih cur
      simp only [inversions, hc] at hi ⊢
      refine ⟨by omega, fun h => ?_⟩
      have := hi.2 h
      omega

theorem inversions_le_sq (l : List subtitle_t) : inversions l ≤ l.length * l.length := by
  induction l with
  | nil => simp [inversions]
  | cons x xs ih =>
    have h := List.countP_le_length (fun y => decide (y.i_start < x.i_start)) (l := xs)
    simp only [inversions, List.length_cons]
    nlinarith

theorem Fix_for_eq_sweep (rest : List subtitle_t) :
    ∀ (pre : List subtitle_t) (prev : subtitle_t) (b_done : Bool),
      Fix_for rest.length (pre.length + 1) (pre ++ prev :: rest) b_done =
        (pre ++ (Fix_sweep prev rest).1, b_done && (Fix_sweep prev rest).2) := by
  induction rest with
  | nil => intro pre prev b_done; simp [Fix_for, Fix_sweep]
  | cons cur rest ih =>
    intro pre prev b_done
    have g1 : (pre ++ prev :: cur :: rest).get? (pre.length + 1 - 1) = some prev := by
      rw [Nat.add_sub_cancel, List.get?_eq_getElem?, List.getElem?_append_right (le_refl _)]
      simp
    have g2 : (pre ++ prev :: cur :: rest).get? (pre.length + 1) = some cur := by
      rw [List.get?_eq_getElem?, List.getElem?_append_right (by omega)]
      simp
    simp only [List.length_cons, Fix_for, g1, g2]
    unfold Fix_sweep
    by_cases hlt : cur.i_start < prev.i_start
    · rw [if_pos hlt, if_pos hlt]
      have hset : ((pre ++ prev :: cur :: rest).set (pre.length + 1 - 1) cur).set
          (pre.length + 1) prev = (pre ++ [cur]) ++ prev :: rest := by
        simp [List.set_append]
      rw [hset]
      have := ih (pre ++ [cur]) prev false
      simp only [List.length_append, List.length_singleton] at this
      rw [this]
      simp
    · rw [if_neg hlt, if_neg hlt]
      have hcat : pre ++ prev :: cur :: rest = (pre ++ [prev]) ++ cur :: rest := by simp
      rw [hcat]
      have := ih (pre ++ [prev]) cur b_done
      simp only [List.length_append, List.length_singleton] at this
      rw [this]
      simp

theorem Fix_pass_nil : Fix_pass [] = ([], true) := by
  simp [Fix_pass, Fix_for]

theorem Fix_pass_cons (first : subtitle_t) (rest : List subtitle_t) :
    Fix_pass (first :: rest) = Fix_sweep first rest := by
  have h := Fix_for_eq_sweep rest [] first true
  simpa [Fix_pass] using h

theorem Fix_pass_perm (subs : List subtitle_t) : List.Perm (Fix_pass subs).1 subs := by
  cases subs with
  | nil => simp [Fix_pass_nil]
  | cons x xs => rw [Fix_pass_cons]; exact Fix_sweep_perm x xs

theorem Fix_pass_cuesAt (t : Int) (subs : List subtitle_t) :
    cuesAt t (Fix_pass subs).1 = cuesAt t subs := by
  cases subs with
  | nil => simp [Fix_pass_nil]
  | cons x xs => rw [Fix_pass_cons]; exact Fix_sweep_cuesAt t x xs

theorem Fix_pass_done (subs : List subtitle_t) (h : (Fix_pass subs).2 = true) :
    (Fix_pass subs).1 = subs ∧ StartSorted subs := by
  cases subs with
  | nil => simp [Fix_pass_nil, StartSorted]
  | cons x xs => rw [Fix_pass_cons] at h ⊢; exact Fix_sweep_done x xs h

theorem Fix_pass_inversions (subs : List subtitle_t) (h : (Fix_pass subs).2 = false) :
    inversions (Fix_pass subs).1 < inversions subs := by
  cases subs with
  | nil => simp [Fix_pass_nil] at h
  | cons x xs => rw [Fix_pass_cons] at h ⊢; exact (Fix_sweep_inversions x xs).2 h

/-- With more passes allowed than there are inversions, the loop of `Fix` ends,
and it ends on a sorted stable rearrangement of its input. -/
theorem Fix_loop_spec (fuel : Nat) (subs : List subtitle_t) (h : inversions subs < fuel) :
    ∃ r, Fix_loop fuel subs = some r ∧ StartSorted r ∧ List.Perm r subs ∧
      ∀ t, cuesAt t r = cuesAt t subs := by
  induction fuel generalizing subs with
  | zero => omega
  | succ n ih =>
    unfold Fix_loop
    by_cases hd : (Fix_pass subs).2 = true
    · obtain ⟨h1, h2⟩ := Fix_pass_done subs hd
      refine ⟨(Fix_pass subs).1, by simp [hd], ?_, ?_, ?_⟩
      · rw [h1]; exact h2
      · rw [h1]
      · intro t; rw [h1]
    · have hd2 : (Fix_pass subs).2 = false := by simpa using hd
      have hlt := Fix_pass_inversions subs hd2
      obtain ⟨r, hr, hs, hp, hf⟩ := ih (Fix_pass subs).1 (by omega)
      refine ⟨r, by simp [hd2, hr], hs, hp.trans (Fix_pass_perm subs), ?_⟩
      intro t
      rw [hf t, Fix_pass_cuesAt]

theorem Fix_spec (subs : List subtitle_t) :
    ∃ r, Fix subs = some r ∧ StartSorted r ∧ List.Perm r subs ∧
      ∀ t, cuesAt t r = cuesAt t subs :=
  Fix_loop_spec _ subs (Nat.lt_succ_of_le (inversions_le_sq subs))

theorem Open_finish_ssa (p_sys : demux_sys_t) (r : List subtitle_t)
    (ht : p_sys.i_type = SUB_TYPE_SSA1 ∨ p_sys.i_type = SUB_TYPE_SSA2_4 ∨
      p_sys.i_type = SUB_TYPE_ASS)
    (hr : Fix p_sys.subtitle = some r) :
    Open_finish p_sys = some { p_sys with
      i_subtitle := 0, i_length := Open_length p_sys.subtitle, subtitle := r } := by
  have h : Open_finish p_sys =
      if p_sys.i_type = SUB_TYPE_SSA1 ∨ p_sys.i_type = SUB_TYPE_SSA2_4 ∨
          p_sys.i_type = SUB_TYPE_ASS then
        match Fix p_sys.subtitle with
        | some fixed => some { p_sys with
            i_subtitle := 0, i_length := Open_length p_sys.subtitle, subtitle := fixed }
        | none => none
      else some { p_sys with i_subtitle := 0, i_length := Open_length p_sys.subtitle } := rfl
  rw [h, if_pos ht, hr]

theorem Open_finish_other (p_sys : demux_sys_t)
    (ht : ¬ (p_sys.i_type = SUB_TYPE_SSA1 ∨ p_sys.i_type = SUB_TYPE_SSA2_4 ∨
      p_sys.i_type = SUB_TYPE_ASS)) :
    Open_finish p_sys = some { p_sys with
      i_subtitle := 0, i_length := Open_length p_sys.subtitle } := by
  have h : Open_finish p_sys =
      if p_sys.i_type = SUB_TYPE_SSA1 ∨ p_sys.i_type = SUB_TYPE_SSA2_4 ∨
          p_sys.i_type = SUB_TYPE_ASS then
        match Fix p_sys.subtitle with
        | some fixed => some { p_sys with
            i_subtitle := 0, i_length := Open_length p_sys.subtitle, subtitle := fixed }
        | none => none
      else some { p_sys with i_subtitle := 0, i_length := Open_length p_sys.subtitle } := rfl
  rw [h, if_neg ht]

theorem Fix_of_sorted (subs : List subtitle_t) (h : StartSorted subs) : Fix subs = some subs := by
  have key : ∀ (l : List subtitle_t) (p : subtitle_t), StartSorted (p :: l) →
      Fix_sweep p l = (p :: l, true) := by
    intro l
    induction l with
    | nil => intro p _; simp [Fix_sweep]
    | cons c rest ih =>
      intro p hp
      unfold StartSorted at hp
      have h1 : p.i_start ≤ c.i_start := (List.chain'_cons.mp hp).1
      have h2 := ih c (List.chain'_cons.mp hp).2
      unfold Fix_sweep
      rw [if_neg (by omega), h2]
  have hpass : Fix_pass subs = (subs, true) := by
    cases subs with
    | nil => exact Fix_pass_nil
    | cons x xs => rw [Fix_pass_cons]; exact key xs x h
  simp [Fix, Fix_loop, hpass]


/-! ## Lemmas on the probe -/

theorem digitChar_isDigit (d : Fin 10) : (digitChar d).isDigit = true := by
  revert d; decide

theorem digitChar_not_space (d : Fin 10) : isspace (digitChar d) = false := by
  revert d; decide

theorem digitChar_not_sign (d : Fin 10) : ¬ (digitChar d = '-' ∨ digitChar d = '+') := by
  revert d; decide

theorem digitChar_ne_brace (d : Fin 10) : digitChar d ≠ '\x7b' := by
  revert d; decide

theorem digitChar_not_lt (d : Fin 10) : (tolower (digitChar d) == tolower '<') = false := by
  revert d; decide

theorem spanDigits_numeral (n : List (Fin 10)) (rest : List Char)
    (hrest : spanDigits rest = ([], rest)) :
    spanDigits (numeral n ++ rest) = (numeral n, rest) := by
  induction n with
  | nil => simpa [numeral] using hrest
  | cons d tl ih =>
    simp only [numeral, List.map_cons, List.cons_append] at ih ⊢
    simp [spanDigits, digitChar_isDigit, ih]

theorem skipSpace_numeral (d : Fin 10) (tl : List (Fin 10)) (rest : List Char) :
    skipSpace (numeral (d :: tl) ++ rest) = numeral (d :: tl) ++ rest := by
  simp [numeral, skipSpace, digitChar_not_space]

theorem scanInt_numeral (d : Fin 10) (tl : List (Fin 10)) (rest : List Char)
    (hrest : spanDigits rest = ([], rest)) :
    scanInt (numeral (d :: tl) ++ rest) =
      ScanStep.ok (ScanVal.int (storeInt (digitsValue (numeral (d :: tl))))) rest := by
  have hs := spanDigits_numeral (d :: tl) rest hrest
  have hne : numeral (d :: tl) ≠ [] := by simp [numeral]
  have hd := digitChar_not_sign d
  have hd1 : digitChar d ≠ '-' := fun h => hd (Or.inl h)
  have hd2 : digitChar d ≠ '+' := fun h => hd (Or.inr h)
  simp only [numeral, List.map_cons, List.cons_append] at hs hne ⊢
  simp only [scanInt, hd1, hd2, or_self, if_false, hs]
  simp

/-- The `%d` conversion on a decimal field followed by something that is not a digit. -/
theorem sscanf_go_int_numeral (ds : List ScanDir) (n : List (Fin 10)) (hn : n ≠ [])
    (rest : List Char) (hrest : spanDigits rest = ([], rest)) (acc : List ScanVal) :
    sscanf_go (ScanDir.int :: ds) (numeral n ++ rest) acc =
      sscanf_go ds rest (acc ++ [ScanVal.int (storeInt (digitsValue (numeral n)))]) := by
  obtain ⟨d, tl, rfl⟩ := List.exists_cons_of_ne_nil hn
  rw [sscanf_go, skipSpace_numeral, scanInt_numeral d tl rest hrest]

theorem strstr_by_none (eq : Char → Char → Bool) (s : List Char) (n : Char)
    (needle : List Char) (h : ∀ c ∈ s, eq c n = false) :
    strstr_by eq s (n :: needle) = none := by
  induction s with
  | nil => simp [strstr_by, matchesAt]
  | cons c t ih =>
    have hc := h c (List.mem_cons_self c t)
    simp only [strstr_by, matchesAt, hc, Bool.false_and, Bool.false_eq_true, if_false]
    exact ih (fun x hx => h x (List.mem_cons_of_mem c hx))

theorem numeral_not_lt (n : List (Fin 10)) :
    ∀ c ∈ numeral n, (tolower c == tolower '<') = false := by
  intro c hc
  simp only [numeral, List.mem_map] at hc
  obtain ⟨d, _, rfl⟩ := hc
  exact digitChar_not_lt d

theorem Open_probe_loop_skip (s : List Char) (post : List (List Char)) :
    ∀ (pre : List (List Char)) (tries : Nat), pre.length < tries →
      (∀ l ∈ pre, Open_probe_line l = SUB_TYPE_UNKNOWN) →
      Open_probe_line s ≠ SUB_TYPE_UNKNOWN →
      Open_probe_loop tries (pre ++ s :: post) = Open_probe_line s := by
  intro pre
  induction pre with
  | nil =>
    intro tries ht _ hs
    obtain ⟨k, rfl⟩ : ∃ k, tries = k + 1 := ⟨tries - 1, by simp at ht; omega⟩
    simp [Open_probe_loop, hs]
  | cons l pre ih =>
    intro tries ht hpre hs
    obtain ⟨k, rfl⟩ : ∃ k, tries = k + 1 := ⟨tries - 1, by simp at ht; omega⟩
    have hl := hpre l (List.mem_cons_self l pre)
    simp only [List.cons_append, Open_probe_loop, hl, ne_eq, not_true_eq_false, if_false]
    exact ih k (by simp at ht; omega) (fun x hx => hpre x (List.mem_cons_of_mem l hx)) hs

theorem Open_probe_first (s : List Char) (post : List (List Char))
    (hs : Open_probe_line s ≠ SUB_TYPE_UNKNOWN) :
    Open_probe (s :: post) = Open_probe_line s :=
  Open_probe_loop_skip s post [] 256 (by simp) (by simp) hs

theorem skipSpace_numeral_ne (n : List (Fin 10)) (hn : n ≠ []) (rest : List Char) :
    skipSpace (numeral n ++ rest) = numeral n ++ rest := by
  obtain ⟨d, tl, rfl⟩ := List.exists_cons_of_ne_nil hn
  exact skipSpace_numeral d tl rest

theorem sscanf_go_int_numeral_end (ds : List ScanDir) (n : List (Fin 10)) (hn : n ≠ [])
    (acc : List ScanVal) :
    sscanf_go (ScanDir.int :: ds) (numeral n) acc =
      sscanf_go ds [] (acc ++ [ScanVal.int (storeInt (digitsValue (numeral n)))]) := by
  have h := sscanf_go_int_numeral ds n hn [] (by simp [spanDigits]) acc
  rwa [List.append_nil] at h

theorem sscanf_go_nil (s : List Char) (acc : List ScanVal) : sscanf_go [] s acc = (acc, false) := by
  rw [sscanf_go]

theorem sscanf_go_lit_cons (c x : Char) (ds : List ScanDir) (t : List Char)
    (acc : List ScanVal) :
    sscanf_go (ScanDir.lit c :: ds) (x :: t) acc =
      if x = c then sscanf_go ds t acc else (acc, false) := by
  rw [sscanf_go]

theorem sscanf_go_ws (ds : List ScanDir) (s : List Char) (acc : List ScanVal) :
    sscanf_go (ScanDir.ws :: ds) s acc = sscanf_go ds (skipSpace s) acc := by
  rw [sscanf_go]

theorem skipSpace_space (t : List Char) : skipSpace (' ' :: t) = skipSpace t := by
  simp [skipSpace, isspace]

theorem probe_subrip (h1 m1 s1 f1 h2 m2 s2 f2 : List (Fin 10))
    (a1 : h1 ≠ []) (a2 : m1 ≠ []) (a3 : s1 ≠ []) (a4 : f1 ≠ [])
    (a5 : h2 ≠ []) (a6 : m2 ≠ []) (a7 : s2 ≠ []) (a8 : f2 ≠ []) :
    Open_probe_line (subripTimingLine h1 m1 s1 f1 h2 m2 s2 f2) = SUB_TYPE_SUBRIP := by
  have hsami : strcasestr (subripTimingLine h1 m1 s1 f1 h2 m2 s2 f2) "<SAMI>" = none := by
    apply strstr_by_none
    intro c hc
    simp only [subripTimingLine, List.mem_append, List.mem_cons] at hc
    rcases hc with h | rfl | h | rfl | h | rfl | h | rfl | rfl | rfl | rfl | rfl | h | rfl | h |
      rfl | h | rfl | h
    all_goals first
      | exact numeral_not_lt _ c h
      | decide
  have hfirst : sscanf (subripTimingLine h1 m1 s1 f1 h2 m2 s2 f2)
      "%d:%d:%d,%d --> %d:%d:%d,%d" = 8 := by
    simp [sscanf, subripTimingLine, parseFormat, parseFormatFrom, isspace, sscanf_go_int_numeral,
      sscanf_go_int_numeral_end, sscanf_go_nil, sscanf_go_lit_cons, sscanf_go_ws,
      skipSpace_numeral_ne, skipSpace_space, spanDigits, skipSpace, a1, a2, a3, a4, a5, a6, a7, a8]
  have hmicro : ∀ ds, sscanf_go (ScanDir.lit '\x7b' :: ds)
      (subripTimingLine h1 m1 s1 f1 h2 m2 s2 f2) [] = ([], false) := by
    intro ds
    obtain ⟨d, tl, rfl⟩ := List.exists_cons_of_ne_nil a1
    simp [subripTimingLine, numeral, sscanf_go_lit_cons, digitChar_ne_brace]
  unfold Open_probe_line
  rw [hsami, hfirst]
  simp [sscanf, parseFormat, parseFormatFrom, isspace, hmicro]

theorem probe_microdvd (a b : List (Fin 10)) (text : List Char) (ha : a ≠ []) (hb : b ≠ [])
    (hsami : strcasestr (microDvdLine a b text) "<SAMI>" = none) :
    Open_probe_line (microDvdLine a b text) = SUB_TYPE_MICRODVD := by
  have hfirst : sscanf (microDvdLine a b text) "\x7b%d\x7d\x7b%d\x7d" = 2 := by
    simp [sscanf, microDvdLine, parseFormat, parseFormatFrom, isspace, sscanf_go_int_numeral,
      sscanf_go_nil, sscanf_go_lit_cons, spanDigits, ha, hb]
  unfold Open_probe_line
  rw [hsami, hfirst]
  simp

theorem probe_vtt (rest : List Char)
    (h1 : strcasestr ("WEBVTT".data ++ rest) "<SAMI>" = none)
    (h2 : strcasestr ("WEBVTT".data ++ rest) "[INFORMATION]" = none)
    (h3 : strstr ("WEBVTT".data ++ rest) "*** START SCRIPT" = none)
    (h4 : strcasestr ("WEBVTT".data ++ rest) "<time" = none) :
    Open_probe_line ("WEBVTT".data ++ rest) = SUB_TYPE_VTT := by
  unfold Open_probe_line
  rw [h1, h2, h3, h4]
  simp [sscanf, sscanf_vals, parseFormat, parseFormatFrom, isspace, sscanf_go, skipSpace, scanInt, spanDigits,
    strncasecmp, strncasecmp_go, tolower, scanChar?]

theorem sscanf_go_int_eq (ds : List ScanDir) (s : List Char) (acc : List ScanVal) :
    sscanf_go (ScanDir.int :: ds) s acc =
      match scanInt (skipSpace s) with
      | ScanStep.ok v rest => sscanf_go ds rest (acc ++ [v])
      | ScanStep.matchFail => (acc, false)
      | ScanStep.inputFail => (acc, true) := by
  rfl

/-- A scan that stored three values has its input start with the first literal
and a successful first conversion, which is all the shorter format needs. -/
theorem sscanf_brace_int (s : List Char) (h : sscanf s "\x7b%d:%d:%d\x7d" = 3) :
    sscanf s "\x7b%d\x7d\x7b\x7d" = 1 := by
  have f1 : parseFormat "\x7b%d:%d:%d\x7d".data =
      [ScanDir.lit '\x7b', ScanDir.int, ScanDir.lit ':', ScanDir.int, ScanDir.lit ':',
        ScanDir.int, ScanDir.lit '\x7d'] := by decide
  have f2 : parseFormat "\x7b%d\x7d\x7b\x7d".data =
      [ScanDir.lit '\x7b', ScanDir.int, ScanDir.lit '\x7d', ScanDir.lit '\x7b',
        ScanDir.lit '\x7d'] := by decide
  simp only [sscanf, f1, f2] at h ⊢
  cases s with
  | nil => simp [sscanf_go] at h
  | cons x t =>
    rw [sscanf_go_lit_cons] at h ⊢
    by_cases hx : x = '\x7b'
    · rw [if_pos hx] at h ⊢
      rw [sscanf_go_int_eq] at h ⊢
      cases hsc : scanInt (skipSpace t) with
      | ok v rest =>
        have hlen : ∀ (ds : List ScanDir) (r : List Char) (acc : List ScanVal),
            (∀ d ∈ ds, ∃ c, d = ScanDir.lit c) → (sscanf_go ds r acc).1 = acc := by
          intro ds
          induction ds with
          | nil => intro r acc _; rw [sscanf_go]
          | cons d ds ih =>
            intro r acc hd
            obtain ⟨c, rfl⟩ := hd d (List.mem_cons_self d ds)
            cases r with
            | nil => simp [sscanf_go]
            | cons y r =>
              rw [sscanf_go_lit_cons]
              split
              · exact ih r acc (fun d hd2 => hd d (List.mem_cons_of_mem _ hd2))
              · rfl
        have := hlen [ScanDir.lit '\x7d', ScanDir.lit '\x7b', ScanDir.lit '\x7d'] rest
          ([] ++ [v]) (by simp)
        simp only [List.nil_append] at this ⊢
        simp [this]
      | matchFail => rw [hsc] at h; simp at h
      | inputFail => rw [hsc] at h; simp at h
    · rw [if_neg hx] at h; simp at h

theorem ite_ne_of {c : Prop} [Decidable c] {a b x : SubType} (ha : a ≠ x) (hb : b ≠ x) :
    (if c then a else b) ≠ x := by
  split <;> assumption

/-- The PowerDivx test of the probe is never the one that decides. -/
theorem probe_never_psb (s : List Char) : Open_probe_line s ≠ SUB_TYPE_PSB := by
  unfold Open_probe_line
  by_cases h : sscanf s "\x7b%d:%d:%d\x7d" = 3
  · have h1 := sscanf_brace_int s h
    rw [if_pos (Or.inr h1)]
    exact ite_ne_of (by decide) (by decide)
  · rw [if_neg h]
    repeat (first | exact (by decide) | apply ite_ne_of (by decide))


theorem char_sub_ne_zero (a b : Char) (h : a ≠ b) : (a.toNat : Int) - (b.toNat : Int) ≠ 0 := by
  intro hc
  apply h
  have h1 : a.toNat = b.toNat := by omega
  calc a = Char.ofNat a.toNat := (Char.ofNat_toNat a).symm
    _ = Char.ofNat b.toNat := by rw [h1]
    _ = b := Char.ofNat_toNat b

theorem tolower_eq_plus (c : Char) (h : tolower c = '+') : c = '+' := by
  unfold tolower Char.toLower at h
  simp only [] at h
  split at h
  · rename_i hr
    exfalso
    generalize c.toNat = n at hr h
    obtain ⟨h65, h90⟩ := hr
    interval_cases n <;> revert h <;> decide
  · exact h

theorem probe_scripttype_plus (rest : List Char)
    (hsami : strcasestr ("ScriptType: v4.00+".data ++ rest) "<SAMI>" = none) :
    Open_probe_line ("ScriptType: v4.00+".data ++ rest) = SUB_TYPE_ASS := by
  unfold Open_probe_line
  rw [hsami]
  simp [sscanf, parseFormat, parseFormatFrom, isspace, sscanf_go, skipSpace, scanInt, spanDigits,
    strncasecmp, strncasecmp_go, tolower]

theorem probe_scripttype (rest : List Char)
    (hsami : strcasestr ("ScriptType: v4.00".data ++ rest) "<SAMI>" = none)
    (hplus : rest.head? ≠ some '+') :
    Open_probe_line ("ScriptType: v4.00".data ++ rest) = SUB_TYPE_SSA2_4 := by
  have h18 : strncasecmp ("ScriptType: v4.00".data ++ rest) "ScriptType: v4.00+" 18 ≠ 0 := by
    cases rest with
    | nil => simp [strncasecmp, strncasecmp_go, tolower]
    | cons c t =>
      have hc : c ≠ '+' := by simpa using hplus
      have hl : tolower c ≠ '+' := fun h => hc (tolower_eq_plus c h)
      have hd := char_sub_ne_zero (tolower c) '+' hl
      simp [strncasecmp, strncasecmp_go, tolower] at hd hl ⊢
      exact ⟨hl, hd⟩
  unfold Open_probe_line
  rw [hsami, if_neg h18]
  simp [sscanf, parseFormat, parseFormatFrom, isspace, sscanf_go, skipSpace, scanInt, spanDigits,
    strncasecmp, strncasecmp_go, tolower]

theorem probe_dialogue_marked (rest : List Char)
    (hsami : strcasestr ("Dialogue: Marked".data ++ rest) "<SAMI>" = none) :
    Open_probe_line ("Dialogue: Marked".data ++ rest) = SUB_TYPE_SSA2_4 := by
  unfold Open_probe_line
  rw [hsami]
  simp [sscanf, parseFormat, parseFormatFrom, isspace, sscanf_go, skipSpace, scanInt, spanDigits,
    strncasecmp, strncasecmp_go, tolower]

theorem probe_dialogue (rest : List Char)
    (hsami : strcasestr ("Dialogue:".data ++ rest) "<SAMI>" = none)
    (hother : strncasecmp ("Dialogue:".data ++ rest) "Dialogue: Marked" 16 ≠ 0) :
    Open_probe_line ("Dialogue:".data ++ rest) = SUB_TYPE_ASS := by
  unfold Open_probe_line
  rw [hsami, if_neg hother]
  simp [sscanf, parseFormat, parseFormatFrom, isspace, sscanf_go, skipSpace, scanInt, spanDigits,
    strncasecmp, strncasecmp_go, tolower]


theorem Open_probe_loop_never_psb (tries : Nat) (lines : List (List Char)) :
    Open_probe_loop tries lines ≠ SUB_TYPE_PSB := by
  induction tries generalizing lines with
  | zero => simp [Open_probe_loop]
  | succ n ih =>
    cases lines with
    | nil => simp [Open_probe_loop]
    | cons s rest =>
      rw [Open_probe_loop]
      split
      · exact probe_never_psb s
      · exact ih rest

theorem Open_probe_of_line (s : List Char) (post : List (List Char)) (t : SubType)
    (h : Open_probe_line s = t) (ht : t ≠ SUB_TYPE_UNKNOWN) : Open_probe (s :: post) = t := by
  rw [Open_probe_first s post (by rw [h]; exact ht), h]

theorem Open_probe_loop_unknown (tries : Nat) (lines : List (List Char))
    (h : ∀ l ∈ lines.take tries, Open_probe_line l = SUB_TYPE_UNKNOWN) :
    Open_probe_loop tries lines = SUB_TYPE_UNKNOWN := by
  induction tries generalizing lines with
  | zero => rfl
  | succ n ih =>
    cases lines with
    | nil => rfl
    | cons s rest =>
      have hs : Open_probe_line s = SUB_TYPE_UNKNOWN := h s (by simp)
      rw [Open_probe_loop, if_neg (by simp [hs])]
      exact ih rest (fun l hl => h l (by simp [hl]))

/-! ## Lemmas on the parsers -/

theorem ParseSubRipSubViewer_timing_skip (pf : List Char → Option (Int × Int)) (s : List Char)
    (rest : List (List Char)) (hs : ∀ a b, pf s = some (a, b) → b ≤ a) :
    ParseSubRipSubViewer_timing pf (s :: rest) = ParseSubRipSubViewer_timing pf rest := by
  rw [ParseSubRipSubViewer_timing]
  cases h : pf s with
  | none => rfl
  | some ab =>
    obtain ⟨a, b⟩ := ab
    have := hs a b h
    simp only []
    rw [if_neg (by omega)]

theorem ParseSubRipSubViewer_timing_spec (pf : List Char → Option (Int × Int))
    (lines : List (List Char)) (a b : Int) (rest : List (List Char))
    (h : ParseSubRipSubViewer_timing pf lines = some ((a, b), rest)) :
    a < b ∧ rest.length < lines.length := by
  induction lines with
  | nil => simp [ParseSubRipSubViewer_timing] at h
  | cons s tl ih =>
    rw [ParseSubRipSubViewer_timing] at h
    cases hp : pf s with
    | none =>
      rw [hp] at h
      have := ih h
      exact ⟨this.1, by simp; omega⟩
    | some ab =>
      obtain ⟨x, y⟩ := ab
      rw [hp] at h
      simp only [] at h
      by_cases hxy : x < y
      · rw [if_pos hxy] at h
        simp only [Option.some.injEq, Prod.mk.injEq] at h
        obtain ⟨⟨rfl, rfl⟩, rfl⟩ := h
        exact ⟨hxy, by simp⟩
      · rw [if_neg hxy] at h
        have := ih h
        exact ⟨this.1, by simp; omega⟩

theorem ParseSubRipSubViewer_text_length (b_replace_br : Bool) (lines : List (List Char))
    (t : List Char) : (ParseSubRipSubViewer_text b_replace_br lines t).2.length ≤ lines.length := by
  induction lines generalizing t with
  | nil => simp [ParseSubRipSubViewer_text]
  | cons s tl ih =>
    rw [ParseSubRipSubViewer_text]
    by_cases hlen : s.length ≤ 0
    · rw [if_pos hlen]
      simp
    · rw [if_neg hlen]
      have := ih (if b_replace_br = true then
        replace_br (t ++ s ++ ['\n']).length (t ++ s ++ ['\n']) else t ++ s ++ ['\n'])
      simp only [List.length_cons]
      omega

theorem ParseSubRipSubViewer_lt (p_sys : demux_sys_t) (pf : List Char → Option (Int × Int))
    (b_replace_br : Bool) (cue : subtitle_t) (p : demux_sys_t)
    (h : ParseSubRipSubViewer p_sys pf b_replace_br = (some cue, p)) : cue.i_start < cue.i_stop := by
  unfold ParseSubRipSubViewer at h
  cases ht : ParseSubRipSubViewer_timing pf (text_rest p_sys.txt) with
  | none => rw [ht] at h; simp at h
  | some r =>
    obtain ⟨⟨a, b⟩, rest⟩ := r
    rw [ht] at h
    simp only [Prod.mk.injEq, Option.some.injEq] at h
    rw [← h.1]
    exact (ParseSubRipSubViewer_timing_spec pf _ a b rest ht).1

theorem text_rest_advance (txt : text_t) (s : List Char) (rest : List (List Char))
    (h : text_rest txt = s :: rest) : text_rest { txt with i_line := txt.i_line + 1 } = rest := by
  unfold text_rest at h ⊢
  show List.drop (txt.i_line + 1) txt.line = rest
  rw [← List.tail_drop, h]
  rfl

theorem ParseSubRipSubViewer_skip (p_sys : demux_sys_t) (pf : List Char → Option (Int × Int))
    (b_replace_br : Bool) (s : List Char) (rest : List (List Char))
    (hrest : text_rest p_sys.txt = s :: rest) (hs : ∀ a b, pf s = some (a, b) → b ≤ a) :
    ParseSubRipSubViewer p_sys pf b_replace_br =
      ParseSubRipSubViewer { p_sys with txt := { p_sys.txt with i_line := p_sys.txt.i_line + 1 } }
        pf b_replace_br := by
  have hadv := text_rest_advance p_sys.txt s rest hrest
  unfold ParseSubRipSubViewer
  simp only []
  rw [hrest, hadv, ParseSubRipSubViewer_timing_skip pf s rest hs]
  cases ht : ParseSubRipSubViewer_timing pf rest with
  | none =>
    simp only [text_seek, hrest, hadv, List.length_cons, List.length_nil]
    congr 3
    omega
  | some r =>
    obtain ⟨⟨a, b⟩, rest2⟩ := r
    have h1 := (ParseSubRipSubViewer_timing_spec pf rest a b rest2 ht).2
    have h2 := ParseSubRipSubViewer_text_length b_replace_br rest2 []
    simp only [text_seek, hrest, hadv, List.length_cons]
    congr 3
    omega

/-! ## Lemmas on the sync engine -/

theorem StoreAdjustedSubsAsSubRip_p_sys (p : demux_t) :
    (StoreAdjustedSubsAsSubRip p).p_sys = p.p_sys ∧
      (StoreAdjustedSubsAsSubRip p).spu_delay = p.spu_delay := ⟨rfl, rfl⟩

/-- The function `set_current_subtitle_by_time` changes the cursor and the export, nothing else. -/
theorem set_current_subtitle_by_time_frame (p : demux_t) (t : Int) :
    ∃ i, (set_current_subtitle_by_time p t).2.p_sys = { p.p_sys with i_subtitle := i } ∧
      (set_current_subtitle_by_time p t).2.spu_delay = p.spu_delay := by
  refine ⟨set_current_subtitle_by_time_loop p.p_sys t p.p_sys.subtitle 0, ?_⟩
  unfold set_current_subtitle_by_time
  simp only []
  split_ifs <;> exact ⟨rfl, rfl⟩

/-- The function `Apply_sub_speed_delay` makes the pair the current one and publishes the
delay; of the rest of the state only the cursor and the export change. -/
theorem Apply_sub_speed_delay_frame (p : demux_t) (sd : sub_speed_delay) (osd : Bool) :
    ∃ i, (Apply_sub_speed_delay p sd osd).p_sys =
        { p.p_sys with sub_speed_delay_current := sd, i_subtitle := i } ∧
      (Apply_sub_speed_delay p sd osd).spu_delay = sd.sub_delay := by
  unfold Apply_sub_speed_delay
  simp only []
  obtain ⟨i, h1, h2⟩ := set_current_subtitle_by_time_frame
    (SetDemuxSubDelay { p with p_sys := { p.p_sys with sub_speed_delay_current := sd } }
      sd.sub_delay)
    (SetDemuxSubDelay { p with p_sys := { p.p_sys with sub_speed_delay_current := sd } }
      sd.sub_delay).p_sys.i_last_demux_date
  exact ⟨i, by rw [h1]; rfl, by rw [h2]; rfl⟩

theorem ComputeSubSpeedAndDelay_confirm (p_sys : demux_sys_t) (c : sub_speed_delay) :
    ComputeSubSpeedAndDelay { p_sys with sub_speed_delay_user_confirm := c } =
      ComputeSubSpeedAndDelay p_sys := rfl

theorem ComputeSubDelay_Only_confirm (p_sys : demux_sys_t) (c : sub_speed_delay) :
    ComputeSubDelay_Only { p_sys with sub_speed_delay_user_confirm := c } =
      ComputeSubDelay_Only p_sys := rfl

/-- A speed fit that succeeds had a subtitle bookmark set. -/
theorem ComputeSubSpeedAndDelay_bookmark (p_sys : demux_sys_t) (sd : sub_speed_delay)
    (hb : isInt64 p_sys.subtitle_delaybookmarks.i_time_subtitle_n_1)
    (h : ComputeSubSpeedAndDelay p_sys = some sd) :
    p_sys.subtitle_delaybookmarks.i_time_subtitle ≠ 0 := by
  intro h0
  unfold ComputeSubSpeedAndDelay at h
  simp only [] at h
  by_cases h1 : p_sys.subtitle_delaybookmarks.i_time_audio_n_1 ≤ 0 ∨
      p_sys.subtitle_delaybookmarks.i_time_subtitle_n_1 ≤ 0
  · rw [if_pos h1] at h; exact Option.noConfusion h
  · rw [if_neg h1] at h
    have h2 : wrap64 (p_sys.subtitle_delaybookmarks.i_time_subtitle -
        p_sys.subtitle_delaybookmarks.i_time_subtitle_n_1) < 45 * 1000 * 1000 := by
      rw [h0]
      unfold isInt64 INT64_MIN INT64_MAX at hb
      unfold wrap64
      omega
    rw [if_pos h2] at h
    exact Option.noConfusion h

theorem callback_syncbookmarks (p : demux_t) (v : Int) :
    subtitle_external_callback p "sub-syncbookmarks" v = (VLC_SUCCESS, ApplySubtitleDelay p) := by
  unfold subtitle_external_callback
  simp only []
  rw [if_neg (by decide), if_neg (by decide), if_pos (by decide), if_neg (by decide),
    if_neg (by decide)]

theorem callback_syncreset (p : demux_t) (v : Int) :
    subtitle_external_callback p "sub-syncreset" v =
      (VLC_SUCCESS, (set_current_subtitle_by_time
        { SetDemuxSubDelay p 0 with p_sys := { (SetDemuxSubDelay p 0).p_sys with
            sub_speed_delay_current :=
              { (SetDemuxSubDelay p 0).p_sys.sub_speed_delay_current with idx_sub_fps_adjust := 0 }
            subtitle_delaybookmarks := ⟨0, 0, 0, 0⟩ } }
        p.p_sys.i_last_demux_date).2) := by
  rfl

/-- The state `ApplySubtitleDelay` reaches when a proposal is pending and no
bookmark is set. -/
theorem ApplySubtitleDelay_confirm (p : demux_t)
    (h : p.p_sys.sub_speed_delay_user_confirm.idx_sub_fps_adjust ≥ 0 ∧
      p.p_sys.subtitle_delaybookmarks.i_time_audio = 0 ∧
      p.p_sys.subtitle_delaybookmarks.i_time_subtitle = 0) :
    ApplySubtitleDelay p =
      ApplySubtitleDelay_rotate
        { Apply_sub_speed_delay p p.p_sys.sub_speed_delay_user_confirm true with
          p_sys := { (Apply_sub_speed_delay p p.p_sys.sub_speed_delay_user_confirm true).p_sys with
            sub_speed_delay_user_confirm :=
              { (Apply_sub_speed_delay p p.p_sys.sub_speed_delay_user_confirm true).p_sys.sub_speed_delay_user_confirm with
                idx_sub_fps_adjust := -1 } } } := by
  unfold ApplySubtitleDelay
  simp only []
  rw [if_pos h]

/-- The state `ApplySubtitleDelay` reaches on the other branch. -/
theorem ApplySubtitleDelay_compute (p : demux_t)
    (h : ¬ (p.p_sys.sub_speed_delay_user_confirm.idx_sub_fps_adjust ≥ 0 ∧
      p.p_sys.subtitle_delaybookmarks.i_time_audio = 0 ∧
      p.p_sys.subtitle_delaybookmarks.i_time_subtitle = 0)) :
    ∃ i, (ApplySubtitleDelay p).p_sys =
      { p.p_sys with
        sub_speed_delay_user_confirm :=
          (ComputeSubSpeedAndDelay p.p_sys).getD
            { p.p_sys.sub_speed_delay_user_confirm with idx_sub_fps_adjust := -1 }
        sub_speed_delay_current :=
          (ComputeSubDelay_Only p.p_sys).getD p.p_sys.sub_speed_delay_current
        i_subtitle := i
        subtitle_delaybookmarks :=
          ⟨0, 0, p.p_sys.subtitle_delaybookmarks.i_time_subtitle,
            p.p_sys.subtitle_delaybookmarks.i_time_audio⟩ } := by
  unfold ApplySubtitleDelay
  simp only []
  rw [if_neg h, ComputeSubSpeedAndDelay_confirm]
  cases hfit : ComputeSubSpeedAndDelay p.p_sys with
  | none =>
    simp only [ComputeSubDelay_Only_confirm]
    cases hd : ComputeSubDelay_Only p.p_sys with
    | none => exact ⟨p.p_sys.i_subtitle, rfl⟩
    | some d =>
      simp only []
      obtain ⟨i, h1, _⟩ := Apply_sub_speed_delay_frame
        { p with p_sys := { p.p_sys with sub_speed_delay_user_confirm :=
            { p.p_sys.sub_speed_delay_user_confirm with idx_sub_fps_adjust := -1 } } } d
        (none : Option sub_speed_delay).isNone
      refine ⟨i, ?_⟩
      unfold ApplySubtitleDelay_rotate
      rw [h1]
      rfl
  | some c =>
    simp only [ComputeSubDelay_Only_confirm]
    cases hd : ComputeSubDelay_Only p.p_sys with
    | none => exact ⟨p.p_sys.i_subtitle, rfl⟩
    | some d =>
      simp only []
      obtain ⟨i, h1, _⟩ := Apply_sub_speed_delay_frame
        { p with p_sys := { p.p_sys with sub_speed_delay_user_confirm := c } } d
        (some c).isNone
      refine ⟨i, ?_⟩
      unfold ApplySubtitleDelay_rotate
      rw [h1]
      rfl

theorem TextGetLine_some (txt : text_t) (s : List Char) (h : (TextGetLine txt).1 = some s) :
    ∃ rest, text_rest txt = s :: rest ∧
      (TextGetLine txt).2 = { txt with i_line := txt.i_line + 1 } := by
  unfold TextGetLine at h ⊢
  by_cases hlt : txt.i_line ≥ txt.line.length
  · rw [if_pos hlt] at h
    exact Option.noConfusion h
  · rw [if_neg hlt] at h ⊢
    simp only [] at h
    refine ⟨txt.line.drop (txt.i_line + 1), ?_, rfl⟩
    unfold text_rest
    have hlt2 : txt.i_line < txt.line.length := by omega
    rw [List.drop_eq_getElem_cons hlt2]
    rw [List.get?_eq_getElem?, List.getElem?_eq_getElem hlt2] at h
    simp only [Option.some.injEq] at h
    rw [h]

/-- The blocks of the `while` loop of `Demux` on the example store, in a state
where the four times of the store are adjusted by `+ d`. -/
theorem Demux_loop_example (VLC_TS_0 date d : Int) (p_sys : demux_sys_t)
    (hdate : 2000000 + d < date)
    (e0 : adjust_subtitle_time p_sys 0 = d)
    (e1 : adjust_subtitle_time p_sys 1000000 = 1000000 + d)
    (e2 : adjust_subtitle_time p_sys 2000000 = 2000000 + d)
    (e3 : adjust_subtitle_time p_sys 3000000 = 3000000 + d) (a1 : d < date) :
    (Demux_loop VLC_TS_0 p_sys date store_example).2.map (fun b => (b.i_pts, b.i_length)) =
      [(wrap64 (VLC_TS_0 + d), some 1000000),
        (wrap64 (VLC_TS_0 + (2000000 + d)), some 1000000)] := by
  have w : wrap64 1000000 = 1000000 := by decide
  simp [store_example, Demux_loop, e0, e1, e2, e3, a1, hdate, w]

/-- The blocks `Demux` sends from the start of the store for a positive date. -/
theorem Demux_blocks (VLC_TS_0 : Int) (p_sys : demux_sys_t) (h0 : p_sys.i_subtitle = 0)
    (hs : p_sys.subtitle ≠ []) (hdate : 0 < p_sys.i_next_demux_date) :
    (Demux VLC_TS_0 p_sys).2.2 =
      (Demux_loop VLC_TS_0 p_sys p_sys.i_next_demux_date p_sys.subtitle).2 := by
  unfold Demux
  have hlen : 0 < p_sys.subtitle.length := List.length_pos.mpr hs
  rw [if_neg (by omega)]
  simp only []
  rw [if_neg (by omega), h0]
  rfl

/-- The adjusted times of the example store do not depend on the demux dates. -/
theorem adjust_subtitle_time_date (p_sys : demux_sys_t) (date t : Int) :
    adjust_subtitle_time { p_sys with i_next_demux_date := date } t =
      adjust_subtitle_time p_sys t := rfl

/-- A block of `Demux` that carries a duration comes from a cue whose stop is
known and not before its start. -/
theorem Demux_loop_length (VLC_TS_0 : Int) (p_sys : demux_sys_t) (i_maxdate : Int)
    (cues : List subtitle_t) (b : block_t)
    (hb : b ∈ (Demux_loop VLC_TS_0 p_sys i_maxdate cues).2) (hl : b.i_length ≠ none) :
    ∃ c ∈ cues, b.p_buffer = c.psz_text ∧ c.i_stop ≥ 0 ∧ c.i_stop ≥ c.i_start := by
  induction cues with
  | nil => simp [Demux_loop] at hb
  | cons c rest ih =>
    rw [Demux_loop] at hb
    by_cases h1 : adjust_subtitle_time p_sys c.i_start < i_maxdate
    · rw [if_pos h1] at hb
      simp only [] at hb
      by_cases h2 : c.psz_text.length + 1 ≤ 1 ∨ c.i_start < 0
      · rw [if_pos h2] at hb
        obtain ⟨c2, hc2, h⟩ := ih hb
        exact ⟨c2, List.mem_cons_of_mem _ hc2, h⟩
      · rw [if_neg h2] at hb
        rcases List.mem_cons.mp hb with hb | hb
        · refine ⟨c, List.mem_cons_self _ _, ?_⟩
          by_cases h3 : c.i_stop ≥ 0 ∧ c.i_stop ≥ c.i_start
          · exact ⟨by rw [hb], h3⟩
          · rw [hb] at hl
            simp only [if_neg h3] at hl
            exact absurd rfl hl
        · obtain ⟨c2, hc2, h⟩ := ih hb
          exact ⟨c2, List.mem_cons_of_mem _ hc2, h⟩
    · rw [if_neg h1] at hb
      simp at hb

/-! ## Lemmas on rounding -/

theorem pow2_eq (n : Nat) : pow2 n = 2 ^ n := by
  induction n with
  | zero => rfl
  | succ n ih =>
    rw [pow2, ih, Nat.pow_succ, Nat.mul_comm]

theorem bitLog_mono (a b : Nat) (h : a ≤ b) : F32.bitLog a a ≤ F32.bitLog b b := by
  rcases Nat.eq_zero_or_pos a with h0 | hpos
  · rw [h0]
    simp [F32.bitLog]
  · obtain ⟨a1, _⟩ := F32.bitLog_spec a a le_rfl hpos
    obtain ⟨_, b2⟩ := F32.bitLog_spec b b le_rfl (by omega)
    by_contra hn
    have hlt : F32.bitLog b b + 1 ≤ F32.bitLog a a := by omega
    have := Nat.pow_le_pow_right (by norm_num : 0 < 2) hlt
    omega

theorem bitLog_lt_pow (a : Nat) : a < 2 ^ (F32.bitLog a a + 1) := by
  rcases Nat.eq_zero_or_pos a with h0 | hpos
  · rw [h0]
    positivity
  · exact (F32.bitLog_spec a a le_rfl hpos).2

/-- The shape of a rounding: a multiple of the grid spacing, the quotient
rounded down or up, and the quotient itself when the division is exact. -/
theorem roundMagP_eq (k n d : Nat) (hd : 0 < d) :
    ∃ m, roundMagP k n d = m * 2 ^ (F32.bitLog (n / d) (n / d) - k) ∧
      n / (d * 2 ^ (F32.bitLog (n / d) (n / d) - k)) ≤ m ∧
      m ≤ n / (d * 2 ^ (F32.bitLog (n / d) (n / d) - k)) + 1 ∧
      (n % (d * 2 ^ (F32.bitLog (n / d) (n / d) - k)) = 0 →
        m = n / (d * 2 ^ (F32.bitLog (n / d) (n / d) - k))) := by
  have hg : 0 < d * 2 ^ (F32.bitLog (n / d) (n / d) - k) := by positivity
  unfold roundMagP
  simp only [pow2_eq]
  refine ⟨_, rfl, ?_, ?_, ?_⟩
  · split_ifs <;> omega
  · split_ifs <;> omega
  · intro h0
    rw [h0]
    split_ifs <;> omega

/-- A grid point at or below `n / d` is at or below its rounding. -/
theorem roundMagP_lower (k n d j : Nat) (hd : 0 < d)
    (h : j * 2 ^ (F32.bitLog (n / d) (n / d) - k) * d ≤ n) :
    j * 2 ^ (F32.bitLog (n / d) (n / d) - k) ≤ roundMagP k n d := by
  obtain ⟨m, hm, h1, _, _⟩ := roundMagP_eq k n d hd
  have hg : 0 < d * 2 ^ (F32.bitLog (n / d) (n / d) - k) := by positivity
  rw [hm]
  apply Nat.mul_le_mul_right
  refine Nat.le_trans ?_ h1
  rw [Nat.le_div_iff_mul_le hg]
  calc j * (d * 2 ^ (F32.bitLog (n / d) (n / d) - k))
      = j * 2 ^ (F32.bitLog (n / d) (n / d) - k) * d := by ring
    _ ≤ n := h

/-- A grid point at or above `n / d` is at or above its rounding. -/
theorem roundMagP_upper (k n d j : Nat) (hd : 0 < d)
    (h : n ≤ j * 2 ^ (F32.bitLog (n / d) (n / d) - k) * d) :
    roundMagP k n d ≤ j * 2 ^ (F32.bitLog (n / d) (n / d) - k) := by
  obtain ⟨m, hm, _, h2, h3⟩ := roundMagP_eq k n d hd
  have hg : 0 < d * 2 ^ (F32.bitLog (n / d) (n / d) - k) := by positivity
  rw [hm]
  apply Nat.mul_le_mul_right
  have hn : n ≤ j * (d * 2 ^ (F32.bitLog (n / d) (n / d) - k)) := by
    calc n ≤ j * 2 ^ (F32.bitLog (n / d) (n / d) - k) * d := h
      _ = j * (d * 2 ^ (F32.bitLog (n / d) (n / d) - k)) := by ring
  generalize d * 2 ^ (F32.bitLog (n / d) (n / d) - k) = g at hg h2 h3 hn
  have hf : n / g ≤ j := by
    apply Nat.div_le_of_le_mul
    calc n ≤ j * g := hn
      _ = g * j := Nat.mul_comm _ _
  rcases Nat.lt_or_ge (n / g) j with hlt | hge
  · omega
  · have hfj : n / g = j := by omega
    have hmod : n % g = 0 := by
      have h1 := Nat.div_add_mod n g
      rw [hfj] at h1
      have h2' : g * j = j * g := Nat.mul_comm _ _
      omega
    rw [h3 hmod]
    exact hf

/-- Rounding is monotone in the numerator. -/
theorem roundMagP_mono (k n1 n2 d : Nat) (hd : 0 < d) (h : n1 ≤ n2) :
    roundMagP k n1 d ≤ roundMagP k n2 d := by
  have hq : n1 / d ≤ n2 / d := Nat.div_le_div_right h
  have he := bitLog_mono _ _ hq
  rcases Nat.lt_or_ge (F32.bitLog (n1 / d) (n1 / d) - k) (F32.bitLog (n2 / d) (n2 / d) - k)
    with hlt | hge
  · -- different binades: the power of two between them separates the roundings
    have he2 : F32.bitLog (n1 / d) (n1 / d) + 1 ≤ F32.bitLog (n2 / d) (n2 / d) := by omega
    have hq2pos : 0 < n2 / d := by
      rcases Nat.eq_zero_or_pos (n2 / d) with h0 | hp
      · rw [h0] at hlt
        simp [F32.bitLog] at hlt
      · exact hp
    have hlow := (F32.bitLog_spec (n2 / d) (n2 / d) le_rfl hq2pos).1
    have hup := bitLog_lt_pow (n1 / d)
    have hpow : 2 ^ (F32.bitLog (n1 / d) (n1 / d) + 1) ≤ 2 ^ F32.bitLog (n2 / d) (n2 / d) :=
      Nat.pow_le_pow_right (by norm_num) he2
    have s1 : 2 ^ (F32.bitLog (n2 / d) (n2 / d) - (F32.bitLog (n1 / d) (n1 / d) - k)) *
        2 ^ (F32.bitLog (n1 / d) (n1 / d) - k) = 2 ^ F32.bitLog (n2 / d) (n2 / d) := by
      rw [← pow_add]
      congr 1
      omega
    have s2 : 2 ^ (F32.bitLog (n2 / d) (n2 / d) - (F32.bitLog (n2 / d) (n2 / d) - k)) *
        2 ^ (F32.bitLog (n2 / d) (n2 / d) - k) = 2 ^ F32.bitLog (n2 / d) (n2 / d) := by
      rw [← pow_add]
      congr 1
      omega
    have hn1 : n1 ≤ 2 ^ F32.bitLog (n2 / d) (n2 / d) * d := by
      have h1 : n1 < (n1 / d + 1) * d := by
        have := Nat.div_add_mod n1 d
        have := Nat.mod_lt n1 hd
        calc n1 = d * (n1 / d) + n1 % d := by omega
          _ < d * (n1 / d) + d := by omega
          _ = (n1 / d + 1) * d := by ring
      have h2 : (n1 / d + 1) * d ≤ 2 ^ F32.bitLog (n2 / d) (n2 / d) * d :=
        Nat.mul_le_mul_right _ (by omega)
      omega
    have hn2 : 2 ^ F32.bitLog (n2 / d) (n2 / d) * d ≤ n2 := by
      calc 2 ^ F32.bitLog (n2 / d) (n2 / d) * d ≤ n2 / d * d := Nat.mul_le_mul_right _ hlow
        _ ≤ n2 := Nat.div_mul_le_self _ _
    have u := roundMagP_upper k n1 d _ hd (by rw [s1]; exact hn1)
    have l := roundMagP_lower k n2 d _ hd (by rw [s2]; exact hn2)
    rw [s1] at u
    rw [s2] at l
    exact Nat.le_trans u l
  · -- same binade: the same grid
    have hsh : F32.bitLog (n1 / d) (n1 / d) - k = F32.bitLog (n2 / d) (n2 / d) - k := by omega
    unfold roundMagP
    simp only [pow2_eq]
    rw [hsh]
    apply Nat.mul_le_mul_right
    have hg : 0 < d * 2 ^ (F32.bitLog (n2 / d) (n2 / d) - k) := by positivity
    generalize d * 2 ^ (F32.bitLog (n2 / d) (n2 / d) - k) = g at hg ⊢
    have hf : n1 / g ≤ n2 / g := Nat.div_le_div_right h
    have d1 := Nat.div_add_mod n1 g
    have d2 := Nat.div_add_mod n2 g
    have r1 := Nat.mod_lt n1 hg
    have r2 := Nat.mod_lt n2 hg
    rcases Nat.lt_or_ge (n1 / g) (n2 / g) with hflt | hfge
    · split_ifs <;> omega
    · have hfeq : n1 / g = n2 / g := by omega
      rw [hfeq] at d1 ⊢
      have hr : n1 % g ≤ n2 % g := by omega
      split_ifs <;> omega

theorem roundMag_eq_P (n d : Nat) : F32.roundMag n d = roundMagP 23 n d := by
  unfold F32.roundMag roundMagP
  simp only [pow2_eq]

theorem roundMag_mono (n1 n2 d : Nat) (hd : 0 < d) (h : n1 ≤ n2) :
    F32.roundMag n1 d ≤ F32.roundMag n2 d := by
  rw [roundMag_eq_P, roundMag_eq_P]
  exact roundMagP_mono 23 n1 n2 d hd h

theorem adjust_mag_mono (r a b : Nat) (hr : 0 < r) (h : a ≤ b) :
    adjust_mag r a ≤ adjust_mag r b := by
  unfold adjust_mag
  apply Nat.div_le_div_right
  apply roundMag_mono _ _ _ hr
  apply Nat.mul_le_mul_right
  apply roundMag_mono _ _ _ (by norm_num)
  exact Nat.mul_le_mul_right _ h

theorem adjust_mag_le (r a : Nat) (hr : F32.unit ≤ 2 * r) (ha : a ≤ 2 ^ 59) :
    adjust_mag r a ≤ 2 ^ 62 := by
  unfold adjust_mag
  have h1 := F32.roundMag_le (a * F32.unit) 1
  rw [Nat.div_one] at h1
  have h2 := F32.roundMag_le (F32.roundMag (a * F32.unit) 1 * F32.unit) r
  have hq : F32.roundMag (a * F32.unit) 1 * F32.unit / r ≤
      2 * F32.roundMag (a * F32.unit) 1 := by
    apply Nat.div_le_of_le_mul
    calc F32.roundMag (a * F32.unit) 1 * F32.unit
        ≤ F32.roundMag (a * F32.unit) 1 * (2 * r) := Nat.mul_le_mul_left _ hr
      _ = r * (2 * F32.roundMag (a * F32.unit) 1) := by ring
  have hunit : F32.unit = 2 ^ 149 := rfl
  have hb := adjust_bound_aux a (F32.roundMag (a * F32.unit) 1)
    (F32.roundMag (F32.roundMag (a * F32.unit) 1 * F32.unit) r) ha (by rw [← hunit]; exact h1)
    (by omega)
  have h3 := hb.2
  rw [← hunit] at h3
  have := (Nat.div_lt_iff_lt_mul (by rw [hunit]; positivity)).mpr h3
  omega

/-- The value of `adjust_subtitle_time` for a timestamp of magnitude at most
`2^59` under a ratio of at least one half. -/
theorem adjust_subtitle_time_val (p_sys : demux_sys_t) (r : Nat) (t : Int)
    (hspeed : GetDemuxSubSpeed p_sys = F32.fin r) (hr : F32.unit ≤ 2 * r)
    (ht : t.natAbs ≤ 2 ^ 59) :
    adjust_subtitle_time p_sys t =
      wrap64 ((if t < 0 then -(adjust_mag r t.natAbs : Int) else (adjust_mag r t.natAbs : Int)) +
        p_sys.sub_speed_delay_current.sub_delay) := by
  have hu : 0 < F32.unit := by unfold F32.unit; positivity
  have hr0 : 0 < r := by omega
  have h1 := F32.roundMag_le (t.natAbs * F32.unit) 1
  rw [Nat.div_one] at h1
  have hunit : F32.unit = 2 ^ 149 := rfl
  have hmag := adjust_mag_le r t.natAbs hr ht
  unfold adjust_mag at hmag ⊢
  generalize hm1 : F32.roundMag (t.natAbs * F32.unit) 1 = m1 at h1 hmag ⊢
  have h2 := F32.roundMag_le (m1 * F32.unit) r
  have hq : m1 * F32.unit / r ≤ 2 * m1 := by
    apply Nat.div_le_of_le_mul
    calc m1 * F32.unit ≤ m1 * (2 * r) := Nat.mul_le_mul_left _ hr
      _ = r * (2 * m1) := by ring
  generalize hm2 : F32.roundMag (m1 * F32.unit) r = m2 at h2 hmag ⊢
  have hb := adjust_bound_aux t.natAbs m1 m2 ht (by rw [← hunit]; exact h1) (by omega)
  have hof : F32.ofInt t = F32.fin (if t < 0 then -(m1 : Int) else m1) := by
    unfold F32.ofInt F32.round
    rw [hm1]
    have hlt : ¬ F32.unit * 2 ^ 128 ≤ m1 := by
      have := hb.1
      rw [hunit]
      omega
    simp only [hlt, if_false]
    by_cases hneg : t < 0 <;> simp [hneg]
  have hzero : m1 = 0 → m2 = 0 := by
    intro h0
    rw [← hm2, h0, Nat.zero_mul]
    exact F32.roundMag_zero r hr0
  have hdiv : ∀ s : Int, s.natAbs = m1 →
      F32.div (F32.fin s) (F32.fin r) = F32.fin (if s < 0 then -(m2 : Int) else m2) := by
    intro s hs
    have hb1 : ¬ ((r : Int) = 0) := by omega
    have hb2 : ¬ ((r : Int) < 0) := by omega
    have hlt : ¬ F32.unit * 2 ^ 128 ≤ m2 := by
      have := hb.2
      rw [hunit]
      omega
    simp only [F32.div, hb1, if_false, F32.round, Int.natAbs_ofNat, hs, hm2, hlt, hb2,
      decide_False, Bool.bne_false]
    by_cases hneg : s < 0 <;> simp [hneg]
  have htd : Int.tdiv (m2 : Int) (F32.unit : Int) = ((m2 / F32.unit : Nat) : Int) := rfl
  have hpos : F32.toInt64 (F32.fin (m2 : Int)) = ((m2 / F32.unit : Nat) : Int) := by
    show (if INT64_MIN ≤ Int.tdiv (m2 : Int) (F32.unit : Int) ∧
      Int.tdiv (m2 : Int) (F32.unit : Int) ≤ INT64_MAX then Int.tdiv (m2 : Int) (F32.unit : Int)
      else INT64_MIN) = _
    rw [htd]
    generalize m2 / F32.unit = q at hmag ⊢
    unfold INT64_MIN INT64_MAX
    rw [if_pos (by omega)]
  have hneg : F32.toInt64 (F32.fin (-(m2 : Int))) = -((m2 / F32.unit : Nat) : Int) := by
    show (if INT64_MIN ≤ Int.tdiv (-(m2 : Int)) (F32.unit : Int) ∧
      Int.tdiv (-(m2 : Int)) (F32.unit : Int) ≤ INT64_MAX then
        Int.tdiv (-(m2 : Int)) (F32.unit : Int)
      else INT64_MIN) = _
    rw [Int.neg_tdiv, htd]
    generalize m2 / F32.unit = q at hmag ⊢
    unfold INT64_MIN INT64_MAX
    rw [if_pos (by omega)]
  show wrap64 (F32.toInt64 (F32.div (F32.ofInt t) (GetDemuxSubSpeed p_sys)) +
    GetDemuxSubDelay p_sys) = _
  rw [hspeed, hof]
  unfold GetDemuxSubDelay
  congr 2
  by_cases hn : t < 0
  · rw [if_pos hn, if_pos hn]
    rw [hdiv (-(m1 : Int)) (by simp)]
    by_cases hz : -(m1 : Int) < 0
    · rw [if_pos hz, hneg]
    · rw [if_neg hz]
      have hm10 : m1 = 0 := by omega
      have hm20 : m2 = 0 := hzero hm10
      rw [hpos, hm20]
      simp
  · rw [if_neg hn, if_neg hn]
    rw [hdiv (m1 : Int) (by simp)]
    rw [if_neg (by omega), hpos]

/-- Under a table ratio, and as long as the arithmetic stays in range,
`adjust_subtitle_time` is monotone. -/
theorem adjust_subtitle_time_mono (p_sys : demux_sys_t) (r : Nat) (t1 t2 : Int)
    (hspeed : GetDemuxSubSpeed p_sys = F32.fin r) (hr : F32.unit ≤ 2 * r)
    (h1 : t1.natAbs ≤ 2 ^ 59) (h2 : t2.natAbs ≤ 2 ^ 59)
    (hd : -(2 ^ 62) ≤ p_sys.sub_speed_delay_current.sub_delay ∧
      p_sys.sub_speed_delay_current.sub_delay < 2 ^ 62)
    (h : t1 ≤ t2) :
    adjust_subtitle_time p_sys t1 ≤ adjust_subtitle_time p_sys t2 := by
  have hu : 0 < F32.unit := by unfold F32.unit; positivity
  have hr0 : 0 < r := by omega
  rw [adjust_subtitle_time_val p_sys r t1 hspeed hr h1,
    adjust_subtitle_time_val p_sys r t2 hspeed hr h2]
  have b1 := adjust_mag_le r t1.natAbs hr h1
  have b2 := adjust_mag_le r t2.natAbs hr h2
  have key : (if t1 < 0 then -(adjust_mag r t1.natAbs : Int) else (adjust_mag r t1.natAbs : Int)) ≤
      (if t2 < 0 then -(adjust_mag r t2.natAbs : Int) else (adjust_mag r t2.natAbs : Int)) := by
    by_cases n1 : t1 < 0
    · by_cases n2 : t2 < 0
      · rw [if_pos n1, if_pos n2]
        have := adjust_mag_mono r t2.natAbs t1.natAbs hr0 (by omega)
        omega
      · rw [if_pos n1, if_neg n2]
        omega
    · have n2 : ¬ t2 < 0 := by omega
      rw [if_neg n1, if_neg n2]
      have := adjust_mag_mono r t1.natAbs t2.natAbs hr0 (by omega)
      omega
  have hx1 : -(2 ^ 62) ≤
        (if t1 < 0 then -(adjust_mag r t1.natAbs : Int) else (adjust_mag r t1.natAbs : Int)) ∧
      (if t1 < 0 then -(adjust_mag r t1.natAbs : Int) else (adjust_mag r t1.natAbs : Int)) ≤
        2 ^ 62 := by
    split_ifs <;> omega
  have hx2 : -(2 ^ 62) ≤
        (if t2 < 0 then -(adjust_mag r t2.natAbs : Int) else (adjust_mag r t2.natAbs : Int)) ∧
      (if t2 < 0 then -(adjust_mag r t2.natAbs : Int) else (adjust_mag r t2.natAbs : Int)) ≤
        2 ^ 62 := by
    split_ifs <;> omega
  generalize (if t1 < 0 then -(adjust_mag r t1.natAbs : Int) else (adjust_mag r t1.natAbs : Int))
    = x1 at key hx1
  generalize (if t2 < 0 then -(adjust_mag r t2.natAbs : Int) else (adjust_mag r t2.natAbs : Int))
    = x2 at key hx2
  unfold wrap64
  omega

/-! ## Lemmas on the double-precision arithmetic -/

/-- A power of two is its own rounding. -/
theorem roundMagP_pow2 (k e d : Nat) (hd : 0 < d) : roundMagP k (2 ^ e * d) d = 2 ^ e := by
  have hq : 2 ^ e * d / d = 2 ^ e := Nat.mul_div_cancel _ hd
  have hb : F32.bitLog (2 ^ e) (2 ^ e) = e :=
    F32.bitLog_unique (2 ^ e) e le_rfl (Nat.pow_lt_pow_right (by norm_num) (by omega))
  have hs : 2 ^ (e - (e - k)) * 2 ^ (F32.bitLog (2 ^ e * d / d) (2 ^ e * d / d) - k) = 2 ^ e := by
    rw [hq, hb, ← pow_add]
    congr 1
    omega
  have u := roundMagP_upper k (2 ^ e * d) d (2 ^ (e - (e - k))) hd (by rw [hs])
  have l := roundMagP_lower k (2 ^ e * d) d (2 ^ (e - (e - k))) hd (by rw [hs])
  rw [hs] at u l
  exact Nat.le_antisymm u l

namespace F64

set_option maxRecDepth 100000 in
theorem unit_pow : ∃ e, unit = 2 ^ e := ⟨_, pow2_eq _⟩

set_option maxRecDepth 100000 in
theorem unit_pos : 0 < unit := by
  obtain ⟨e, he⟩ := unit_pow
  rw [he]
  exact Nat.two_pow_pos _

set_option maxRecDepth 100000 in
/-- The value 1.0 is its own rounding, over any denominator. -/
theorem roundMagP_one (d : Nat) (hd : 0 < d) : roundMagP 52 (unit * d) d = unit := by
  obtain ⟨e, he⟩ := unit_pow
  rw [he]
  exact roundMagP_pow2 52 e d hd

set_option maxRecDepth 100000 in
/-- The value `2^63` is its own rounding. -/
theorem roundMagP_max : roundMagP 52 (2 ^ 63 * unit) 1 = 2 ^ 63 * unit := by
  obtain ⟨e, he⟩ := unit_pow
  rw [he, ← Nat.pow_add]
  have h := roundMagP_pow2 52 (63 + e) 1 Nat.one_pos
  rw [Nat.mul_one] at h
  exact h

set_option maxRecDepth 100000 in
theorem huge_pow : ∃ e, huge = 2 ^ e ∧ 63 < e := ⟨_, pow2_eq _, by decide⟩

set_option maxRecDepth 100000 in
/-- Below `2^63` there is no overflow. -/
theorem not_overflow (m : Nat) (h : m ≤ 2 ^ 63 * unit) : ¬ unit * huge ≤ m := by
  obtain ⟨e, he, h63⟩ := huge_pow
  have hT : (2 : Nat) ^ 63 < huge := by
    rw [he]
    exact Nat.pow_lt_pow_right (Nat.lt_succ_self 1) h63
  have h2 : 2 ^ 63 * unit < unit * huge := by
    rw [Nat.mul_comm]
    exact (Nat.mul_lt_mul_left unit_pos).mpr hT
  exact Nat.not_le.mpr (Nat.lt_of_le_of_lt h h2)

set_option maxRecDepth 100000 in
/-- The conversion of an integer `0 <= a <= 2^63` is finite. -/
theorem ofInt_nonneg (a : Int) (h0 : 0 ≤ a) (h1 : a ≤ 2 ^ 63) :
    ofInt a = fin (roundMagP 52 (a.natAbs * unit) 1 : Nat) ∧
      roundMagP 52 (a.natAbs * unit) 1 ≤ 2 ^ 63 * unit := by
  have ha : a.natAbs ≤ 2 ^ 63 := by omega
  have hle : roundMagP 52 (a.natAbs * unit) 1 ≤ 2 ^ 63 * unit := by
    have hm := roundMagP_mono 52 (a.natAbs * unit) (2 ^ 63 * unit) 1 Nat.one_pos
      (Nat.mul_le_mul_right _ ha)
    rw [roundMagP_max] at hm
    exact hm
  refine ⟨?_, hle⟩
  unfold ofInt round
  have hlt := not_overflow _ hle
  have hneg : ¬ a < 0 := by omega
  simp only [hlt, if_false, hneg, decide_False, Bool.false_eq_true]

set_option maxRecDepth 100000 in
theorem ofInt_one : ofInt 1 = fin (unit : Nat) := by
  have h := (ofInt_nonneg 1 (by decide) (by decide)).1
  rw [h]
  have hp := roundMagP_one 1 Nat.one_pos
  rw [Nat.mul_one] at hp
  have e : (1 : Int).natAbs * unit = unit := Nat.one_mul _
  rw [e, hp]

set_option maxRecDepth 100000 in
/-- The quotient of two converted integers `0 <= a <= b`, `0 < b <= 2^63`, lies
between 0 and 1. -/
theorem div_le_one (a b : Int) (h0 : 0 ≤ a) (hab : a ≤ b) (hb0 : 0 < b) (hb : b ≤ 2 ^ 63) :
    ∃ q : Nat, div (ofInt a) (ofInt b) = fin (q : Int) ∧ q ≤ unit := by
  have hab2 : a.natAbs ≤ b.natAbs := by omega
  have hb1' : 1 ≤ b.natAbs := by omega
  obtain ⟨ea, _⟩ := ofInt_nonneg a h0 (by omega)
  obtain ⟨eb, hbb⟩ := ofInt_nonneg b (by omega) hb
  have hu := unit_pos
  have hmono : roundMagP 52 (a.natAbs * unit) 1 ≤ roundMagP 52 (b.natAbs * unit) 1 :=
    roundMagP_mono 52 _ _ 1 Nat.one_pos (Nat.mul_le_mul_right _ hab2)
  have hbpos : 0 < roundMagP 52 (b.natAbs * unit) 1 := by
    have hm := roundMagP_mono 52 (unit * 1) (b.natAbs * unit) 1 Nat.one_pos (by
      rw [Nat.mul_one]
      exact Nat.le_mul_of_pos_left _ hb1')
    rw [roundMagP_one 1 Nat.one_pos] at hm
    exact Nat.lt_of_lt_of_le hu hm
  rw [ea, eb]
  clear ea eb
  generalize roundMagP 52 (a.natAbs * unit) 1 = ma at hmono
  generalize roundMagP 52 (b.natAbs * unit) 1 = mb at hmono hbpos hbb
  have hq : roundMagP 52 (ma * unit) mb ≤ unit := by
    have hm := roundMagP_mono 52 (ma * unit) (unit * mb) mb hbpos (by
      rw [Nat.mul_comm unit mb]
      exact Nat.mul_le_mul_right _ hmono)
    rw [roundMagP_one mb hbpos] at hm
    exact hm
  refine ⟨roundMagP 52 (ma * unit) mb, ?_, hq⟩
  have hb1 : ¬ ((mb : Int) = 0) := by
    intro h
    have : mb = 0 := Int.ofNat_eq_zero.mp h
    rw [this] at hbpos
    exact Nat.lt_irrefl 0 hbpos
  have hb2 : ¬ ((mb : Int) < 0) := Int.not_lt.mpr (Int.ofNat_nonneg mb)
  have ha2 : ¬ ((ma : Int) < 0) := Int.not_lt.mpr (Int.ofNat_nonneg ma)
  have hlt := not_overflow (roundMagP 52 (ma * unit) mb)
    (Nat.le_trans hq (Nat.le_mul_of_pos_left _ (Nat.two_pow_pos 63)))
  simp only [div, hb1, if_false, round, Int.natAbs_ofNat, hlt, hb2, ha2, decide_False,
    Bool.bne_false, Bool.false_eq_true]

end F64

/-- The state `ApplySubtitleDelay` reaches when no proposal is pending and the
delay-only correction does not apply: only the pending proposal and the
bookmarks change. -/
theorem ApplySubtitleDelay_missing (p : demux_t)
    (h : ¬ (p.p_sys.sub_speed_delay_user_confirm.idx_sub_fps_adjust ≥ 0 ∧
      p.p_sys.subtitle_delaybookmarks.i_time_audio = 0 ∧
      p.p_sys.subtitle_delaybookmarks.i_time_subtitle = 0))
    (hd : ComputeSubDelay_Only p.p_sys = none) :
    ApplySubtitleDelay p =
      { p with p_sys := { p.p_sys with
          sub_speed_delay_user_confirm :=
            (ComputeSubSpeedAndDelay p.p_sys).getD
              { p.p_sys.sub_speed_delay_user_confirm with idx_sub_fps_adjust := -1 }
          subtitle_delaybookmarks :=
            ⟨0, 0, p.p_sys.subtitle_delaybookmarks.i_time_subtitle,
              p.p_sys.subtitle_delaybookmarks.i_time_audio⟩ } } := by
  unfold ApplySubtitleDelay
  simp only []
  rw [if_neg h, ComputeSubSpeedAndDelay_confirm]
  cases hfit : ComputeSubSpeedAndDelay p.p_sys with
  | none =>
    simp only [ComputeSubDelay_Only_confirm, hd]
    rfl
  | some c =>
    simp only [ComputeSubDelay_Only_confirm, hd]
    rfl

theorem ComputeSubDelay_Only_none (p_sys : demux_sys_t)
    (h : p_sys.subtitle_delaybookmarks.i_time_audio = 0 ∨
      p_sys.subtitle_delaybookmarks.i_time_subtitle = 0) :
    ComputeSubDelay_Only p_sys = none := by
  unfold ComputeSubDelay_Only
  simp only []
  rw [if_pos h]

theorem ComputeSubDelay_Only_some (p_sys : demux_sys_t)
    (ha : p_sys.subtitle_delaybookmarks.i_time_audio ≠ 0)
    (hs : p_sys.subtitle_delaybookmarks.i_time_subtitle ≠ 0) :
    ComputeSubDelay_Only p_sys =
      some ⟨wrap64 (p_sys.sub_speed_delay_current.sub_delay +
          wrap64 (p_sys.subtitle_delaybookmarks.i_time_audio -
            p_sys.subtitle_delaybookmarks.i_time_subtitle)),
        p_sys.sub_speed_delay_current.idx_sub_fps_adjust⟩ := by
  unfold ComputeSubDelay_Only
  simp only []
  rw [if_neg (by
    intro h
    rcases h with h | h
    · exact ha h
    · exact hs h)]
  rfl

/-- The state `ApplySubtitleDelay` reaches when the delay-only correction
applies: the corrected pair is the current one and is published. -/
theorem ApplySubtitleDelay_delay_only (p : demux_t)
    (ha : p.p_sys.subtitle_delaybookmarks.i_time_audio ≠ 0)
    (hs : p.p_sys.subtitle_delaybookmarks.i_time_subtitle ≠ 0) :
    ∃ sd, ComputeSubDelay_Only p.p_sys = some sd ∧
      (ApplySubtitleDelay p).p_sys.sub_speed_delay_current = sd ∧
      (ApplySubtitleDelay p).spu_delay = sd.sub_delay := by
  refine ⟨_, ComputeSubDelay_Only_some p.p_sys ha hs, ?_⟩
  have hd := ComputeSubDelay_Only_some p.p_sys ha hs
  unfold ApplySubtitleDelay
  simp only []
  rw [if_neg (fun h => ha h.2.1), ComputeSubSpeedAndDelay_confirm]
  cases hfit : ComputeSubSpeedAndDelay p.p_sys with
  | none =>
    simp only [ComputeSubDelay_Only_confirm, hd]
    obtain ⟨i, h1, h2⟩ := Apply_sub_speed_delay_frame
      { p with p_sys := { p.p_sys with sub_speed_delay_user_confirm :=
          { p.p_sys.sub_speed_delay_user_confirm with idx_sub_fps_adjust := -1 } } }
      ⟨wrap64 (p.p_sys.sub_speed_delay_current.sub_delay +
          wrap64 (p.p_sys.subtitle_delaybookmarks.i_time_audio -
            p.p_sys.subtitle_delaybookmarks.i_time_subtitle)),
        p.p_sys.sub_speed_delay_current.idx_sub_fps_adjust⟩
      (none : Option sub_speed_delay).isNone
    unfold ApplySubtitleDelay_rotate
    simp only []
    rw [h1, h2]
    exact ⟨rfl, rfl⟩
  | some c =>
    simp only [ComputeSubDelay_Only_confirm, hd]
    obtain ⟨i, h1, h2⟩ := Apply_sub_speed_delay_frame
      { p with p_sys := { p.p_sys with sub_speed_delay_user_confirm := c } }
      ⟨wrap64 (p.p_sys.sub_speed_delay_current.sub_delay +
          wrap64 (p.p_sys.subtitle_delaybookmarks.i_time_audio -
            p.p_sys.subtitle_delaybookmarks.i_time_subtitle)),
        p.p_sys.sub_speed_delay_current.idx_sub_fps_adjust⟩
      (some c).isNone
    unfold ApplySubtitleDelay_rotate
    simp only []
    rw [h1, h2]
    exact ⟨rfl, rfl⟩

theorem callback_spu_delay (p : demux_t) (v : Int) :
    subtitle_external_callback p "spu-delay" v = (VLC_SUCCESS, p) := by
  rfl

/-- The cursor the loop of `set_current_subtitle_by_time` reaches from index `i`:
it stops at the first cue that passes the test, or after the last cue. -/
theorem set_current_subtitle_by_time_loop_spec (p_sys : demux_sys_t) (t : Int)
    (cues : List subtitle_t) (i : Nat) :
    i ≤ set_current_subtitle_by_time_loop p_sys t cues i ∧
      set_current_subtitle_by_time_loop p_sys t cues i ≤ i + cues.length ∧
      (∀ j c, i + j < set_current_subtitle_by_time_loop p_sys t cues i → cues.get? j = some c →
        ¬ (adjust_subtitle_time p_sys c.i_start > t ∨
          (c.i_stop > c.i_start ∧ adjust_subtitle_time p_sys c.i_stop > t))) ∧
      (set_current_subtitle_by_time_loop p_sys t cues i < i + cues.length →
        ∃ c, cues.get? (set_current_subtitle_by_time_loop p_sys t cues i - i) = some c ∧
          (adjust_subtitle_time p_sys c.i_start > t ∨
            (c.i_stop > c.i_start ∧ adjust_subtitle_time p_sys c.i_stop > t))) := by
  induction cues generalizing i with
  | nil =>
    refine ⟨Nat.le_refl _, Nat.le_refl _, ?_, ?_⟩
    · intro j c _ hc
      simp at hc
    · intro h
      simp [set_current_subtitle_by_time_loop] at h
  | cons c rest ih =>
    rw [set_current_subtitle_by_time_loop]
    by_cases h1 : adjust_subtitle_time p_sys c.i_start > t
    · rw [if_pos h1]
      refine ⟨Nat.le_refl _, by simp, ?_, ?_⟩
      · intro j c2 hj _
        omega
      · intro _
        exact ⟨c, by simp, Or.inl h1⟩
    · rw [if_neg h1]
      by_cases h2 : c.i_stop > c.i_start ∧ adjust_subtitle_time p_sys c.i_stop > t
      · rw [if_pos h2]
        refine ⟨Nat.le_refl _, by simp, ?_, ?_⟩
        · intro j c2 hj _
          omega
        · intro _
          exact ⟨c, by simp, Or.inr h2⟩
      · rw [if_neg h2]
        obtain ⟨a1, a2, a3, a4⟩ := ih (i + 1)
        refine ⟨by omega, by simp only [List.length_cons]; omega, ?_, ?_⟩
        · intro j c2 hj hc
          cases j with
          | zero =>
            simp only [List.get?_cons_zero, Option.some.injEq] at hc
            rw [← hc]
            intro h
            rcases h with h | h
            · exact h1 h
            · exact h2 h
          | succ j =>
            simp only [List.get?_cons_succ] at hc
            exact a3 j c2 (by omega) hc
        · intro hlt
          simp only [List.length_cons] at hlt
          obtain ⟨c2, hc2, hp⟩ := a4 (by omega)
          refine ⟨c2, ?_, hp⟩
          have e : set_current_subtitle_by_time_loop p_sys t rest (i + 1) - i =
              (set_current_subtitle_by_time_loop p_sys t rest (i + 1) - (i + 1)) + 1 := by omega
          rw [e, List.get?_cons_succ]
          exact hc2

/-- The cursor of `set_current_subtitle_by_time` is computed from the store and
the sync state alone. -/
theorem set_current_subtitle_by_time_loop_cursor (p_sys : demux_sys_t) (j : Nat) (t : Int)
    (cues : List subtitle_t) (i : Nat) :
    set_current_subtitle_by_time_loop { p_sys with i_subtitle := j } t cues i =
      set_current_subtitle_by_time_loop p_sys t cues i := by
  induction cues generalizing i with
  | nil => rfl
  | cons c rest ih =>
    rw [set_current_subtitle_by_time_loop, set_current_subtitle_by_time_loop, ih]
    rfl

/-! ## Lemmas on `Demux` -/

/-- The blocks of the `while` loop of `Demux` are those of its trace. -/
theorem Demux_loop_sent (VLC_TS_0 : Int) (p_sys : demux_sys_t) (i_maxdate : Int)
    (cues : List subtitle_t) (i : Nat) :
    (Demux_loop VLC_TS_0 p_sys i_maxdate cues).2 =
      (Demux_sent VLC_TS_0 p_sys i_maxdate cues i).map Prod.snd := by
  induction cues generalizing i with
  | nil => rfl
  | cons c rest ih =>
    rw [Demux_loop, Demux_sent]
    by_cases h1 : adjust_subtitle_time p_sys c.i_start < i_maxdate
    · rw [if_pos h1, if_pos h1]
      simp only []
      by_cases h2 : c.psz_text.length + 1 ≤ 1 ∨ c.i_start < 0
      · rw [if_pos h2, if_pos h2]
        exact ih (i + 1)
      · rw [if_neg h2, if_neg h2]
        simp only [List.map_cons]
        rw [← ih (i + 1)]
        rfl
    · rw [if_neg h1, if_neg h1]
      rfl

/-- The blocks of `Demux` are those of its trace. -/
theorem Demux_blocks_trace (VLC_TS_0 : Int) (p_sys : demux_sys_t) :
    (Demux VLC_TS_0 p_sys).2.2 = (Demux_trace VLC_TS_0 p_sys).map Prod.snd := by
  unfold Demux Demux_trace
  by_cases h : p_sys.i_subtitle ≥ p_sys.subtitle.length
  · rw [if_pos h, if_pos h]
    rfl
  · rw [if_neg h, if_neg h]
    exact Demux_loop_sent VLC_TS_0 p_sys (Demux_maxdate p_sys) _ p_sys.i_subtitle

/-- The cursor `Demux` leaves. -/
theorem Demux_cursor (VLC_TS_0 : Int) (p_sys : demux_sys_t) :
    (Demux VLC_TS_0 p_sys).2.1.i_subtitle =
      if p_sys.i_subtitle ≥ p_sys.subtitle.length then p_sys.i_subtitle
      else p_sys.i_subtitle +
        (Demux_loop VLC_TS_0 p_sys (Demux_maxdate p_sys)
          (p_sys.subtitle.drop p_sys.i_subtitle)).1 := by
  unfold Demux
  by_cases h : p_sys.i_subtitle ≥ p_sys.subtitle.length
  · rw [if_pos h, if_pos h]
  · rw [if_neg h, if_neg h]
    rfl

/-- The number of cues the `while` loop of `Demux` passes: all of them have an
adjusted start before the horizon, and the next one, if any, has not. -/
theorem Demux_loop_passed (VLC_TS_0 : Int) (p_sys : demux_sys_t) (i_maxdate : Int)
    (cues : List subtitle_t) :
    (Demux_loop VLC_TS_0 p_sys i_maxdate cues).1 ≤ cues.length ∧
      (∀ j c, j < (Demux_loop VLC_TS_0 p_sys i_maxdate cues).1 → cues.get? j = some c →
        adjust_subtitle_time p_sys c.i_start < i_maxdate) ∧
      ((Demux_loop VLC_TS_0 p_sys i_maxdate cues).1 < cues.length →
        ∃ c, cues.get? (Demux_loop VLC_TS_0 p_sys i_maxdate cues).1 = some c ∧
          ¬ adjust_subtitle_time p_sys c.i_start < i_maxdate) := by
  induction cues with
  | nil =>
    refine ⟨Nat.le_refl _, ?_, ?_⟩
    · intro j c _ hc
      simp at hc
    · intro h
      simp [Demux_loop] at h
  | cons c rest ih =>
    obtain ⟨a1, a2, a3⟩ := ih
    have hval : (Demux_loop VLC_TS_0 p_sys i_maxdate (c :: rest)).1 =
        if adjust_subtitle_time p_sys c.i_start < i_maxdate then
          (Demux_loop VLC_TS_0 p_sys i_maxdate rest).1 + 1 else 0 := by
      rw [Demux_loop]
      split_ifs <;> rfl
    rw [hval]
    by_cases h1 : adjust_subtitle_time p_sys c.i_start < i_maxdate
    · rw [if_pos h1]
      refine ⟨by simp only [List.length_cons]; omega, ?_, ?_⟩
      · intro j c2 hj hc
        cases j with
        | zero =>
          simp only [List.get?_cons_zero, Option.some.injEq] at hc
          rw [← hc]
          exact h1
        | succ j =>
          simp only [List.get?_cons_succ] at hc
          exact a2 j c2 (by omega) hc
      · intro hlt
        simp only [List.length_cons] at hlt
        obtain ⟨c2, hc2, hp⟩ := a3 (by omega)
        exact ⟨c2, by rw [List.get?_cons_succ]; exact hc2, hp⟩
    · rw [if_neg h1]
      refine ⟨Nat.zero_le _, ?_, ?_⟩
      · intro j c2 hj _
        omega
      · intro _
        exact ⟨c, by simp, h1⟩

/-- The trace of the `while` loop of `Demux`: the cues passed that have a text
and a non-negative start, each with its index and its block. -/
theorem Demux_sent_mem (VLC_TS_0 : Int) (p_sys : demux_sys_t) (i_maxdate : Int)
    (cues : List subtitle_t) (i k : Nat) (b : block_t) :
    (k, b) ∈ Demux_sent VLC_TS_0 p_sys i_maxdate cues i ↔
      ∃ j c, k = i + j ∧ j < (Demux_loop VLC_TS_0 p_sys i_maxdate cues).1 ∧
        cues.get? j = some c ∧ ¬ (c.psz_text.length + 1 ≤ 1 ∨ c.i_start < 0) ∧
        b = Demux_block VLC_TS_0 p_sys c := by
  induction cues generalizing i with
  | nil =>
    simp [Demux_sent, Demux_loop]
  | cons c rest ih =>
    have hval : (Demux_loop VLC_TS_0 p_sys i_maxdate (c :: rest)).1 =
        if adjust_subtitle_time p_sys c.i_start < i_maxdate then
          (Demux_loop VLC_TS_0 p_sys i_maxdate rest).1 + 1 else 0 := by
      rw [Demux_loop]
      split_ifs <;> rfl
    rw [hval, Demux_sent]
    by_cases h1 : adjust_subtitle_time p_sys c.i_start < i_maxdate
    · rw [if_pos h1, if_pos h1]
      have tail : (k, b) ∈ Demux_sent VLC_TS_0 p_sys i_maxdate rest (i + 1) ↔
          ∃ j c2, k = i + j ∧ j < (Demux_loop VLC_TS_0 p_sys i_maxdate rest).1 + 1 ∧
            (c :: rest).get? j = some c2 ∧ ¬ (c2.psz_text.length + 1 ≤ 1 ∨ c2.i_start < 0) ∧
            b = Demux_block VLC_TS_0 p_sys c2 ∧ j ≠ 0 := by
        rw [ih (i + 1)]
        constructor
        · rintro ⟨j, c2, hk, hj, hc, hs, hb⟩
          exact ⟨j + 1, c2, by omega, by omega, by rw [List.get?_cons_succ]; exact hc, hs, hb,
            by omega⟩
        · rintro ⟨j, c2, hk, hj, hc, hs, hb, h0⟩
          cases j with
          | zero => exact absurd rfl h0
          | succ j =>
            rw [List.get?_cons_succ] at hc
            exact ⟨j, c2, by omega, by omega, hc, hs, hb⟩
      by_cases h2 : c.psz_text.length + 1 ≤ 1 ∨ c.i_start < 0
      · rw [if_pos h2, tail]
        constructor
        · rintro ⟨j, c2, hk, hj, hc, hs, hb, _⟩
          exact ⟨j, c2, hk, hj, hc, hs, hb⟩
        · rintro ⟨j, c2, hk, hj, hc, hs, hb⟩
          refine ⟨j, c2, hk, hj, hc, hs, hb, ?_⟩
          intro h0
          rw [h0] at hc
          simp only [List.get?_cons_zero, Option.some.injEq] at hc
          rw [← hc] at hs
          exact hs h2
      · rw [if_neg h2, List.mem_cons, tail]
        constructor
        · rintro (h | ⟨j, c2, hk, hj, hc, hs, hb, _⟩)
          · simp only [Prod.mk.injEq] at h
            exact ⟨0, c, by omega, by omega, by simp, h2, h.2⟩
          · exact ⟨j, c2, hk, hj, hc, hs, hb⟩
        · rintro ⟨j, c2, hk, hj, hc, hs, hb⟩
          cases j with
          | zero =>
            left
            simp only [List.get?_cons_zero, Option.some.injEq] at hc
            rw [hb, ← hc]
            have hk0 : k = i := by omega
            rw [hk0]
          | succ j =>
            right
            exact ⟨j + 1, c2, hk, hj, hc, hs, hb, by omega⟩
    · rw [if_neg h1, if_neg h1]
      simp

/-- The indices in the trace of the `while` loop of `Demux` increase, from the
start index on and below the cursor the loop leaves. -/
theorem Demux_sent_sorted (VLC_TS_0 : Int) (p_sys : demux_sys_t) (i_maxdate : Int)
    (cues : List subtitle_t) (i : Nat) :
    List.Pairwise (fun a b => a < b)
        ((Demux_sent VLC_TS_0 p_sys i_maxdate cues i).map Prod.fst) ∧
      ∀ k ∈ (Demux_sent VLC_TS_0 p_sys i_maxdate cues i).map Prod.fst,
        i ≤ k ∧ k < i + (Demux_loop VLC_TS_0 p_sys i_maxdate cues).1 := by
  induction cues generalizing i with
  | nil =>
    simp [Demux_sent]
  | cons c rest ih =>
    have hval : (Demux_loop VLC_TS_0 p_sys i_maxdate (c :: rest)).1 =
        if adjust_subtitle_time p_sys c.i_start < i_maxdate then
          (Demux_loop VLC_TS_0 p_sys i_maxdate rest).1 + 1 else 0 := by
      rw [Demux_loop]
      split_ifs <;> rfl
    rw [hval, Demux_sent]
    obtain ⟨s1, s2⟩ := ih (i + 1)
    by_cases h1 : adjust_subtitle_time p_sys c.i_start < i_maxdate
    · rw [if_pos h1, if_pos h1]
      by_cases h2 : c.psz_text.length + 1 ≤ 1 ∨ c.i_start < 0
      · rw [if_pos h2]
        refine ⟨s1, ?_⟩
        intro k hk
        have := s2 k hk
        omega
      · rw [if_neg h2]
        simp only [List.map_cons, List.pairwise_cons, List.mem_cons]
        refine ⟨⟨?_, s1⟩, ?_⟩
        · intro k hk
          have := s2 k hk
          omega
        · rintro k (hk | hk)
          · omega
          · have := s2 k hk
            omega
    · rw [if_neg h1, if_neg h1]
      simp

theorem drop_get? {α : Type} (l : List α) (i j : Nat) : (l.drop i).get? j = l.get? (i + j) := by
  rw [List.get?_eq_getElem?, List.get?_eq_getElem?, List.getElem?_drop]

/-- One `Demux` pass: the cursor does not decrease, and the indices sent
increase from the old cursor on and stay below the new one. -/
theorem Demux_pass_spec (VLC_TS_0 : Int) (p_sys : demux_sys_t) :
    p_sys.i_subtitle ≤ (Demux VLC_TS_0 p_sys).2.1.i_subtitle ∧
      List.Pairwise (fun a b => a < b) ((Demux_trace VLC_TS_0 p_sys).map Prod.fst) ∧
      ∀ k ∈ (Demux_trace VLC_TS_0 p_sys).map Prod.fst,
        p_sys.i_subtitle ≤ k ∧ k < (Demux VLC_TS_0 p_sys).2.1.i_subtitle := by
  rw [Demux_cursor]
  unfold Demux_trace
  by_cases h : p_sys.i_subtitle ≥ p_sys.subtitle.length
  · rw [if_pos h, if_pos h]
    simp
  · rw [if_neg h, if_neg h]
    obtain ⟨s1, s2⟩ := Demux_sent_sorted VLC_TS_0 p_sys (Demux_maxdate p_sys)
      (p_sys.subtitle.drop p_sys.i_subtitle) p_sys.i_subtitle
    exact ⟨by omega, s1, s2⟩

theorem Demux_maxdate_pos (p_sys : demux_sys_t) (h : 0 < p_sys.i_next_demux_date) :
    Demux_maxdate p_sys = p_sys.i_next_demux_date := by
  unfold Demux_maxdate
  rw [if_neg (by omega)]

/-- The trace of one `Demux` pass inside the store. -/
theorem Demux_trace_mem (VLC_TS_0 : Int) (p_sys : demux_sys_t) (k : Nat) (b : block_t) :
    (k, b) ∈ Demux_trace VLC_TS_0 p_sys ↔
      p_sys.i_subtitle ≤ k ∧ k < (Demux VLC_TS_0 p_sys).2.1.i_subtitle ∧
        ∃ c, p_sys.subtitle.get? k = some c ∧ ¬ (c.psz_text.length + 1 ≤ 1 ∨ c.i_start < 0) ∧
          b = Demux_block VLC_TS_0 p_sys c := by
  rw [Demux_cursor]
  unfold Demux_trace
  by_cases h : p_sys.i_subtitle ≥ p_sys.subtitle.length
  · rw [if_pos h, if_pos h]
    simp only [List.not_mem_nil, false_iff]
    rintro ⟨h1, h2, _⟩
    omega
  · rw [if_neg h, if_neg h, Demux_sent_mem]
    constructor
    · rintro ⟨j, c, hk, hj, hc, hs, hb⟩
      rw [drop_get?] at hc
      exact ⟨by omega, by omega, c, by rw [hk]; exact hc, hs, hb⟩
    · rintro ⟨h1, h2, c, hc, hs, hb⟩
      refine ⟨k - p_sys.i_subtitle, c, by omega, by omega, ?_, hs, hb⟩
      rw [drop_get?]
      have e : p_sys.i_subtitle + (k - p_sys.i_subtitle) = k := by omega
      rw [e]
      exact hc

/-- The cues `Demux` passes in one pass have an adjusted start before the
horizon of the pass. -/
theorem Demux_passed_before (VLC_TS_0 : Int) (p_sys : demux_sys_t) (k : Nat) (c : subtitle_t)
    (h1 : p_sys.i_subtitle ≤ k) (h2 : k < (Demux VLC_TS_0 p_sys).2.1.i_subtitle)
    (hc : p_sys.subtitle.get? k = some c) :
    adjust_subtitle_time p_sys c.i_start < Demux_maxdate p_sys := by
  rw [Demux_cursor] at h2
  by_cases h : p_sys.i_subtitle ≥ p_sys.subtitle.length
  · rw [if_pos h] at h2
    omega
  · rw [if_neg h] at h2
    obtain ⟨_, a2, _⟩ := Demux_loop_passed VLC_TS_0 p_sys (Demux_maxdate p_sys)
      (p_sys.subtitle.drop p_sys.i_subtitle)
    refine a2 (k - p_sys.i_subtitle) c (by omega) ?_
    rw [drop_get?]
    have e : p_sys.i_subtitle + (k - p_sys.i_subtitle) = k := by omega
    rw [e]
    exact hc

/-- In a store sorted by start, an earlier cue starts no later than a later one. -/
theorem StartSorted_get (subs : List subtitle_t) (h : StartSorted subs) (i j : Nat)
    (a b : subtitle_t) (hij : i ≤ j) (ha : subs.get? i = some a) (hb : subs.get? j = some b) :
    a.i_start ≤ b.i_start := by
  haveI : IsTrans subtitle_t (fun a b => a.i_start ≤ b.i_start) :=
    ⟨fun _ _ _ h1 h2 => le_trans h1 h2⟩
  have hp : List.Pairwise (fun a b : subtitle_t => a.i_start ≤ b.i_start) subs :=
    List.chain'_iff_pairwise.mp h
  rcases Nat.lt_or_ge i j with hlt | hge
  · rw [List.get?_eq_getElem?] at ha hb
    obtain ⟨hi, hai⟩ := List.getElem?_eq_some_iff.mp ha
    obtain ⟨hj, hbj⟩ := List.getElem?_eq_some_iff.mp hb
    have := List.pairwise_iff_getElem.mp hp i j hi hj hlt
    rw [hai, hbj] at this
    exact this
  · have e : i = j := by omega
    rw [e, hb] at ha
    simp only [Option.some.injEq] at ha
    rw [ha]

/-! ## Lemmas on the rounding error -/

/-- A rounding is within half a grid step of the exact quotient. -/
theorem roundMagP_half (k n d : Nat) (hd : 0 < d) :
    2 * (roundMagP k n d * d) ≤ 2 * n + d * 2 ^ (F32.bitLog (n / d) (n / d) - k) ∧
      2 * n ≤ 2 * (roundMagP k n d * d) + d * 2 ^ (F32.bitLog (n / d) (n / d) - k) := by
  unfold roundMagP
  simp only [pow2_eq]
  have hP : 0 < 2 ^ (F32.bitLog (n / d) (n / d) - k) := by positivity
  generalize 2 ^ (F32.bitLog (n / d) (n / d) - k) = P at hP ⊢
  have hg : 0 < d * P := Nat.mul_pos hd hP
  have hdm := Nat.div_add_mod n (d * P)
  have hr := Nat.mod_lt n hg
  have e : ∀ m, m * P * d = m * (d * P) := by
    intro m
    ring
  generalize n / (d * P) = f at *
  generalize n % (d * P) = r at *
  have hc : d * P * f = f * (d * P) := Nat.mul_comm _ _
  rw [hc] at hdm
  have e1 : (f + 1) * (d * P) = f * (d * P) + d * P := by ring
  generalize hX : f * (d * P) = X at *
  generalize d * P = g at *
  split_ifs
  · rw [e, hX]
    omega
  · rw [e, e1]
    omega
  · rw [e, hX]
    omega
  · rw [e, e1]
    omega

/-- In the normal range a rounding has a relative error of at most `2^-24`. -/
theorem roundMag_rel (n d : Nat) (hd : 0 < d) (hn : 2 ^ 23 * d ≤ n) :
    2 ^ 24 * (F32.roundMag n d * d) ≤ (2 ^ 24 + 1) * n ∧
      (2 ^ 24 - 1) * n ≤ 2 ^ 24 * (F32.roundMag n d * d) := by
  rw [roundMag_eq_P]
  obtain ⟨h1, h2⟩ := roundMagP_half 23 n d hd
  have hq : 2 ^ 23 ≤ n / d := (Nat.le_div_iff_mul_le hd).mpr hn
  have hq0 : 0 < n / d := lt_of_lt_of_le (by positivity) hq
  obtain ⟨b1, b2⟩ := F32.bitLog_spec (n / d) (n / d) le_rfl hq0
  have he : 23 ≤ F32.bitLog (n / d) (n / d) := by
    by_contra hlt
    have : F32.bitLog (n / d) (n / d) + 1 ≤ 23 := by omega
    have := Nat.pow_le_pow_right (by decide : 0 < 2) this
    omega
  have hpow : 2 ^ 23 * 2 ^ (F32.bitLog (n / d) (n / d) - 23) = 2 ^ F32.bitLog (n / d) (n / d) := by
    rw [← Nat.pow_add]
    congr 1
    omega
  have hgn : 2 ^ 23 * (d * 2 ^ (F32.bitLog (n / d) (n / d) - 23)) ≤ n := by
    calc 2 ^ 23 * (d * 2 ^ (F32.bitLog (n / d) (n / d) - 23))
        = d * (2 ^ 23 * 2 ^ (F32.bitLog (n / d) (n / d) - 23)) := by ring
      _ = d * 2 ^ F32.bitLog (n / d) (n / d) := by rw [hpow]
      _ ≤ d * (n / d) := Nat.mul_le_mul_left _ b1
      _ ≤ n := Nat.mul_div_le n d
  generalize roundMagP 23 n d * d = X at *
  generalize d * 2 ^ (F32.bitLog (n / d) (n / d) - 23) = g at *
  omega

/-- A rounding in the normal range is finite, with a relative error of at most
`2^-24`. -/
theorem round_rel (s : Bool) (n d : Nat) (hd : 0 < d) (hlo : 2 ^ 23 * d ≤ n)
    (hhi : n < d * (F32.unit * 2 ^ 127)) :
    ∃ m : Nat, F32.round s n d = F32.fin (if s then -(m : Int) else m) ∧
      2 ^ 24 * (m * d) ≤ (2 ^ 24 + 1) * n ∧ (2 ^ 24 - 1) * n ≤ 2 ^ 24 * (m * d) := by
  obtain ⟨h1, h2⟩ := roundMag_rel n d hd hlo
  refine ⟨F32.roundMag n d, ?_, h1, h2⟩
  unfold F32.round
  simp only []
  rw [if_neg]
  intro hov
  have h3 : F32.unit * 2 ^ 128 * d ≤ F32.roundMag n d * d := Nat.mul_le_mul_right d hov
  have h4 : F32.unit * 2 ^ 128 * d = 2 * (d * (F32.unit * 2 ^ 127)) := by ring
  generalize F32.roundMag n d * d = X at *
  generalize d * (F32.unit * 2 ^ 127) = Y at *
  generalize F32.unit * 2 ^ 128 * d = Z at *
  omega

theorem unit_cast : ((F32.unit : Nat) : ℚ) = 2 ^ 149 := by
  unfold F32.unit
  rw [Nat.cast_pow]
  rfl

theorem rel_of_nat (M N D U : ℚ) (hD : 0 < D) (hU : 0 < U)
    (c1 : 16777216 * (M * D) ≤ 16777217 * N) (c2 : 16777215 * N ≤ 16777216 * (M * D)) :
    |M / U - N / D / U| ≤ N / D / U / 2 ^ 24 := by
  have k1 : M / U - N / D / U = (M * D - N) / (D * U) := by
    field_simp
    ring
  have k2 : N / D / U / 2 ^ 24 = (N / 2 ^ 24) / (D * U) := by
    field_simp
    left
    ring
  rw [k1, k2, abs_div, abs_of_pos (mul_pos hD hU)]
  apply div_le_div_of_nonneg_right _ (le_of_lt (mul_pos hD hU))
  rw [abs_le]
  constructor <;> linarith

set_option maxRecDepth 100000 in
/-- A rounding of the rational `w` in the normal range is finite and within
`|w| / 2^24` of `w`. -/
theorem round_val (s : Bool) (n d : Nat) (w : ℚ) (hd : 0 < d)
    (hw : |w| = (n : ℚ) / d / 2 ^ 149) (hs : if s then w ≤ 0 else 0 ≤ w)
    (hlo : 1 / 2 ^ 126 ≤ |w|) (hhi : |w| < 2 ^ 127) :
    ∃ c : Int, F32.round s n d = F32.fin c ∧ |realOf c - w| ≤ |w| / 2 ^ 24 := by
  have hdq : (0 : ℚ) < d := Nat.cast_pos.mpr hd
  have hU : (0 : ℚ) < 2 ^ 149 := by positivity
  have h1 : 2 ^ 23 * d ≤ n := by
    rw [hw] at hlo
    have h : (1 : ℚ) / 2 ^ 126 * 2 ^ 149 * d ≤ n := by
      rw [le_div_iff₀ hU, le_div_iff₀ hdq] at hlo
      exact hlo
    have e : (1 : ℚ) / 2 ^ 126 * 2 ^ 149 = 2 ^ 23 := by norm_num
    rw [e] at h
    have h2 : ((2 ^ 23 * d : Nat) : ℚ) ≤ (n : ℚ) := by
      rw [Nat.cast_mul, Nat.cast_pow]
      exact h
    exact Nat.cast_le.mp h2
  have h2 : n < d * (F32.unit * 2 ^ 127) := by
    rw [hw] at hhi
    have h : (n : ℚ) < 2 ^ 127 * 2 ^ 149 * d := by
      rw [div_lt_iff₀ hU, div_lt_iff₀ hdq] at hhi
      exact hhi
    have h3 : (n : ℚ) < ((d * (F32.unit * 2 ^ 127) : Nat) : ℚ) := by
      rw [Nat.cast_mul, Nat.cast_mul, unit_cast, Nat.cast_pow]
      calc (n : ℚ) < 2 ^ 127 * 2 ^ 149 * d := h
        _ = d * (2 ^ 149 * ((2 : Nat) : ℚ) ^ 127) := by
          rw [Nat.cast_ofNat]
          ring
    exact Nat.cast_lt.mp h3
  obtain ⟨m, hm, b1, b2⟩ := round_rel s n d hd h1 h2
  have c1 : (16777216 : ℚ) * (m * d) ≤ 16777217 * n := by
    have : ((2 ^ 24 * (m * d) : Nat) : ℚ) ≤ (((2 ^ 24 + 1) * n : Nat) : ℚ) := Nat.cast_le.mpr b1
    push_cast at this
    exact this
  have c2 : (16777215 : ℚ) * n ≤ 16777216 * (m * d) := by
    have : (((2 ^ 24 - 1) * n : Nat) : ℚ) ≤ ((2 ^ 24 * (m * d) : Nat) : ℚ) := Nat.cast_le.mpr b2
    push_cast at this
    exact this
  have hmq := rel_of_nat m n d (2 ^ 149) hdq hU c1 c2
  refine ⟨_, hm, ?_⟩
  have hn0 : (0 : ℚ) ≤ (n : ℚ) / d / 2 ^ 149 := by positivity
  cases s with
  | false =>
    simp only [Bool.false_eq_true, if_false] at hs ⊢
    rw [abs_of_nonneg hs] at hw
    unfold realOf
    rw [abs_of_nonneg hs, hw, Int.cast_natCast]
    exact hmq
  | true =>
    simp only [if_true] at hs ⊢
    rw [abs_of_nonpos hs] at hw
    have hw2 : w = -((n : ℚ) / d / 2 ^ 149) := by linarith
    unfold realOf
    rw [abs_of_nonpos hs, hw, hw2, Int.cast_neg, Int.cast_natCast, neg_div, ← neg_sub', abs_neg]
    exact hmq

theorem realOf_zero : realOf 0 = 0 := by
  unfold realOf
  simp

theorem realOf_neg (a : Int) : realOf (-a) = -realOf a := by
  unfold realOf
  rw [Int.cast_neg, neg_div]

theorem realOf_unit (t : Int) : realOf (t * (F32.unit : Nat)) = t := by
  unfold realOf
  rw [Int.cast_mul, Int.cast_natCast, unit_cast]
  field_simp

theorem realOf_le (a b : Int) : realOf a ≤ realOf b ↔ a ≤ b := by
  unfold realOf
  rw [div_le_div_iff_of_pos_right (by positivity)]
  exact Int.cast_le

theorem natAbs_cast (a : Int) : ((a.natAbs : Nat) : ℚ) = |(a : ℚ)| := by
  rw [Nat.cast_natAbs, Int.cast_abs]

set_option maxRecDepth 100000 in
/-- The conversion `(float)t` of a non-zero 64-bit integer has a relative error
of at most `2^-24`. -/
theorem ofInt_val (t : Int) (h0 : t ≠ 0) (hhi : t.natAbs < 2 ^ 64) :
    ∃ c : Int, F32.ofInt t = F32.fin c ∧ |realOf c - t| ≤ |(t : ℚ)| / 2 ^ 24 := by
  unfold F32.ofInt
  have h1 : (1 : ℚ) ≤ |(t : ℚ)| := by
    rw [← natAbs_cast]
    have : 1 ≤ t.natAbs := by omega
    exact_mod_cast this
  have h2 : |(t : ℚ)| < 2 ^ 64 := by
    rw [← natAbs_cast]
    exact_mod_cast hhi
  apply round_val _ _ _ (t : ℚ) Nat.one_pos
  · rw [Nat.cast_mul, unit_cast, natAbs_cast, Nat.cast_one, div_one]
    field_simp
  · by_cases ht : t < 0
    · rw [decide_eq_true ht, if_pos rfl]
      exact le_of_lt (Int.cast_lt_zero.mpr ht)
    · rw [decide_eq_false ht]
      simp only [Bool.false_eq_true, if_false]
      exact Int.cast_nonneg.mpr (by omega)
  · calc (1 : ℚ) / 2 ^ 126 ≤ 1 := by norm_num
      _ ≤ |(t : ℚ)| := h1
  · calc |(t : ℚ)| < 2 ^ 64 := h2
      _ ≤ 2 ^ 127 := by norm_num

set_option maxRecDepth 100000 in
/-- A division in the normal range has a relative error of at most `2^-24`. -/
theorem div_val (a b : Int) (hb : b ≠ 0) (hlo : 1 / 2 ^ 126 ≤ |realOf a / realOf b|)
    (hhi : |realOf a / realOf b| < 2 ^ 127) :
    ∃ c : Int, F32.div (F32.fin a) (F32.fin b) = F32.fin c ∧
      |realOf c - realOf a / realOf b| ≤ |realOf a / realOf b| / 2 ^ 24 := by
  have hbq : (b : ℚ) ≠ 0 := Int.cast_ne_zero.mpr hb
  have e : realOf a / realOf b = (a : ℚ) / b := by
    unfold realOf
    field_simp
  rw [e] at hlo hhi ⊢
  show ∃ c : Int, (if b = 0 then _ else _) = F32.fin c ∧ _
  rw [if_neg hb]
  apply round_val _ _ _ ((a : ℚ) / b) (by omega)
  · rw [Nat.cast_mul, unit_cast, natAbs_cast, natAbs_cast, abs_div]
    have : |(b : ℚ)| ≠ 0 := abs_ne_zero.mpr hbq
    field_simp
    ring
  · by_cases ha : a < 0 <;> by_cases hb2 : b < 0
    · rw [decide_eq_true ha, decide_eq_true hb2]
      simp only [bne_self_eq_false, Bool.false_eq_true, if_false]
      exact div_nonneg_of_nonpos (le_of_lt (Int.cast_lt_zero.mpr ha))
        (le_of_lt (Int.cast_lt_zero.mpr hb2))
    · rw [decide_eq_true ha, decide_eq_false hb2]
      simp only [Bool.true_bne, Bool.not_false, if_true]
      exact div_nonpos_of_nonpos_of_nonneg (le_of_lt (Int.cast_lt_zero.mpr ha))
        (Int.cast_nonneg.mpr (by omega))
    · rw [decide_eq_false ha, decide_eq_true hb2]
      simp only [Bool.false_bne, if_true]
      exact div_nonpos_of_nonneg_of_nonpos (Int.cast_nonneg.mpr (by omega))
        (le_of_lt (Int.cast_lt_zero.mpr hb2))
    · rw [decide_eq_false ha, decide_eq_false hb2]
      simp only [bne_self_eq_false, Bool.false_eq_true, if_false]
      exact div_nonneg (Int.cast_nonneg.mpr (by omega)) (Int.cast_nonneg.mpr (by omega))
  · exact hlo
  · exact hhi

set_option maxRecDepth 100000 in
/-- An addition in the normal range has a relative error of at most `2^-24`. -/
theorem add_val (a b : Int) (hlo : 1 / 2 ^ 126 ≤ |realOf a + realOf b|)
    (hhi : |realOf a + realOf b| < 2 ^ 127) :
    ∃ c : Int, F32.add (F32.fin a) (F32.fin b) = F32.fin c ∧
      |realOf c - (realOf a + realOf b)| ≤ |realOf a + realOf b| / 2 ^ 24 := by
  have e : realOf a + realOf b = ((a + b : Int) : ℚ) / 2 ^ 149 := by
    unfold realOf
    rw [Int.cast_add, add_div]
  show ∃ c : Int, F32.round _ _ _ = F32.fin c ∧ _
  apply round_val _ _ _ _ Nat.one_pos
  · rw [e, natAbs_cast, Nat.cast_one, div_one, abs_div, abs_of_pos (by positivity : (0 : ℚ) < 2 ^ 149)]
  · rw [e]
    by_cases h : a + b < 0
    · rw [decide_eq_true h, if_pos rfl]
      exact div_nonpos_of_nonpos_of_nonneg (le_of_lt (Int.cast_lt_zero.mpr h)) (by positivity)
    · rw [decide_eq_false h]
      simp only [Bool.false_eq_true, if_false]
      exact div_nonneg (Int.cast_nonneg.mpr (by omega)) (by positivity)
  · exact hlo
  · exact hhi

/-- A subtraction in the normal range has a relative error of at most `2^-24`. -/
theorem sub_val (a b : Int) (hlo : 1 / 2 ^ 126 ≤ |realOf a - realOf b|)
    (hhi : |realOf a - realOf b| < 2 ^ 127) :
    ∃ c : Int, F32.sub (F32.fin a) (F32.fin b) = F32.fin c ∧
      |realOf c - (realOf a - realOf b)| ≤ |realOf a - realOf b| / 2 ^ 24 := by
  have e : realOf a - realOf b = realOf a + realOf (-b) := by
    rw [realOf_neg, sub_eq_add_neg]
  rw [e] at hlo hhi ⊢
  exact add_val a (-b) hlo hhi

set_option maxRecDepth 100000 in
/-- A multiplication in the normal range has a relative error of at most
`2^-24`. -/
theorem mul_val (a b : Int) (hlo : 1 / 2 ^ 126 ≤ |realOf a * realOf b|)
    (hhi : |realOf a * realOf b| < 2 ^ 127) :
    ∃ c : Int, F32.mul (F32.fin a) (F32.fin b) = F32.fin c ∧
      |realOf c - realOf a * realOf b| ≤ |realOf a * realOf b| / 2 ^ 24 := by
  have e : realOf a * realOf b = (a : ℚ) * b / 2 ^ 149 / 2 ^ 149 := by
    unfold realOf
    field_simp
  show ∃ c : Int, F32.round _ _ _ = F32.fin c ∧ _
  apply round_val _ _ _ _ (by unfold F32.unit; positivity)
  · rw [e, Nat.cast_mul, unit_cast, natAbs_cast, natAbs_cast, abs_div, abs_div, abs_mul,
      abs_of_pos (by positivity : (0 : ℚ) < 2 ^ 149)]
  · rw [e]
    by_cases ha : a < 0 <;> by_cases hb2 : b < 0
    · rw [decide_eq_true ha, decide_eq_true hb2]
      simp only [bne_self_eq_false, Bool.false_eq_true, if_false]
      have := mul_nonneg_of_nonpos_of_nonpos (le_of_lt (Int.cast_lt_zero (R := ℚ).mpr ha))
        (le_of_lt (Int.cast_lt_zero (R := ℚ).mpr hb2))
      positivity
    · rw [decide_eq_true ha, decide_eq_false hb2]
      simp only [Bool.true_bne, Bool.not_false, if_true]
      have := mul_nonpos_of_nonpos_of_nonneg (le_of_lt (Int.cast_lt_zero (R := ℚ).mpr ha))
        (Int.cast_nonneg (R := ℚ).mpr (by omega : 0 ≤ b))
      exact div_nonpos_of_nonpos_of_nonneg
        (div_nonpos_of_nonpos_of_nonneg this (by positivity)) (by positivity)
    · rw [decide_eq_false ha, decide_eq_true hb2]
      simp only [Bool.false_bne, if_true]
      have := mul_nonpos_of_nonneg_of_nonpos (Int.cast_nonneg (R := ℚ).mpr (by omega : 0 ≤ a))
        (le_of_lt (Int.cast_lt_zero (R := ℚ).mpr hb2))
      exact div_nonpos_of_nonpos_of_nonneg
        (div_nonpos_of_nonpos_of_nonneg this (by positivity)) (by positivity)
    · rw [decide_eq_false ha, decide_eq_false hb2]
      simp only [bne_self_eq_false, Bool.false_eq_true, if_false]
      have := mul_nonneg (Int.cast_nonneg (R := ℚ).mpr (by omega : 0 ≤ a))
        (Int.cast_nonneg (R := ℚ).mpr (by omega : 0 ≤ b))
      positivity
  · exact hlo
  · exact hhi

theorem rel_pos (v w : ℚ) (h : |v - w| ≤ |w| / 2 ^ 24) (hw : 0 < w) :
    w * (1 - 1 / 2 ^ 24) ≤ v ∧ v ≤ w * (1 + 1 / 2 ^ 24) := by
  rw [abs_of_pos hw, abs_le] at h
  constructor <;> linarith

theorem rel_neg (v w : ℚ) (h : |v - w| ≤ |w| / 2 ^ 24) (hw : w < 0) :
    w * (1 + 1 / 2 ^ 24) ≤ v ∧ v ≤ w * (1 - 1 / 2 ^ 24) := by
  rw [abs_of_neg hw, abs_le] at h
  constructor <;> linarith

/-! ## Lemmas on the scan of the table -/

theorem round_ne_nan (s : Bool) (n d : Nat) : F32.round s n d ≠ F32.nan := by
  unfold F32.round
  simp only []
  split_ifs <;> exact F32.noConfusion

theorem le_inf_false (x : F32) (hx : x ≠ F32.nan) : F32.le x (F32.inf false) = true := by
  cases x with
  | fin a => rfl
  | inf n => cases n <;> rfl
  | nan => exact absurd rfl hx

theorem inf_true_le (x : F32) (hx : x ≠ F32.nan) : F32.le (F32.inf true) x = true := by
  cases x with
  | fin a => rfl
  | inf n => cases n <;> rfl
  | nan => exact absurd rfl hx

theorem srnd_mono (z1 z2 : Int) (d : Nat) (hd : 0 < d) (h : z1 ≤ z2) :
    F32.le (srnd z1 d) (srnd z2 d) = true := by
  by_cases h2 : z2 < 0
  · -- both negative
    have h1 : z1 < 0 := by omega
    have hm : F32.roundMag z2.natAbs d ≤ F32.roundMag z1.natAbs d :=
      roundMag_mono _ _ d hd (by omega)
    unfold srnd F32.round
    simp only [h1, h2, decide_True, if_true]
    by_cases o1 : F32.unit * 2 ^ 128 ≤ F32.roundMag z1.natAbs d
    · rw [if_pos o1]
      apply inf_true_le
      split_ifs <;> exact F32.noConfusion
    · rw [if_neg o1, if_neg (by omega)]
      show decide (_ ≤ _) = true
      apply decide_eq_true
      omega
  · by_cases h1 : z1 < 0
    · unfold srnd F32.round
      simp only [h1, h2, decide_True, decide_False, if_true]
      by_cases o1 : F32.unit * 2 ^ 128 ≤ F32.roundMag z1.natAbs d
      · rw [if_pos o1]
        apply inf_true_le
        split_ifs <;> exact F32.noConfusion
      · rw [if_neg o1]
        by_cases o2 : F32.unit * 2 ^ 128 ≤ F32.roundMag z2.natAbs d
        · rw [if_pos o2]
          rfl
        · rw [if_neg o2]
          show decide (_ ≤ _) = true
          apply decide_eq_true
          simp only [Bool.false_eq_true, if_false]
          omega
    · have hm : F32.roundMag z1.natAbs d ≤ F32.roundMag z2.natAbs d :=
        roundMag_mono _ _ d hd (by omega)
      unfold srnd F32.round
      simp only [h1, h2, decide_False]
      by_cases o2 : F32.unit * 2 ^ 128 ≤ F32.roundMag z2.natAbs d
      · rw [if_pos o2]
        apply le_inf_false
        split_ifs <;> exact F32.noConfusion
      · rw [if_neg o2, if_neg (by omega)]
        show decide (_ ≤ _) = true
        apply decide_eq_true
        simp only [Bool.false_eq_true, if_false]
        omega

theorem srnd_ne_nan (z : Int) (d : Nat) : srnd z d ≠ F32.nan := round_ne_nan _ _ _

theorem add_fin_srnd (a b : Int) : F32.add (F32.fin a) (F32.fin b) = srnd (a + b) 1 := rfl

theorem sub_fin_srnd (a b : Int) : F32.sub (F32.fin a) (F32.fin b) = srnd (a - b) 1 := rfl

theorem div_fin_pos (a c : Int) (hc : 0 < c) :
    F32.div (F32.fin a) (F32.fin c) = srnd (a * F32.unit) c.natAbs := by
  have hu : (0 : Int) < (F32.unit : Int) := by
    have : 0 < F32.unit := by unfold F32.unit; positivity
    exact_mod_cast this
  have e1 : decide (c < 0) = false := decide_eq_false (by omega)
  have e2 : decide (a * (F32.unit : Int) < 0) = decide (a < 0) := by
    by_cases ha : a < 0
    · rw [decide_eq_true ha, decide_eq_true (Int.mul_neg_of_neg_of_pos ha hu)]
    · rw [decide_eq_false ha, decide_eq_false (by
        have := Int.mul_nonneg (by omega : 0 ≤ a) (le_of_lt hu)
        omega)]
  have e3 : (a * (F32.unit : Int)).natAbs = a.natAbs * F32.unit := by
    rw [Int.natAbs_mul, Int.natAbs_ofNat]
  unfold srnd
  rw [e2, e3]
  show (if c = 0 then _ else _) = _
  rw [if_neg (by omega), e1]
  cases decide (a < 0) <;> rfl

theorem div_fin_neg (a c : Int) (hc : c < 0) :
    F32.div (F32.fin a) (F32.fin c) = srnd (-(a * F32.unit)) c.natAbs := by
  have hu : (0 : Int) < (F32.unit : Int) := by
    have : 0 < F32.unit := by unfold F32.unit; positivity
    exact_mod_cast this
  have e1 : decide (c < 0) = true := decide_eq_true hc
  have e3 : (-(a * (F32.unit : Int))).natAbs = a.natAbs * F32.unit := by
    rw [Int.natAbs_neg, Int.natAbs_mul, Int.natAbs_ofNat]
  unfold srnd
  rw [e3]
  show (if c = 0 then _ else _) = _
  rw [if_neg (by omega), e1]
  rcases lt_trichotomy a 0 with ha | ha | ha
  · have : ¬ (-(a * (F32.unit : Int)) < 0) := by
      have := Int.mul_neg_of_neg_of_pos ha hu
      omega
    rw [decide_eq_true ha, decide_eq_false this]
    rfl
  · rw [ha]
    have hc0 : 0 < c.natAbs := by omega
    show F32.round _ (0 * F32.unit) _ = F32.round _ (0 * F32.unit) _
    rw [Nat.zero_mul]
    unfold F32.round
    rw [F32.roundMag_zero _ hc0]
    have hu0 : F32.unit ≠ 0 := by omega
    simp [hu0]
  · have : -(a * (F32.unit : Int)) < 0 := by
      have := Int.mul_pos ha hu
      omega
    rw [decide_eq_false (by omega : ¬ a < 0), decide_eq_true this]
    rfl

theorem sub_le_sub_fin (k : Int) (v w : F32) (h : F32.le v w = true) :
    F32.le (F32.sub v (F32.fin k)) (F32.sub w (F32.fin k)) = true := by
  cases v with
  | fin a =>
    cases w with
    | fin b =>
      rw [sub_fin_srnd, sub_fin_srnd]
      have hab : a ≤ b := of_decide_eq_true h
      exact srnd_mono _ _ 1 Nat.one_pos (by omega)
    | inf n =>
      cases n with
      | false =>
        rw [sub_fin_srnd]
        exact le_inf_false _ (srnd_ne_nan _ _)
      | true => exact absurd h Bool.false_ne_true
    | nan => exact absurd h Bool.false_ne_true
  | inf n =>
    cases w with
    | fin b =>
      cases n with
      | false => exact absurd h Bool.false_ne_true
      | true =>
        rw [sub_fin_srnd]
        exact inf_true_le _ (srnd_ne_nan _ _)
    | inf m => cases n <;> cases m <;> first | rfl | exact absurd h Bool.false_ne_true
    | nan => exact absurd h Bool.false_ne_true
  | nan => cases w <;> exact absurd h Bool.false_ne_true

theorem div_le_div_pos (c : Int) (hc : 0 < c) (v w : F32) (h : F32.le v w = true) :
    F32.le (F32.div v (F32.fin c)) (F32.div w (F32.fin c)) = true := by
  have hu : (0 : Int) ≤ (F32.unit : Int) := Int.ofNat_nonneg _
  have e1 : decide (c < 0) = false := decide_eq_false (by omega)
  cases v with
  | fin a =>
    cases w with
    | fin b =>
      rw [div_fin_pos _ _ hc, div_fin_pos _ _ hc]
      have hab : a ≤ b := of_decide_eq_true h
      exact srnd_mono _ _ _ (by omega) (Int.mul_le_mul_of_nonneg_right hab hu)
    | inf n =>
      cases n with
      | false =>
        rw [div_fin_pos _ _ hc]
        show F32.le _ (F32.inf (false != decide (c < 0))) = true
        rw [e1]
        exact le_inf_false _ (srnd_ne_nan _ _)
      | true => exact absurd h Bool.false_ne_true
    | nan => exact absurd h Bool.false_ne_true
  | inf n =>
    cases w with
    | fin b =>
      cases n with
      | false => exact absurd h Bool.false_ne_true
      | true =>
        rw [div_fin_pos _ _ hc]
        show F32.le (F32.inf (true != decide (c < 0))) _ = true
        rw [e1]
        exact inf_true_le _ (srnd_ne_nan _ _)
    | inf m =>
      show F32.le (F32.inf (n != decide (c < 0))) (F32.inf (m != decide (c < 0))) = true
      rw [e1]
      cases n <;> cases m <;> first | rfl | exact absurd h Bool.false_ne_true
    | nan => exact absurd h Bool.false_ne_true
  | nan => cases w <;> exact absurd h Bool.false_ne_true

theorem div_le_div_neg (c : Int) (hc : c < 0) (v w : F32) (h : F32.le v w = true) :
    F32.le (F32.div w (F32.fin c)) (F32.div v (F32.fin c)) = true := by
  have hu : (0 : Int) ≤ (F32.unit : Int) := Int.ofNat_nonneg _
  have e1 : decide (c < 0) = true := decide_eq_true hc
  cases v with
  | fin a =>
    cases w with
    | fin b =>
      rw [div_fin_neg _ _ hc, div_fin_neg _ _ hc]
      have hab : a ≤ b := of_decide_eq_true h
      have := Int.mul_le_mul_of_nonneg_right hab hu
      exact srnd_mono _ _ _ (by omega) (by omega)
    | inf n =>
      cases n with
      | false =>
        rw [div_fin_neg _ _ hc]
        show F32.le (F32.inf (false != decide (c < 0))) _ = true
        rw [e1]
        exact inf_true_le _ (srnd_ne_nan _ _)
      | true => exact absurd h Bool.false_ne_true
    | nan => exact absurd h Bool.false_ne_true
  | inf n =>
    cases w with
    | fin b =>
      cases n with
      | false => exact absurd h Bool.false_ne_true
      | true =>
        rw [div_fin_neg _ _ hc]
        show F32.le _ (F32.inf (true != decide (c < 0))) = true
        rw [e1]
        exact le_inf_false _ (srnd_ne_nan _ _)
    | inf m =>
      show F32.le (F32.inf (m != decide (c < 0))) (F32.inf (n != decide (c < 0))) = true
      rw [e1]
      cases n <;> cases m <;> first | rfl | exact absurd h Bool.false_ne_true
    | nan => exact absurd h Bool.false_ne_true
  | nan => cases w <;> exact absurd h Bool.false_ne_true

theorem le_sandwich (v : F32) (p q : Int) (h1 : F32.le (F32.fin p) v = true)
    (h2 : F32.le v (F32.fin q) = true) : ∃ e, v = F32.fin e ∧ p ≤ e ∧ e ≤ q := by
  cases v with
  | fin e => exact ⟨e, rfl, of_decide_eq_true h1, of_decide_eq_true h2⟩
  | inf n => cases n <;> first | exact absurd h1 Bool.false_ne_true | exact absurd h2 Bool.false_ne_true
  | nan => exact absurd h1 Bool.false_ne_true

theorem ofInt_one_single : F32.ofInt 1 = F32.fin F32.unit := by
  set_option maxRecDepth 100000 in decide

theorem fit_signed_mono_pos (c : Int) (hc : 0 < c) (x y : Int) (h : x ≤ y) :
    F32.le (fit_signed c x) (fit_signed c y) = true := by
  unfold fit_signed
  rw [ofInt_one_single]
  apply sub_le_sub_fin
  apply div_le_div_pos _ hc
  apply sub_le_sub_fin
  exact decide_eq_true h

theorem fit_signed_mono_neg (c : Int) (hc : c < 0) (x y : Int) (h : x ≤ y) :
    F32.le (fit_signed c y) (fit_signed c x) = true := by
  unfold fit_signed
  rw [ofInt_one_single]
  apply sub_le_sub_fin
  apply div_le_div_neg _ hc
  apply sub_le_sub_fin
  exact decide_eq_true h

theorem fit_between_sound (ratio : F32) (lo hi x a b : Int)
    (h : fit_between ratio lo hi = some (a, b)) (hx : lo ≤ x ∧ x ≤ hi) :
    ∃ e : Int, fit_error ratio (F32.fin x) = F32.fin (e.natAbs : Int) ∧ a ≤ e ∧ e ≤ b := by
  unfold fit_between at h
  cases hsub : F32.sub ratio (F32.ofInt 1) with
  | fin c =>
    rw [hsub] at h
    simp only [] at h
    by_cases hc0 : c = 0
    · rw [if_pos hc0] at h
      exact Option.noConfusion h
    · rw [if_neg hc0] at h
      cases hp : fit_signed c lo with
      | fin p =>
        cases hq : fit_signed c hi with
        | fin q =>
          rw [hp, hq] at h
          simp only [Option.some.injEq, Prod.mk.injEq] at h
          have hval : fit_error ratio (F32.fin x) = F32.fabs (fit_signed c x) := by
            unfold fit_error fit_signed
            rw [hsub]
          rcases lt_or_gt_of_ne hc0 with hneg | hpos
          · have m1 := fit_signed_mono_neg c hneg lo x hx.1
            have m2 := fit_signed_mono_neg c hneg x hi hx.2
            rw [hp] at m1
            rw [hq] at m2
            obtain ⟨e, he, e1, e2⟩ := le_sandwich _ _ _ m2 m1
            refine ⟨e, ?_, ?_, ?_⟩
            · rw [hval, he]
              rfl
            · rw [← h.1]
              exact le_trans (min_le_right _ _) e1
            · rw [← h.2]
              exact le_trans e2 (le_max_left _ _)
          · have m1 := fit_signed_mono_pos c hpos lo x hx.1
            have m2 := fit_signed_mono_pos c hpos x hi hx.2
            rw [hp] at m1
            rw [hq] at m2
            obtain ⟨e, he, e1, e2⟩ := le_sandwich _ _ _ m1 m2
            refine ⟨e, ?_, ?_, ?_⟩
            · rw [hval, he]
              rfl
            · rw [← h.1]
              exact le_trans (min_le_left _ _) e1
            · rw [← h.2]
              exact le_trans e2 (le_max_right _ _)
        | inf n =>
          rw [hp, hq] at h
          exact Option.noConfusion h
        | nan =>
          rw [hp, hq] at h
          exact Option.noConfusion h
      | inf n =>
        rw [hp] at h
        exact Option.noConfusion h
      | nan =>
        rw [hp] at h
        exact Option.noConfusion h
  | inf n =>
    rw [hsub] at h
    exact Option.noConfusion h
  | nan =>
    rw [hsub] at h
    exact Option.noConfusion h

theorem roundMag_pos (n : Nat) (hn : 0 < n) : 0 < F32.roundMag n 1 := by
  have h1 : F32.roundMag 1 1 = 1 := by decide
  have := roundMag_mono 1 n 1 Nat.one_pos hn
  omega

theorem fit_error_zero (ratio : F32) (x : Int) (h : F32.sub ratio (F32.ofInt 1) = F32.fin 0)
    (hx : (F32.unit : Int) < x) : fit_error ratio (F32.fin x) = F32.inf false := by
  unfold fit_error
  rw [h, ofInt_one_single, sub_fin_srnd]
  unfold srnd F32.round
  have hneg : decide (x - (F32.unit : Int) < 0) = false := decide_eq_false (by omega)
  have hpos := roundMag_pos (x - (F32.unit : Int)).natAbs (by omega)
  rw [hneg]
  simp only [Bool.false_eq_true, if_false]
  split_ifs
  · rfl
  · show F32.fabs (F32.sub (if _ then _ else _) _) = _
    rw [if_neg (by omega)]
    have : decide (((F32.roundMag (x - (F32.unit : Int)).natAbs 1 : Nat) : Int) < 0) = false :=
      decide_eq_false (by omega)
    rw [this]
    rfl

theorem fit_worse_sound (B : Int) (ratio : F32) (lo hi x e0 : Int)
    (h : fit_worse B ratio lo hi = true) (hx : lo ≤ x ∧ x ≤ hi) (he : e0 ≤ B) :
    F32.lt (F32.fin e0) (fit_error ratio (F32.fin x)) = true := by
  unfold fit_worse at h
  cases hsub : F32.sub ratio (F32.ofInt 1) with
  | fin c =>
    rw [hsub] at h
    simp only [] at h
    by_cases hc0 : c = 0
    · rw [if_pos hc0] at h
      have hlo : (F32.unit : Int) < lo := of_decide_eq_true h
      rw [hc0] at hsub
      rw [fit_error_zero ratio x hsub (by omega)]
      rfl
    · rw [if_neg hc0] at h
      cases hb : fit_between ratio lo hi with
      | none =>
        rw [hb] at h
        exact absurd h Bool.false_ne_true
      | some ab =>
        obtain ⟨a, b⟩ := ab
        rw [hb] at h
        simp only [Bool.or_eq_true, decide_eq_true_eq] at h
        obtain ⟨e, hfe, e1, e2⟩ := fit_between_sound ratio lo hi x a b hb hx
        rw [hfe]
        show decide (_ < _) = true
        apply decide_eq_true
        omega
  | inf n =>
    rw [hsub] at h
    exact absurd h Bool.false_ne_true
  | nan =>
    rw [hsub] at h
    exact absurd h Bool.false_ne_true

theorem lt_asymm_fin (e : Int) (v : F32) (h : F32.lt (F32.fin e) v = true) :
    F32.lt v (F32.fin e) = false := by
  cases v with
  | fin a =>
    have : e < a := of_decide_eq_true h
    exact decide_eq_false (by omega)
  | inf n => cases n <;> first | rfl | exact absurd h Bool.false_ne_true
  | nan => rfl

theorem lt_of_le_fin (e B : Int) (v : F32) (he : e ≤ B) (h : F32.lt (F32.fin B) v = true) :
    F32.lt (F32.fin e) v = true := by
  cases v with
  | fin a =>
    have : B < a := of_decide_eq_true h
    exact decide_eq_true (by omega)
  | inf n => exact h
  | nan => exact h

/-- The scan keeps the one entry whose error is below the threshold and below
every other error. -/
theorem fold_select (f : Nat → F32) (thr init : F32) (i N : Nat) (e : Int)
    (hfi : f i = F32.fin e) (hthr : F32.lt (F32.fin e) thr = true)
    (h0 : F32.lt (F32.fin e) init = true)
    (hothers : ∀ j, j < N → j ≠ i → F32.lt (F32.fin e) (f j) = true) (n : Nat) (hn : n ≤ N) :
    (i < n → (List.range n).foldl
        (fun (st : Int × F32) j => if F32.lt (f j) thr && F32.lt (f j) st.2 then ((j : Int), f j)
          else st) (-1, init) = ((i : Int), F32.fin e)) ∧
      (n ≤ i → F32.lt (F32.fin e) ((List.range n).foldl
        (fun (st : Int × F32) j => if F32.lt (f j) thr && F32.lt (f j) st.2 then ((j : Int), f j)
          else st) (-1, init)).2 = true) := by
  induction n with
  | zero =>
    refine ⟨fun h => absurd h (Nat.not_lt_zero _), fun _ => h0⟩
  | succ k ih =>
    have ih := ih (by omega)
    rw [List.range_succ, List.foldl_append]
    simp only [List.foldl_cons, List.foldl_nil]
    constructor
    · intro hik
      rcases Nat.lt_or_ge i k with hlt | hge
      · rw [ih.1 hlt]
        simp only []
        rw [lt_asymm_fin e (f k) (hothers k (by omega) (by omega)), Bool.and_false]
        rfl
      · have hki : i = k := by omega
        subst hki
        have h2 := ih.2 (by omega)
        rw [hfi, hthr, h2]
        rfl
    · intro hki
      have h2 := ih.2 (by omega)
      split_ifs
      · exact hothers k (by omega) (by omega)
      · exact h2

theorem step_eq (p_sys : demux_sys_t) (sub_speed : F32) (st : Int × F32) (j : Nat) :
    ComputeSubSpeedAndDelay_step p_sys sub_speed st j =
      if F32.lt (fit_error (fit_ratio p_sys j) sub_speed) max_error_applicable &&
          F32.lt (fit_error (fit_ratio p_sys j) sub_speed) st.2 then
        ((j : Int), fit_error (fit_ratio p_sys j) sub_speed)
      else st := rfl

theorem fit_select (p_sys : demux_sys_t) (htbl : p_sys.sub_fps_adjusts = sub_fps_table)
    (i : Nat) (hi : i < 13) (wlo whi x : Int) (hok : fit_window_ok i wlo whi = true)
    (hx : wlo ≤ x ∧ x ≤ whi) :
    ((List.range NB_SUB_FPS_ADJUSTS).foldl (ComputeSubSpeedAndDelay_step p_sys (F32.fin x))
      (-1, F32.ofInt 100000)).1 = (i : Int) := by
  unfold fit_window_ok at hok
  cases hgi : sub_fps_table.get? i with
  | none =>
    rw [hgi] at hok
    exact absurd hok Bool.false_ne_true
  | some ei =>
    rw [hgi] at hok
    simp only [] at hok
    cases hb : fit_between ei.fps_ratio wlo whi with
    | none =>
      rw [hb] at hok
      exact absurd hok Bool.false_ne_true
    | some ab =>
      obtain ⟨a, b⟩ := ab
      rw [hb] at hok
      simp only [Bool.and_eq_true, List.all_eq_true, List.mem_range, Bool.or_eq_true,
        decide_eq_true_eq] at hok
      obtain ⟨⟨k1, k2⟩, k3⟩ := hok
      obtain ⟨e, hfe, e1, e2⟩ := fit_between_sound ei.fps_ratio wlo whi x a b hb hx
      have heB : (e.natAbs : Int) ≤ max (-a) b := by
        rcases le_total 0 e with hpos | hneg
        · exact le_trans (by omega) (le_max_right _ _)
        · exact le_trans (by omega) (le_max_left _ _)
      have hri : fit_ratio p_sys i = ei.fps_ratio := by
        unfold fit_ratio
        rw [htbl, hgi]
      have hsel := (fold_select (fun j => fit_error (fit_ratio p_sys j) (F32.fin x))
        max_error_applicable (F32.ofInt 100000) i NB_SUB_FPS_ADJUSTS (e.natAbs : Int)
        (by simp only []; rw [hri, hfe])
        (lt_of_le_fin _ _ _ heB k1) (lt_of_le_fin _ _ _ heB k2)
        (by
          intro j hj13 hj
          simp only []
          rcases k3 j hj13 with h | h
          · exact absurd h hj
          · cases hgj : sub_fps_table.get? j with
            | none =>
              rw [hgj] at h
              exact absurd h Bool.false_ne_true
            | some ej =>
              rw [hgj] at h
              simp only [] at h
              have hrj : fit_ratio p_sys j = ej.fps_ratio := by
                unfold fit_ratio
                rw [htbl, hgj]
              rw [hrj]
              exact fit_worse_sound _ _ wlo whi x _ h hx heB)
        NB_SUB_FPS_ADJUSTS (le_refl _)).1 (by unfold NB_SUB_FPS_ADJUSTS; exact hi)
      have hfun : (ComputeSubSpeedAndDelay_step p_sys (F32.fin x)) =
          (fun (st : Int × F32) j =>
            if F32.lt (fit_error (fit_ratio p_sys j) (F32.fin x)) max_error_applicable &&
                F32.lt (fit_error (fit_ratio p_sys j) (F32.fin x)) st.2 then
              ((j : Int), fit_error (fit_ratio p_sys j) (F32.fin x))
            else st) := by
        funext st j
        exact step_eq _ _ _ _
      rw [hfun, hsel]

theorem fit_windows :
    ∀ i ∈ [4, 7, 8, 10, 11, 12],
      fit_window_ok i (fit_steps i - fit_steps i / 4096) (fit_steps i + fit_steps i / 4096) =
        true := by
  set_option maxRecDepth 100000 in decide

/-! ## Lemmas on the speed fit -/

/-- The fit in terms of its speed candidate and its delay, when the three
early returns are not taken. -/
theorem ComputeSubSpeedAndDelay_fit (p_sys : demux_sys_t)
    (h1 : 0 < p_sys.subtitle_delaybookmarks.i_time_audio_n_1)
    (h2 : 0 < p_sys.subtitle_delaybookmarks.i_time_subtitle_n_1)
    (h3 : 45 * 1000 * 1000 ≤ wrap64 (p_sys.subtitle_delaybookmarks.i_time_subtitle -
      p_sys.subtitle_delaybookmarks.i_time_subtitle_n_1))
    (h4 : p_sys.sub_speed_delay_current.idx_sub_fps_adjust = 0) :
    ComputeSubSpeedAndDelay p_sys =
      if ((List.range NB_SUB_FPS_ADJUSTS).foldl
          (ComputeSubSpeedAndDelay_step p_sys
            (fit_speed p_sys.subtitle_delaybookmarks (GetDemuxSubDelay p_sys)))
          (-1, F32.ofInt 100000)).1 ≥ 0 then
        some ⟨F32.toInt64 (F32.mul
            (fit_delay p_sys.subtitle_delaybookmarks (GetDemuxSubDelay p_sys)) (F32.ofInt 1000)),
          ((List.range NB_SUB_FPS_ADJUSTS).foldl
            (ComputeSubSpeedAndDelay_step p_sys
              (fit_speed p_sys.subtitle_delaybookmarks (GetDemuxSubDelay p_sys)))
            (-1, F32.ofInt 100000)).1⟩
      else none := by
  unfold ComputeSubSpeedAndDelay
  simp only []
  rw [if_neg (by omega), if_neg (by omega), if_neg (by
    intro h
    exact h.1 h4)]
  rfl

theorem normal_pos (w : ℚ) (h1 : 1 / 2 ^ 40 ≤ w) (h2 : w ≤ 2 ^ 60) :
    1 / 2 ^ 126 ≤ |w| ∧ |w| < 2 ^ 127 := by
  have hw : 0 < w := lt_of_lt_of_le (by positivity) h1
  rw [abs_of_pos hw]
  constructor
  · exact le_trans (by norm_num) h1
  · exact lt_of_le_of_lt h2 (by norm_num)

theorem normal_neg (w : ℚ) (h1 : w ≤ -(1 / 2 ^ 40)) (h2 : -(2 ^ 60) ≤ w) :
    1 / 2 ^ 126 ≤ |w| ∧ |w| < 2 ^ 127 := by
  have hw : w < 0 := lt_of_le_of_lt h1 (by norm_num)
  rw [abs_of_neg hw]
  constructor
  · have : (1 : ℚ) / 2 ^ 126 ≤ 1 / 2 ^ 40 := by norm_num
    linarith
  · have : (2 : ℚ) ^ 60 < 2 ^ 127 := by norm_num
    linarith

theorem ofInt_pos (t : Int) (h1 : 1 ≤ t) (h2 : t ≤ 2 ^ 40) :
    ∃ c : Int, F32.ofInt t = F32.fin c ∧
      (t : ℚ) * (1 - 1 / 2 ^ 24) ≤ realOf c ∧ realOf c ≤ (t : ℚ) * (1 + 1 / 2 ^ 24) := by
  obtain ⟨c, hc, hb⟩ := ofInt_val t (by omega) (by omega)
  have ht : (0 : ℚ) < (t : ℚ) := Int.cast_pos.mpr (by omega)
  exact ⟨c, hc, rel_pos _ _ hb ht⟩

theorem ofInt_neg (t : Int) (h1 : t ≤ -1) (h2 : -(2 ^ 40) ≤ t) :
    ∃ c : Int, F32.ofInt t = F32.fin c ∧
      (t : ℚ) * (1 + 1 / 2 ^ 24) ≤ realOf c ∧ realOf c ≤ (t : ℚ) * (1 - 1 / 2 ^ 24) := by
  obtain ⟨c, hc, hb⟩ := ofInt_val t (by omega) (by omega)
  have ht : (t : ℚ) < 0 := Int.cast_lt_zero.mpr (by omega)
  exact ⟨c, hc, rel_neg _ _ hb ht⟩

theorem div_pos_val (a b : Int) (hb : b ≠ 0) (h1 : 1 / 2 ^ 40 ≤ realOf a / realOf b)
    (h2 : realOf a / realOf b ≤ 2 ^ 60) :
    ∃ c : Int, F32.div (F32.fin a) (F32.fin b) = F32.fin c ∧
      realOf a / realOf b * (1 - 1 / 2 ^ 24) ≤ realOf c ∧
      realOf c ≤ realOf a / realOf b * (1 + 1 / 2 ^ 24) := by
  obtain ⟨c, hc, hb⟩ := div_val a b hb (normal_pos _ h1 h2).1 (normal_pos _ h1 h2).2
  exact ⟨c, hc, rel_pos _ _ hb (lt_of_lt_of_le (by positivity) h1)⟩

theorem div_neg_val (a b : Int) (hb : b ≠ 0) (h1 : realOf a / realOf b ≤ -(1 / 2 ^ 40))
    (h2 : -(2 ^ 60) ≤ realOf a / realOf b) :
    ∃ c : Int, F32.div (F32.fin a) (F32.fin b) = F32.fin c ∧
      realOf a / realOf b * (1 + 1 / 2 ^ 24) ≤ realOf c ∧
      realOf c ≤ realOf a / realOf b * (1 - 1 / 2 ^ 24) := by
  obtain ⟨c, hc, hb⟩ := div_val a b hb (normal_neg _ h1 h2).1 (normal_neg _ h1 h2).2
  exact ⟨c, hc, rel_neg _ _ hb (lt_of_le_of_lt h1 (by norm_num))⟩

theorem add_pos_val (a b : Int) (h1 : 1 / 2 ^ 40 ≤ realOf a + realOf b)
    (h2 : realOf a + realOf b ≤ 2 ^ 60) :
    ∃ c : Int, F32.add (F32.fin a) (F32.fin b) = F32.fin c ∧
      (realOf a + realOf b) * (1 - 1 / 2 ^ 24) ≤ realOf c ∧
      realOf c ≤ (realOf a + realOf b) * (1 + 1 / 2 ^ 24) := by
  obtain ⟨c, hc, hb⟩ := add_val a b (normal_pos _ h1 h2).1 (normal_pos _ h1 h2).2
  exact ⟨c, hc, rel_pos _ _ hb (lt_of_lt_of_le (by positivity) h1)⟩

theorem add_neg_val (a b : Int) (h1 : realOf a + realOf b ≤ -(1 / 2 ^ 40))
    (h2 : -(2 ^ 60) ≤ realOf a + realOf b) :
    ∃ c : Int, F32.add (F32.fin a) (F32.fin b) = F32.fin c ∧
      (realOf a + realOf b) * (1 + 1 / 2 ^ 24) ≤ realOf c ∧
      realOf c ≤ (realOf a + realOf b) * (1 - 1 / 2 ^ 24) := by
  obtain ⟨c, hc, hb⟩ := add_val a b (normal_neg _ h1 h2).1 (normal_neg _ h1 h2).2
  exact ⟨c, hc, rel_neg _ _ hb (lt_of_le_of_lt h1 (by norm_num))⟩

theorem sub_pos_val (a b : Int) (h1 : 1 / 2 ^ 40 ≤ realOf a - realOf b)
    (h2 : realOf a - realOf b ≤ 2 ^ 60) :
    ∃ c : Int, F32.sub (F32.fin a) (F32.fin b) = F32.fin c ∧
      (realOf a - realOf b) * (1 - 1 / 2 ^ 24) ≤ realOf c ∧
      realOf c ≤ (realOf a - realOf b) * (1 + 1 / 2 ^ 24) := by
  obtain ⟨c, hc, hb⟩ := sub_val a b (normal_pos _ h1 h2).1 (normal_pos _ h1 h2).2
  exact ⟨c, hc, rel_pos _ _ hb (lt_of_lt_of_le (by positivity) h1)⟩

theorem sub_neg_val (a b : Int) (h1 : realOf a - realOf b ≤ -(1 / 2 ^ 40))
    (h2 : -(2 ^ 60) ≤ realOf a - realOf b) :
    ∃ c : Int, F32.sub (F32.fin a) (F32.fin b) = F32.fin c ∧
      (realOf a - realOf b) * (1 + 1 / 2 ^ 24) ≤ realOf c ∧
      realOf c ≤ (realOf a - realOf b) * (1 - 1 / 2 ^ 24) := by
  obtain ⟨c, hc, hb⟩ := sub_val a b (normal_neg _ h1 h2).1 (normal_neg _ h1 h2).2
  exact ⟨c, hc, rel_neg _ _ hb (lt_of_le_of_lt h1 (by norm_num))⟩

theorem mul_pos_val (a b : Int) (h1 : 1 / 2 ^ 40 ≤ realOf a * realOf b)
    (h2 : realOf a * realOf b ≤ 2 ^ 60) :
    ∃ c : Int, F32.mul (F32.fin a) (F32.fin b) = F32.fin c ∧
      realOf a * realOf b * (1 - 1 / 2 ^ 24) ≤ realOf c ∧
      realOf c ≤ realOf a * realOf b * (1 + 1 / 2 ^ 24) := by
  obtain ⟨c, hc, hb⟩ := mul_val a b (normal_pos _ h1 h2).1 (normal_pos _ h1 h2).2
  exact ⟨c, hc, rel_pos _ _ hb (lt_of_lt_of_le (by positivity) h1)⟩

theorem ofInt_1000 : F32.ofInt 1000 = F32.fin (1000 * (F32.unit : Nat)) := by
  set_option maxRecDepth 100000 in decide

theorem ofInt_zero_single : F32.ofInt 0 = F32.fin 0 := by
  set_option maxRecDepth 100000 in decide

theorem div_zero_1000 : F32.div (F32.fin 0) (F32.fin (1000 * (F32.unit : Nat))) = F32.fin 0 := by
  set_option maxRecDepth 100000 in decide

theorem realOf_one : realOf (F32.unit : Nat) = 1 := by
  have := realOf_unit 1
  rw [one_mul] at this
  exact_mod_cast this

theorem max_fin (a b : Int) (h : a ≤ b) : F32.max (F32.fin a) (F32.fin b) = F32.fin b := by
  unfold F32.max
  have : F32.lt (F32.fin b) (F32.fin a) = false := decide_eq_false (by omega)
  rw [this]
  rfl

/-- The millisecond value `(float)t / 1000.f` of a positive time. -/
theorem fit_time_pos (t : Int) (h1 : 1 ≤ t) (h2 : t ≤ 2 ^ 40) :
    ∃ T : Int, F32.div (F32.ofInt t) (F32.ofInt 1000) = F32.fin T ∧
      (t : ℚ) / 1000 * (1 - 1 / 2 ^ 24) ^ 2 ≤ realOf T ∧
      realOf T ≤ (t : ℚ) / 1000 * (1 + 1 / 2 ^ 24) ^ 2 := by
  obtain ⟨F, hF, f1, f2⟩ := ofInt_pos t h1 h2
  have ht1 : (1 : ℚ) ≤ (t : ℚ) := by exact_mod_cast h1
  have ht2 : (t : ℚ) ≤ 2 ^ 40 := by exact_mod_cast h2
  have hk : realOf (1000 * (F32.unit : Nat)) = 1000 := by
    have := realOf_unit 1000
    exact_mod_cast this
  have hne : (1000 * ((F32.unit : Nat) : Int)) ≠ 0 := by
    have : 0 < F32.unit := by unfold F32.unit; positivity
    omega
  obtain ⟨T, hT, t1, t2⟩ := div_pos_val F (1000 * (F32.unit : Nat)) hne
    (by rw [hk]; norm_num at f1 f2 ⊢; linarith)
    (by rw [hk]; norm_num at f1 f2 ⊢; linarith)
  rw [hk] at t1 t2
  refine ⟨T, by rw [hF, ofInt_1000, hT], ?_, ?_⟩
  · calc (t : ℚ) / 1000 * (1 - 1 / 2 ^ 24) ^ 2
        = (t : ℚ) * (1 - 1 / 2 ^ 24) / 1000 * (1 - 1 / 2 ^ 24) := by ring
      _ ≤ realOf F / 1000 * (1 - 1 / 2 ^ 24) := by
          apply mul_le_mul_of_nonneg_right _ (by norm_num)
          exact div_le_div_of_nonneg_right f1 (by norm_num)
      _ ≤ realOf T := t1
  · calc realOf T ≤ realOf F / 1000 * (1 + 1 / 2 ^ 24) := t2
      _ ≤ (t : ℚ) * (1 + 1 / 2 ^ 24) / 1000 * (1 + 1 / 2 ^ 24) := by
          apply mul_le_mul_of_nonneg_right _ (by norm_num)
          exact div_le_div_of_nonneg_right f2 (by norm_num)
      _ = (t : ℚ) / 1000 * (1 + 1 / 2 ^ 24) ^ 2 := by ring

/-- The millisecond value `(float)t / 1000.f` of a negative time. -/
theorem fit_time_neg (t : Int) (h1 : t ≤ -1) (h2 : -(2 ^ 40) ≤ t) :
    ∃ T : Int, F32.div (F32.ofInt t) (F32.ofInt 1000) = F32.fin T ∧
      (t : ℚ) / 1000 * (1 + 1 / 2 ^ 24) ^ 2 ≤ realOf T ∧
      realOf T ≤ (t : ℚ) / 1000 * (1 - 1 / 2 ^ 24) ^ 2 := by
  obtain ⟨F, hF, f1, f2⟩ := ofInt_neg t h1 h2
  have ht1 : (t : ℚ) ≤ -1 := by exact_mod_cast h1
  have ht2 : -(2 ^ 40 : ℚ) ≤ (t : ℚ) := by exact_mod_cast h2
  have hk : realOf (1000 * (F32.unit : Nat)) = 1000 := by
    have := realOf_unit 1000
    exact_mod_cast this
  have hne : (1000 * ((F32.unit : Nat) : Int)) ≠ 0 := by
    have : 0 < F32.unit := by unfold F32.unit; positivity
    omega
  obtain ⟨T, hT, t1, t2⟩ := div_neg_val F (1000 * (F32.unit : Nat)) hne
    (by rw [hk]; norm_num at f1 f2 ⊢; linarith)
    (by rw [hk]; norm_num at f1 f2 ⊢; linarith)
  rw [hk] at t1 t2
  refine ⟨T, by rw [hF, ofInt_1000, hT], ?_, ?_⟩
  · calc (t : ℚ) / 1000 * (1 + 1 / 2 ^ 24) ^ 2
        = (t : ℚ) * (1 + 1 / 2 ^ 24) / 1000 * (1 + 1 / 2 ^ 24) := by ring
      _ ≤ realOf F / 1000 * (1 + 1 / 2 ^ 24) := by
          apply mul_le_mul_of_nonneg_right _ (by norm_num)
          exact div_le_div_of_nonneg_right f1 (by norm_num)
      _ ≤ realOf T := t1
  · calc realOf T ≤ realOf F / 1000 * (1 - 1 / 2 ^ 24) := t2
      _ ≤ (t : ℚ) * (1 - 1 / 2 ^ 24) / 1000 * (1 - 1 / 2 ^ 24) := by
          apply mul_le_mul_of_nonneg_right _ (by norm_num)
          exact div_le_div_of_nonneg_right f2 (by norm_num)
      _ = (t : ℚ) / 1000 * (1 - 1 / 2 ^ 24) ^ 2 := by ring

/-- The three inputs of the fit when the current delay is 0 and the previous
pair is in sync: `time0`, `time1` and `delay1`. -/
theorem fit_times (s0 s1 a1 : Int) (h0 : 1 ≤ s0) (hmax : s1 ≤ 4294967296)
    (ha1 : s0 ≤ a1) (ha2 : a1 + 40000 ≤ s1) :
    ∃ T0 T1 D1 : Int,
      F32.max (F32.div (F32.ofInt s0) (F32.ofInt 1000))
        (F32.div (F32.ofInt s0) (F32.ofInt 1000)) = F32.fin T0 ∧
      F32.max (F32.div (F32.ofInt a1) (F32.ofInt 1000))
        (F32.div (F32.ofInt s1) (F32.ofInt 1000)) = F32.fin T1 ∧
      F32.add (F32.div (F32.ofInt 0) (F32.ofInt 1000))
        (F32.div (F32.ofInt (wrap64 (a1 - s1))) (F32.ofInt 1000)) = F32.fin D1 ∧
      ((s0 : ℚ) / 1000 * (1 - 1 / 2 ^ 24) ^ 2 ≤ realOf T0 ∧
        realOf T0 ≤ (s0 : ℚ) / 1000 * (1 + 1 / 2 ^ 24) ^ 2) ∧
      ((s1 : ℚ) / 1000 * (1 - 1 / 2 ^ 24) ^ 2 ≤ realOf T1 ∧
        realOf T1 ≤ (s1 : ℚ) / 1000 * (1 + 1 / 2 ^ 24) ^ 2) ∧
      (((a1 : ℚ) - s1) / 1000 * (1 + 1 / 2 ^ 24) ^ 3 ≤ realOf D1 ∧
        realOf D1 ≤ ((a1 : ℚ) - s1) / 1000 * (1 - 1 / 2 ^ 24) ^ 3) := by
  obtain ⟨T0, hT0, p1, p2⟩ := fit_time_pos s0 h0 (by omega)
  obtain ⟨T1, hT1, q1, q2⟩ := fit_time_pos s1 (by omega) (by omega)
  obtain ⟨TA, hTA, r1, r2⟩ := fit_time_pos a1 (by omega) (by omega)
  obtain ⟨Df, hDf, d1, d2⟩ := fit_time_neg (a1 - s1) (by omega) (by omega)
  have c0 : (1 : ℚ) ≤ (s0 : ℚ) := by exact_mod_cast h0
  have c1 : (s1 : ℚ) ≤ 4294967296 := by exact_mod_cast hmax
  have c2 : (s0 : ℚ) ≤ (a1 : ℚ) := by exact_mod_cast ha1
  have c3 : (a1 : ℚ) + 40000 ≤ (s1 : ℚ) := by exact_mod_cast ha2
  rw [Int.cast_sub] at d1 d2
  have hw : wrap64 (a1 - s1) = a1 - s1 := by
    unfold wrap64
    omega
  have hTA1 : TA ≤ T1 := by
    rw [← realOf_le]
    norm_num at r2 q1 ⊢
    linarith
  obtain ⟨D1, hD1, e1, e2⟩ := add_neg_val 0 Df
    (by rw [realOf_zero]; norm_num at d1 d2 ⊢; linarith)
    (by rw [realOf_zero]; norm_num at d1 d2 ⊢; linarith)
  rw [realOf_zero, zero_add] at e1 e2
  refine ⟨T0, T1, D1, ?_, ?_, ?_, ⟨p1, p2⟩, ⟨q1, q2⟩, ?_, ?_⟩
  · rw [hT0]
    exact max_fin T0 T0 le_rfl
  · rw [hTA, hT1]
    exact max_fin TA T1 hTA1
  · rw [hw, hDf, ofInt_zero_single, ofInt_1000, div_zero_1000, hD1]
  · calc ((a1 : ℚ) - s1) / 1000 * (1 + 1 / 2 ^ 24) ^ 3
        = ((a1 : ℚ) - s1) / 1000 * (1 + 1 / 2 ^ 24) ^ 2 * (1 + 1 / 2 ^ 24) := by ring
      _ ≤ realOf Df * (1 + 1 / 2 ^ 24) := mul_le_mul_of_nonneg_right d1 (by norm_num)
      _ ≤ realOf D1 := e1
  · calc realOf D1 ≤ realOf Df * (1 - 1 / 2 ^ 24) := e2
      _ ≤ ((a1 : ℚ) - s1) / 1000 * (1 - 1 / 2 ^ 24) ^ 2 * (1 - 1 / 2 ^ 24) :=
          mul_le_mul_of_nonneg_right d2 (by norm_num)
      _ = ((a1 : ℚ) - s1) / 1000 * (1 - 1 / 2 ^ 24) ^ 3 := by ring

theorem quot_lower (W V Z sp rho k : ℚ) (hZ : 0 < Z) (hV : 0 ≤ V) (hrho : 0 ≤ rho)
    (hW : 1 / Z * (1 - 1 / 2 ^ 24) ≤ W) (hsp : W * V * (1 - 1 / 2 ^ 24) ≤ sp)
    (hkey : k * Z ≤ (1 - 1 / 2 ^ 24) ^ 2 * (V * rho)) : k ≤ sp * rho := by
  have h1 : W * V * (1 - 1 / 2 ^ 24) * rho ≤ sp * rho := mul_le_mul_of_nonneg_right hsp hrho
  have h2 : 1 / Z * (1 - 1 / 2 ^ 24) * (V * (1 - 1 / 2 ^ 24) * rho) ≤
      W * (V * (1 - 1 / 2 ^ 24) * rho) :=
    mul_le_mul_of_nonneg_right hW (by
      apply mul_nonneg (mul_nonneg hV (by norm_num)) hrho)
  have h3 : k ≤ (1 - 1 / 2 ^ 24) ^ 2 * (V * rho) / Z := (le_div_iff₀ hZ).mpr hkey
  calc k ≤ (1 - 1 / 2 ^ 24) ^ 2 * (V * rho) / Z := h3
    _ = 1 / Z * (1 - 1 / 2 ^ 24) * (V * (1 - 1 / 2 ^ 24) * rho) := by
        field_simp
        ring
    _ ≤ W * (V * (1 - 1 / 2 ^ 24) * rho) := h2
    _ = W * V * (1 - 1 / 2 ^ 24) * rho := by ring
    _ ≤ sp * rho := h1

theorem quot_upper (W V Z sp rho k : ℚ) (hZ : 0 < Z) (hV : 0 ≤ V) (hrho : 0 ≤ rho)
    (hW : W ≤ 1 / Z * (1 + 1 / 2 ^ 24)) (hsp : sp ≤ W * V * (1 + 1 / 2 ^ 24))
    (hkey : (1 + 1 / 2 ^ 24) ^ 2 * (V * rho) ≤ k * Z) : sp * rho ≤ k := by
  have h1 : sp * rho ≤ W * V * (1 + 1 / 2 ^ 24) * rho := mul_le_mul_of_nonneg_right hsp hrho
  have h2 : W * (V * (1 + 1 / 2 ^ 24) * rho) ≤
      1 / Z * (1 + 1 / 2 ^ 24) * (V * (1 + 1 / 2 ^ 24) * rho) :=
    mul_le_mul_of_nonneg_right hW (by
      apply mul_nonneg (mul_nonneg hV (by norm_num)) hrho)
  have h3 : (1 + 1 / 2 ^ 24) ^ 2 * (V * rho) / Z ≤ k := (div_le_iff₀ hZ).mpr hkey
  calc sp * rho ≤ W * V * (1 + 1 / 2 ^ 24) * rho := h1
    _ = W * (V * (1 + 1 / 2 ^ 24) * rho) := by ring
    _ ≤ 1 / Z * (1 + 1 / 2 ^ 24) * (V * (1 + 1 / 2 ^ 24) * rho) := h2
    _ = (1 + 1 / 2 ^ 24) ^ 2 * (V * rho) / Z := by
        field_simp
        ring
    _ ≤ k := h3

set_option maxHeartbeats 1000000 in
/-- The speed candidate lies within `2^-12` of the injected ratio. -/
theorem fit_speed_window (s0 s1 a1 T0 T1 D1 : Int) (rho : ℚ)
    (h0 : 1 ≤ s0) (h45 : s0 + 45000000 ≤ s1) (hmax : s1 ≤ 4294967296)
    (hr1 : 0.7992 ≤ rho) (hr2 : rho ≤ 0.99901)
    (hg1 : rho * ((s1 : ℚ) - s0) - (((s0 : ℚ) + s1) / 4194304 + 4) ≤ (a1 : ℚ) - s0)
    (hg2 : (a1 : ℚ) - s0 ≤ rho * ((s1 : ℚ) - s0) + (((s0 : ℚ) + s1) / 4194304 + 4))
    (hT0 : (s0 : ℚ) / 1000 * (1 - 1 / 2 ^ 24) ^ 2 ≤ realOf T0 ∧
      realOf T0 ≤ (s0 : ℚ) / 1000 * (1 + 1 / 2 ^ 24) ^ 2)
    (hT1 : (s1 : ℚ) / 1000 * (1 - 1 / 2 ^ 24) ^ 2 ≤ realOf T1 ∧
      realOf T1 ≤ (s1 : ℚ) / 1000 * (1 + 1 / 2 ^ 24) ^ 2)
    (hD1 : ((a1 : ℚ) - s1) / 1000 * (1 + 1 / 2 ^ 24) ^ 3 ≤ realOf D1 ∧
      realOf D1 ≤ ((a1 : ℚ) - s1) / 1000 * (1 - 1 / 2 ^ 24) ^ 3) :
    ∃ x V : Int, F32.sub (F32.fin T1) (F32.fin T0) = F32.fin V ∧
      F32.mul (F32.div (F32.ofInt 1)
        (F32.sub (F32.add (F32.fin T1) (F32.fin D1)) (F32.add (F32.fin T0) (F32.fin 0))))
        (F32.fin V) = F32.fin x ∧
      4095 / 4096 ≤ realOf x * rho ∧ realOf x * rho ≤ 4097 / 4096 ∧
      ((realOf T1 - realOf T0) * (1 - 1 / 2 ^ 24) ≤ realOf V ∧
        realOf V ≤ (realOf T1 - realOf T0) * (1 + 1 / 2 ^ 24)) := by
  have c0 : (1 : ℚ) ≤ (s0 : ℚ) := by exact_mod_cast h0
  have c1 : (s1 : ℚ) ≤ 4294967296 := by exact_mod_cast hmax
  have c2 : (s0 : ℚ) + 45000000 ≤ (s1 : ℚ) := by exact_mod_cast h45
  obtain ⟨p1, p2⟩ := hT0
  obtain ⟨q1, q2⟩ := hT1
  obtain ⟨d1, d2⟩ := hD1
  have hrl : 0.7992 * ((s1 : ℚ) - s0) ≤ rho * ((s1 : ℚ) - s0) :=
    mul_le_mul_of_nonneg_right hr1 (by linarith)
  have hrl2 : rho * ((s1 : ℚ) - s0) ≤ 0.99901 * ((s1 : ℚ) - s0) :=
    mul_le_mul_of_nonneg_right hr2 (by linarith)
  norm_num at p1 p2 q1 q2 d1 d2
  -- time1 + delay1
  obtain ⟨X, hX, x1, x2⟩ := add_pos_val T1 D1 (by norm_num; linarith) (by norm_num; linarith)
  -- time0 + delay0
  obtain ⟨Y, hY, y1, y2⟩ := add_pos_val T0 0 (by rw [realOf_zero]; norm_num; linarith)
    (by rw [realOf_zero]; norm_num; linarith)
  rw [realOf_zero, add_zero] at y1 y2
  norm_num at x1 x2 y1 y2
  -- the audio interval
  obtain ⟨Z, hZ, z1, z2⟩ := sub_pos_val X Y (by norm_num; linarith) (by norm_num; linarith)
  norm_num at z1 z2
  have hZlo : (30000 : ℚ) ≤ realOf Z := by linarith
  have hZhi : realOf Z ≤ 8388608 := by linarith
  have hZpos : (0 : ℚ) < realOf Z := by linarith
  -- its inverse
  have hZne : Z ≠ 0 := by
    intro h
    rw [h, realOf_zero] at hZpos
    exact lt_irrefl _ hZpos
  have hinv1 : (1 : ℚ) / 8388608 ≤ 1 / realOf Z := one_div_le_one_div_of_le hZpos hZhi
  have hinv2 : 1 / realOf Z ≤ 1 / 30000 := one_div_le_one_div_of_le (by norm_num) hZlo
  obtain ⟨W, hW, w1, w2⟩ := div_pos_val (F32.unit : Nat) Z hZne
    (by rw [realOf_one]; norm_num at hinv1 ⊢; linarith)
    (by rw [realOf_one]; norm_num at hinv2 ⊢; linarith)
  rw [realOf_one] at w1 w2
  -- the subtitle interval
  obtain ⟨V, hV, v1, v2⟩ := sub_pos_val T1 T0 (by norm_num; linarith) (by norm_num; linarith)
  have hVlo : (44000 : ℚ) ≤ realOf V := by norm_num at v1; linarith
  have hVhi : realOf V ≤ 8388608 := by norm_num at v2; linarith
  have hWlo : (1 : ℚ) / 16777216 ≤ realOf W := by norm_num at w1 hinv1 ⊢; linarith
  have hWhi : realOf W ≤ 1 / 20000 := by norm_num at w2 hinv2 ⊢; linarith
  have hWV1 : (1 : ℚ) / 16777216 * 44000 ≤ realOf W * realOf V :=
    mul_le_mul hWlo hVlo (by norm_num) (by linarith)
  have hWV2 : realOf W * realOf V ≤ 1 / 20000 * 8388608 :=
    mul_le_mul hWhi hVhi (by linarith) (by norm_num)
  obtain ⟨x, hx, s1_, s2_⟩ := mul_pos_val W V (by norm_num at hWV1 ⊢; linarith)
    (by norm_num at hWV2 ⊢; linarith)
  have hrho0 : (0 : ℚ) ≤ rho := by linarith
  have hV0 : (0 : ℚ) ≤ realOf V := by linarith
  have hVa : ((s1 : ℚ) - s0) / 1000 * (1 - 1 / 2 ^ 24) - ((s1 : ℚ) + s0) / 1000 * (3 / 2 ^ 24) ≤
      realOf V := by
    norm_num at v1 ⊢
    linarith
  have hVb : realOf V ≤
      ((s1 : ℚ) - s0) / 1000 * (1 + 1 / 2 ^ 24) + ((s1 : ℚ) + s0) / 1000 * (3 / 2 ^ 24) := by
    norm_num at v2 ⊢
    linarith
  have m1 := mul_le_mul_of_nonneg_right hVa hrho0
  have m2 := mul_le_mul_of_nonneg_right hVb hrho0
  have hrs : rho * ((s1 : ℚ) + s0) ≤ (s1 : ℚ) + s0 := by
    have := mul_le_mul_of_nonneg_right hr2 (by linarith : (0 : ℚ) ≤ (s1 : ℚ) + s0)
    linarith
  have hrs0 : 0 ≤ rho * ((s1 : ℚ) + s0) := mul_nonneg hrho0 (by linarith)
  refine ⟨x, V, hV, ?_, ?_, ?_, v1, v2⟩
  · rw [ofInt_one_single, hX, hY, hZ, hW, hx]
  · apply quot_lower (realOf W) (realOf V) (realOf Z) (realOf x) rho _ hZpos hV0 hrho0 w1 s1_
    norm_num at m1 ⊢
    linarith
  · apply quot_upper (realOf W) (realOf V) (realOf Z) (realOf x) rho _ hZpos hV0 hrho0 w2 s2_
    norm_num at m2 ⊢
    linarith

set_option maxHeartbeats 2000000 in
/-- The fitted delay, in microseconds before truncation, against the exact
intercept `s0 * (s1 - a1) / (s1 - s0)` of the line through the two samples. -/
theorem fit_delay_near (s0 s1 a1 T0 T1 D1 V : Int)
    (h0 : 1 ≤ s0) (h45 : s0 + 45000000 ≤ s1) (hmax : s1 ≤ 4294967296)
    (ha1 : s0 ≤ a1) (ha2 : a1 + 40000 ≤ s1)
    (hT0 : (s0 : ℚ) / 1000 * (1 - 1 / 2 ^ 24) ^ 2 ≤ realOf T0 ∧
      realOf T0 ≤ (s0 : ℚ) / 1000 * (1 + 1 / 2 ^ 24) ^ 2)
    (hT1 : (s1 : ℚ) / 1000 * (1 - 1 / 2 ^ 24) ^ 2 ≤ realOf T1 ∧
      realOf T1 ≤ (s1 : ℚ) / 1000 * (1 + 1 / 2 ^ 24) ^ 2)
    (hD1 : ((a1 : ℚ) - s1) / 1000 * (1 + 1 / 2 ^ 24) ^ 3 ≤ realOf D1 ∧
      realOf D1 ≤ ((a1 : ℚ) - s1) / 1000 * (1 - 1 / 2 ^ 24) ^ 3)
    (hV : (realOf T1 - realOf T0) * (1 - 1 / 2 ^ 24) ≤ realOf V ∧
      realOf V ≤ (realOf T1 - realOf T0) * (1 + 1 / 2 ^ 24)) :
    ∃ y : Int,
      F32.mul (F32.add (F32.fin 0)
        (F32.div (F32.mul (F32.sub (F32.fin 0) (F32.fin T0)) (F32.sub (F32.fin D1) (F32.fin 0)))
          (F32.fin V))) (F32.ofInt 1000) = F32.fin y ∧
      0 ≤ realOf y ∧ realOf y ≤ 2 ^ 50 ∧
      realOf y * (((s1 : ℚ) - s0) * (1 - 1 / 2 ^ 24) - ((s1 : ℚ) + s0) * (3 / 2 ^ 24)) ≤
        (1 + 1 / 2 ^ 24) ^ 11 * ((s0 : ℚ) * ((s1 : ℚ) - a1)) ∧
      (1 - 1 / 2 ^ 24) ^ 11 * ((s0 : ℚ) * ((s1 : ℚ) - a1)) ≤
        realOf y * (((s1 : ℚ) - s0) * (1 + 1 / 2 ^ 24) + ((s1 : ℚ) + s0) * (3 / 2 ^ 24)) := by
  have c0 : (1 : ℚ) ≤ (s0 : ℚ) := by exact_mod_cast h0
  have c1 : (s1 : ℚ) ≤ 4294967296 := by exact_mod_cast hmax
  have c2 : (s0 : ℚ) + 45000000 ≤ (s1 : ℚ) := by exact_mod_cast h45
  have c3 : (s0 : ℚ) ≤ (a1 : ℚ) := by exact_mod_cast ha1
  have c4 : (a1 : ℚ) + 40000 ≤ (s1 : ℚ) := by exact_mod_cast ha2
  obtain ⟨p1, p2⟩ := hT0
  obtain ⟨q1, q2⟩ := hT1
  obtain ⟨d1, d2⟩ := hD1
  obtain ⟨v1, v2⟩ := hV
  have hVa : ((s1 : ℚ) - s0) / 1000 * (1 - 1 / 2 ^ 24) - ((s1 : ℚ) + s0) / 1000 * (3 / 2 ^ 24) ≤
      realOf V := by
    norm_num at v1 p2 q1 ⊢
    linarith
  have hVb : realOf V ≤
      ((s1 : ℚ) - s0) / 1000 * (1 + 1 / 2 ^ 24) + ((s1 : ℚ) + s0) / 1000 * (3 / 2 ^ 24) := by
    norm_num at v2 p1 q2 ⊢
    linarith
  have hVlo : (44000 : ℚ) ≤ realOf V := by norm_num at hVa; linarith
  have hVhi : realOf V ≤ 8388608 := by norm_num at hVb; linarith
  have hV0 : (0 : ℚ) < realOf V := by linarith
  have hVne : V ≠ 0 := by
    intro h
    rw [h, realOf_zero] at hV0
    exact lt_irrefl _ hV0
  -- 0.f - time0
  obtain ⟨N, hN, n1, n2⟩ := sub_neg_val 0 T0 (by rw [realOf_zero]; norm_num at p1 ⊢; linarith)
    (by rw [realOf_zero]; norm_num at p2 ⊢; linarith)
  rw [realOf_zero, zero_sub] at n1 n2
  -- delay1 - delay0
  obtain ⟨Dd, hDd, e1, e2⟩ := sub_neg_val D1 0 (by rw [realOf_zero]; norm_num at d2 ⊢; linarith)
    (by rw [realOf_zero]; norm_num at d1 ⊢; linarith)
  rw [realOf_zero, sub_zero] at e1 e2
  -- bounds on the two magnitudes
  have hn_lo : (s0 : ℚ) / 1000 * (1 - 1 / 2 ^ 24) ^ 3 ≤ -realOf N := by
    have : realOf T0 * (1 - 1 / 2 ^ 24) ≤ -realOf N := by linarith
    calc (s0 : ℚ) / 1000 * (1 - 1 / 2 ^ 24) ^ 3
        = (s0 : ℚ) / 1000 * (1 - 1 / 2 ^ 24) ^ 2 * (1 - 1 / 2 ^ 24) := by ring
      _ ≤ realOf T0 * (1 - 1 / 2 ^ 24) := mul_le_mul_of_nonneg_right p1 (by norm_num)
      _ ≤ -realOf N := this
  have hn_hi : -realOf N ≤ (s0 : ℚ) / 1000 * (1 + 1 / 2 ^ 24) ^ 3 := by
    have : -realOf N ≤ realOf T0 * (1 + 1 / 2 ^ 24) := by linarith
    calc -realOf N ≤ realOf T0 * (1 + 1 / 2 ^ 24) := this
      _ ≤ (s0 : ℚ) / 1000 * (1 + 1 / 2 ^ 24) ^ 2 * (1 + 1 / 2 ^ 24) :=
          mul_le_mul_of_nonneg_right p2 (by norm_num)
      _ = (s0 : ℚ) / 1000 * (1 + 1 / 2 ^ 24) ^ 3 := by ring
  have hd_lo : ((s1 : ℚ) - a1) / 1000 * (1 - 1 / 2 ^ 24) ^ 4 ≤ -realOf Dd := by
    have h : -realOf D1 * (1 - 1 / 2 ^ 24) ≤ -realOf Dd := by linarith
    have h2 : ((s1 : ℚ) - a1) / 1000 * (1 - 1 / 2 ^ 24) ^ 3 ≤ -realOf D1 := by linarith
    calc ((s1 : ℚ) - a1) / 1000 * (1 - 1 / 2 ^ 24) ^ 4
        = ((s1 : ℚ) - a1) / 1000 * (1 - 1 / 2 ^ 24) ^ 3 * (1 - 1 / 2 ^ 24) := by ring
      _ ≤ -realOf D1 * (1 - 1 / 2 ^ 24) := mul_le_mul_of_nonneg_right h2 (by norm_num)
      _ ≤ -realOf Dd := h
  have hd_hi : -realOf Dd ≤ ((s1 : ℚ) - a1) / 1000 * (1 + 1 / 2 ^ 24) ^ 4 := by
    have h : -realOf Dd ≤ -realOf D1 * (1 + 1 / 2 ^ 24) := by linarith
    have h2 : -realOf D1 ≤ ((s1 : ℚ) - a1) / 1000 * (1 + 1 / 2 ^ 24) ^ 3 := by linarith
    calc -realOf Dd ≤ -realOf D1 * (1 + 1 / 2 ^ 24) := h
      _ ≤ ((s1 : ℚ) - a1) / 1000 * (1 + 1 / 2 ^ 24) ^ 3 * (1 + 1 / 2 ^ 24) :=
          mul_le_mul_of_nonneg_right h2 (by norm_num)
      _ = ((s1 : ℚ) - a1) / 1000 * (1 + 1 / 2 ^ 24) ^ 4 := by ring
  have hn0 : (0 : ℚ) ≤ (s0 : ℚ) / 1000 * (1 - 1 / 2 ^ 24) ^ 3 := by positivity
  have hd0 : (0 : ℚ) ≤ ((s1 : ℚ) - a1) / 1000 * (1 - 1 / 2 ^ 24) ^ 4 :=
    mul_nonneg (div_nonneg (by linarith) (by norm_num)) (by norm_num)
  have hprod : realOf N * realOf Dd = -realOf N * -realOf Dd := by ring
  have hP_lo : (s0 : ℚ) / 1000 * (1 - 1 / 2 ^ 24) ^ 3 *
      (((s1 : ℚ) - a1) / 1000 * (1 - 1 / 2 ^ 24) ^ 4) ≤ realOf N * realOf Dd := by
    rw [hprod]
    exact mul_le_mul hn_lo hd_lo hd0 (le_trans hn0 hn_lo)
  have hP_hi : realOf N * realOf Dd ≤ (s0 : ℚ) / 1000 * (1 + 1 / 2 ^ 24) ^ 3 *
      (((s1 : ℚ) - a1) / 1000 * (1 + 1 / 2 ^ 24) ^ 4) := by
    rw [hprod]
    exact mul_le_mul hn_hi hd_hi (le_trans hd0 hd_lo) (le_trans (le_trans hn0 hn_lo) hn_hi)
  -- crude numeric bounds for the ranges
  have hna : (1 : ℚ) / 2000 ≤ -realOf N := by norm_num at hn_lo ⊢; linarith
  have hnb : -realOf N ≤ 8388608 := by norm_num at hn_hi ⊢; linarith
  have hda : (39 : ℚ) ≤ -realOf Dd := by norm_num at hd_lo ⊢; linarith
  have hdb : -realOf Dd ≤ 8388608 := by norm_num at hd_hi ⊢; linarith
  have hPa : (1 : ℚ) / 2000 * 39 ≤ realOf N * realOf Dd := by
    rw [hprod]
    exact mul_le_mul hna hda (by norm_num) (by linarith)
  have hPb : realOf N * realOf Dd ≤ 8388608 * 8388608 := by
    rw [hprod]
    exact mul_le_mul hnb hdb (by linarith) (by norm_num)
  obtain ⟨P, hP, g1, g2⟩ := mul_pos_val N Dd (by norm_num at hPa ⊢; linarith)
    (by norm_num at hPb ⊢; linarith)
  have hP1 : (1 : ℚ) / 2000 * 38 ≤ realOf P := by norm_num at g1 hPa ⊢; linarith
  have hP2 : realOf P ≤ 8388608 * 8388609 := by norm_num at g2 hPb ⊢; linarith
  have hPV1 : (1 : ℚ) / 2000 * 38 / 8388608 ≤ realOf P / realOf V :=
    div_le_div₀ (by linarith) hP1 hV0 hVhi
  have hPV2 : realOf P / realOf V ≤ 8388608 * 8388609 / 44000 :=
    div_le_div₀ (by norm_num) hP2 (by norm_num) hVlo
  obtain ⟨Q, hQ, k1, k2⟩ := div_pos_val P V hVne (by norm_num at hPV1 ⊢; linarith)
    (by norm_num at hPV2 ⊢; linarith)
  obtain ⟨R, hR, r1, r2⟩ := add_pos_val 0 Q
    (by rw [realOf_zero]; norm_num at k1 hPV1 ⊢; linarith)
    (by rw [realOf_zero]; norm_num at k2 hPV2 ⊢; linarith)
  rw [realOf_zero, zero_add] at r1 r2
  have hk : realOf (1000 * (F32.unit : Nat)) = 1000 := by
    have := realOf_unit 1000
    exact_mod_cast this
  obtain ⟨y, hy, y1, y2⟩ := mul_pos_val R (1000 * (F32.unit : Nat))
    (by rw [hk]; norm_num at r1 k1 hPV1 ⊢; linarith)
    (by rw [hk]; norm_num at r2 k2 hPV2 ⊢; linarith)
  rw [hk] at y1 y2
  have hy0 : (0 : ℚ) ≤ realOf y := by norm_num at y1 r1 k1 hPV1 ⊢; linarith
  have hQV1 : realOf P * (1 - 1 / 2 ^ 24) ≤ realOf Q * realOf V := by
    have := mul_le_mul_of_nonneg_right k1 (le_of_lt hV0)
    calc realOf P * (1 - 1 / 2 ^ 24)
        = realOf P / realOf V * (1 - 1 / 2 ^ 24) * realOf V := by
          field_simp
          ring
      _ ≤ realOf Q * realOf V := this
  have hQV2 : realOf Q * realOf V ≤ realOf P * (1 + 1 / 2 ^ 24) := by
    have := mul_le_mul_of_nonneg_right k2 (le_of_lt hV0)
    calc realOf Q * realOf V ≤ realOf P / realOf V * (1 + 1 / 2 ^ 24) * realOf V := this
      _ = realOf P * (1 + 1 / 2 ^ 24) := by
          field_simp
          ring
  have hEQ1 : 1000 * (1 - 1 / 2 ^ 24) ^ 2 * realOf Q ≤ realOf y := by
    norm_num at y1 r1 ⊢
    linarith
  have hEQ2 : realOf y ≤ 1000 * (1 + 1 / 2 ^ 24) ^ 2 * realOf Q := by
    norm_num at y2 r2 ⊢
    linarith
  have hEV1 := mul_le_mul_of_nonneg_right hEQ1 (le_of_lt hV0)
  have hEV2 := mul_le_mul_of_nonneg_right hEQ2 (le_of_lt hV0)
  have hEa := mul_le_mul_of_nonneg_left hVa hy0
  have hEb := mul_le_mul_of_nonneg_left hVb hy0
  refine ⟨y, ?_, hy0, ?_, ?_, ?_⟩
  · rw [hN, hDd, hP, hQ, hR, ofInt_1000, hy]
  · norm_num at y2 r2 k2 hPV2 ⊢
    linarith
  · norm_num at hEV2 hEa hQV2 g2 hP_hi ⊢
    linarith
  · norm_num at hEV1 hEb hQV1 g1 hP_lo ⊢
    linarith

/-- The conversions of a positive time under a ratio of `r` steps, against the
exact quotient of its float by the ratio. -/
theorem adjust_mag_near (r c : Nat) (hc1 : 1 ≤ c) (hr1 : F32.unit ≤ r) (hr2 : r ≤ 2 * F32.unit) :
    ((F32.roundMag (c * F32.unit) 1 : Nat) : ℚ) / r * (1 - 1 / 2 ^ 24) - 1 ≤ (adjust_mag r c : ℚ) ∧
      (adjust_mag r c : ℚ) ≤ ((F32.roundMag (c * F32.unit) 1 : Nat) : ℚ) / r * (1 + 1 / 2 ^ 24) := by
  have hu : 0 < F32.unit := by unfold F32.unit; positivity
  have hr : 0 < r := lt_of_lt_of_le hu hr1
  -- the float of the time is at least 2^24 steps
  have hbig : 2 ^ 24 ≤ F32.unit := by
    unfold F32.unit
    exact Nat.pow_le_pow_right (by decide) (by decide)
  have hf := roundMag_mono F32.unit (c * F32.unit) 1 Nat.one_pos (by
    calc F32.unit = 1 * F32.unit := (Nat.one_mul _).symm
      _ ≤ c * F32.unit := Nat.mul_le_mul_right _ hc1)
  have hfu : F32.roundMag F32.unit 1 = F32.unit := by
    set_option maxRecDepth 100000 in decide
  rw [hfu] at hf
  unfold adjust_mag
  generalize F32.roundMag (c * F32.unit) 1 = f at hf ⊢
  obtain ⟨b1, b2⟩ := roundMag_rel (f * F32.unit) r hr (by
    calc 2 ^ 23 * r ≤ 2 ^ 23 * (2 * F32.unit) := Nat.mul_le_mul_left _ hr2
      _ = 2 ^ 24 * F32.unit := by ring
      _ ≤ f * F32.unit := Nat.mul_le_mul_right _ (le_trans hbig hf))
  generalize F32.roundMag (f * F32.unit) r = m at b1 b2 ⊢
  have hA1 : m / F32.unit * F32.unit ≤ m := Nat.div_mul_le_self m F32.unit
  have hA2 : m < (m / F32.unit + 1) * F32.unit := by
    have := Nat.lt_succ_self (m / F32.unit)
    exact (Nat.div_lt_iff_lt_mul hu).mp this
  generalize m / F32.unit = A at hA1 hA2 ⊢
  -- to the rationals
  have hU : (0 : ℚ) < (F32.unit : ℚ) := Nat.cast_pos.mpr hu
  have hrq : (0 : ℚ) < (r : ℚ) := Nat.cast_pos.mpr hr
  have q1 : (16777216 : ℚ) * (m * r) ≤ 16777217 * (f * F32.unit) := by
    have : ((2 ^ 24 * (m * r) : Nat) : ℚ) ≤ (((2 ^ 24 + 1) * (f * F32.unit) : Nat) : ℚ) :=
      Nat.cast_le.mpr b1
    push_cast at this
    exact this
  have q2 : (16777215 : ℚ) * (f * F32.unit) ≤ 16777216 * (m * r) := by
    have : (((2 ^ 24 - 1) * (f * F32.unit) : Nat) : ℚ) ≤ ((2 ^ 24 * (m * r) : Nat) : ℚ) :=
      Nat.cast_le.mpr b2
    push_cast at this
    exact this
  have q3 : (A : ℚ) * F32.unit ≤ m := by
    have : ((A * F32.unit : Nat) : ℚ) ≤ (m : ℚ) := Nat.cast_le.mpr hA1
    push_cast at this
    exact this
  have q4 : (m : ℚ) < (A + 1) * F32.unit := by
    have : (m : ℚ) < (((A + 1) * F32.unit : Nat) : ℚ) := Nat.cast_lt.mpr hA2
    push_cast at this
    exact this
  generalize (F32.unit : ℚ) = U at hU q1 q2 q3 q4
  generalize (m : ℚ) = M at q1 q2 q3 q4
  generalize (f : ℚ) = F at q1 q2
  generalize (A : ℚ) = a at q3 q4 ⊢
  generalize (r : ℚ) = R at hrq q1 q2 ⊢
  have e1 : F / R * R = F := by field_simp
  constructor
  · -- (F / R) (1 - u) - 1 ≤ a
    have h : (F / R * (1 - 1 / 2 ^ 24) - 1) * (U * R) ≤ a * (U * R) := by
      have : (F / R * (1 - 1 / 2 ^ 24) - 1) * (U * R) =
          (F / R * R) * U * (1 - 1 / 2 ^ 24) - U * R := by ring
      rw [this, e1]
      have h3 := mul_le_mul_of_nonneg_right q3 (le_of_lt hrq)
      have h4 := mul_lt_mul_of_pos_right q4 hrq
      norm_num at q2 ⊢
      linarith
    exact le_of_mul_le_mul_right h (mul_pos hU hrq)
  · have h : a * (U * R) ≤ (F / R * (1 + 1 / 2 ^ 24)) * (U * R) := by
      have : (F / R * (1 + 1 / 2 ^ 24)) * (U * R) = (F / R * R) * U * (1 + 1 / 2 ^ 24) := by ring
      rw [this, e1]
      have h3 := mul_le_mul_of_nonneg_right q3 (le_of_lt hrq)
      norm_num at q1 ⊢
      linarith
    exact le_of_mul_le_mul_right h (mul_pos hU hrq)

/-- The adjusted time under a ratio above 1 against the adjusted time under the
ratio 1: `A` is within `s / 2^22 + 2` of `rho * s`. -/
theorem adjust_mag_pair (r c : Nat) (rho : ℚ) (hc1 : 1 ≤ c) (hr1 : F32.unit ≤ r)
    (hr2 : r ≤ 2 * F32.unit) (hrho : rho = (F32.unit : ℚ) / r) :
    rho * (adjust_mag F32.unit c : ℚ) - ((adjust_mag F32.unit c : ℚ) / 4194304 + 2) ≤
        (adjust_mag r c : ℚ) ∧
      (adjust_mag r c : ℚ) ≤
        rho * (adjust_mag F32.unit c : ℚ) + ((adjust_mag F32.unit c : ℚ) / 4194304 + 2) := by
  have hu : 0 < F32.unit := by unfold F32.unit; positivity
  have hU : (0 : ℚ) < (F32.unit : ℚ) := Nat.cast_pos.mpr hu
  have hrq : (0 : ℚ) < (r : ℚ) := Nat.cast_pos.mpr (lt_of_lt_of_le hu hr1)
  obtain ⟨a1, a2⟩ := adjust_mag_near r c hc1 hr1 hr2
  obtain ⟨s1, s2⟩ := adjust_mag_near F32.unit c hc1 le_rfl (by omega)
  have hrho0 : 0 ≤ rho := by rw [hrho]; positivity
  have hrho1 : rho ≤ 1 := by
    rw [hrho, div_le_one hrq]
    exact_mod_cast hr1
  generalize (adjust_mag r c : ℚ) = A at a1 a2 ⊢
  generalize (adjust_mag F32.unit c : ℚ) = s at s1 s2 ⊢
  have hf0 : (0 : ℚ) ≤ ((F32.roundMag (c * F32.unit) 1 : Nat) : ℚ) := Nat.cast_nonneg _
  generalize ((F32.roundMag (c * F32.unit) 1 : Nat) : ℚ) = F at a1 a2 s1 s2 hf0
  -- phi is the float of the time, in microseconds
  have e : F / r = rho * (F / F32.unit) := by
    rw [hrho]
    field_simp
    ring
  rw [e] at a1 a2
  have hphi0 : 0 ≤ F / (F32.unit : ℚ) := div_nonneg hf0 (le_of_lt hU)
  generalize F / (F32.unit : ℚ) = phi at a1 a2 s1 s2 hphi0
  have m1 := mul_le_mul_of_nonneg_left s1 hrho0
  have m2 := mul_le_mul_of_nonneg_left s2 hrho0
  have m3 := mul_le_mul_of_nonneg_right hrho1 hphi0
  have m4 := mul_nonneg hrho0 hphi0
  norm_num at a1 a2 s1 s2 m1 m2 ⊢
  constructor <;> linarith

set_option maxHeartbeats 1000000 in
/-- The truncation error aside, the fitted delay is within
`(s0 * s1 / 2^20 + 4 * (s0 + s1)) / (s1 - s0)` of `s0 - A0`. -/
theorem fit_delay_algebra (s0 s1 A0 A1 E rho : ℚ)
    (h0 : 1 ≤ s0) (h45 : s0 + 45000000 ≤ s1) (hmax : s1 ≤ 4294967296)
    (hr1 : 0.7992 ≤ rho) (hr2 : rho ≤ 0.99901)
    (hA0a : rho * s0 - (s0 / 4194304 + 2) ≤ A0) (hA0b : A0 ≤ rho * s0 + (s0 / 4194304 + 2))
    (hA1a : rho * s1 - (s1 / 4194304 + 2) ≤ A1) (hA1b : A1 ≤ rho * s1 + (s1 / 4194304 + 2))
    (hE0 : 0 ≤ E)
    (hEU : E * ((s1 - s0) * (1 - 1 / 2 ^ 24) - (s1 + s0) * (3 / 2 ^ 24)) ≤
      (1 + 1 / 2 ^ 24) ^ 11 * (s0 * (s1 - (A1 + s0 - A0))))
    (hEL : (1 - 1 / 2 ^ 24) ^ 11 * (s0 * (s1 - (A1 + s0 - A0))) ≤
      E * ((s1 - s0) * (1 + 1 / 2 ^ 24) + (s1 + s0) * (3 / 2 ^ 24))) :
    (E - (s0 - A0)) * (s1 - s0) * 2 ^ 20 ≤ s0 * s1 + 2 ^ 22 * (s0 + s1) ∧
      ((s0 - A0) - E + 1) * (s1 - s0) * 2 ^ 20 ≤ s0 * s1 + 2 ^ 22 * (s0 + s1) := by
  have hl : 0 < s1 - s0 := by linarith
  have hs1 : 0 ≤ s1 := by linarith
  have hs0 : 0 ≤ s0 := by linarith
  have hrl : 0.7992 * (s1 - s0) ≤ rho * (s1 - s0) :=
    mul_le_mul_of_nonneg_right hr1 (le_of_lt hl)
  have hrl2 : rho * (s1 - s0) ≤ 0.99901 * (s1 - s0) :=
    mul_le_mul_of_nonneg_right hr2 (le_of_lt hl)
  have hgap_pos : 0 ≤ s1 - (A1 + s0 - A0) := by linarith
  have hgap_21 : s1 - (A1 + s0 - A0) ≤ 0.21 * (s1 - s0) := by linarith
  have hden : 0.999 * (s1 - s0) ≤ (s1 - s0) * (1 - 1 / 2 ^ 24) - (s1 + s0) * (3 / 2 ^ 24) := by
    norm_num
    linarith
  have hE1 : E * (0.999 * (s1 - s0)) ≤ 1.0001 * (s0 * (0.21 * (s1 - s0))) := by
    have t1 := mul_le_mul_of_nonneg_left hden hE0
    have t2 : s0 * (s1 - (A1 + s0 - A0)) ≤ s0 * (0.21 * (s1 - s0)) :=
      mul_le_mul_of_nonneg_left hgap_21 hs0
    have t3 : (0 : ℚ) ≤ s0 * (s1 - (A1 + s0 - A0)) := mul_nonneg hs0 hgap_pos
    norm_num at hEU t1 t2 t3 ⊢
    linarith
  have hE2 : E ≤ 0.22 * s0 := by
    have h : E * (0.999 * (s1 - s0)) ≤ 0.22 * s0 * (0.999 * (s1 - s0)) := by
      have : (0 : ℚ) ≤ s0 * (s1 - s0) := mul_nonneg hs0 (le_of_lt hl)
      norm_num at hE1 ⊢
      linarith
    exact le_of_mul_le_mul_right h (by linarith)
  have p1 : A0 * s1 ≤ (rho * s0 + (s0 / 4194304 + 2)) * s1 := mul_le_mul_of_nonneg_right hA0b hs1
  have p2 : s0 * (rho * s1 - (s1 / 4194304 + 2)) ≤ s0 * A1 := mul_le_mul_of_nonneg_left hA1a hs0
  have p1' : (rho * s0 - (s0 / 4194304 + 2)) * s1 ≤ A0 * s1 := mul_le_mul_of_nonneg_right hA0a hs1
  have p2' : s0 * A1 ≤ s0 * (rho * s1 + (s1 / 4194304 + 2)) := mul_le_mul_of_nonneg_left hA1b hs0
  have hfac : 0 ≤ (s1 - s0) * (1 / 2 ^ 24) + (s1 + s0) * (3 / 2 ^ 24) := by positivity
  have p3 : E * ((s1 - s0) * (1 / 2 ^ 24) + (s1 + s0) * (3 / 2 ^ 24)) ≤
      0.22 * s0 * ((s1 - s0) * (1 / 2 ^ 24) + (s1 + s0) * (3 / 2 ^ 24)) :=
    mul_le_mul_of_nonneg_right hE2 hfac
  have p3' : 0 ≤ E * ((s1 - s0) * (1 / 2 ^ 24) + (s1 + s0) * (3 / 2 ^ 24)) :=
    mul_nonneg hE0 hfac
  have p4 : s0 * (s1 - (A1 + s0 - A0)) ≤ s0 * (0.21 * (s1 - s0)) :=
    mul_le_mul_of_nonneg_left hgap_21 hs0
  have p5 : (0 : ℚ) ≤ s0 * (s1 - (A1 + s0 - A0)) := mul_nonneg hs0 hgap_pos
  have p6 : s0 * s0 ≤ s0 * s1 := mul_le_mul_of_nonneg_left (by linarith) hs0
  have p7 : 0 ≤ s0 * s1 := mul_nonneg hs0 hs1
  norm_num at hEU hEL p1 p2 p1' p2' p3 p3' p4 p5 ⊢
  constructor
  · linarith
  · linarith

set_option maxHeartbeats 1000000 in
/-- The fit on an in-sync previous pair at `s0` and a current pair at `s1`
whose audio bookmark is `A1 + s0 - A0`: the speed candidate is within `2^-12`
of the ratio and the delay near `s0 - A0`. -/
theorem fit_core (s0 s1 A0 A1 : Int) (rho : ℚ)
    (h0 : 1 ≤ s0) (h45 : s0 + 45000000 ≤ s1) (hmax : s1 ≤ 4294967296) (hA : A0 ≤ A1)
    (hr1 : 0.7992 ≤ rho) (hr2 : rho ≤ 0.99901)
    (hA0a : rho * (s0 : ℚ) - ((s0 : ℚ) / 4194304 + 2) ≤ (A0 : ℚ))
    (hA0b : (A0 : ℚ) ≤ rho * (s0 : ℚ) + ((s0 : ℚ) / 4194304 + 2))
    (hA1a : rho * (s1 : ℚ) - ((s1 : ℚ) / 4194304 + 2) ≤ (A1 : ℚ))
    (hA1b : (A1 : ℚ) ≤ rho * (s1 : ℚ) + ((s1 : ℚ) / 4194304 + 2)) :
    ∃ x y : Int,
      fit_speed ⟨s1, A1 + s0 - A0, s0, s0⟩ 0 = F32.fin x ∧
      4095 / 4096 ≤ realOf x * rho ∧ realOf x * rho ≤ 4097 / 4096 ∧
      F32.mul (fit_delay ⟨s1, A1 + s0 - A0, s0, s0⟩ 0) (F32.ofInt 1000) = F32.fin y ∧
      0 ≤ realOf y ∧ realOf y ≤ 2 ^ 50 ∧
      (realOf y - ((s0 : ℚ) - A0)) * ((s1 : ℚ) - s0) * 2 ^ 20 ≤
        (s0 : ℚ) * s1 + 2 ^ 22 * ((s0 : ℚ) + s1) ∧
      (((s0 : ℚ) - A0) - realOf y + 1) * ((s1 : ℚ) - s0) * 2 ^ 20 ≤
        (s0 : ℚ) * s1 + 2 ^ 22 * ((s0 : ℚ) + s1) := by
  have c0 : (1 : ℚ) ≤ (s0 : ℚ) := by exact_mod_cast h0
  have c1 : (s1 : ℚ) ≤ 4294967296 := by exact_mod_cast hmax
  have c2 : (s0 : ℚ) + 45000000 ≤ (s1 : ℚ) := by exact_mod_cast h45
  have hrl2 : rho * ((s1 : ℚ) - s0) ≤ 0.99901 * ((s1 : ℚ) - s0) :=
    mul_le_mul_of_nonneg_right hr2 (by linarith)
  have hcast : ((A1 + s0 - A0 : Int) : ℚ) = (A1 : ℚ) + s0 - A0 := by push_cast; ring
  have ha1 : s0 ≤ A1 + s0 - A0 := by omega
  have ha2 : A1 + s0 - A0 + 40000 ≤ s1 := by
    have : ((A1 + s0 - A0 + 40000 : Int) : ℚ) ≤ (s1 : ℚ) := by
      push_cast
      norm_num at hrl2 ⊢
      linarith
    exact_mod_cast this
  obtain ⟨T0, T1, D1, e0, e1, e2, hT0, hT1, hD1⟩ := fit_times s0 s1 (A1 + s0 - A0) h0 hmax ha1 ha2
  rw [hcast] at hD1
  obtain ⟨x, V, eV, ex, w1, w2, hV⟩ := fit_speed_window s0 s1 (A1 + s0 - A0) T0 T1 D1 rho h0 h45
    hmax hr1 hr2 (by rw [hcast]; linarith) (by rw [hcast]; linarith) hT0 hT1
    (by rw [hcast]; exact hD1)
  obtain ⟨y, ey, y0, y1, hEU, hEL⟩ := fit_delay_near s0 s1 (A1 + s0 - A0) T0 T1 D1 V h0 h45 hmax
    ha1 ha2 hT0 hT1 (by rw [hcast]; exact hD1) hV
  rw [hcast] at hEU hEL
  obtain ⟨f1, f2⟩ := fit_delay_algebra s0 s1 A0 A1 (realOf y) rho c0 c2 c1 hr1 hr2 hA0a hA0b hA1a
    hA1b y0 hEU hEL
  have hd0 : F32.div (F32.ofInt 0) (F32.ofInt 1000) = F32.fin 0 := by
    rw [ofInt_zero_single, ofInt_1000, div_zero_1000]
  refine ⟨x, y, ?_, w1, w2, ?_, y0, y1, f1, f2⟩
  · unfold fit_speed
    simp only []
    rw [e0, e1, e2, hd0, eV, ex]
  · unfold fit_delay
    simp only []
    rw [e0, e1, e2, hd0, eV, ey]

theorem fit_table :
    ∀ n < 13, (match sub_fps_table.get? n with
        | some e => F32.lt (F32.ofInt 1) e.fps_ratio
        | none => false) = true →
      n ∈ [4, 7, 8, 10, 11, 12] ∧
      (sub_fps_table.get? n).map (fun e => e.fps_ratio) = some (F32.fin (fit_steps n)) ∧
      (F32.unit : Int) ≤ fit_steps n ∧ fit_steps n ≤ 2 * (F32.unit : Int) ∧
      7992 * fit_steps n ≤ 10000 * (F32.unit : Int) ∧
      100000 * (F32.unit : Int) ≤ 99901 * fit_steps n := by
  set_option maxRecDepth 100000 in decide

/-- An injected pair whose ratio reads above 1 has one of the six table
indices 4, 7, 8, 10, 11, 12. -/
theorem fit_index (p_sys : demux_sys_t) (d i : Int)
    (htbl : p_sys.sub_fps_adjusts = sub_fps_table)
    (hgt : F32.lt (F32.ofInt 1)
      (GetDemuxSubSpeed { p_sys with sub_speed_delay_current := ⟨d, i⟩ }) = true) :
    ∃ n : Nat, i = (n : Int) ∧ n < 13 ∧ n ∈ [4, 7, 8, 10, 11, 12] ∧
      GetDemuxSubSpeed { p_sys with sub_speed_delay_current := ⟨d, i⟩ } =
        F32.fin (fit_steps n) ∧
      (F32.unit : Int) ≤ fit_steps n ∧ fit_steps n ≤ 2 * (F32.unit : Int) ∧
      7992 * fit_steps n ≤ 10000 * (F32.unit : Int) ∧
      100000 * (F32.unit : Int) ≤ 99901 * fit_steps n := by
  have hform : GetDemuxSubSpeed { p_sys with sub_speed_delay_current := ⟨d, i⟩ } =
      if i < 0 then F32.nan
      else
        match sub_fps_table.get? i.toNat with
        | some e => e.fps_ratio
        | none => F32.nan := by
    unfold GetDemuxSubSpeed
    show (if i < 0 then F32.nan
      else
        match p_sys.sub_fps_adjusts.get? i.toNat with
        | some e => e.fps_ratio
        | none => F32.nan) = _
    rw [htbl]
  rw [hform] at hgt ⊢
  have hgt2 := hgt
  rw [ofInt_one_single] at hgt
  by_cases hneg : i < 0
  · rw [if_pos hneg] at hgt
    exact absurd hgt Bool.false_ne_true
  · rw [if_neg hneg] at hgt ⊢
    cases hget : sub_fps_table.get? i.toNat with
    | none =>
      rw [hget] at hgt
      exact absurd hgt Bool.false_ne_true
    | some e =>
      rw [hget] at hgt
      simp only [] at hgt ⊢
      have hlen : sub_fps_table.length = 13 := by
        set_option maxRecDepth 100000 in decide
      have hn : i.toNat < 13 := by
        by_contra hge
        rw [List.get?_eq_none.mpr (by omega)] at hget
        exact Option.noConfusion hget
      obtain ⟨t1, t2, t3, t4, t5, t6⟩ := fit_table i.toNat hn (by
        rw [if_neg hneg, hget] at hgt2
        rw [hget]
        exact hgt2)
      rw [hget] at t2
      simp only [Option.map_some', Option.some.injEq] at t2
      exact ⟨i.toNat, by omega, hn, t1, t2, t3, t4, t5, t6⟩

theorem adjust_mag_one : adjust_mag F32.unit 1 = 1 := by
  set_option maxRecDepth 100000 in decide

theorem adjust_mag_top : adjust_mag F32.unit (2 ^ 32) = 2 ^ 32 := by
  set_option maxRecDepth 100000 in decide

/-! ## Lemmas on the scan and the guards of the fit -/

theorem lt_irrefl_f (a : F32) : F32.lt a a = false := by
  cases a with
  | fin a => exact decide_eq_false (lt_irrefl a)
  | inf n => cases n <;> rfl
  | nan => rfl

/-- A value not below a bound is not below anything under that bound. -/
theorem lt_false_of_bound (a b c : F32) (h1 : F32.lt a c = true) (h2 : F32.lt b c = false) :
    F32.lt b a = false := by
  cases a <;> cases b <;> cases c <;>
    simp only [F32.lt, decide_eq_true_eq, decide_eq_false_iff_not, Bool.not_eq_true',
      Bool.and_eq_true, Bool.and_eq_false_imp, Bool.not_eq_false', not_lt] at * <;>
    first | omega | simp_all

/-- A value not below a bound is not at most anything under that bound. -/
theorem le_false_of_bound (a b c : F32) (h1 : F32.lt a c = true) (h2 : F32.lt b c = false) :
    F32.le b a = false := by
  cases a <;> cases b <;> cases c <;>
    simp only [F32.lt, F32.le, decide_eq_true_eq, decide_eq_false_iff_not, Bool.not_eq_true',
      Bool.and_eq_true, Bool.and_eq_false_imp, Bool.not_eq_false', not_lt, not_le,
      Bool.or_eq_false_iff] at * <;>
    first | omega | simp_all

/-- The scan of the table in general: either no entry is below the threshold
and the initial pair is kept, or the pair kept is the first entry of least
error. -/
theorem scan_spec (f : Nat → F32) (thr init : F32)
    (hinit : ∀ x, F32.lt x thr = true → F32.lt x init = true) (n : Nat) :
    ((∀ j, j < n → F32.lt (f j) thr = false) ∧
        (List.range n).foldl
          (fun (st : Int × F32) j => if F32.lt (f j) thr && F32.lt (f j) st.2 then ((j : Int), f j)
            else st) (-1, init) = (-1, init)) ∨
      (∃ i, i < n ∧
        (List.range n).foldl
          (fun (st : Int × F32) j => if F32.lt (f j) thr && F32.lt (f j) st.2 then ((j : Int), f j)
            else st) (-1, init) = ((i : Int), f i) ∧
        F32.lt (f i) thr = true ∧
        (∀ j, j < n → F32.lt (f j) (f i) = false) ∧
        (∀ j, j < i → F32.le (f j) (f i) = false)) := by
  induction n with
  | zero =>
    left
    exact ⟨fun j hj => absurd hj (Nat.not_lt_zero _), rfl⟩
  | succ k ih =>
    rw [List.range_succ, List.foldl_append]
    simp only [List.foldl_cons, List.foldl_nil]
    rcases ih with ⟨hnone, hst⟩ | ⟨i, hik, hst, hthr, hmin, hfirst⟩
    · rw [hst]
      simp only []
      cases hk : F32.lt (f k) thr with
      | false =>
        left
        refine ⟨fun j hj => ?_, by simp⟩
        rcases Nat.lt_or_ge j k with h | h
        · exact hnone j h
        · have : j = k := by omega
          rw [this]; exact hk
      | true =>
        right
        refine ⟨k, Nat.lt_succ_self k, by simp [hinit (f k) hk], hk, fun j hj => ?_,
          fun j hj => le_false_of_bound (f k) (f j) thr hk (hnone j hj)⟩
        rcases Nat.lt_or_ge j k with h | h
        · exact lt_false_of_bound (f k) (f j) thr hk (hnone j h)
        · have : j = k := by omega
          rw [this]; exact lt_irrefl_f (f k)
    · rw [hst]
      simp only []
      right
      cases hk : (F32.lt (f k) thr && F32.lt (f k) (f i)) with
      | true =>
        have hk2 : F32.lt (f k) thr = true ∧ F32.lt (f k) (f i) = true := by
          simpa using hk
        refine ⟨k, Nat.lt_succ_self k, by simp, hk2.1, fun j hj => ?_,
          fun j hj => le_false_of_bound (f k) (f j) (f i) hk2.2 (hmin j hj)⟩
        rcases Nat.lt_or_ge j k with h | h
        · exact lt_false_of_bound (f k) (f j) (f i) hk2.2 (hmin j h)
        · have : j = k := by omega
          rw [this]; exact lt_irrefl_f (f k)
      | false =>
        refine ⟨i, by omega, by simp, hthr, fun j hj => ?_, hfirst⟩
        rcases Nat.lt_or_ge j k with h | h
        · exact hmin j h
        · have hjk : j = k := by omega
          rw [hjk]
          cases hk1 : F32.lt (f k) thr with
          | false => exact lt_false_of_bound (f i) (f k) thr hthr hk1
          | true =>
            rw [hk1] at hk
            simpa using hk

theorem lt_trans_f (a b c : F32) (h1 : F32.lt a b = true) (h2 : F32.lt b c = true) :
    F32.lt a c = true := by
  cases a <;> cases b <;> cases c <;>
    simp only [F32.lt, decide_eq_true_eq, decide_eq_false_iff_not, Bool.not_eq_true',
      Bool.and_eq_true, Bool.and_eq_false_imp, Bool.not_eq_false', not_lt] at * <;>
    first | omega | simp_all

theorem lt_inf_false (y : F32) : F32.lt (F32.inf false) y = false := by
  cases y <;> rfl

theorem lt_nan_false (y : F32) : F32.lt F32.nan y = false := by
  cases y <;> rfl

/-- The threshold `0.33f` is below the initial error `1E5` of the scan. -/
theorem lt_max_error_init (x : F32) (h : F32.lt x max_error_applicable = true) :
    F32.lt x (F32.ofInt 100000) = true :=
  lt_trans_f x max_error_applicable (F32.ofInt 100000) h
    (by set_option maxRecDepth 100000 in decide)

/-- The scan of `ComputeSubSpeedAndDelay` for a speed candidate: no entry has
an error below `max_error_applicable` and the index stays `-1`, or the index
kept is the first entry of least error. -/
theorem fit_scan (p_sys : demux_sys_t) (sub_speed : F32) (n : Nat) :
    ((∀ j, j < n →
          F32.lt (fit_error (fit_ratio p_sys j) sub_speed) max_error_applicable = false) ∧
        ((List.range n).foldl (ComputeSubSpeedAndDelay_step p_sys sub_speed)
          (-1, F32.ofInt 100000)).1 = -1) ∨
      (∃ i, i < n ∧
        ((List.range n).foldl (ComputeSubSpeedAndDelay_step p_sys sub_speed)
          (-1, F32.ofInt 100000)).1 = (i : Int) ∧
        F32.lt (fit_error (fit_ratio p_sys i) sub_speed) max_error_applicable = true ∧
        (∀ j, j < n → F32.lt (fit_error (fit_ratio p_sys j) sub_speed)
          (fit_error (fit_ratio p_sys i) sub_speed) = false) ∧
        (∀ j, j < i → F32.le (fit_error (fit_ratio p_sys j) sub_speed)
          (fit_error (fit_ratio p_sys i) sub_speed) = false)) := by
  have hfun : ComputeSubSpeedAndDelay_step p_sys sub_speed =
      fun (st : Int × F32) j =>
        if F32.lt (fit_error (fit_ratio p_sys j) sub_speed) max_error_applicable &&
            F32.lt (fit_error (fit_ratio p_sys j) sub_speed) st.2 then
          ((j : Int), fit_error (fit_ratio p_sys j) sub_speed)
        else st := by
    funext st j
    exact step_eq p_sys sub_speed st j
  rw [hfun]
  rcases scan_spec (fun j => fit_error (fit_ratio p_sys j) sub_speed) max_error_applicable
      (F32.ofInt 100000) lt_max_error_init n with ⟨h1, h2⟩ | ⟨i, h1, h2, h3, h4, h5⟩
  · left
    exact ⟨h1, by rw [h2]⟩
  · right
    exact ⟨i, h1, by rw [h2], h3, h4, h5⟩

/-- The error of a ratio equal to one is infinite or not a number, whatever
the speed: it is never below the threshold. -/
theorem fit_error_identity (ratio sub_speed : F32)
    (h : F32.sub ratio (F32.ofInt 1) = F32.fin 0) :
    F32.lt (fit_error ratio sub_speed) max_error_applicable = false := by
  unfold fit_error
  rw [h]
  have hdiv : ∀ y : F32, F32.div y (F32.fin 0) = F32.nan ∨ ∃ n, F32.div y (F32.fin 0) = F32.inf n := by
    intro y
    cases y with
    | fin a =>
      by_cases ha : a = 0
      · left; simp [F32.div, ha]
      · right; exact ⟨decide (a < 0), by simp [F32.div, ha]⟩
    | inf n => right; exact ⟨n != decide ((0 : Int) < 0), rfl⟩
    | nan => left; rfl
  rcases hdiv (F32.sub sub_speed (F32.ofInt 1)) with h1 | ⟨n, h1⟩
  · rw [h1, ofInt_one_single]
    exact lt_nan_false _
  · rw [h1, ofInt_one_single]
    exact lt_inf_false _

/-- The fit in terms of its guards, its speed candidate and its delay. -/
theorem ComputeSubSpeedAndDelay_eq (p_sys : demux_sys_t) :
    ComputeSubSpeedAndDelay p_sys =
      if p_sys.subtitle_delaybookmarks.i_time_audio_n_1 ≤ 0 ∨
          p_sys.subtitle_delaybookmarks.i_time_subtitle_n_1 ≤ 0 then none
      else if wrap64 (p_sys.subtitle_delaybookmarks.i_time_subtitle -
          p_sys.subtitle_delaybookmarks.i_time_subtitle_n_1) < 45 * 1000 * 1000 then none
      else if p_sys.sub_speed_delay_current.idx_sub_fps_adjust ≠ 0 ∧
          wrap64 (p_sys.subtitle_delaybookmarks.i_time_subtitle -
            p_sys.subtitle_delaybookmarks.i_time_subtitle_n_1) < 60 * 5 * 1000 * 1000 then none
      else if ((List.range NB_SUB_FPS_ADJUSTS).foldl
          (ComputeSubSpeedAndDelay_step p_sys
            (fit_speed p_sys.subtitle_delaybookmarks (GetDemuxSubDelay p_sys)))
          (-1, F32.ofInt 100000)).1 ≥ 0 then
        some ⟨F32.toInt64 (F32.mul
            (fit_delay p_sys.subtitle_delaybookmarks (GetDemuxSubDelay p_sys)) (F32.ofInt 1000)),
          ((List.range NB_SUB_FPS_ADJUSTS).foldl
            (ComputeSubSpeedAndDelay_step p_sys
              (fit_speed p_sys.subtitle_delaybookmarks (GetDemuxSubDelay p_sys)))
            (-1, F32.ofInt 100000)).1⟩
      else none := by
  unfold ComputeSubSpeedAndDelay fit_speed fit_delay
  rfl

/-- A proposal carries the index the scan kept, which is not negative. -/
theorem ComputeSubSpeedAndDelay_some (p_sys : demux_sys_t) (sd : sub_speed_delay)
    (h : ComputeSubSpeedAndDelay p_sys = some sd) :
    sd.idx_sub_fps_adjust = ((List.range NB_SUB_FPS_ADJUSTS).foldl
        (ComputeSubSpeedAndDelay_step p_sys
          (fit_speed p_sys.subtitle_delaybookmarks (GetDemuxSubDelay p_sys)))
        (-1, F32.ofInt 100000)).1 ∧ 0 ≤ sd.idx_sub_fps_adjust := by
  rw [ComputeSubSpeedAndDelay_eq] at h
  generalize (List.range NB_SUB_FPS_ADJUSTS).foldl
    (ComputeSubSpeedAndDelay_step p_sys
      (fit_speed p_sys.subtitle_delaybookmarks (GetDemuxSubDelay p_sys)))
    (-1, F32.ofInt 100000) = c at h ⊢
  generalize F32.toInt64 (F32.mul
    (fit_delay p_sys.subtitle_delaybookmarks (GetDemuxSubDelay p_sys)) (F32.ofInt 1000)) = d at h
  split_ifs at h with h1 h2 h3 h4
  cases h
  exact ⟨rfl, h4⟩

/-- The state after `sub-syncbookmarks` holds no proposal when a previous
bookmark is missing. -/
theorem ApplySubtitleDelay_no_proposal (p : demux_t)
    (h : p.p_sys.subtitle_delaybookmarks.i_time_audio_n_1 ≤ 0 ∨
      p.p_sys.subtitle_delaybookmarks.i_time_subtitle_n_1 ≤ 0) :
    (ApplySubtitleDelay p).p_sys.sub_speed_delay_user_confirm.idx_sub_fps_adjust = -1 := by
  by_cases hc : p.p_sys.sub_speed_delay_user_confirm.idx_sub_fps_adjust ≥ 0 ∧
      p.p_sys.subtitle_delaybookmarks.i_time_audio = 0 ∧
      p.p_sys.subtitle_delaybookmarks.i_time_subtitle = 0
  · rw [ApplySubtitleDelay_confirm p hc]
    rfl
  · obtain ⟨i, hi⟩ := ApplySubtitleDelay_compute p hc
    rw [hi]
    have hnone : ComputeSubSpeedAndDelay p.p_sys = none := by
      rw [ComputeSubSpeedAndDelay_eq, if_pos h]
    rw [hnone]
    rfl

/-! ## Lemmas on the SAMI parser and the parse loop -/

theorem strstr_by_length (eq : Char → Char → Bool) (needle : List Char) :
    ∀ (s r : List Char), strstr_by eq s needle = some r →
      r.length ≤ s.length ∧ matchesAt eq r needle = true := by
  intro s
  induction s with
  | nil =>
    intro r h
    rw [strstr_by] at h
    split_ifs at h with hm
    cases h
    exact ⟨Nat.le_refl _, hm⟩
  | cons c s ih =>
    intro r h
    rw [strstr_by] at h
    split_ifs at h with hm
    · cases h
      exact ⟨Nat.le_refl _, hm⟩
    · obtain ⟨h1, h2⟩ := ih r h
      exact ⟨by rw [List.length_cons]; omega, h2⟩

/-- What `strcasestr` finds is a part of the text searched; past a needle of
one character it is shorter. -/
theorem strcasestr_drop_length (s r : List Char) (psz_str : String)
    (h : strcasestr s psz_str = some r) :
    (r.drop psz_str.length).length ≤ s.length ∧
      (psz_str = ">" → (r.drop psz_str.length).length + 1 ≤ s.length) := by
  obtain ⟨h1, h2⟩ := strstr_by_length _ _ s r h
  refine ⟨by rw [List.length_drop]; omega, ?_⟩
  intro hs
  subst hs
  cases r with
  | nil => exact absurd h2 (by decide)
  | cons x t =>
    rw [List.length_cons] at h1
    show (List.drop 1 (x :: t)).length + 1 ≤ s.length
    rw [List.drop_succ_cons, List.drop_zero]
    omega

theorem ParseSamiSearch_loop_size (psz_str : String) :
    ∀ (lines : List (List Char)) (s cur : List Char) (rest : List (List Char)),
      ParseSamiSearch_loop psz_str lines = some (s, cur, rest) →
      s.length + text_size rest + 1 ≤ text_size lines := by
  intro lines
  induction lines with
  | nil =>
    intro s cur rest h
    rw [ParseSamiSearch_loop] at h
    exact Option.noConfusion h
  | cons p tl ih =>
    intro s cur rest h
    rw [ParseSamiSearch_loop] at h
    cases hf : strcasestr p psz_str with
    | none =>
      rw [hf] at h
      have := ih s cur rest h
      rw [text_size]
      omega
    | some r =>
      rw [hf] at h
      simp only [Option.some.injEq, Prod.mk.injEq] at h
      obtain ⟨e1, _, e3⟩ := h
      have := (strcasestr_drop_length p r psz_str hf).1
      rw [text_size, ← e1, ← e3]
      omega

/-- The text loop of `ParseSami` returns: the characters and lines left plus
two are fuel enough. -/
theorem ParseSami_text_returns :
    ∀ (fuel : Nat) (lines : List (List Char)) (cur : List Char) (s : Option (List Char))
      (text : List Char),
      (s.getD []).length + text_size lines + 2 ≤ fuel →
      (ParseSami_text fuel lines cur s text).isSome = true := by
  intro fuel
  induction fuel with
  | zero =>
    intro lines cur s text h
    omega
  | succ n ih =>
    intro lines cur s text h
    cases s with
    | none => rfl
    | some x =>
      cases x with
      | nil =>
        cases lines with
        | nil => rfl
        | cons l rest =>
          rw [ParseSami_text]
          apply ih
          rw [text_size] at h
          simp only [Option.getD_some, List.length_nil] at h ⊢
          omega
      | cons c t =>
        simp only [Option.getD_some, List.length_cons] at h
        have hsearch : ∀ text2 : List Char,
            (match ParseSamiSearch lines cur (some (c :: t)) ">" with
              | none => ParseSami_text n [] cur none text2
              | some (s2, cur2, rest) => ParseSami_text n rest cur2 (some s2) text2).isSome =
              true := by
          intro text2
          cases hs : ParseSamiSearch lines cur (some (c :: t)) ">" with
          | none =>
            simp only []
            cases n with
            | zero => omega
            | succ m => rfl
          | some r =>
            obtain ⟨s2, cur2, rest⟩ := r
            simp only []
            apply ih
            simp only [Option.getD_some]
            unfold ParseSamiSearch at hs
            simp only [] at hs
            cases hf : strcasestr (c :: t) ">" with
            | none =>
              rw [hf] at hs
              have := ParseSamiSearch_loop_size ">" lines s2 cur2 rest hs
              omega
            | some r2 =>
              rw [hf] at hs
              simp only [Option.some.injEq, Prod.mk.injEq] at hs
              obtain ⟨e1, _, e3⟩ := hs
              have := (strcasestr_drop_length (c :: t) r2 ">" hf).2 rfl
              rw [List.length_cons] at this
              rw [← e1, ← e3]
              omega
        rw [ParseSami_text]
        simp only []
        by_cases h1 : c = '<'
        · rw [if_pos h1]
          by_cases h2 : strncasecmp (c :: t) "<br" 3 ≠ 0 ∧
              (strcasestr (c :: t) "Start=").isSome = true
          · rw [if_pos h2]
            rfl
          · rw [if_neg h2]
            exact hsearch _
        · rw [if_neg h1]
          by_cases h3 : matchesAt (fun a b => a == b) (c :: t) "&nbsp;".data = true
          · rw [if_pos h3]
            apply ih
            simp only [Option.getD_some, List.length_drop]
            omega
          · rw [if_neg h3]
            by_cases h4 : c = '\t'
            · rw [if_pos h4]
              apply ih
              simp only [Option.getD_some]
              omega
            · rw [if_neg h4]
              apply ih
              simp only [Option.getD_some]
              omega

/-- The parse loop of `Open` ends for a parser that advances the read position
on every successful call: more fuel than there are unread lines is enough. -/
theorem Open_parse_loop_returns
    (pf_read : demux_sys_t → Int → Option subtitle_t × demux_sys_t)
    (hprog : ∀ (p : demux_sys_t) (i : Int) (cue : subtitle_t) (q : demux_sys_t),
      p.txt.i_line ≤ p.txt.line.length → pf_read p i = (some cue, q) →
        q.txt.line = p.txt.line ∧ p.txt.i_line < q.txt.i_line ∧
          q.txt.i_line ≤ q.txt.line.length) :
    ∀ (fuel : Nat) (p : demux_sys_t), p.txt.i_line ≤ p.txt.line.length →
      p.txt.line.length < p.txt.i_line + fuel →
      (Open_parse_loop pf_read fuel p).isSome = true := by
  intro fuel
  induction fuel with
  | zero =>
    intro p h0 h
    omega
  | succ n ih =>
    intro p h0 h
    rw [Open_parse_loop]
    cases hr : pf_read p p.subtitle.length with
    | mk r q =>
      cases r with
      | none => rfl
      | some cue =>
        obtain ⟨h1, h2, h3⟩ := hprog p _ cue q h0 hr
        apply ih
        · exact h3
        · show q.txt.line.length < q.txt.i_line + n
          rw [h1]
          omega

theorem ParseSubRipSubViewer_timing_rest (pf : List Char → Option (Int × Int)) :
    ∀ (lines : List (List Char)) (t : Int × Int) (rest : List (List Char)),
      ParseSubRipSubViewer_timing pf lines = some (t, rest) → rest.length < lines.length := by
  intro lines
  induction lines with
  | nil =>
    intro t rest h
    rw [ParseSubRipSubViewer_timing] at h
    exact Option.noConfusion h
  | cons s tl ih =>
    intro t rest h
    rw [ParseSubRipSubViewer_timing] at h
    rw [List.length_cons]
    cases hp : pf s with
    | none =>
      rw [hp] at h
      have := ih t rest h
      omega
    | some ab =>
      obtain ⟨a, b⟩ := ab
      rw [hp] at h
      simp only [] at h
      split_ifs at h
      · simp only [Option.some.injEq, Prod.mk.injEq] at h
        rw [← h.2]
        omega
      · have := ih t rest h
        omega

theorem ParseSubRipSubViewer_text_rest (b : Bool) :
    ∀ (lines : List (List Char)) (text : List Char),
      (ParseSubRipSubViewer_text b lines text).2.length ≤ lines.length := by
  intro lines
  induction lines with
  | nil =>
    intro text
    rw [ParseSubRipSubViewer_text]
  | cons s tl ih =>
    intro text
    rw [ParseSubRipSubViewer_text]
    rw [List.length_cons]
    simp only []
    split_ifs
    · exact Nat.le_succ _
    · exact Nat.le_succ_of_le (ih _)
    · exact Nat.le_succ_of_le (ih _)

/-- Each successful call of `ParseSubRipSubViewer` (SubRip, SubViewer, WebVTT)
advances the read position, so the parse loop of `Open` ends on these
formats. -/
theorem ParseSubRipSubViewer_progress (pf : List Char → Option (Int × Int)) (b : Bool)
    (p : demux_sys_t) (cue : subtitle_t) (q : demux_sys_t)
    (h0 : p.txt.i_line ≤ p.txt.line.length)
    (h : ParseSubRipSubViewer p pf b = (some cue, q)) :
    q.txt.line = p.txt.line ∧ p.txt.i_line < q.txt.i_line ∧
      q.txt.i_line ≤ q.txt.line.length := by
  unfold ParseSubRipSubViewer at h
  cases ht : ParseSubRipSubViewer_timing pf (text_rest p.txt) with
  | none =>
    rw [ht] at h
    simp only [Prod.mk.injEq] at h
    exact Option.noConfusion h.1
  | some r =>
    obtain ⟨⟨a, c⟩, rest⟩ := r
    rw [ht] at h
    simp only [Prod.mk.injEq] at h
    obtain ⟨_, h2⟩ := h
    have l1 := ParseSubRipSubViewer_timing_rest pf (text_rest p.txt) (a, c) rest ht
    have l2 := ParseSubRipSubViewer_text_rest b rest []
    have l3 : (text_rest p.txt).length = p.txt.line.length - p.txt.i_line := by
      unfold text_rest
      rw [List.length_drop]
    rw [← h2]
    refine ⟨rfl, ?_, ?_⟩
    · show p.txt.i_line < p.txt.i_line +
        ((text_rest p.txt).length - (ParseSubRipSubViewer_text b rest []).2.length)
      omega
    · show p.txt.i_line +
        ((text_rest p.txt).length - (ParseSubRipSubViewer_text b rest []).2.length) ≤
          p.txt.line.length
      omega

theorem Open_parse_SubRip_returns (p_sys : demux_sys_t) (lines : List (List Char)) :
    (Open_parse ParseSubRip p_sys lines).isSome = true ∧
      (Open_parse ParseSubViewer p_sys lines).isSome = true ∧
      (Open_parse ParseVTT p_sys lines).isSome = true := by
  have key : ∀ (pf : List Char → Option (Int × Int)) (b : Bool),
      (Open_parse (fun p _ => ParseSubRipSubViewer p pf b) p_sys lines).isSome = true := by
    intro pf b
    unfold Open_parse
    have := Open_parse_loop_returns (fun p _ => ParseSubRipSubViewer p pf b)
      (fun p _ cue q h0 h => ParseSubRipSubViewer_progress pf b p cue q h0 h)
      (lines.length + 1) { p_sys with txt := ⟨lines, 0⟩ } (Nat.zero_le _) (by
        show lines.length < 0 + (lines.length + 1)
        omega)
    cases hl : Open_parse_loop (fun p _ => ParseSubRipSubViewer p pf b) (lines.length + 1)
        { p_sys with txt := ⟨lines, 0⟩ } with
    | none =>
      rw [hl] at this
      exact absurd this (by decide)
    | some r => rfl
  exact ⟨key subtitle_ParseSubRipTiming false, key subtitle_ParseSubViewerTiming true,
    key ParseVTT_timing false⟩

/-! ## Timeline adjuster: the claims -/

/-- C1, as stated, fails: with delay 0 and the identity entry, the timestamp
`16777217` (`2^24 + 1` microseconds) comes back as `16777216`. -/
theorem adjust_subtitle_time_identity_rounds :
    adjust_subtitle_time (session [] 0 0) 16777217 = 16777216 ∧
      adjust_subtitle_time (session [] 0 0) 16777217 ≠ 16777217 := by
  set_option maxRecDepth 8000 in decide

/-- C1, amended: for every raw timestamp `t` in the signed 64-bit range that
single precision represents exactly (in particular every `t` with
`|t| <= 2^24 = 16777216`), `adjust_subtitle_time` with delay 0 and the identity
speed entry (table index 0, ratio 1.0) returns exactly `t`. -/
theorem adjust_subtitle_time_identity (p_sys : demux_sys_t) (t : Int)
    (htbl : p_sys.sub_fps_adjusts = sub_fps_table)
    (hcur : p_sys.sub_speed_delay_current = ⟨0, 0⟩)
    (ht : isInt64 t) (he : F32.exactInt t ∨ t.natAbs ≤ 2 ^ 24) :
    adjust_subtitle_time p_sys t = t := by
  have he' : F32.exactInt t := he.elim id (exactInt_of_small t)
  have hr : t.natAbs < 2 ^ 128 := by
    unfold isInt64 INT64_MIN INT64_MAX at ht
    omega
  have hspeed : GetDemuxSubSpeed p_sys = F32.fin F32.unit := by
    unfold GetDemuxSubSpeed
    rw [htbl, hcur]
    show (if (0 : Int) < 0 then F32.nan else
      match sub_fps_table.get? 0 with
      | some e => e.fps_ratio
      | none => F32.nan) = _
    rw [if_neg (by decide), sub_fps_table_zero]
  have hdelay : GetDemuxSubDelay p_sys = 0 := by
    unfold GetDemuxSubDelay
    rw [hcur]
  show wrap64 (F32.toInt64 (F32.div (F32.ofInt t) (GetDemuxSubSpeed p_sys)) +
    GetDemuxSubDelay p_sys) = t
  rw [hspeed, hdelay, F32.ofInt_exact t he' hr, F32.div_one_exact t he' hr,
    F32.toInt64_mul_unit t ht, add_zero, F32.wrap64_of_isInt64 t ht]

/-- C1 at one second. -/
theorem adjust_subtitle_time_identity_witness :
    adjust_subtitle_time (session [] 0 0) 1000000 = 1000000 :=
  adjust_subtitle_time_identity (session [] 0 0) 1000000 rfl rfl (by decide)
    (Or.inr (by decide))

/-- C2, as stated, fails: for the unknown-stop marker `-1` with the ratio of
entry 8 (`25 / 24`) and delay 0 the result is `0`, not `floor(-1 / r) = -1`;
and for `raw = 4` with the ratio of entry 6 (`24 / 30`, stored as a float
slightly above `0.8`) the result is `5`, not `floor(4 / r) = 4`. -/
theorem adjust_subtitle_time_not_floor :
    (adjust_subtitle_time (session [] 0 8) (-1) = 0 ∧
      ⌊((-1 : Int) : ℚ) / F32.toRat (GetDemuxSubSpeed (session [] 0 8))⌋ + 0 = -1) ∧
    (adjust_subtitle_time (session [] 0 6) 4 = 5 ∧
      ⌊((4 : Int) : ℚ) / F32.toRat (GetDemuxSubSpeed (session [] 0 6))⌋ + 0 = 4) := by
  refine ⟨⟨?_, ?_⟩, ?_, ?_⟩
  · set_option maxRecDepth 8000 in decide
  · have h : GetDemuxSubSpeed (session [] 0 8) =
        F32.fin 743358144927490194639651987140394764218662912 := by
      set_option maxRecDepth 8000 in decide
    rw [h, F32.toRat, add_zero, Int.floor_eq_iff]
    constructor <;> norm_num
  · set_option maxRecDepth 8000 in decide
  · have h : GetDemuxSubSpeed (session [] 0 6) =
        F32.fin 570899085589443125446775974364163240347303936 := by
      set_option maxRecDepth 8000 in decide
    rw [h, F32.toRat, add_zero, Int.floor_eq_iff]
    constructor <;> norm_num

/-- C2, amended: for every raw timestamp with `|raw| <= 2^59`, every entry of the
speed table and every delay `d`, `adjust_subtitle_time` returns the
single-precision quotient of `(float)raw` by the ratio, rounded toward zero
(its floor for `raw >= 0`, its ceiling for `raw < 0`), plus `d` in 64-bit
arithmetic. -/
theorem adjust_subtitle_time_truncates (p_sys : demux_sys_t) (raw : Int)
    (htbl : p_sys.sub_fps_adjusts = sub_fps_table)
    (h0 : 0 ≤ p_sys.sub_speed_delay_current.idx_sub_fps_adjust)
    (h1 : p_sys.sub_speed_delay_current.idx_sub_fps_adjust < 13)
    (hraw : raw.natAbs ≤ 2 ^ 59) :
    (∃ u, F32.div (F32.ofInt raw) (GetDemuxSubSpeed p_sys) = F32.fin u) ∧
      adjust_subtitle_time p_sys raw =
        wrap64 ((if 0 ≤ raw
            then ⌊F32.toRat (F32.div (F32.ofInt raw) (GetDemuxSubSpeed p_sys))⌋
            else ⌈F32.toRat (F32.div (F32.ofInt raw) (GetDemuxSubSpeed p_sys))⌉) +
          p_sys.sub_speed_delay_current.sub_delay) := by
  obtain ⟨r, hr, hhalf⟩ := GetDemuxSubSpeed_table p_sys htbl h0 h1
  obtain ⟨m1, hm1, hb1⟩ := F32.ofInt_fin raw hraw
  have hunit : F32.unit = 2 ^ 149 := rfl
  have hs1 : (if raw < 0 then -(m1 : Int) else (m1 : Int)).natAbs = m1 := by
    split_ifs <;> simp
  rw [hunit] at hb1
  have hs1b : (if raw < 0 then -(m1 : Int) else (m1 : Int)).natAbs ≤ 2 ^ 61 * F32.unit := by
    rw [hs1, hunit]
    exact (adjust_bound_aux raw.natAbs m1 0 hraw hb1 (by omega)).1
  obtain ⟨m2, hm2, hb2, hzero⟩ := F32.div_fin _ r hhalf hs1b
  rw [hs1] at hb2 hzero
  have hq : m2 / F32.unit ≤ 2 ^ 62 := by
    have h := (adjust_bound_aux raw.natAbs m1 m2 hraw hb1 hb2).2
    rw [← hunit] at h
    have := (Nat.div_lt_iff_lt_mul (by rw [hunit]; positivity)).mpr h
    omega
  obtain ⟨hpos, hneg⟩ := F32.toInt64_nat m2 hq
  show _ ∧ wrap64 (F32.toInt64 (F32.div (F32.ofInt raw) (GetDemuxSubSpeed p_sys)) +
    GetDemuxSubDelay p_sys) = _
  rw [hr, hm1, hm2]
  refine ⟨⟨_, rfl⟩, ?_⟩
  unfold GetDemuxSubDelay
  congr 2
  by_cases hn : raw < 0
  · have hn' : ¬ 0 ≤ raw := by omega
    rw [if_neg hn']
    by_cases hz : (if raw < 0 then -(m1 : Int) else (m1 : Int)) < 0
    · rw [if_pos hz, hneg]; rfl
    · rw [if_neg hz]
      rw [if_pos hn] at hz
      have hm10 : m1 = 0 := by omega
      have hm20 : m2 = 0 := hzero hm10
      subst hm20
      simp [F32.toInt64, F32.toRat, INT64_MIN, INT64_MAX]
  · have hn' : 0 ≤ raw := by omega
    have hz : ¬ (if raw < 0 then -(m1 : Int) else (m1 : Int)) < 0 := by
      rw [if_neg hn]; omega
    rw [if_pos hn', if_neg hz, hpos]; rfl

/-- C2 at the unknown-stop marker with the ratio `25 / 24` and half a second of delay. -/
theorem adjust_subtitle_time_truncates_witness :
    adjust_subtitle_time (session [] 500000 8) (-1) =
      wrap64 (⌈F32.toRat (F32.div (F32.ofInt (-1)) (GetDemuxSubSpeed (session [] 500000 8)))⌉ +
        500000) :=
  (adjust_subtitle_time_truncates (session [] 500000 8) (-1) rfl (by decide) (by decide)
    (by decide)).2

/-! ## Cue store post-processing: the claims -/

/-- C3: for every cue array, of any length and in any initial order, `Fix`
returns, and in the array it leaves `store[i].i_start <= store[i+1].i_start`
holds for every adjacent pair of indices. -/
theorem Fix_sorted (subs : List subtitle_t) :
    ∃ r, Fix subs = some r ∧
      ∀ (i : Nat) (h : i + 1 < r.length),
        (r.get ⟨i, by omega⟩).i_start ≤ (r.get ⟨i + 1, h⟩).i_start := by
  obtain ⟨r, hr, hs, _, _⟩ := Fix_spec subs
  refine ⟨r, hr, fun i h => ?_⟩
  exact (List.chain'_iff_get.mp hs) i (by omega)

/-- C4: `Fix` is a stable rearrangement: the array it leaves is a permutation of
the input cues (same multiset of `(i_start, i_stop, psz_text)` triples, same
length), and for every start time the cues with that start appear in their
original relative order. -/
theorem Fix_stable_permutation (subs : List subtitle_t) :
    ∃ r, Fix subs = some r ∧ List.Perm r subs ∧ r.length = subs.length ∧
      ∀ t : Int, r.filter (fun c => decide (c.i_start = t)) =
        subs.filter (fun c => decide (c.i_start = t)) := by
  obtain ⟨r, hr, _, hp, hf⟩ := Fix_spec subs
  exact ⟨r, hr, hp, hp.length_eq, hf⟩

/-- C5, as stated, fails: a SubRip session whose two cues were parsed out of
order leaves `Open` with the store still out of order. -/
theorem Open_finish_subrip_unsorted :
    ∃ p, Open_finish (Open_parsed SUB_TYPE_SUBRIP
        [⟨2000000, 3000000, ['b']⟩, ⟨0, 1000000, ['a']⟩]) = some p ∧
      p.subtitle = [⟨2000000, 3000000, ['b']⟩, ⟨0, 1000000, ['a']⟩] ∧
      ¬ StartSorted p.subtitle :=
  ⟨_, rfl, rfl, fun h => absurd (List.chain'_cons.mp h).1 (by decide)⟩

/-- C5, amended: once ingestion in `Open` has finished, the store is sorted
non-decreasing by start (and is a permutation of the parsed cues) when the type
is SSA-1, SSA-2/3/4 or ASS; for every other type the store is the parsed cues
in parse order. -/
theorem Open_finish_store (p_sys : demux_sys_t) :
    ∃ p, Open_finish p_sys = some p ∧
      ((p_sys.i_type = SUB_TYPE_SSA1 ∨ p_sys.i_type = SUB_TYPE_SSA2_4 ∨
          p_sys.i_type = SUB_TYPE_ASS) →
        StartSorted p.subtitle ∧ List.Perm p.subtitle p_sys.subtitle) ∧
      (¬ (p_sys.i_type = SUB_TYPE_SSA1 ∨ p_sys.i_type = SUB_TYPE_SSA2_4 ∨
          p_sys.i_type = SUB_TYPE_ASS) →
        p.subtitle = p_sys.subtitle) := by
  obtain ⟨r, hr, hs, hp, _⟩ := Fix_spec p_sys.subtitle
  by_cases ht : p_sys.i_type = SUB_TYPE_SSA1 ∨ p_sys.i_type = SUB_TYPE_SSA2_4 ∨
      p_sys.i_type = SUB_TYPE_ASS
  · exact ⟨_, Open_finish_ssa p_sys r ht hr, fun _ => ⟨hs, hp⟩, fun h => absurd ht h⟩
  · exact ⟨_, Open_finish_other p_sys ht, fun h => absurd h ht, fun _ => rfl⟩

/-- C5 on an ASS session whose two cues were parsed out of order. -/
theorem Open_finish_store_witness :
    ∃ p, Open_finish (Open_parsed SUB_TYPE_ASS
        [⟨2000000, 3000000, ['b']⟩, ⟨0, 1000000, ['a']⟩]) = some p ∧
      StartSorted p.subtitle :=
  (Open_finish_store (Open_parsed SUB_TYPE_ASS
      [⟨2000000, 3000000, ['b']⟩, ⟨0, 1000000, ['a']⟩])).imp
    fun _ h => ⟨h.1, (h.2.1 (Or.inr (Or.inr rfl))).1⟩

/-- C6, as stated, fails: for an ASS session whose cues were parsed as
`(10, 20)` then `(5, 8)`, the length is `8`, while the last cue of the sorted
store stops at `20`. -/
theorem Open_finish_length_not_of_sorted :
    ∃ p, Open_finish (Open_parsed SUB_TYPE_ASS [⟨10, 20, ['b']⟩, ⟨5, 8, ['a']⟩]) = some p ∧
      p.subtitle = [⟨5, 8, ['a']⟩, ⟨10, 20, ['b']⟩] ∧
      p.subtitle.getLast? = some ⟨10, 20, ['b']⟩ ∧
      p.i_length = 8 :=
  ⟨_, rfl, rfl, rfl, rfl⟩

/-- C6, amended: after ingestion, whenever the final store is the store as
parsed (the type is not SSA/ASS, or the cues were parsed in non-decreasing
start order), the total length equals the stop of the last cue of the store
when that stop is `> 0`, and otherwise that cue's start `+ 1` (in 64-bit
arithmetic); for an empty store the length is 0. -/
theorem Open_finish_length (p_sys : demux_sys_t)
    (h : ¬ (p_sys.i_type = SUB_TYPE_SSA1 ∨ p_sys.i_type = SUB_TYPE_SSA2_4 ∨
        p_sys.i_type = SUB_TYPE_ASS) ∨ StartSorted p_sys.subtitle) :
    ∃ p, Open_finish p_sys = some p ∧ p.subtitle = p_sys.subtitle ∧
      (p.subtitle = [] → p.i_length = 0) ∧
      (∀ last, p.subtitle.getLast? = some last →
        p.i_length = if 0 < last.i_stop then last.i_stop else wrap64 (last.i_start + 1)) := by
  have hlen0 : p_sys.subtitle = [] → Open_length p_sys.subtitle = 0 := by
    intro h; simp [Open_length, h]
  have hlen1 : ∀ last, p_sys.subtitle.getLast? = some last →
      Open_length p_sys.subtitle =
        if 0 < last.i_stop then last.i_stop else wrap64 (last.i_start + 1) := by
    intro last h
    simp only [Open_length, h]
    by_cases hs : 0 < last.i_stop
    · rw [if_pos hs, if_neg (by omega)]
    · rw [if_neg hs, if_pos (by omega)]
  by_cases ht : p_sys.i_type = SUB_TYPE_SSA1 ∨ p_sys.i_type = SUB_TYPE_SSA2_4 ∨
      p_sys.i_type = SUB_TYPE_ASS
  · have hsorted : StartSorted p_sys.subtitle := h.elim (fun hn => absurd ht hn) id
    exact ⟨_, Open_finish_ssa p_sys p_sys.subtitle ht (Fix_of_sorted p_sys.subtitle hsorted),
      rfl, hlen0, hlen1⟩
  · exact ⟨_, Open_finish_other p_sys ht, rfl, hlen0, hlen1⟩

/-- C6 on a SubRip session whose last parsed cue has an unknown stop. -/
theorem Open_finish_length_witness :
    ∃ p, Open_finish (Open_parsed SUB_TYPE_SUBRIP [⟨10, 20, ['b']⟩, ⟨5, -1, ['a']⟩]) = some p ∧
      p.i_length = 6 :=
  (Open_finish_length (Open_parsed SUB_TYPE_SUBRIP [⟨10, 20, ['b']⟩, ⟨5, -1, ['a']⟩])
    (Or.inl (by decide))).imp
    fun _ h => ⟨h.1, (h.2.2.2 ⟨5, -1, ['a']⟩ (by rw [h.2.1]; rfl)).trans (by decide)⟩

/-! ## The table of frame-rate ratios: the claim -/

/-- The ordered pairs of distinct indices into `fps_list`, in the order of the
double loop. -/
theorem fps_pairs_complete (i j : Nat) :
    (i, j) ∈ [(0, 1), (0, 2), (0, 3), (1, 0), (1, 2), (1, 3),
        (2, 0), (2, 1), (2, 3), (3, 0), (3, 1), (3, 2)] ↔ i < 4 ∧ j < 4 ∧ i ≠ j := by
  constructor
  · intro h
    simp only [List.mem_cons, Prod.mk.injEq, List.mem_singleton, List.not_mem_nil, or_false] at h
    omega
  · rintro ⟨hi, hj, hne⟩
    interval_cases i <;> interval_cases j <;> simp at hne ⊢

theorem fill_sub_fps_adjusts_eq (a0 a1 a2 a3 a4 a5 a6 a7 a8 a9 a10 a11 a12 : sub_fps_adjust) :
    fill_sub_fps_adjusts [a0, a1, a2, a3, a4, a5, a6, a7, a8, a9, a10, a11, a12] =
      some ([⟨F32.ofRatio 1 1, ""⟩, fps_entry 0 1, fps_entry 0 2, fps_entry 0 3,
        fps_entry 1 0, fps_entry 1 2, fps_entry 1 3, fps_entry 2 0, fps_entry 2 1,
        fps_entry 2 3, fps_entry 3 0, fps_entry 3 1, fps_entry 3 2], 13) := by
  rfl

theorem ofRatio_one : F32.ofRatio 1 1 = F32.fin F32.unit := by
  set_option maxRecDepth 8000 in decide

set_option maxRecDepth 8000 in
/-- C7: after `fill_sub_fps_adjusts` the speed table has exactly 13 entries:
entry 0 is the ratio 1.0, and entries 1..12 are the single-precision quotients
`fps_list[i] / fps_list[j]` for the ordered pairs `(i, j)` of distinct indices
into `{23.976, 24, 25, 30}`, each pair exactly once; every store of the fill
loop hits an index in 0..12 (no store falls outside the array, and the running
index ends at 13). -/
theorem fill_sub_fps_adjusts_table (tbl : List sub_fps_adjust)
    (hlen : tbl.length = NB_SUB_FPS_ADJUSTS) :
    ∃ t, fill_sub_fps_adjusts tbl = some (t, 13) ∧ t.length = 13 ∧
      (t.get? 0).map (fun e => e.fps_ratio) = some (F32.fin F32.unit) ∧
      F32.toRat (F32.fin F32.unit) = 1 ∧
      ∃ pairs : List (Nat × Nat), pairs.Nodup ∧ pairs.length = 12 ∧
        (∀ i j, (i, j) ∈ pairs ↔ i < 4 ∧ j < 4 ∧ i ≠ j) ∧
        (t.drop 1).map (fun e => e.fps_ratio) =
          pairs.map (fun p => F32.div (fps_list.getD p.1 F32.nan) (fps_list.getD p.2 F32.nan)) := by
  match tbl, hlen with
  | [a0, a1, a2, a3, a4, a5, a6, a7, a8, a9, a10, a11, a12], _ =>
    refine ⟨_, fill_sub_fps_adjusts_eq a0 a1 a2 a3 a4 a5 a6 a7 a8 a9 a10 a11 a12, rfl, ?_, ?_,
      [(0, 1), (0, 2), (0, 3), (1, 0), (1, 2), (1, 3),
        (2, 0), (2, 1), (2, 3), (3, 0), (3, 1), (3, 2)], by decide, rfl, fps_pairs_complete,
      by simp [fps_entry]⟩
    · exact congrArg some ofRatio_one
    · norm_num [F32.toRat, F32.unit]

/-- C7 at a zero-filled allocation. -/
theorem fill_sub_fps_adjusts_table_witness :
    ∃ t, fill_sub_fps_adjusts (List.replicate 13 ⟨F32.fin 0, ""⟩) = some (t, 13) ∧
      t.length = 13 :=
  (fill_sub_fps_adjusts_table (List.replicate 13 ⟨F32.fin 0, ""⟩) rfl).imp
    fun _ h => ⟨h.1, h.2.1⟩

/-! ## Format probe: the claims -/

/-- C8, as stated, fails: a MicroDVD line `{1}{25}<SAMI>` (text `<SAMI>`) and the
line `WEBVTT <SAMI>`, which starts with `WEBVTT`, are both detected as SAMI,
whose test comes first. -/
theorem Open_probe_sami_first :
    Open_probe ["\x7b1\x7d\x7b25\x7d<SAMI>".data] = SUB_TYPE_SAMI ∧
      Open_probe ["WEBVTT <SAMI>".data] = SUB_TYPE_SAMI := by
  constructor <;> decide

/-- C8, amended: for a stream whose first line is a SubRip timing line
`H:M:S,ms --> H:M:S,ms` (decimal fields), a MicroDVD line `{int}{int}text` that
does not contain `<SAMI>` (in any letter case), or a line starting with `WEBVTT`
that contains none of `<SAMI>`, `[INFORMATION]`, `<time` (in any letter case)
and `*** START SCRIPT`, format detection returns SubRip, MicroDVD and WebVTT
respectively. -/
theorem Open_probe_first_line (post : List (List Char)) :
    (∀ h1 m1 s1 f1 h2 m2 s2 f2 : List (Fin 10),
        h1 ≠ [] → m1 ≠ [] → s1 ≠ [] → f1 ≠ [] → h2 ≠ [] → m2 ≠ [] → s2 ≠ [] → f2 ≠ [] →
        Open_probe (subripTimingLine h1 m1 s1 f1 h2 m2 s2 f2 :: post) = SUB_TYPE_SUBRIP) ∧
      (∀ (a b : List (Fin 10)) (text : List Char), a ≠ [] → b ≠ [] →
        strcasestr (microDvdLine a b text) "<SAMI>" = none →
        Open_probe (microDvdLine a b text :: post) = SUB_TYPE_MICRODVD) ∧
      (∀ rest : List Char,
        strcasestr ("WEBVTT".data ++ rest) "<SAMI>" = none →
        strcasestr ("WEBVTT".data ++ rest) "[INFORMATION]" = none →
        strstr ("WEBVTT".data ++ rest) "*** START SCRIPT" = none →
        strcasestr ("WEBVTT".data ++ rest) "<time" = none →
        Open_probe (("WEBVTT".data ++ rest) :: post) = SUB_TYPE_VTT) := by
  refine ⟨?_, ?_, ?_⟩
  · intro h1 m1 s1 f1 h2 m2 s2 f2 a1 a2 a3 a4 a5 a6 a7 a8
    exact Open_probe_of_line _ post _ (probe_subrip h1 m1 s1 f1 h2 m2 s2 f2 a1 a2 a3 a4 a5 a6 a7 a8)
      (by decide)
  · intro a b text ha hb hs
    exact Open_probe_of_line _ post _ (probe_microdvd a b text ha hb hs) (by decide)
  · intro rest h1 h2 h3 h4
    exact Open_probe_of_line _ post _ (probe_vtt rest h1 h2 h3 h4) (by decide)

/-- C8 on the three literal samples `00:00:01,000 --> 00:00:02,000`,
`{1}{25}Hello` and `WEBVTT`. -/
theorem Open_probe_first_line_witness :
    Open_probe ["00:00:01,000 --> 00:00:02,000".data] = SUB_TYPE_SUBRIP ∧
      Open_probe ["\x7b1\x7d\x7b25\x7dHello".data] = SUB_TYPE_MICRODVD ∧
      Open_probe ["WEBVTT".data] = SUB_TYPE_VTT :=
  ⟨(Open_probe_first_line []).1 [0, 0] [0, 0] [0, 1] [0, 0, 0] [0, 0] [0, 0] [0, 2] [0, 0, 0]
      (by decide) (by decide) (by decide) (by decide) (by decide) (by decide) (by decide)
      (by decide),
    (Open_probe_first_line []).2.1 [1] [2, 5] "Hello".data (by decide) (by decide) (by decide),
    (Open_probe_first_line []).2.2 [] (by decide) (by decide) (by decide) (by decide)⟩

/-- C9: a stream whose first line is the PowerDivx line `{0:00:01}{0:00:03}Hello`
is detected as MicroDVD, because the MicroDVD test `sscanf( s, "{%d}{}", ... ) == 1`
succeeds on every line that starts with `{int`; for the same reason no stream
at all is ever detected as PowerDivx (`SUB_TYPE_PSB`). -/
theorem Open_probe_powerdivx_shadowed :
    Open_probe ["\x7b0:00:01\x7d\x7b0:00:03\x7dHello".data] = SUB_TYPE_MICRODVD ∧
      ∀ lines : List (List Char), Open_probe lines ≠ SUB_TYPE_PSB :=
  ⟨by decide, fun lines => Open_probe_loop_never_psb 256 lines⟩

/-- C10, as stated, fails: a first matching line that starts with
`ScriptType: v4.00+`, or with `Dialogue:`, and also contains `<SAMI>` is
detected as SAMI. -/
theorem Open_probe_ssa_line_with_sami :
    Open_probe ["ScriptType: v4.00+ <SAMI>".data] = SUB_TYPE_SAMI ∧
      Open_probe ["Dialogue: 0,0:00:01.00,0:00:03.00,Default,,0,0,0,,<sami>".data] =
        SUB_TYPE_SAMI := by
  constructor <;> decide

/-- C10, amended: let `s` be the first line of the stream that matches a
signature (it is among the first 256 lines and no earlier line matches), and
let `s` not contain `<SAMI>` (in any letter case).  If `s` starts with
`ScriptType: v4.00+` the result is ASS; if it starts with `ScriptType: v4.00`
not followed by `+`, SSA-2/3/4; if it starts with `Dialogue: Marked`,
SSA-2/3/4; and if it starts with `Dialogue:` but not (in any letter case) with
`Dialogue: Marked`, ASS. -/
theorem Open_probe_ssa_family (pre post : List (List Char)) (s : List Char)
    (hlen : pre.length < 256)
    (hpre : ∀ l ∈ pre, Open_probe_line l = SUB_TYPE_UNKNOWN)
    (hsami : strcasestr s "<SAMI>" = none) :
    (∀ rest, s = "ScriptType: v4.00+".data ++ rest →
        Open_probe (pre ++ s :: post) = SUB_TYPE_ASS) ∧
      (∀ rest, s = "ScriptType: v4.00".data ++ rest → rest.head? ≠ some '+' →
        Open_probe (pre ++ s :: post) = SUB_TYPE_SSA2_4) ∧
      (∀ rest, s = "Dialogue: Marked".data ++ rest →
        Open_probe (pre ++ s :: post) = SUB_TYPE_SSA2_4) ∧
      (∀ rest, s = "Dialogue:".data ++ rest → strncasecmp s "Dialogue: Marked" 16 ≠ 0 →
        Open_probe (pre ++ s :: post) = SUB_TYPE_ASS) := by
  have key : ∀ t, Open_probe_line s = t → t ≠ SUB_TYPE_UNKNOWN →
      Open_probe (pre ++ s :: post) = t := by
    intro t ht hne
    unfold Open_probe
    rw [Open_probe_loop_skip s post pre 256 hlen hpre (by rw [ht]; exact hne), ht]
  refine ⟨?_, ?_, ?_, ?_⟩
  · intro rest hs
    subst hs
    exact key _ (probe_scripttype_plus rest hsami) (by decide)
  · intro rest hs hplus
    subst hs
    exact key _ (probe_scripttype rest hsami hplus) (by decide)
  · intro rest hs
    subst hs
    exact key _ (probe_dialogue_marked rest hsami) (by decide)
  · intro rest hs hother
    subst hs
    exact key _ (probe_dialogue rest hsami hother) (by decide)

/-- C10 on a script whose third line is the first to match. -/
theorem Open_probe_ssa_family_witness :
    Open_probe (["[Script Info]".data, "; a comment".data] ++
      "ScriptType: v4.00+".data :: ["Dialogue: Marked=0,x".data]) = SUB_TYPE_ASS :=
  (Open_probe_ssa_family ["[Script Info]".data, "; a comment".data]
    ["Dialogue: Marked=0,x".data] "ScriptType: v4.00+".data (by decide) (by decide)
    (by decide)).1 [] (by decide)

/-! ## Type selection in `Open`: the claims -/

/-- C11: detection depends only on the first 256 lines of the stream: if none
of the first 256 lines (or none of the lines, when the stream is shorter)
matches any signature, the probe result is unknown and `Open` (forced, with no
usable override) fails with `VLC_EGENERIC`, whatever the later lines are. -/
theorem Open_probe_window (lines : List (List Char))
    (h : ∀ l ∈ lines.take 256, Open_probe_line l = SUB_TYPE_UNKNOWN) :
    Open_probe lines = SUB_TYPE_UNKNOWN ∧
      Open_select true none lines = Except.error VLC_EGENERIC ∧
      Open_select true (some []) lines = Except.error VLC_EGENERIC := by
  have hp : Open_probe lines = SUB_TYPE_UNKNOWN := Open_probe_loop_unknown 256 lines h
  refine ⟨hp, ?_, ?_⟩ <;> simp [Open_select, Open_override, hp]

/-- C11 on a stream of 256 empty lines followed by the line `WEBVTT`, which
alone would be detected as WebVTT. -/
theorem Open_probe_window_witness :
    Open_probe ["WEBVTT".data] = SUB_TYPE_VTT ∧
      Open_select true none (List.replicate 256 [] ++ ["WEBVTT".data]) =
        Except.error VLC_EGENERIC :=
  ⟨by decide,
    (Open_probe_window (List.replicate 256 [] ++ ["WEBVTT".data]) (by
      intro l hl
      rw [List.take_left' (List.length_replicate 256 [])] at hl
      rw [List.eq_of_mem_replicate hl]
      decide)).2.1⟩

/-- C12: the override name `vtt`, which the selector offers, is not a
`psz_type_name` of the dispatch table (the WebVTT entry is named `text/vtt`):
the lookup leaves the type unknown and the Format Detector runs, so a MicroDVD
stream forced to `vtt` is opened as MicroDVD and a stream without signature
fails.  Every other offered name except `auto` resolves to its format kind. -/
theorem Open_override_names :
    Open_override (some "vtt".data) = SUB_TYPE_UNKNOWN ∧
      Open_select true (some "vtt".data) ["\x7b1\x7d\x7b25\x7dHello".data] =
        Except.ok SUB_TYPE_MICRODVD ∧
      Open_select true (some "vtt".data) ["Hello".data] = Except.error VLC_EGENERIC ∧
      ppsz_sub_type.map (fun n => Open_override (some n.data)) =
        [SUB_TYPE_UNKNOWN, SUB_TYPE_MICRODVD, SUB_TYPE_SUBRIP, SUB_TYPE_SUBVIEWER,
          SUB_TYPE_SSA1, SUB_TYPE_SSA2_4, SUB_TYPE_ASS, SUB_TYPE_VPLAYER, SUB_TYPE_SAMI,
          SUB_TYPE_DVDSUBTITLE, SUB_TYPE_MPL2, SUB_TYPE_AQT, SUB_TYPE_PJS, SUB_TYPE_MPSUB,
          SUB_TYPE_JACOSUB, SUB_TYPE_PSB, SUB_TYPE_RT, SUB_TYPE_DKS, SUB_TYPE_SUBVIEW1,
          SUB_TYPE_UNKNOWN] := by
  refine ⟨by decide, rfl, rfl, by decide⟩

/-! ## Format parsers: the claims -/

/-- C13, as stated, fails: the cues the SubRip parser reads from the example
carry the texts `Hello\n` and `World\n`, not `Hello` and `World`. -/
theorem ParseSubRip_example_text :
    (Open_parse ParseSubRip (session [] 0 0) srt_example).map (fun p => p.subtitle) ≠
      some [⟨0, 1000000, "Hello".data⟩, ⟨2000000, 3000000, "World".data⟩] := by
  set_option maxRecDepth 100000 in decide

/-- C13, amended: parsing the eight lines of the example with the SubRip
parser until the end of the input succeeds and appends exactly two cues to the
store: (start 0, stop 1000000, text `Hello\n`) and (start 2000000, stop
3000000, text `World\n`); every text line is stored followed by a newline. -/
theorem ParseSubRip_example (p_sys : demux_sys_t) :
    (Open_parse ParseSubRip p_sys srt_example).map (fun p => p.subtitle) =
      some (p_sys.subtitle ++
        [⟨0, 1000000, "Hello\n".data⟩, ⟨2000000, 3000000, "World\n".data⟩]) := by
  have h : (Open_parse ParseSubRip p_sys srt_example).map (fun p => p.subtitle) =
      some ((p_sys.subtitle ++ [⟨0, 1000000, "Hello\n".data⟩]) ++
        [⟨2000000, 3000000, "World\n".data⟩]) := by
    set_option maxRecDepth 100000 in rfl
  rw [h, List.append_assoc]
  rfl

/-- C15: for every input, every cue the SubRip parser, the SubViewer v2 parser
or the WebVTT parser returns has `i_start < i_stop`; and when the next line is
a timing line with `i_start >= i_stop`, the parser gives what it gives on the
text with that line already taken, that is, the line is dropped and the
following lines are tried. -/
theorem ParseSubRipSubViewer_start_lt_stop (p_sys : demux_sys_t) (i_idx : Int) :
    (∀ (cue : subtitle_t) (p : demux_sys_t),
      (ParseSubRip p_sys i_idx = (some cue, p) ∨ ParseSubViewer p_sys i_idx = (some cue, p) ∨
        ParseVTT p_sys i_idx = (some cue, p)) → cue.i_start < cue.i_stop) ∧
    (∀ (s : List Char) (a b : Int), (TextGetLine p_sys.txt).1 = some s → b ≤ a →
      (subtitle_ParseSubRipTiming s = some (a, b) →
        ParseSubRip p_sys i_idx =
          ParseSubRip { p_sys with txt := (TextGetLine p_sys.txt).2 } i_idx) ∧
      (subtitle_ParseSubViewerTiming s = some (a, b) →
        ParseSubViewer p_sys i_idx =
          ParseSubViewer { p_sys with txt := (TextGetLine p_sys.txt).2 } i_idx) ∧
      (ParseVTT_timing s = some (a, b) →
        ParseVTT p_sys i_idx =
          ParseVTT { p_sys with txt := (TextGetLine p_sys.txt).2 } i_idx)) := by
  refine ⟨?_, ?_⟩
  · intro cue p h
    rcases h with h | h | h
    · exact ParseSubRipSubViewer_lt p_sys _ _ cue p h
    · exact ParseSubRipSubViewer_lt p_sys _ _ cue p h
    · exact ParseSubRipSubViewer_lt p_sys _ _ cue p h
  · intro s a b hs hba
    obtain ⟨rest, hrest, hnext⟩ := TextGetLine_some p_sys.txt s hs
    rw [hnext]
    have key : ∀ (pf : List Char → Option (Int × Int)) (br : Bool), pf s = some (a, b) →
        ParseSubRipSubViewer p_sys pf br =
          ParseSubRipSubViewer
            { p_sys with txt := { p_sys.txt with i_line := p_sys.txt.i_line + 1 } } pf br := by
      intro pf br hpf
      refine ParseSubRipSubViewer_skip p_sys pf br s rest hrest ?_
      intro x y hxy
      rw [hpf] at hxy
      simp only [Option.some.injEq, Prod.mk.injEq] at hxy
      omega
    exact ⟨key _ false, key _ true, key _ false⟩

/-- C15 on a text whose first line is a SubRip timing from 5 s to 4 s, followed
by a valid timing and a text line. -/
theorem ParseSubRipSubViewer_start_lt_stop_witness :
    (ParseSubRip { session [] 0 0 with
        txt := ⟨["00:00:05,000 --> 00:00:04,000".data, "00:00:01,000 --> 00:00:02,000".data,
          "Hi".data], 0⟩ } 0).1 = some ⟨1000000, 2000000, "Hi\n".data⟩ ∧
      (1000000 : Int) < 2000000 ∧
      ParseSubRip { session [] 0 0 with
        txt := ⟨["00:00:05,000 --> 00:00:04,000".data, "00:00:01,000 --> 00:00:02,000".data,
          "Hi".data], 0⟩ } 0 =
      ParseSubRip { session [] 0 0 with
        txt := ⟨["00:00:05,000 --> 00:00:04,000".data, "00:00:01,000 --> 00:00:02,000".data,
          "Hi".data], 1⟩ } 0 :=
  ⟨by set_option maxRecDepth 100000 in decide,
    (ParseSubRipSubViewer_start_lt_stop { session [] 0 0 with
        txt := ⟨["00:00:05,000 --> 00:00:04,000".data, "00:00:01,000 --> 00:00:02,000".data,
          "Hi".data], 0⟩ } 0).1 ⟨1000000, 2000000, "Hi\n".data⟩ _
      (Or.inl (by set_option maxRecDepth 100000 in rfl)),
    ((ParseSubRipSubViewer_start_lt_stop { session [] 0 0 with
        txt := ⟨["00:00:05,000 --> 00:00:04,000".data, "00:00:01,000 --> 00:00:02,000".data,
          "Hi".data], 0⟩ } 0).2 "00:00:05,000 --> 00:00:04,000".data 5000000 4000000
      (by set_option maxRecDepth 100000 in rfl)
      (by decide)).1 (by set_option maxRecDepth 100000 in decide)⟩

/-- C16, as stated, fails: the MicroDVD parser, at 40000 microseconds per
frame, returns the line `\x7b10\x7d\x7b5\x7dx` as a cue from 400000 to 200000, the
PowerDivx parser returns `\x7b0:0:10\x7d\x7b0:0:5\x7dx` as a cue from 10000000 to
5000000, and the SSA parser returns a `Dialogue:` line from 0:00:10.50 to
0:00:05.00 as a cue from 10500000 to 5000000: a stop that is neither negative
nor at or after the start. -/
theorem ParseMicroDvd_stop_before_start :
    ((ParseMicroDvd (fun _ => F32.nan) (F32.fin 0)
        { session [] 0 0 with txt := ⟨["\x7b10\x7d\x7b5\x7dx".data], 0⟩ } 0).1 =
      some ⟨400000, 200000, "x".data⟩ ∧
      ¬ ((200000 : Int) < 0 ∨ (200000 : Int) ≥ 400000)) ∧
    ((ParsePSB { session [] 0 0 with txt := ⟨["\x7b0:0:10\x7d\x7b0:0:5\x7dx".data], 0⟩ } 0).1 =
      some ⟨10000000, 5000000, "x".data⟩ ∧
      ¬ ((5000000 : Int) < 0 ∨ (5000000 : Int) ≥ 10000000)) ∧
    ((ParseSSA { session [] 0 0 with
        i_type := SUB_TYPE_ASS
        txt := ⟨["Dialogue: 3,0:00:10.50,0:00:05.00,Default,,0,0,0,,Hi".data], 0⟩ } 0).1 =
      some ⟨10500000, 5000000, "0,3,Default,,0,0,0,,Hi".data⟩ ∧
      ¬ ((5000000 : Int) < 0 ∨ (5000000 : Int) ≥ 10500000)) := by
  set_option maxRecDepth 100000 in decide

/-- C16, amended: for every input, each cue the SubRip, SubViewer v2 and
WebVTT parsers return has `i_stop >= i_start` (these parsers drop a timing line
unless `i_start < i_stop`); and the emitter `Demux` gives a block a duration
only for a cue with `i_stop >= 0` and `i_stop >= i_start`, whichever parser
returned it. -/
theorem ParseSubRipSubViewer_stop_order (p_sys : demux_sys_t) (i_idx : Int) (cue : subtitle_t)
    (p : demux_sys_t)
    (h : ParseSubRip p_sys i_idx = (some cue, p) ∨ ParseSubViewer p_sys i_idx = (some cue, p) ∨
      ParseVTT p_sys i_idx = (some cue, p)) :
    (cue.i_stop < 0 ∨ cue.i_stop ≥ cue.i_start) ∧
      ∀ (VLC_TS_0 i_maxdate : Int) (q : demux_sys_t) (cues : List subtitle_t) (b : block_t),
        b ∈ (Demux_loop VLC_TS_0 q i_maxdate cues).2 → b.i_length ≠ none →
          ∃ c ∈ cues, b.p_buffer = c.psz_text ∧ c.i_stop ≥ 0 ∧ c.i_stop ≥ c.i_start := by
  refine ⟨Or.inr ?_, fun ts d q cues b hb hl => Demux_loop_length ts q d cues b hb hl⟩
  have hlt : cue.i_start < cue.i_stop := by
    rcases h with h | h | h
    · exact ParseSubRipSubViewer_lt p_sys _ _ cue p h
    · exact ParseSubRipSubViewer_lt p_sys _ _ cue p h
    · exact ParseSubRipSubViewer_lt p_sys _ _ cue p h
  omega

/-- C16 on a WebVTT cue from 1 s to 2.5 s. -/
theorem ParseSubRipSubViewer_stop_order_witness :
    (ParseVTT { session [] 0 0 with
        txt := ⟨["00:00:01.000 --> 00:00:02.500".data, "Hi".data], 0⟩ } 0).1 =
      some ⟨1000000, 2500000, "Hi\n".data⟩ ∧
    ((2500000 : Int) < 0 ∨ (2500000 : Int) ≥ 1000000) :=
  ⟨by set_option maxRecDepth 100000 in decide,
    (ParseSubRipSubViewer_stop_order
      { session [] 0 0 with txt := ⟨["00:00:01.000 --> 00:00:02.500".data, "Hi".data], 0⟩ } 0
      ⟨1000000, 2500000, "Hi\n".data⟩ _ (Or.inr (Or.inr (by
        set_option maxRecDepth 100000 in rfl)))).1⟩

/-! ## Adjusted export and emission: the claims -/

/-- C14: for the two-cue store of the example with delay 500000 and the
identity speed entry, `StoreAdjustedSubsAsSubRip` stores exactly
`1\r\n00:00:00,500 --> 00:00:01,500\r\nHello\r\n\r\n2\r\n00:00:02,500 --> 00:00:03,500\r\nWorld\r\n\r\n`
(for the texts `Hello\n`, `World\n` the parser stores, and as well for the
texts `Hello`, `World`), and `Demux`, asked for everything before a date after 2.5 s, sends the two cues
with the timestamps `VLC_TS_0 + 500000` and `VLC_TS_0 + 2500000` where delay 0
gives `VLC_TS_0 + 0` and `VLC_TS_0 + 2000000`, each with the duration 1000000
in both cases. -/
theorem StoreAdjustedSubsAsSubRip_example (VLC_TS_0 date spu_delay : Int)
    (content : List Char) (hdate : 2500000 < date) :
    (StoreAdjustedSubsAsSubRip
        ⟨session store_example 500000 0, spu_delay, content⟩).sub_srt_file_content =
      ("1\r\n00:00:00,500 --> 00:00:01,500\r\nHello\r\n\r\n" ++
        "2\r\n00:00:02,500 --> 00:00:03,500\r\nWorld\r\n\r\n").data ∧
    (StoreAdjustedSubsAsSubRip
        ⟨session [⟨0, 1000000, "Hello".data⟩, ⟨2000000, 3000000, "World".data⟩] 500000 0,
          spu_delay, content⟩).sub_srt_file_content =
      ("1\r\n00:00:00,500 --> 00:00:01,500\r\nHello\r\n\r\n" ++
        "2\r\n00:00:02,500 --> 00:00:03,500\r\nWorld\r\n\r\n").data ∧
    (Demux VLC_TS_0 { session store_example 0 0 with i_next_demux_date := date }).2.2.map
        (fun b => (b.i_pts, b.i_length)) =
      [(wrap64 (VLC_TS_0 + 0), some 1000000), (wrap64 (VLC_TS_0 + 2000000), some 1000000)] ∧
    (Demux VLC_TS_0 { session store_example 500000 0 with i_next_demux_date := date }).2.2.map
        (fun b => (b.i_pts, b.i_length)) =
      [(wrap64 (VLC_TS_0 + 500000), some 1000000),
        (wrap64 (VLC_TS_0 + 2500000), some 1000000)] := by
  refine ⟨?_, ?_, ?_, ?_⟩
  · show StoreAdjustedSubsAsSubRip_from (session store_example 500000 0) 0 store_example = _
    set_option maxRecDepth 100000 in decide
  · show StoreAdjustedSubsAsSubRip_from
      (session [⟨0, 1000000, "Hello".data⟩, ⟨2000000, 3000000, "World".data⟩] 500000 0) 0
      [⟨0, 1000000, "Hello".data⟩, ⟨2000000, 3000000, "World".data⟩] = _
    set_option maxRecDepth 100000 in decide
  · rw [Demux_blocks VLC_TS_0 _ rfl (List.cons_ne_nil _ _) (by show (0 : Int) < date; omega)]
    refine Demux_loop_example VLC_TS_0 date 0 _ (by omega) ?_ ?_ ?_ ?_ (by omega) <;>
      rw [adjust_subtitle_time_date] <;> set_option maxRecDepth 8000 in decide
  · rw [Demux_blocks VLC_TS_0 _ rfl (List.cons_ne_nil _ _) (by show (0 : Int) < date; omega)]
    refine Demux_loop_example VLC_TS_0 date 500000 _ (by omega) ?_ ?_ ?_ ?_ (by omega) <;>
      rw [adjust_subtitle_time_date] <;> set_option maxRecDepth 8000 in decide

/-- C14 with the timestamp origin 1 and the date 3 s. -/
theorem StoreAdjustedSubsAsSubRip_example_witness :
    (Demux 1 { session store_example 500000 0 with i_next_demux_date := 3000000 }).2.2.map
        (fun b => (b.i_pts, b.i_length)) =
      [(wrap64 (1 + 500000), some 1000000), (wrap64 (1 + 2500000), some 1000000)] :=
  (StoreAdjustedSubsAsSubRip_example 1 3000000 0 [] (by decide)).2.2.2

/-! ## Sync engine: the claims -/

/-- C17: after the `sub-syncreset` event, from any state, the delay is 0 (in
the session and in the `spu-delay` variable), the speed index is 0, which is
the identity ratio of the table `Open` fills, all four bookmarks are 0, and
the cue store and the table are unchanged. -/
theorem subtitle_external_callback_syncreset (p_demux : demux_t) (new_value : Int) :
    (subtitle_external_callback p_demux "sub-syncreset" new_value).2.p_sys.sub_speed_delay_current =
        ⟨0, 0⟩ ∧
      (subtitle_external_callback p_demux "sub-syncreset" new_value).2.spu_delay = 0 ∧
      (subtitle_external_callback p_demux "sub-syncreset"
        new_value).2.p_sys.subtitle_delaybookmarks = ⟨0, 0, 0, 0⟩ ∧
      (subtitle_external_callback p_demux "sub-syncreset" new_value).2.p_sys.subtitle =
        p_demux.p_sys.subtitle ∧
      (subtitle_external_callback p_demux "sub-syncreset" new_value).2.p_sys.sub_fps_adjusts =
        p_demux.p_sys.sub_fps_adjusts ∧
      (p_demux.p_sys.sub_fps_adjusts = sub_fps_table →
        GetDemuxSubSpeed (subtitle_external_callback p_demux "sub-syncreset" new_value).2.p_sys =
          F32.fin F32.unit) := by
  rw [callback_syncreset]
  obtain ⟨i, h1, h2⟩ := set_current_subtitle_by_time_frame
    { SetDemuxSubDelay p_demux 0 with p_sys := { (SetDemuxSubDelay p_demux 0).p_sys with
        sub_speed_delay_current :=
          { (SetDemuxSubDelay p_demux 0).p_sys.sub_speed_delay_current with
            idx_sub_fps_adjust := 0 }
        subtitle_delaybookmarks := ⟨0, 0, 0, 0⟩ } }
    p_demux.p_sys.i_last_demux_date
  simp only []
  rw [h1, h2]
  refine ⟨rfl, rfl, rfl, rfl, rfl, ?_⟩
  intro htbl
  unfold GetDemuxSubSpeed
  show (if (0 : Int) < 0 then F32.nan else
    match p_demux.p_sys.sub_fps_adjusts.get? 0 with
    | some e => e.fps_ratio
    | none => F32.nan) = _
  rw [if_neg (by decide), htbl, sub_fps_table_zero]

/-- C17 from a session with delay 500000, speed index 8 and bookmarks set. -/
theorem subtitle_external_callback_syncreset_witness :
    GetDemuxSubSpeed (subtitle_external_callback
      ⟨{ session store_example 500000 8 with subtitle_delaybookmarks := ⟨7, 5, 3, 2⟩ }, 500000, []⟩
      "sub-syncreset" 0).2.p_sys = F32.fin F32.unit :=
  (subtitle_external_callback_syncreset
    ⟨{ session store_example 500000 8 with subtitle_delaybookmarks := ⟨7, 5, 3, 2⟩ }, 500000, []⟩
    0).2.2.2.2.2 rfl

/-- C18: after every `sub-syncbookmarks` event, whichever branch of
`ApplySubtitleDelay` ran, the previous bookmarks are the current ones as they
were before the event, and the current ones are 0. -/
theorem subtitle_external_callback_syncbookmarks_rotate (p_demux : demux_t) (new_value : Int) :
    (subtitle_external_callback p_demux "sub-syncbookmarks"
        new_value).2.p_sys.subtitle_delaybookmarks =
      { i_time_subtitle := 0
        i_time_audio := 0
        i_time_subtitle_n_1 := p_demux.p_sys.subtitle_delaybookmarks.i_time_subtitle
        i_time_audio_n_1 := p_demux.p_sys.subtitle_delaybookmarks.i_time_audio } := by
  rw [callback_syncbookmarks]
  simp only []
  by_cases h : p_demux.p_sys.sub_speed_delay_user_confirm.idx_sub_fps_adjust ≥ 0 ∧
      p_demux.p_sys.subtitle_delaybookmarks.i_time_audio = 0 ∧
      p_demux.p_sys.subtitle_delaybookmarks.i_time_subtitle = 0
  · rw [ApplySubtitleDelay_confirm p_demux h]
    obtain ⟨i, h1, _⟩ := Apply_sub_speed_delay_frame p_demux
      p_demux.p_sys.sub_speed_delay_user_confirm true
    unfold ApplySubtitleDelay_rotate
    simp only []
    rw [h1]
  · obtain ⟨i, h1⟩ := ApplySubtitleDelay_compute p_demux h
    rw [h1]

/-- C19: if a proposal is pending (index `>= 0`) and both current bookmarks are
0 when `sub-syncbookmarks` fires, then afterwards the current delay and speed
index are those of the proposal, the delay is published in `spu-delay`, the
pending index is -1, and the state is the one reached by applying the proposal
and rotating the bookmarks, with no fit and no delay-only correction. -/
theorem subtitle_external_callback_syncbookmarks_confirm (p_demux : demux_t) (new_value : Int)
    (h : p_demux.p_sys.sub_speed_delay_user_confirm.idx_sub_fps_adjust ≥ 0 ∧
      p_demux.p_sys.subtitle_delaybookmarks.i_time_audio = 0 ∧
      p_demux.p_sys.subtitle_delaybookmarks.i_time_subtitle = 0) :
    (subtitle_external_callback p_demux "sub-syncbookmarks" new_value).2.p_sys.sub_speed_delay_current =
        p_demux.p_sys.sub_speed_delay_user_confirm ∧
      (subtitle_external_callback p_demux "sub-syncbookmarks"
        new_value).2.p_sys.sub_speed_delay_user_confirm =
        ⟨p_demux.p_sys.sub_speed_delay_user_confirm.sub_delay, -1⟩ ∧
      (subtitle_external_callback p_demux "sub-syncbookmarks" new_value).2.spu_delay =
        p_demux.p_sys.sub_speed_delay_user_confirm.sub_delay ∧
      (subtitle_external_callback p_demux "sub-syncbookmarks" new_value).2 =
        ApplySubtitleDelay_rotate
          { Apply_sub_speed_delay p_demux p_demux.p_sys.sub_speed_delay_user_confirm true with
            p_sys :=
              { (Apply_sub_speed_delay p_demux p_demux.p_sys.sub_speed_delay_user_confirm
                  true).p_sys with
                sub_speed_delay_user_confirm :=
                  ⟨p_demux.p_sys.sub_speed_delay_user_confirm.sub_delay, -1⟩ } } := by
  rw [callback_syncbookmarks]
  simp only []
  rw [ApplySubtitleDelay_confirm p_demux h]
  obtain ⟨i, h1, h2⟩ := Apply_sub_speed_delay_frame p_demux
    p_demux.p_sys.sub_speed_delay_user_confirm true
  unfold ApplySubtitleDelay_rotate
  simp only []
  rw [h1, h2]
  exact ⟨rfl, rfl, rfl, rfl⟩

/-- C19 with the pending proposal (400000, 8) on the example store. -/
theorem subtitle_external_callback_syncbookmarks_confirm_witness :
    (subtitle_external_callback
      ⟨{ session store_example (-4000000) 0 with
          subtitle_delaybookmarks := ⟨0, 0, 110000000, 106000000⟩
          sub_speed_delay_user_confirm := ⟨400000, 8⟩ }, -4000000, []⟩
      "sub-syncbookmarks" 0).2.p_sys.sub_speed_delay_current = ⟨400000, 8⟩ :=
  (subtitle_external_callback_syncbookmarks_confirm
    ⟨{ session store_example (-4000000) 0 with
        subtitle_delaybookmarks := ⟨0, 0, 110000000, 106000000⟩
        sub_speed_delay_user_confirm := ⟨400000, 8⟩ }, -4000000, []⟩
    0 ⟨by decide, rfl, rfl⟩).1

/-- C20: when the speed fit finds a matching table ratio during
`sub-syncbookmarks` (the previous subtitle bookmark being a 64-bit integer),
the fitted pair becomes the pending proposal only: the current speed index is
the one before the event, and the current delay is the one the delay-only
correction gives, or the former one when that correction does not apply. -/
theorem subtitle_external_callback_syncbookmarks_propose (p_demux : demux_t) (new_value : Int)
    (speed_delay : sub_speed_delay)
    (hb : isInt64 p_demux.p_sys.subtitle_delaybookmarks.i_time_subtitle_n_1)
    (hfit : ComputeSubSpeedAndDelay p_demux.p_sys = some speed_delay) :
    (subtitle_external_callback p_demux "sub-syncbookmarks"
        new_value).2.p_sys.sub_speed_delay_user_confirm = speed_delay ∧
      (subtitle_external_callback p_demux "sub-syncbookmarks"
        new_value).2.p_sys.sub_speed_delay_current.idx_sub_fps_adjust =
        p_demux.p_sys.sub_speed_delay_current.idx_sub_fps_adjust ∧
      (subtitle_external_callback p_demux "sub-syncbookmarks" new_value).2.p_sys.sub_speed_delay_current =
        (ComputeSubDelay_Only p_demux.p_sys).getD p_demux.p_sys.sub_speed_delay_current := by
  rw [callback_syncbookmarks]
  simp only []
  have hne := ComputeSubSpeedAndDelay_bookmark p_demux.p_sys speed_delay hb hfit
  have hbranch : ¬ (p_demux.p_sys.sub_speed_delay_user_confirm.idx_sub_fps_adjust ≥ 0 ∧
      p_demux.p_sys.subtitle_delaybookmarks.i_time_audio = 0 ∧
      p_demux.p_sys.subtitle_delaybookmarks.i_time_subtitle = 0) := fun h => hne h.2.2
  obtain ⟨i, h1⟩ := ApplySubtitleDelay_compute p_demux hbranch
  rw [h1, hfit]
  refine ⟨rfl, ?_, rfl⟩
  show ((ComputeSubDelay_Only p_demux.p_sys).getD
    p_demux.p_sys.sub_speed_delay_current).idx_sub_fps_adjust = _
  unfold ComputeSubDelay_Only
  simp only []
  split_ifs <;> rfl

/-- C20 with the bookmarks (10 s, 10 s) then (audio 106 s, subtitle 110 s): the
fit proposes the ratio `25 / 24` (index 8) with delay 400000, while the current
pair becomes (-4000000, 0). -/
theorem subtitle_external_callback_syncbookmarks_propose_witness :
    (subtitle_external_callback
      ⟨{ session store_example 0 0 with
          subtitle_delaybookmarks := ⟨110000000, 106000000, 10000000, 10000000⟩ }, 0, []⟩
      "sub-syncbookmarks" 0).2.p_sys.sub_speed_delay_user_confirm = ⟨400000, 8⟩ ∧
    (subtitle_external_callback
      ⟨{ session store_example 0 0 with
          subtitle_delaybookmarks := ⟨110000000, 106000000, 10000000, 10000000⟩ }, 0, []⟩
      "sub-syncbookmarks" 0).2.p_sys.sub_speed_delay_current.idx_sub_fps_adjust = 0 :=
  ⟨(subtitle_external_callback_syncbookmarks_propose
    ⟨{ session store_example 0 0 with
        subtitle_delaybookmarks := ⟨110000000, 106000000, 10000000, 10000000⟩ }, 0, []⟩
    0 ⟨400000, 8⟩ (by decide) (by set_option maxRecDepth 100000 in decide)).1,
   (subtitle_external_callback_syncbookmarks_propose
    ⟨{ session store_example 0 0 with
        subtitle_delaybookmarks := ⟨110000000, 106000000, 10000000, 10000000⟩ }, 0, []⟩
    0 ⟨400000, 8⟩ (by decide) (by set_option maxRecDepth 100000 in decide)).2.1⟩

/-- C21: when `sub-syncbookmarks` fires with both current bookmarks set (so the
confirming branch is not the one taken), the new delay is the old delay plus
`i_time_audio - i_time_subtitle` in 64-bit arithmetic, the speed index is the
old one, and the pair is applied in that same event: it is the current pair
and its delay is published in `spu-delay`.  When the difference and the sum
fit 64 bits the new delay is the exact sum. -/
theorem subtitle_external_callback_syncbookmarks_delay (p_demux : demux_t) (new_value : Int)
    (ha : p_demux.p_sys.subtitle_delaybookmarks.i_time_audio ≠ 0)
    (hs : p_demux.p_sys.subtitle_delaybookmarks.i_time_subtitle ≠ 0) :
    (subtitle_external_callback p_demux "sub-syncbookmarks" new_value).2.p_sys.sub_speed_delay_current =
        ⟨wrap64 (p_demux.p_sys.sub_speed_delay_current.sub_delay +
            wrap64 (p_demux.p_sys.subtitle_delaybookmarks.i_time_audio -
              p_demux.p_sys.subtitle_delaybookmarks.i_time_subtitle)),
          p_demux.p_sys.sub_speed_delay_current.idx_sub_fps_adjust⟩ ∧
      (subtitle_external_callback p_demux "sub-syncbookmarks" new_value).2.spu_delay =
        wrap64 (p_demux.p_sys.sub_speed_delay_current.sub_delay +
          wrap64 (p_demux.p_sys.subtitle_delaybookmarks.i_time_audio -
            p_demux.p_sys.subtitle_delaybookmarks.i_time_subtitle)) ∧
      (isInt64 (p_demux.p_sys.subtitle_delaybookmarks.i_time_audio -
          p_demux.p_sys.subtitle_delaybookmarks.i_time_subtitle) →
        isInt64 (p_demux.p_sys.sub_speed_delay_current.sub_delay +
          (p_demux.p_sys.subtitle_delaybookmarks.i_time_audio -
            p_demux.p_sys.subtitle_delaybookmarks.i_time_subtitle)) →
        (subtitle_external_callback p_demux "sub-syncbookmarks"
            new_value).2.p_sys.sub_speed_delay_current.sub_delay =
          p_demux.p_sys.sub_speed_delay_current.sub_delay +
            (p_demux.p_sys.subtitle_delaybookmarks.i_time_audio -
              p_demux.p_sys.subtitle_delaybookmarks.i_time_subtitle)) := by
  rw [callback_syncbookmarks]
  simp only []
  obtain ⟨sd, hsd, h1, h2⟩ := ApplySubtitleDelay_delay_only p_demux ha hs
  rw [ComputeSubDelay_Only_some p_demux.p_sys ha hs] at hsd
  simp only [Option.some.injEq] at hsd
  rw [h1, h2, ← hsd]
  refine ⟨rfl, rfl, ?_⟩
  intro hw1 hw2
  show wrap64 _ = _
  rw [F32.wrap64_of_isInt64 _ hw1, F32.wrap64_of_isInt64 _ hw2]

/-- C21 with delay 250000, index 8 and the bookmarks audio 106 s, subtitle
110 s: the new pair is (-3750000, 8). -/
theorem subtitle_external_callback_syncbookmarks_delay_witness :
    (subtitle_external_callback
      ⟨{ session store_example 250000 8 with
          subtitle_delaybookmarks := ⟨110000000, 106000000, -1, -1⟩ }, 250000, []⟩
      "sub-syncbookmarks" 0).2.p_sys.sub_speed_delay_current =
      ⟨wrap64 (250000 + wrap64 (106000000 - 110000000)), 8⟩ :=
  (subtitle_external_callback_syncbookmarks_delay
    ⟨{ session store_example 250000 8 with
        subtitle_delaybookmarks := ⟨110000000, 106000000, -1, -1⟩ }, 250000, []⟩
    0 (by decide) (by decide)).1

/-- C22, as stated, fails: with the audio bookmark at 5 s, the subtitle
bookmark missing and no proposal pending, `sub-syncbookmarks` moves the audio
bookmark to the previous pair and clears the current one; and with the previous
pair (audio 1180 s, subtitle 1 s), the subtitle bookmark at 46 s and the audio
bookmark missing, the speed fit still runs and records the proposal of index 5. -/
theorem subtitle_external_callback_syncbookmarks_missing_rotates :
    (subtitle_external_callback
        ⟨{ session store_example 0 0 with subtitle_delaybookmarks := ⟨0, 5000000, -1, -1⟩ }, 0, []⟩
        "sub-syncbookmarks" 0).2.p_sys.subtitle_delaybookmarks = ⟨0, 0, 0, 5000000⟩ ∧
      (⟨0, 0, 0, 5000000⟩ : subtitle_delaybookmarks_t) ≠ ⟨0, 5000000, -1, -1⟩ ∧
      (subtitle_external_callback
        ⟨{ session store_example 0 0 with
            subtitle_delaybookmarks := ⟨46000000, 0, 1000000, 1180000000⟩ }, 0, []⟩
        "sub-syncbookmarks" 0).2.p_sys.sub_speed_delay_user_confirm.idx_sub_fps_adjust = 5 := by
  refine ⟨?_, by decide, ?_⟩
  · set_option maxRecDepth 100000 in decide
  · set_option maxRecDepth 100000 in decide

/-- C22, amended: if `sub-syncbookmarks` fires while a current bookmark is
missing (audio or subtitle bookmark 0) and no proposal awaits confirmation, then
the delay, the speed index, the `spu-delay` variable, the cue cursor, the store
and the export are the same after the event as before; the bookmarks are
rotated (the previous pair takes the current values, the current pair is
cleared); and the pending proposal is the one the speed fit gives, or
(its delay, -1) when the fit gives none, which is the case whenever the
subtitle bookmark is the missing one. -/
theorem subtitle_external_callback_syncbookmarks_missing (p_demux : demux_t) (new_value : Int)
    (hmiss : p_demux.p_sys.subtitle_delaybookmarks.i_time_audio = 0 ∨
      p_demux.p_sys.subtitle_delaybookmarks.i_time_subtitle = 0)
    (hpend : p_demux.p_sys.sub_speed_delay_user_confirm.idx_sub_fps_adjust < 0) :
    (subtitle_external_callback p_demux "sub-syncbookmarks" new_value).2.p_sys.sub_speed_delay_current =
        p_demux.p_sys.sub_speed_delay_current ∧
      (subtitle_external_callback p_demux "sub-syncbookmarks" new_value).2.spu_delay =
        p_demux.spu_delay ∧
      (subtitle_external_callback p_demux "sub-syncbookmarks" new_value).2.p_sys.i_subtitle =
        p_demux.p_sys.i_subtitle ∧
      (subtitle_external_callback p_demux "sub-syncbookmarks" new_value).2.p_sys.subtitle =
        p_demux.p_sys.subtitle ∧
      (subtitle_external_callback p_demux "sub-syncbookmarks" new_value).2.sub_srt_file_content =
        p_demux.sub_srt_file_content ∧
      (subtitle_external_callback p_demux "sub-syncbookmarks"
          new_value).2.p_sys.subtitle_delaybookmarks =
        ⟨0, 0, p_demux.p_sys.subtitle_delaybookmarks.i_time_subtitle,
          p_demux.p_sys.subtitle_delaybookmarks.i_time_audio⟩ ∧
      (subtitle_external_callback p_demux "sub-syncbookmarks"
          new_value).2.p_sys.sub_speed_delay_user_confirm =
        (ComputeSubSpeedAndDelay p_demux.p_sys).getD
          ⟨p_demux.p_sys.sub_speed_delay_user_confirm.sub_delay, -1⟩ ∧
      (p_demux.p_sys.subtitle_delaybookmarks.i_time_subtitle = 0 →
        isInt64 p_demux.p_sys.subtitle_delaybookmarks.i_time_subtitle_n_1 →
        (subtitle_external_callback p_demux "sub-syncbookmarks"
            new_value).2.p_sys.sub_speed_delay_user_confirm =
          ⟨p_demux.p_sys.sub_speed_delay_user_confirm.sub_delay, -1⟩) := by
  rw [callback_syncbookmarks]
  simp only []
  rw [ApplySubtitleDelay_missing p_demux (fun h => by omega)
    (ComputeSubDelay_Only_none p_demux.p_sys hmiss)]
  refine ⟨rfl, rfl, rfl, rfl, rfl, rfl, rfl, ?_⟩
  intro h0 hb
  cases hfit : ComputeSubSpeedAndDelay p_demux.p_sys with
  | none => rfl
  | some sd => exact absurd h0 (ComputeSubSpeedAndDelay_bookmark p_demux.p_sys sd hb hfit)

/-- C22 from the state `Open` leaves, with only the audio bookmark set. -/
theorem subtitle_external_callback_syncbookmarks_missing_witness :
    (subtitle_external_callback
      ⟨{ session store_example 0 0 with subtitle_delaybookmarks := ⟨0, 5000000, -1, -1⟩ }, 0, []⟩
      "sub-syncbookmarks" 0).2.p_sys.sub_speed_delay_current = ⟨0, 0⟩ :=
  (subtitle_external_callback_syncbookmarks_missing
    ⟨{ session store_example 0 0 with subtitle_delaybookmarks := ⟨0, 5000000, -1, -1⟩ }, 0, []⟩
    0 (Or.inr rfl) (by decide)).1

/-- C23, as stated, fails.  Bookmarks are built from the current pair (0, 0)
and an injected pair by pairing the on-screen time of a cue under the current
mapping (subtitle bookmark) with its time under the injected mapping (audio
bookmark).
(a) Injected (0, 8), cues at 1000 s and 1100 s: neither pair is in sync and the
fit proposes nothing.
(b) Injected (-427094, 2), a ratio below 1, cues at 10 s and 110 s, the first
pair in sync: the fit proposes index 5, not 2.
(c) Injected (143999744, 8), cues at 3600 s and 3646 s, the first pair in sync:
the fit proposes index 8 with the delay 144009232, which is 9488 us off.
(d) The same with cues at 3600 s and 3645 s: the subtitle bookmarks are
44.999936 s apart and the fit proposes nothing. -/
theorem ComputeSubSpeedAndDelay_not_recovered :
    ((⟨adjust_subtitle_time (session store_example 0 0) 1100000000,
          adjust_subtitle_time (session store_example 0 8) 1100000000,
          adjust_subtitle_time (session store_example 0 0) 1000000000,
          adjust_subtitle_time (session store_example 0 8) 1000000000⟩ :
          subtitle_delaybookmarks_t) =
        ⟨1100000000, 1056000064, 1000000000, 960000064⟩ ∧
      ComputeSubSpeedAndDelay
        { session store_example 0 0 with
          subtitle_delaybookmarks := ⟨1100000000, 1056000064, 1000000000, 960000064⟩ } =
        none) ∧
    ((⟨adjust_subtitle_time (session store_example 0 0) 110000000,
          adjust_subtitle_time (session store_example (-427094) 2) 110000000,
          adjust_subtitle_time (session store_example 0 0) 10000000,
          adjust_subtitle_time (session store_example (-427094) 2) 10000000⟩ :
          subtitle_delaybookmarks_t) =
        ⟨110000000, 114270938, 10000000, 10000000⟩ ∧
      ComputeSubSpeedAndDelay
        { session store_example 0 0 with
          subtitle_delaybookmarks := ⟨110000000, 114270938, 10000000, 10000000⟩ } =
        some ⟨-409600, 5⟩) ∧
    ((⟨adjust_subtitle_time (session store_example 0 0) 3646000000,
          adjust_subtitle_time (session store_example 143999744 8) 3646000000,
          adjust_subtitle_time (session store_example 0 0) 3600000000,
          adjust_subtitle_time (session store_example 143999744 8) 3600000000⟩ :
          subtitle_delaybookmarks_t) =
        ⟨3646000128, 3644160000, 3600000000, 3600000000⟩ ∧
      ComputeSubSpeedAndDelay
        { session store_example 0 0 with
          subtitle_delaybookmarks := ⟨3646000128, 3644160000, 3600000000, 3600000000⟩ } =
        some ⟨144009232, 8⟩ ∧
      (144009232 : Int) - 143999744 = 9488) ∧
    ((⟨adjust_subtitle_time (session store_example 0 0) 3645000000,
          adjust_subtitle_time (session store_example 143999744 8) 3645000000,
          adjust_subtitle_time (session store_example 0 0) 3600000000,
          adjust_subtitle_time (session store_example 143999744 8) 3600000000⟩ :
          subtitle_delaybookmarks_t) =
        ⟨3644999936, 3643199744, 3600000000, 3600000000⟩ ∧
      ComputeSubSpeedAndDelay
        { session store_example 0 0 with
          subtitle_delaybookmarks := ⟨3644999936, 3643199744, 3600000000, 3600000000⟩ } =
        none) := by
  refine ⟨⟨?_, ?_⟩, ⟨?_, ?_⟩, ⟨?_, ?_, ?_⟩, ⟨?_, ?_⟩⟩ <;>
    set_option maxRecDepth 100000 in decide

set_option maxHeartbeats 2000000 in
/-- C23, amended: let the current pair be (delay 0, index 0), let the injected
pair be a 64-bit delay `d` with a table ratio above 1, and let the bookmarks
pair, for two cue times `0 < c0 <= c1 <= 2^32`, the on-screen time under the
current mapping (subtitle bookmark) with the time under the injected mapping
(audio bookmark).  If the previous pair is in sync (its two bookmarks are
equal) and the subtitle bookmarks `s0`, `s1` are at least 45 s apart, the fit
proposes the table index of the injected ratio, and a delay `d'` with
`|d' - d| * (s1 - s0) * 2^20 <= s0 * s1 + 2^22 * (s0 + s1)`. -/
theorem ComputeSubSpeedAndDelay_in_sync (p_sys : demux_sys_t) (d i c0 c1 : Int)
    (htbl : p_sys.sub_fps_adjusts = sub_fps_table)
    (hcur : p_sys.sub_speed_delay_current = ⟨0, 0⟩)
    (hgt : F32.lt (F32.ofInt 1)
      (GetDemuxSubSpeed { p_sys with sub_speed_delay_current := ⟨d, i⟩ }) = true)
    (hd : isInt64 d)
    (hc : 0 < c0 ∧ c0 ≤ c1 ∧ c1 ≤ 2 ^ 32)
    (hb : p_sys.subtitle_delaybookmarks =
      ⟨adjust_subtitle_time p_sys c1,
        adjust_subtitle_time { p_sys with sub_speed_delay_current := ⟨d, i⟩ } c1,
        adjust_subtitle_time p_sys c0,
        adjust_subtitle_time { p_sys with sub_speed_delay_current := ⟨d, i⟩ } c0⟩)
    (hsync : adjust_subtitle_time { p_sys with sub_speed_delay_current := ⟨d, i⟩ } c0 =
      adjust_subtitle_time p_sys c0)
    (h45 : adjust_subtitle_time p_sys c0 + 45000000 ≤ adjust_subtitle_time p_sys c1) :
    ∃ d' : Int, ComputeSubSpeedAndDelay p_sys = some ⟨d', i⟩ ∧
      |d' - d| * (adjust_subtitle_time p_sys c1 - adjust_subtitle_time p_sys c0) * 2 ^ 20 ≤
        adjust_subtitle_time p_sys c0 * adjust_subtitle_time p_sys c1 +
          2 ^ 22 * (adjust_subtitle_time p_sys c0 + adjust_subtitle_time p_sys c1) := by
  obtain ⟨hc0, hc01, hc1⟩ := hc
  have hu : 0 < F32.unit := by unfold F32.unit; positivity
  obtain ⟨n, hin, hn13, hmem, hspeed, r1, r2, r3, r4⟩ := fit_index p_sys d i htbl hgt
  -- the ratio in steps, as a natural number
  obtain ⟨R, hR⟩ : ∃ R : Nat, fit_steps n = (R : Int) := ⟨(fit_steps n).toNat, by omega⟩
  rw [hR] at hspeed r1 r2 r3 r4
  have hR1 : F32.unit ≤ R := by exact_mod_cast r1
  have hR2 : R ≤ 2 * F32.unit := by exact_mod_cast r2
  -- the current mapping is the identity up to the float conversion
  have hspeed0 : GetDemuxSubSpeed p_sys = F32.fin (F32.unit : Nat) := by
    unfold GetDemuxSubSpeed
    rw [hcur, htbl]
    simp only []
    rw [if_neg (by decide)]
    show (match sub_fps_table.get? 0 with
      | some e => e.fps_ratio
      | none => F32.nan) = _
    rw [sub_fps_table_zero]
  have hdel0 : p_sys.sub_speed_delay_current.sub_delay = 0 := by rw [hcur]
  have hidx0 : p_sys.sub_speed_delay_current.idx_sub_fps_adjust = 0 := by rw [hcur]
  have hcn0 : c0.natAbs ≤ 2 ^ 59 := by omega
  have hcn1 : c1.natAbs ≤ 2 ^ 59 := by omega
  have hS0le := adjust_mag_le F32.unit c0.natAbs (by omega) hcn0
  have hS1le := adjust_mag_le F32.unit c1.natAbs (by omega) hcn1
  have hA0le := adjust_mag_le R c0.natAbs (by omega) hcn0
  have hA1le := adjust_mag_le R c1.natAbs (by omega) hcn1
  have hs0 : adjust_subtitle_time p_sys c0 = (adjust_mag F32.unit c0.natAbs : Int) := by
    rw [adjust_subtitle_time_val p_sys F32.unit c0 hspeed0 (by omega) hcn0, if_neg (by omega),
      hdel0, Int.add_zero]
    unfold wrap64
    omega
  have hs1 : adjust_subtitle_time p_sys c1 = (adjust_mag F32.unit c1.natAbs : Int) := by
    rw [adjust_subtitle_time_val p_sys F32.unit c1 hspeed0 (by omega) hcn1, if_neg (by omega),
      hdel0, Int.add_zero]
    unfold wrap64
    omega
  have ha0 : adjust_subtitle_time { p_sys with sub_speed_delay_current := ⟨d, i⟩ } c0 =
      wrap64 ((adjust_mag R c0.natAbs : Int) + d) := by
    rw [adjust_subtitle_time_val _ R c0 hspeed (by omega) hcn0, if_neg (by omega)]
  have ha1 : adjust_subtitle_time { p_sys with sub_speed_delay_current := ⟨d, i⟩ } c1 =
      wrap64 ((adjust_mag R c1.natAbs : Int) + d) := by
    rw [adjust_subtitle_time_val _ R c1 hspeed (by omega) hcn1, if_neg (by omega)]
  -- ranges of the four values
  have hS0pos : 1 ≤ adjust_mag F32.unit c0.natAbs := by
    have := adjust_mag_mono F32.unit 1 c0.natAbs hu (by omega)
    rw [adjust_mag_one] at this
    exact this
  have hS1max : adjust_mag F32.unit c1.natAbs ≤ 2 ^ 32 := by
    have := adjust_mag_mono F32.unit c1.natAbs (2 ^ 32) hu (by omega)
    rw [adjust_mag_top] at this
    exact this
  have hAmono : adjust_mag R c0.natAbs ≤ adjust_mag R c1.natAbs :=
    adjust_mag_mono R _ _ (by omega) (by omega)
  have hpair0 := adjust_mag_pair R c0.natAbs ((F32.unit : ℚ) / R) (by omega) hR1 hR2 rfl
  have hpair1 := adjust_mag_pair R c1.natAbs ((F32.unit : ℚ) / R) (by omega) hR1 hR2 rfl
  rw [hs0, hs1] at h45 ⊢
  rw [hs0, ha0] at hsync
  rw [hs0, hs1, ha0, ha1] at hb
  generalize adjust_mag F32.unit c0.natAbs = S0 at *
  generalize adjust_mag F32.unit c1.natAbs = S1 at *
  generalize adjust_mag R c0.natAbs = A0 at *
  generalize adjust_mag R c1.natAbs = A1 at *
  -- the injected delay and the audio bookmark of the second pair
  have hdval : d = (S0 : Int) - A0 := by
    unfold wrap64 at hsync
    unfold isInt64 INT64_MIN INT64_MAX at hd
    omega
  have ha1v : wrap64 ((A1 : Int) + d) = (A1 : Int) + S0 - A0 := by
    rw [hdval]
    unfold wrap64
    omega
  rw [ha1v, hsync] at hb
  -- the inverse ratio
  have hRq : (0 : ℚ) < (R : ℚ) := Nat.cast_pos.mpr (by omega)
  have hrho1 : (0.7992 : ℚ) ≤ (F32.unit : ℚ) / R := by
    rw [le_div_iff₀ hRq]
    have : ((7992 * (R : Int) : Int) : ℚ) ≤ ((10000 * (F32.unit : Int) : Int) : ℚ) :=
      Int.cast_le.mpr r3
    push_cast at this
    linarith
  have hrho2 : (F32.unit : ℚ) / R ≤ 0.99901 := by
    rw [div_le_iff₀ hRq]
    have : ((100000 * (F32.unit : Int) : Int) : ℚ) ≤ ((99901 * (R : Int) : Int) : ℚ) :=
      Int.cast_le.mpr r4
    push_cast at this
    linarith
  obtain ⟨x, y, ex, w1, w2, ey, y0, y1, f1, f2⟩ := fit_core (S0 : Int) S1 A0 A1
    ((F32.unit : ℚ) / R) (by omega) h45 (by omega) (by omega) hrho1 hrho2
    (by rw [Int.cast_natCast, Int.cast_natCast]; exact hpair0.1)
    (by rw [Int.cast_natCast, Int.cast_natCast]; exact hpair0.2)
    (by rw [Int.cast_natCast, Int.cast_natCast]; exact hpair1.1)
    (by rw [Int.cast_natCast, Int.cast_natCast]; exact hpair1.2)
  -- the three early returns are not taken
  have hfit := ComputeSubSpeedAndDelay_fit p_sys (by rw [hb]; show (0 : Int) < S0; omega)
    (by rw [hb]; show (0 : Int) < S0; omega)
    (by
      rw [hb]
      show 45 * 1000 * 1000 ≤ wrap64 ((S1 : Int) - S0)
      unfold wrap64
      omega) hidx0
  have hdelay : GetDemuxSubDelay p_sys = 0 := hdel0
  rw [hfit, hdelay, hb, ex, ey]
  -- the table scan
  have hxR : realOf x * ((F32.unit : ℚ) / R) = (x : ℚ) / R := by
    unfold realOf
    rw [unit_cast]
    field_simp
  rw [hxR] at w1 w2
  have hx1 : 4095 * (R : Int) ≤ 4096 * x := by
    have : (4095 : ℚ) * R ≤ 4096 * x := by
      rw [div_le_div_iff₀ (by norm_num) hRq] at w1
      linarith
    exact_mod_cast this
  have hx2 : 4096 * x ≤ 4097 * (R : Int) := by
    have : (4096 : ℚ) * x ≤ 4097 * R := by
      rw [div_le_div_iff₀ hRq (by norm_num)] at w2
      linarith
    exact_mod_cast this
  have hsel := fit_select p_sys htbl n hn13 _ _ x (fit_windows n hmem) (by
    rw [hR]
    constructor <;> omega)
  rw [hsel, if_pos (by omega)]
  -- the truncation
  have hy0 : 0 ≤ y := by
    by_contra hneg
    have : realOf y < 0 := by
      unfold realOf
      apply div_neg_of_neg_of_pos _ (by positivity)
      exact_mod_cast (by omega : y < 0)
    linarith
  obtain ⟨Y, hY⟩ : ∃ Y : Nat, y = (Y : Int) := ⟨y.toNat, by omega⟩
  have hfloor : F32.toInt64 (F32.fin y) = ⌊realOf y⌋ := by
    rw [hY]
    unfold realOf
    apply (F32.toInt64_nat Y _).1
    have h1 : (Y : ℚ) ≤ 2 ^ 50 * 2 ^ 149 := by
      rw [hY] at y1
      unfold realOf at y1
      rw [Int.cast_natCast, div_le_iff₀ (by positivity)] at y1
      exact y1
    have h2 : (Y : ℚ) ≤ ((2 ^ 50 * F32.unit : Nat) : ℚ) := by
      rw [Nat.cast_mul, unit_cast, Nat.cast_pow]
      exact h1
    have h3 : Y ≤ 2 ^ 50 * F32.unit := Nat.cast_le.mp h2
    have h4 : Y / F32.unit ≤ 2 ^ 50 := Nat.div_le_of_le_mul (by
      calc Y ≤ 2 ^ 50 * F32.unit := h3
        _ = F32.unit * 2 ^ 50 := Nat.mul_comm _ _)
    exact le_trans h4 (by norm_num)
  refine ⟨F32.toInt64 (F32.fin y), by rw [hin], ?_⟩
  rw [hfloor]
  have g1 := Int.floor_le (realOf y)
  have g2 := Int.lt_floor_add_one (realOf y)
  generalize ⌊realOf y⌋ = D at g1 g2 ⊢
  simp only [Int.cast_natCast] at f1 f2
  have hS : (S0 : ℚ) ≤ (S1 : ℚ) := by
    have : S0 ≤ S1 := by omega
    exact_mod_cast this
  have hl : (0 : ℚ) ≤ ((S1 : ℚ) - S0) * 2 ^ 20 := mul_nonneg (by linarith) (by norm_num)
  have key : |(D : ℚ) - ((S0 : ℚ) - A0)| * ((S1 : ℚ) - S0) * 2 ^ 20 ≤
      (S0 : ℚ) * S1 + 2 ^ 22 * ((S0 : ℚ) + S1) := by
    rcases abs_cases ((D : ℚ) - ((S0 : ℚ) - A0)) with h | h
    · rw [h.1]
      have := mul_le_mul_of_nonneg_right
        (show (D : ℚ) - ((S0 : ℚ) - A0) ≤ realOf y - ((S0 : ℚ) - A0) by linarith) hl
      linarith
    · rw [h.1]
      have := mul_le_mul_of_nonneg_right
        (show -((D : ℚ) - ((S0 : ℚ) - A0)) ≤ ((S0 : ℚ) - A0) - realOf y + 1 by linarith) hl
      linarith
  rw [hdval]
  exact_mod_cast key

/-- C23 on the example session with the injected pair (400000, 8), that is the
ratio 25/24, and the cue times 10 s and 110 s: the bookmarks are
(10 s, 10 s) and (subtitle 110 s, audio 106.000008 s), and the fit proposes
index 8 with a delay within the stated distance of 400000. -/
theorem ComputeSubSpeedAndDelay_in_sync_witness :
    ∃ d' : Int,
      ComputeSubSpeedAndDelay
        { session store_example 0 0 with
          subtitle_delaybookmarks := ⟨110000000, 106000008, 10000000, 10000000⟩ } =
        some ⟨d', 8⟩ ∧
      |d' - 400000| *
          (adjust_subtitle_time
              { session store_example 0 0 with
                subtitle_delaybookmarks := ⟨110000000, 106000008, 10000000, 10000000⟩ }
              110000000 -
            adjust_subtitle_time
              { session store_example 0 0 with
                subtitle_delaybookmarks := ⟨110000000, 106000008, 10000000, 10000000⟩ }
              10000000) * 2 ^ 20 ≤
        adjust_subtitle_time
            { session store_example 0 0 with
              subtitle_delaybookmarks := ⟨110000000, 106000008, 10000000, 10000000⟩ }
            10000000 *
          adjust_subtitle_time
            { session store_example 0 0 with
              subtitle_delaybookmarks := ⟨110000000, 106000008, 10000000, 10000000⟩ }
            110000000 +
          2 ^ 22 *
            (adjust_subtitle_time
                { session store_example 0 0 with
                  subtitle_delaybookmarks := ⟨110000000, 106000008, 10000000, 10000000⟩ }
                10000000 +
              adjust_subtitle_time
                { session store_example 0 0 with
                  subtitle_delaybookmarks := ⟨110000000, 106000008, 10000000, 10000000⟩ }
                110000000) :=
  ComputeSubSpeedAndDelay_in_sync
    { session store_example 0 0 with
      subtitle_delaybookmarks := ⟨110000000, 106000008, 10000000, 10000000⟩ }
    400000 8 10000000 110000000 rfl rfl
    (by set_option maxRecDepth 100000 in decide) (by decide) (by decide)
    (by set_option maxRecDepth 100000 in decide)
    (by set_option maxRecDepth 100000 in decide)
    (by set_option maxRecDepth 100000 in decide)

/-- C24: the callback runs for the variable `spu-delay`, on which `Open`
registers it, but its last branch tests the name `spu-delau`: a write of any
value to `spu-delay` leaves the whole state as it was, the session delay
included, and the cursor is not recomputed. -/
theorem subtitle_external_callback_spu_delay (p_demux : demux_t) (new_value : Int) :
    subtitle_external_callback p_demux "spu-delay" new_value = (VLC_SUCCESS, p_demux) ∧
      (subtitle_external_callback p_demux "spu-delay"
        new_value).2.p_sys.sub_speed_delay_current.sub_delay =
        p_demux.p_sys.sub_speed_delay_current.sub_delay ∧
      (subtitle_external_callback p_demux "spu-delau"
        new_value).2.p_sys.sub_speed_delay_current.sub_delay = new_value := by
  refine ⟨rfl, rfl, ?_⟩
  have h : subtitle_external_callback p_demux "spu-delau" new_value =
      (VLC_SUCCESS, (set_current_subtitle_by_time
        { p_demux with p_sys := { p_demux.p_sys with
            sub_speed_delay_current :=
              { p_demux.p_sys.sub_speed_delay_current with sub_delay := new_value } } }
        p_demux.p_sys.i_last_demux_date).2) := rfl
  rw [h]
  obtain ⟨i, h1, _⟩ := set_current_subtitle_by_time_frame
    { p_demux with p_sys := { p_demux.p_sys with
        sub_speed_delay_current :=
          { p_demux.p_sys.sub_speed_delay_current with sub_delay := new_value } } }
    p_demux.p_sys.i_last_demux_date
  simp only []
  rw [h1]

/-- C25: on the example store with delay 500000, the matching export and the
last playback time 10 s, which is after the last cue, `sub-syncreset` sets the
delay to 0 but `set_current_subtitle_by_time` returns before it refreshes the
export: the stored export is still the old one, with the times shifted by
0.5 s, and differs from the serialization under the new state.  The same
happens for the delay-only correction of `sub-syncbookmarks`.  With the last
playback time 0 the export is refreshed. -/
theorem subtitle_external_callback_export_stale :
    ((subtitle_external_callback
        ⟨{ session store_example 500000 0 with i_last_demux_date := 10000000 }, 500000,
          StoreAdjustedSubsAsSubRip_from (session store_example 500000 0) 0 store_example⟩
        "sub-syncreset" 0).2.p_sys.sub_speed_delay_current = ⟨0, 0⟩ ∧
      (subtitle_external_callback
        ⟨{ session store_example 500000 0 with i_last_demux_date := 10000000 }, 500000,
          StoreAdjustedSubsAsSubRip_from (session store_example 500000 0) 0 store_example⟩
        "sub-syncreset" 0).2.sub_srt_file_content =
        StoreAdjustedSubsAsSubRip_from (session store_example 500000 0) 0 store_example ∧
      StoreAdjustedSubsAsSubRip_from (session store_example 500000 0) 0 store_example ≠
        StoreAdjustedSubsAsSubRip_from (session store_example 0 0) 0 store_example) ∧
    ((subtitle_external_callback
        ⟨{ session store_example 500000 0 with
            i_last_demux_date := 10000000
            subtitle_delaybookmarks := ⟨9000000, 10000000, -1, -1⟩ }, 500000,
          StoreAdjustedSubsAsSubRip_from (session store_example 500000 0) 0 store_example⟩
        "sub-syncbookmarks" 0).2.p_sys.sub_speed_delay_current = ⟨1500000, 0⟩ ∧
      (subtitle_external_callback
        ⟨{ session store_example 500000 0 with
            i_last_demux_date := 10000000
            subtitle_delaybookmarks := ⟨9000000, 10000000, -1, -1⟩ }, 500000,
          StoreAdjustedSubsAsSubRip_from (session store_example 500000 0) 0 store_example⟩
        "sub-syncbookmarks" 0).2.sub_srt_file_content =
        StoreAdjustedSubsAsSubRip_from (session store_example 500000 0) 0 store_example ∧
      StoreAdjustedSubsAsSubRip_from (session store_example 500000 0) 0 store_example ≠
        StoreAdjustedSubsAsSubRip_from (session store_example 1500000 0) 0 store_example) ∧
    (subtitle_external_callback
        ⟨session store_example 500000 0, 500000,
          StoreAdjustedSubsAsSubRip_from (session store_example 500000 0) 0 store_example⟩
        "sub-syncreset" 0).2.sub_srt_file_content =
      StoreAdjustedSubsAsSubRip_from (session store_example 0 0) 0 store_example := by
  refine ⟨⟨?_, ?_, ?_⟩, ⟨?_, ?_, ?_⟩, ?_⟩ <;> set_option maxRecDepth 100000 in decide

/-! ## Emission and control: the claims -/

/-- C26: for every store, every sync state and every positive horizon
`i_next_demux_date` set before a `Demux` pass, every block sent during that
pass is the block of a cue of the store whose adjusted start is strictly less
than the horizon. -/
theorem Demux_before_horizon (VLC_TS_0 : Int) (p_sys : demux_sys_t)
    (hH : 0 < p_sys.i_next_demux_date) :
    (Demux VLC_TS_0 p_sys).2.2 = (Demux_trace VLC_TS_0 p_sys).map Prod.snd ∧
      ∀ k b, (k, b) ∈ Demux_trace VLC_TS_0 p_sys →
        ∃ c, p_sys.subtitle.get? k = some c ∧ b = Demux_block VLC_TS_0 p_sys c ∧
          adjust_subtitle_time p_sys c.i_start < p_sys.i_next_demux_date := by
  refine ⟨Demux_blocks_trace VLC_TS_0 p_sys, ?_⟩
  intro k b hkb
  obtain ⟨h1, h2, c, hc, _, hb⟩ := (Demux_trace_mem VLC_TS_0 p_sys k b).mp hkb
  refine ⟨c, hc, hb, ?_⟩
  rw [← Demux_maxdate_pos p_sys hH]
  exact Demux_passed_before VLC_TS_0 p_sys k c h1 h2 hc

/-- C26 on the example store at delay 500000 with the horizon 1 s: the one
block sent is that of cue 0. -/
theorem Demux_before_horizon_witness :
    (Demux 1 { session store_example 500000 0 with i_next_demux_date := 1000000 }).2.2 =
      (Demux_trace 1
        { session store_example 500000 0 with i_next_demux_date := 1000000 }).map Prod.snd ∧
    (Demux_trace 1
        { session store_example 500000 0 with i_next_demux_date := 1000000 }).map Prod.fst = [0] :=
  ⟨(Demux_before_horizon 1
      { session store_example 500000 0 with i_next_demux_date := 1000000 } (by decide)).1,
    by set_option maxRecDepth 100000 in decide⟩

/-- C27: across any sequence of `Demux` passes, each preceded by
`DEMUX_SET_NEXT_DEMUX_TIME` and with no other event in between (whatever the
horizons, non-decreasing or not), the cursor never decreases, the indices sent
over the whole run are strictly increasing, so that no index is sent twice,
none is before the initial cursor, and every index sent in a pass is below the
cursor that pass leaves. -/
theorem Demux_passes_once (VLC_TS_0 : Int) (horizons : List Int) (p_demux : demux_t) :
    List.Chain (fun a b => a ≤ b) p_demux.p_sys.i_subtitle
        ((Demux_passes VLC_TS_0 horizons p_demux).2.map Prod.fst) ∧
      List.Pairwise (fun a b => a < b)
        ((Demux_passes VLC_TS_0 horizons p_demux).2.map Prod.snd).flatten ∧
      (∀ i ∈ ((Demux_passes VLC_TS_0 horizons p_demux).2.map Prod.snd).flatten,
        p_demux.p_sys.i_subtitle ≤ i) ∧
      (∀ pass ∈ (Demux_passes VLC_TS_0 horizons p_demux).2, ∀ i ∈ pass.2, i < pass.1) := by
  induction horizons generalizing p_demux with
  | nil =>
    simp [Demux_passes]
  | cons h rest ih =>
    rw [Demux_passes]
    simp only []
    obtain ⟨c1, c2, c3⟩ := Demux_pass_spec VLC_TS_0
      (Control p_demux (demux_query.DEMUX_SET_NEXT_DEMUX_TIME h)).2.2.p_sys
    obtain ⟨i1, i2, i3, i4⟩ := ih
      { (Control p_demux (demux_query.DEMUX_SET_NEXT_DEMUX_TIME h)).2.2 with
        p_sys := (Demux VLC_TS_0
          (Control p_demux (demux_query.DEMUX_SET_NEXT_DEMUX_TIME h)).2.2.p_sys).2.1 }
    have hcur : (Control p_demux (demux_query.DEMUX_SET_NEXT_DEMUX_TIME h)).2.2.p_sys.i_subtitle =
        p_demux.p_sys.i_subtitle := rfl
    rw [hcur] at c1 c3
    simp only [List.map_cons, List.flatten_cons, List.chain_cons, List.mem_cons,
      List.mem_append, List.pairwise_append]
    refine ⟨⟨c1, i1⟩, ⟨c2, i2, ?_⟩, ?_, ?_⟩
    · intro a ha b hb
      have h1 := (c3 a ha).2
      have h2 := i3 b hb
      exact Nat.lt_of_lt_of_le h1 h2
    · rintro i (hi | hi)
      · exact (c3 i hi).1
      · exact Nat.le_trans c1 (i3 i hi)
    · rintro pass (hp | hp) i hi
      · rw [hp] at hi ⊢
        exact (c3 i hi).2
      · exact i4 pass hp i hi

/-- C28: for a store sorted by start, a positive horizon `H`, a speed index of
the table `Open` fills, starts of magnitude at most `2^59` and a delay in
`[-2^62, 2^62)` (the range in which the arithmetic of `adjust_subtitle_time` does
not overflow), after one `Demux` pass starting at cursor `c` the store indices
sent are exactly the `i >= c` whose cue has an adjusted start before `H`, a
non-empty text and a non-negative start; and the new cursor is the first index
`>= c` whose adjusted start is not before `H`, or the store length when there
is none.  The cues in between with an empty text or a negative start are
passed over without a block. -/
theorem Demux_exact (VLC_TS_0 : Int) (p_sys : demux_sys_t)
    (hsort : StartSorted p_sys.subtitle) (hH : 0 < p_sys.i_next_demux_date)
    (htbl : p_sys.sub_fps_adjusts = sub_fps_table)
    (h0 : 0 ≤ p_sys.sub_speed_delay_current.idx_sub_fps_adjust)
    (h1 : p_sys.sub_speed_delay_current.idx_sub_fps_adjust < 13)
    (hstart : ∀ c ∈ p_sys.subtitle, c.i_start.natAbs ≤ 2 ^ 59)
    (hdelay : -(2 ^ 62) ≤ p_sys.sub_speed_delay_current.sub_delay ∧
      p_sys.sub_speed_delay_current.sub_delay < 2 ^ 62)
    (hcur : p_sys.i_subtitle ≤ p_sys.subtitle.length) :
    (Demux VLC_TS_0 p_sys).2.2 = (Demux_trace VLC_TS_0 p_sys).map Prod.snd ∧
      (∀ k, k ∈ (Demux_trace VLC_TS_0 p_sys).map Prod.fst ↔
        p_sys.i_subtitle ≤ k ∧ ∃ c, p_sys.subtitle.get? k = some c ∧
          adjust_subtitle_time p_sys c.i_start < p_sys.i_next_demux_date ∧
          c.psz_text ≠ [] ∧ c.i_start ≥ 0) ∧
      p_sys.i_subtitle ≤ (Demux VLC_TS_0 p_sys).2.1.i_subtitle ∧
      (Demux VLC_TS_0 p_sys).2.1.i_subtitle ≤ p_sys.subtitle.length ∧
      (∀ i c, p_sys.i_subtitle ≤ i → i < (Demux VLC_TS_0 p_sys).2.1.i_subtitle →
        p_sys.subtitle.get? i = some c →
        adjust_subtitle_time p_sys c.i_start < p_sys.i_next_demux_date) ∧
      ((Demux VLC_TS_0 p_sys).2.1.i_subtitle < p_sys.subtitle.length →
        ∃ c, p_sys.subtitle.get? (Demux VLC_TS_0 p_sys).2.1.i_subtitle = some c ∧
          adjust_subtitle_time p_sys c.i_start ≥ p_sys.i_next_demux_date) := by
  obtain ⟨r, hr, hhalf⟩ := GetDemuxSubSpeed_table p_sys htbl h0 h1
  have hmax := Demux_maxdate_pos p_sys hH
  -- the cursor the pass leaves
  have hstop : (Demux VLC_TS_0 p_sys).2.1.i_subtitle < p_sys.subtitle.length →
      ∃ c, p_sys.subtitle.get? (Demux VLC_TS_0 p_sys).2.1.i_subtitle = some c ∧
        adjust_subtitle_time p_sys c.i_start ≥ p_sys.i_next_demux_date := by
    intro hlt
    rw [Demux_cursor] at hlt ⊢
    have hn : ¬ p_sys.i_subtitle ≥ p_sys.subtitle.length := by
      intro hge
      rw [if_pos hge] at hlt
      omega
    rw [if_neg hn] at hlt ⊢
    obtain ⟨_, _, a3⟩ := Demux_loop_passed VLC_TS_0 p_sys (Demux_maxdate p_sys)
      (p_sys.subtitle.drop p_sys.i_subtitle)
    obtain ⟨c, hc, hp⟩ := a3 (by rw [List.length_drop]; omega)
    rw [drop_get?] at hc
    rw [hmax] at hp
    exact ⟨c, hc, by omega⟩
  have hle : (Demux VLC_TS_0 p_sys).2.1.i_subtitle ≤ p_sys.subtitle.length := by
    rw [Demux_cursor]
    by_cases hge : p_sys.i_subtitle ≥ p_sys.subtitle.length
    · rw [if_pos hge]
      exact hcur
    · rw [if_neg hge]
      have := (Demux_loop_passed VLC_TS_0 p_sys (Demux_maxdate p_sys)
        (p_sys.subtitle.drop p_sys.i_subtitle)).1
      rw [List.length_drop] at this
      omega
  refine ⟨Demux_blocks_trace VLC_TS_0 p_sys, ?_, (Demux_pass_spec VLC_TS_0 p_sys).1, hle, ?_,
    hstop⟩
  · intro k
    constructor
    · intro hk
      obtain ⟨⟨k2, b⟩, hkb, hfst⟩ := List.mem_map.mp hk
      simp only [] at hfst
      rw [hfst] at hkb
      obtain ⟨c1, c2, c, hc, hs, _⟩ := (Demux_trace_mem VLC_TS_0 p_sys k b).mp hkb
      refine ⟨c1, c, hc, ?_, ?_, ?_⟩
      · rw [← hmax]
        exact Demux_passed_before VLC_TS_0 p_sys k c c1 c2 hc
      · intro he
        apply hs
        left
        rw [he]
        simp
      · by_contra hneg
        apply hs
        right
        omega
    · rintro ⟨c1, c, hc, hadj, htext, hnn⟩
      have hklt : k < p_sys.subtitle.length := by
        by_contra hn
        rw [List.get?_eq_none.mpr (by omega)] at hc
        exact Option.noConfusion hc
      have hk2 : k < (Demux VLC_TS_0 p_sys).2.1.i_subtitle := by
        by_contra hn
        obtain ⟨c2, hc2, hp2⟩ := hstop (by omega)
        have hs12 := StartSorted_get p_sys.subtitle hsort _ k c2 c (by omega) hc2 hc
        have hmem2 : c2 ∈ p_sys.subtitle := List.get?_mem hc2
        have hmem : c ∈ p_sys.subtitle := List.get?_mem hc
        have := adjust_subtitle_time_mono p_sys r c2.i_start c.i_start hr hhalf
          (hstart c2 hmem2) (hstart c hmem) hdelay hs12
        omega
      apply List.mem_map.mpr
      refine ⟨(k, Demux_block VLC_TS_0 p_sys c), ?_, rfl⟩
      apply (Demux_trace_mem VLC_TS_0 p_sys k _).mpr
      refine ⟨c1, hk2, c, hc, ?_, rfl⟩
      rintro (h | h)
      · apply htext
        apply List.eq_nil_of_length_eq_zero
        omega
      · omega
  · intro i c hi1 hi2 hc
    rw [← hmax]
    exact Demux_passed_before VLC_TS_0 p_sys i c hi1 hi2 hc

/-- C28 on the example store at delay 500000, from cursor 0 with the horizon
2 s: cue 0 (adjusted start 0.5 s) is sent, cue 1 (2.5 s) is not, and the cursor
becomes 1. -/
theorem Demux_exact_witness :
    (Demux_trace 1
        { session store_example 500000 0 with i_next_demux_date := 2000000 }).map Prod.fst = [0] ∧
      (Demux 1 { session store_example 500000 0 with
        i_next_demux_date := 2000000 }).2.1.i_subtitle = 1 ∧
      (Demux 1 { session store_example 500000 0 with
        i_next_demux_date := 2000000 }).2.1.i_subtitle ≤ store_example.length :=
  ⟨by set_option maxRecDepth 100000 in decide, by set_option maxRecDepth 100000 in decide,
    (Demux_exact 1 { session store_example 500000 0 with i_next_demux_date := 2000000 }
      (by simp [StartSorted, session, store_example]) (by decide) rfl (by decide) (by decide)
      (by
        intro c hc
        have hc2 : c ∈ store_example := hc
        simp only [store_example, List.mem_cons, List.mem_singleton, List.not_mem_nil,
          or_false] at hc2
        rcases hc2 with h | h <;> rw [h] <;> decide)
      (by decide) (by decide)).2.2.2.1⟩

/-- C29: after `DEMUX_SET_TIME` with target `t`, the cursor is the least index
`i` such that the adjusted start of cue `i` is after `t`, or its stop is after
its start and its adjusted stop is after `t`: no earlier cue passes the test,
and the cue at the cursor does when the cursor is inside the store.  The
cursor does not depend on the cursor before the seek.  The seek returns
`VLC_EGENERIC` exactly when no cue passes the test, and then the cursor is the
store length; otherwise it returns `VLC_SUCCESS`. -/
theorem Control_set_time (p_demux : demux_t) (t : Int) :
    (Control p_demux (demux_query.DEMUX_SET_TIME t)).2.2.p_sys.i_subtitle ≤
        p_demux.p_sys.subtitle.length ∧
      (∀ i c, i < (Control p_demux (demux_query.DEMUX_SET_TIME t)).2.2.p_sys.i_subtitle →
        p_demux.p_sys.subtitle.get? i = some c →
        ¬ (adjust_subtitle_time p_demux.p_sys c.i_start > t ∨
          (c.i_stop > c.i_start ∧ adjust_subtitle_time p_demux.p_sys c.i_stop > t))) ∧
      ((Control p_demux (demux_query.DEMUX_SET_TIME t)).2.2.p_sys.i_subtitle <
          p_demux.p_sys.subtitle.length →
        ∃ c, p_demux.p_sys.subtitle.get?
            (Control p_demux (demux_query.DEMUX_SET_TIME t)).2.2.p_sys.i_subtitle = some c ∧
          (adjust_subtitle_time p_demux.p_sys c.i_start > t ∨
            (c.i_stop > c.i_start ∧ adjust_subtitle_time p_demux.p_sys c.i_stop > t))) ∧
      (∀ j, (Control { p_demux with p_sys := { p_demux.p_sys with i_subtitle := j } }
          (demux_query.DEMUX_SET_TIME t)).2.2.p_sys.i_subtitle =
        (Control p_demux (demux_query.DEMUX_SET_TIME t)).2.2.p_sys.i_subtitle) ∧
      ((Control p_demux (demux_query.DEMUX_SET_TIME t)).1 = VLC_EGENERIC ↔
        ¬ ∃ i c, p_demux.p_sys.subtitle.get? i = some c ∧
          (adjust_subtitle_time p_demux.p_sys c.i_start > t ∨
            (c.i_stop > c.i_start ∧ adjust_subtitle_time p_demux.p_sys c.i_stop > t))) ∧
      ((Control p_demux (demux_query.DEMUX_SET_TIME t)).1 = VLC_EGENERIC →
        (Control p_demux (demux_query.DEMUX_SET_TIME t)).2.2.p_sys.i_subtitle =
          p_demux.p_sys.subtitle.length) ∧
      ((Control p_demux (demux_query.DEMUX_SET_TIME t)).1 = VLC_EGENERIC ∨
        (Control p_demux (demux_query.DEMUX_SET_TIME t)).1 = VLC_SUCCESS) := by
  obtain ⟨a1, a2, a3, a4⟩ :=
    set_current_subtitle_by_time_loop_spec p_demux.p_sys t p_demux.p_sys.subtitle 0
  have hcur : ∀ q : demux_t,
      (Control q (demux_query.DEMUX_SET_TIME t)).2.2.p_sys.i_subtitle =
        set_current_subtitle_by_time_loop q.p_sys t q.p_sys.subtitle 0 := by
    intro q
    show (set_current_subtitle_by_time q t).2.p_sys.i_subtitle = _
    unfold set_current_subtitle_by_time
    simp only []
    split_ifs <;> rfl
  have hret : (Control p_demux (demux_query.DEMUX_SET_TIME t)).1 =
      if set_current_subtitle_by_time_loop p_demux.p_sys t p_demux.p_sys.subtitle 0 ≥
          p_demux.p_sys.subtitle.length then VLC_EGENERIC else VLC_SUCCESS := by
    show (set_current_subtitle_by_time p_demux t).1 = _
    unfold set_current_subtitle_by_time
    simp only []
    split_ifs <;> rfl
  rw [hcur p_demux, hret]
  simp only [Nat.zero_add, Nat.sub_zero] at a2 a3 a4
  refine ⟨a2, fun i c hi hc => a3 i c hi hc, a4, ?_, ?_, ?_, ?_⟩
  · intro j
    rw [hcur]
    exact set_current_subtitle_by_time_loop_cursor p_demux.p_sys j t p_demux.p_sys.subtitle 0
  · constructor
    · intro h
      by_cases hge : set_current_subtitle_by_time_loop p_demux.p_sys t p_demux.p_sys.subtitle 0 ≥
          p_demux.p_sys.subtitle.length
      · rintro ⟨i, c, hc, hp⟩
        have hi : i < p_demux.p_sys.subtitle.length := by
          by_contra hn
          rw [List.get?_eq_none.mpr (by omega)] at hc
          exact Option.noConfusion hc
        exact a3 i c (by omega) hc hp
      · rw [if_neg hge] at h
        exact absurd h (by decide)
    · intro h
      by_cases hge : set_current_subtitle_by_time_loop p_demux.p_sys t p_demux.p_sys.subtitle 0 ≥
          p_demux.p_sys.subtitle.length
      · rw [if_pos hge]
      · obtain ⟨c, hc, hp⟩ := a4 (by omega)
        exact absurd ⟨_, c, hc, hp⟩ h
  · intro h
    by_cases hge : set_current_subtitle_by_time_loop p_demux.p_sys t p_demux.p_sys.subtitle 0 ≥
        p_demux.p_sys.subtitle.length
    · omega
    · rw [if_neg hge] at h
      exact absurd h (by decide)
  · split_ifs
    · exact Or.inl rfl
    · exact Or.inr rfl

/-- C30, as stated, fails: on the example store with total length 3 s and the
cursor at cue 0, `DEMUX_GET_POSITION` answers `5000000 / 3000000`, above 1,
when the delay is 5 s, and `-1000000 / 3000000`, below 0, when the delay is
-1 s. -/
theorem Control_get_position_outside :
    ((Control ⟨{ session store_example 5000000 0 with i_length := 3000000 }, 0, []⟩
        demux_query.DEMUX_GET_POSITION).2.1 =
      control_out.f64 (F64.div (F64.ofInt 5000000) (F64.ofInt 3000000)) ∧
      F64.le (F64.div (F64.ofInt 5000000) (F64.ofInt 3000000)) (F64.ofInt 1) = false) ∧
    ((Control ⟨{ session store_example (-1000000) 0 with i_length := 3000000 }, 0, []⟩
        demux_query.DEMUX_GET_POSITION).2.1 =
      control_out.f64 (F64.div (F64.ofInt (-1000000)) (F64.ofInt 3000000)) ∧
      F64.le (F64.fin 0) (F64.div (F64.ofInt (-1000000)) (F64.ofInt 3000000)) = false) := by
  refine ⟨⟨?_, ?_⟩, ?_, ?_⟩ <;> set_option maxRecDepth 100000 in decide

set_option maxRecDepth 100000 in
/-- C30, amended: `DEMUX_GET_POSITION` succeeds and leaves the state as it is;
its answer is 1.0 when the cursor is at or past the end of the store, and
otherwise the double-precision quotient of the adjusted start of the cue at the
cursor by `i_length`; that quotient is a fraction in the closed interval
`[0, 1]` whenever the adjusted start lies between 0 and `i_length` (a positive
64-bit length). -/
theorem Control_get_position (p_demux : demux_t) :
    (Control p_demux demux_query.DEMUX_GET_POSITION).1 = VLC_SUCCESS ∧
      (p_demux.p_sys.i_subtitle ≥ p_demux.p_sys.subtitle.length →
        (Control p_demux demux_query.DEMUX_GET_POSITION).2.1 = control_out.f64 (F64.ofInt 1)) ∧
      (∀ c, p_demux.p_sys.subtitle.get? p_demux.p_sys.i_subtitle = some c →
        (Control p_demux demux_query.DEMUX_GET_POSITION).2.1 =
            control_out.f64
              (F64.div (F64.ofInt (adjust_subtitle_time p_demux.p_sys c.i_start))
                (F64.ofInt p_demux.p_sys.i_length)) ∧
          (0 ≤ adjust_subtitle_time p_demux.p_sys c.i_start →
            adjust_subtitle_time p_demux.p_sys c.i_start ≤ p_demux.p_sys.i_length →
            0 < p_demux.p_sys.i_length → p_demux.p_sys.i_length ≤ 2 ^ 63 →
            F64.le (F64.fin 0)
                (F64.div (F64.ofInt (adjust_subtitle_time p_demux.p_sys c.i_start))
                  (F64.ofInt p_demux.p_sys.i_length)) = true ∧
              F64.le
                (F64.div (F64.ofInt (adjust_subtitle_time p_demux.p_sys c.i_start))
                  (F64.ofInt p_demux.p_sys.i_length)) (F64.ofInt 1) = true)) := by
  refine ⟨?_, ?_, ?_⟩
  · unfold Control
    simp only []
    split_ifs
    · rfl
    · cases p_demux.p_sys.subtitle.get? p_demux.p_sys.i_subtitle <;> rfl
    · rfl
  · intro hge
    unfold Control
    simp only []
    rw [if_pos hge]
  · intro c hc
    have hlt : p_demux.p_sys.i_subtitle < p_demux.p_sys.subtitle.length := by
      by_contra hn
      rw [List.get?_eq_none.mpr (by omega)] at hc
      exact Option.noConfusion hc
    constructor
    · unfold Control
      simp only []
      rw [if_neg (by omega), if_pos (by omega), hc]
    · intro h0 hle hpos h63
      obtain ⟨q, hq, hq1⟩ := F64.div_le_one _ _ h0 hle hpos h63
      rw [hq, F64.ofInt_one]
      constructor
      · show decide ((0 : Int) ≤ (q : Int)) = true
        exact decide_eq_true (Int.ofNat_nonneg q)
      · show decide ((q : Int) ≤ (F64.unit : Int)) = true
        exact decide_eq_true (Int.ofNat_le.mpr hq1)

/-- C30 on the example store with delay 0 and the cursor at cue 1: the position
`2000000 / 3000000` lies in `[0, 1]`. -/
theorem Control_get_position_witness :
    F64.le (F64.fin 0)
        (F64.div (F64.ofInt (adjust_subtitle_time
          { session store_example 0 0 with i_subtitle := 1, i_length := 3000000 } 2000000))
          (F64.ofInt 3000000)) = true ∧
      F64.le
        (F64.div (F64.ofInt (adjust_subtitle_time
          { session store_example 0 0 with i_subtitle := 1, i_length := 3000000 } 2000000))
          (F64.ofInt 3000000)) (F64.ofInt 1) = true :=
  ((Control_get_position
    ⟨{ session store_example 0 0 with i_subtitle := 1, i_length := 3000000 }, 0, []⟩).2.2
    ⟨2000000, 3000000, "World\n".data⟩ rfl).2
    (by set_option maxRecDepth 100000 in decide) (by set_option maxRecDepth 100000 in decide)
    (by decide) (by decide)

/-! ## Sync engine: the guards and the scan of the fit -/

/-- C31: the speed fit proposes nothing (`none`, the return value 0) when a
previous bookmark is not positive, when the subtitle bookmark is less than
45,000,000 us after the previous one, or when the speed index is not the
identity and that gap is less than 300,000,000 us.  The state after
`sub-syncbookmarks` then holds no proposal (index -1) whenever a previous
bookmark is not positive, which is the case in the state `Open` leaves
(previous bookmarks -1) and in the state `sub-syncreset` leaves (all bookmarks
0); the two bookmark events in between change a current bookmark only. -/
theorem ComputeSubSpeedAndDelay_guards :
    (∀ p_sys : demux_sys_t,
      isInt64 (p_sys.subtitle_delaybookmarks.i_time_subtitle -
        p_sys.subtitle_delaybookmarks.i_time_subtitle_n_1) →
      (p_sys.subtitle_delaybookmarks.i_time_audio_n_1 ≤ 0 ∨
        p_sys.subtitle_delaybookmarks.i_time_subtitle_n_1 ≤ 0 ∨
        p_sys.subtitle_delaybookmarks.i_time_subtitle -
          p_sys.subtitle_delaybookmarks.i_time_subtitle_n_1 < 45000000 ∨
        (p_sys.sub_speed_delay_current.idx_sub_fps_adjust ≠ 0 ∧
          p_sys.subtitle_delaybookmarks.i_time_subtitle -
            p_sys.subtitle_delaybookmarks.i_time_subtitle_n_1 < 300000000)) →
      ComputeSubSpeedAndDelay p_sys = none) ∧
    (∀ (p : demux_t) (v : Int),
      (p.p_sys.subtitle_delaybookmarks.i_time_audio_n_1 ≤ 0 ∨
        p.p_sys.subtitle_delaybookmarks.i_time_subtitle_n_1 ≤ 0) →
      (subtitle_external_callback p "sub-syncbookmarks" v).2.p_sys.sub_speed_delay_user_confirm.idx_sub_fps_adjust =
        -1) ∧
    (∀ (subs : List subtitle_t) (delay idx : Int),
      (session subs delay idx).subtitle_delaybookmarks.i_time_audio_n_1 = -1 ∧
        (session subs delay idx).subtitle_delaybookmarks.i_time_subtitle_n_1 = -1) ∧
    (∀ (p : demux_t) (v : Int),
      (subtitle_external_callback p "sub-syncreset" v).2.p_sys.subtitle_delaybookmarks =
        ⟨0, 0, 0, 0⟩) ∧
    (∀ (p : demux_t) (v : Int),
      (subtitle_external_callback p "sub-bookmarkaudio" v).2.p_sys.subtitle_delaybookmarks =
          { p.p_sys.subtitle_delaybookmarks with i_time_audio := p.p_sys.i_last_demux_date } ∧
        (subtitle_external_callback p "sub-bookmarksubtitle" v).2.p_sys.subtitle_delaybookmarks =
          { p.p_sys.subtitle_delaybookmarks with
            i_time_subtitle := p.p_sys.i_last_demux_date }) := by
  refine ⟨?_, ?_, fun _ _ _ => ⟨rfl, rfl⟩, ?_, fun _ _ => ⟨rfl, rfl⟩⟩
  · intro p_sys hgap h
    have hw : wrap64 (p_sys.subtitle_delaybookmarks.i_time_subtitle -
        p_sys.subtitle_delaybookmarks.i_time_subtitle_n_1) =
        p_sys.subtitle_delaybookmarks.i_time_subtitle -
          p_sys.subtitle_delaybookmarks.i_time_subtitle_n_1 := by
      unfold isInt64 INT64_MIN INT64_MAX at hgap
      unfold wrap64
      omega
    rw [ComputeSubSpeedAndDelay_eq, hw]
    split_ifs with h1 h2 h3 h4
    · rfl
    · rfl
    · rfl
    · exfalso
      rcases h with h | h | h | h
      · exact h1 (Or.inl h)
      · exact h1 (Or.inr h)
      · omega
      · exact h3 ⟨h.1, by omega⟩
    · rfl
  · intro p v h
    rw [callback_syncbookmarks]
    exact ApplySubtitleDelay_no_proposal p h
  · intro p v
    rw [callback_syncreset]
    obtain ⟨i, hi, _⟩ := set_current_subtitle_by_time_frame
      { SetDemuxSubDelay p 0 with p_sys := { (SetDemuxSubDelay p 0).p_sys with
          sub_speed_delay_current :=
            { (SetDemuxSubDelay p 0).p_sys.sub_speed_delay_current with idx_sub_fps_adjust := 0 }
          subtitle_delaybookmarks := ⟨0, 0, 0, 0⟩ } }
      p.p_sys.i_last_demux_date
    show (set_current_subtitle_by_time _ _).2.p_sys.subtitle_delaybookmarks = _
    rw [hi]

/-- C31, an instance: bookmarks 40 s apart give no proposal, and the first
`sub-syncbookmarks` of a session (bookmarks set at 52 s and 50 s) leaves none. -/
theorem ComputeSubSpeedAndDelay_guards_witness :
    ComputeSubSpeedAndDelay
        { session store_example 0 0 with
          subtitle_delaybookmarks := ⟨50000000, 52000000, 10000000, 10000000⟩ } = none ∧
      (subtitle_external_callback
        ⟨{ session store_example 0 0 with
            subtitle_delaybookmarks := ⟨50000000, 52000000, -1, -1⟩ }, 0, []⟩
        "sub-syncbookmarks" 0).2.p_sys.sub_speed_delay_user_confirm.idx_sub_fps_adjust = -1 :=
  ⟨ComputeSubSpeedAndDelay_guards.1 _ (by decide) (Or.inr (Or.inr (Or.inl (by decide)))),
    ComputeSubSpeedAndDelay_guards.2.1 _ 0 (Or.inl (by decide))⟩

/-- C32: in the scan of the table, for every speed candidate: when some entry
has a computed error `fabs( (sub_speed - 1.f) / (fps_ratio - 1.f) - 1.f )` below
`max_error_applicable` (the float `0.33`), the index kept is an entry below the
threshold that no entry undercuts, and no earlier entry has an error as small
(the lowest index on ties); when no entry is below the threshold the index
stays -1.  Past its guards, `ComputeSubSpeedAndDelay` proposes the index kept
for its own speed candidate, and nothing when that index is -1.  The threshold
is the float `11072963 / 2^25`, the nearest to `0.33`. -/
theorem ComputeSubSpeedAndDelay_closest (p_sys : demux_sys_t) (sub_speed : F32) :
    ((∃ j, j < NB_SUB_FPS_ADJUSTS ∧
        F32.lt (fit_error (fit_ratio p_sys j) sub_speed) max_error_applicable = true) →
      ∃ i, i < NB_SUB_FPS_ADJUSTS ∧
        ((List.range NB_SUB_FPS_ADJUSTS).foldl (ComputeSubSpeedAndDelay_step p_sys sub_speed)
          (-1, F32.ofInt 100000)).1 = (i : Int) ∧
        F32.lt (fit_error (fit_ratio p_sys i) sub_speed) max_error_applicable = true ∧
        (∀ j, j < NB_SUB_FPS_ADJUSTS → F32.lt (fit_error (fit_ratio p_sys j) sub_speed)
          (fit_error (fit_ratio p_sys i) sub_speed) = false) ∧
        (∀ j, j < i → F32.le (fit_error (fit_ratio p_sys j) sub_speed)
          (fit_error (fit_ratio p_sys i) sub_speed) = false)) ∧
    ((∀ j, j < NB_SUB_FPS_ADJUSTS →
        F32.lt (fit_error (fit_ratio p_sys j) sub_speed) max_error_applicable = false) →
      ((List.range NB_SUB_FPS_ADJUSTS).foldl (ComputeSubSpeedAndDelay_step p_sys sub_speed)
        (-1, F32.ofInt 100000)).1 = -1) ∧
    (0 < p_sys.subtitle_delaybookmarks.i_time_audio_n_1 →
      0 < p_sys.subtitle_delaybookmarks.i_time_subtitle_n_1 →
      45 * 1000 * 1000 ≤ wrap64 (p_sys.subtitle_delaybookmarks.i_time_subtitle -
        p_sys.subtitle_delaybookmarks.i_time_subtitle_n_1) →
      (p_sys.sub_speed_delay_current.idx_sub_fps_adjust = 0 ∨
        60 * 5 * 1000 * 1000 ≤ wrap64 (p_sys.subtitle_delaybookmarks.i_time_subtitle -
          p_sys.subtitle_delaybookmarks.i_time_subtitle_n_1)) →
      sub_speed = fit_speed p_sys.subtitle_delaybookmarks (GetDemuxSubDelay p_sys) →
      ComputeSubSpeedAndDelay p_sys =
        if ((List.range NB_SUB_FPS_ADJUSTS).foldl (ComputeSubSpeedAndDelay_step p_sys sub_speed)
            (-1, F32.ofInt 100000)).1 ≥ 0 then
          some ⟨F32.toInt64 (F32.mul
              (fit_delay p_sys.subtitle_delaybookmarks (GetDemuxSubDelay p_sys)) (F32.ofInt 1000)),
            ((List.range NB_SUB_FPS_ADJUSTS).foldl
              (ComputeSubSpeedAndDelay_step p_sys sub_speed) (-1, F32.ofInt 100000)).1⟩
        else none) ∧
    max_error_applicable = F32.fin (11072963 * 2 ^ 124) := by
  refine ⟨?_, ?_, ?_, by set_option maxRecDepth 100000 in decide⟩
  · rintro ⟨j, hj, hlt⟩
    rcases fit_scan p_sys sub_speed NB_SUB_FPS_ADJUSTS with ⟨h1, _⟩ | h
    · rw [h1 j hj] at hlt
      exact absurd hlt Bool.false_ne_true
    · exact h
  · intro hall
    rcases fit_scan p_sys sub_speed NB_SUB_FPS_ADJUSTS with ⟨_, h2⟩ | ⟨i, hi, _, h3, _, _⟩
    · exact h2
    · rw [hall i hi] at h3
      exact absurd h3 Bool.false_ne_true
  · intro h1 h2 h3 h4 hs
    rw [ComputeSubSpeedAndDelay_eq, hs, if_neg (by omega), if_neg (by omega), if_neg (by
      rintro ⟨a, b⟩
      rcases h4 with h4 | h4
      · exact a h4
      · omega)]

/-- C32, an instance: with bookmarks at 110 s / 106.000008 s after a pair at
10 s, entry 8 is below the threshold, so the scan keeps a least entry. -/
theorem ComputeSubSpeedAndDelay_closest_witness :
    ∃ i, i < NB_SUB_FPS_ADJUSTS ∧
      ((List.range NB_SUB_FPS_ADJUSTS).foldl
        (ComputeSubSpeedAndDelay_step (session store_example 0 0)
          (fit_speed ⟨110000000, 106000008, 10000000, 10000000⟩ 0))
        (-1, F32.ofInt 100000)).1 = (i : Int) ∧
      F32.lt (fit_error (fit_ratio (session store_example 0 0) i)
        (fit_speed ⟨110000000, 106000008, 10000000, 10000000⟩ 0)) max_error_applicable = true ∧
      (∀ j, j < NB_SUB_FPS_ADJUSTS →
        F32.lt (fit_error (fit_ratio (session store_example 0 0) j)
            (fit_speed ⟨110000000, 106000008, 10000000, 10000000⟩ 0))
          (fit_error (fit_ratio (session store_example 0 0) i)
            (fit_speed ⟨110000000, 106000008, 10000000, 10000000⟩ 0)) = false) ∧
      (∀ j, j < i →
        F32.le (fit_error (fit_ratio (session store_example 0 0) j)
            (fit_speed ⟨110000000, 106000008, 10000000, 10000000⟩ 0))
          (fit_error (fit_ratio (session store_example 0 0) i)
            (fit_speed ⟨110000000, 106000008, 10000000, 10000000⟩ 0)) = false) :=
  (ComputeSubSpeedAndDelay_closest (session store_example 0 0)
    (fit_speed ⟨110000000, 106000008, 10000000, 10000000⟩ 0)).1
    ⟨8, by decide, by set_option maxRecDepth 100000 in decide⟩

/-- C33: the guards of the speed fit do not exclude a zero divisor.  With
previous bookmarks audio 100 s / subtitle 1 s and current bookmarks audio
100 s / subtitle 46 s every guard is passed, `time1` equals `time0`, so
`time1 - time0` is zero: the delay `delay0 + (0.f - time0) * (delay1 - delay0) /
(time1 - time0)` is a division by zero (minus infinity), the speed candidate is
0 and nothing is proposed. -/
theorem ComputeSubSpeedAndDelay_zero_divisor :
    ∃ p_sys : demux_sys_t,
      0 < p_sys.subtitle_delaybookmarks.i_time_audio_n_1 ∧
      0 < p_sys.subtitle_delaybookmarks.i_time_subtitle_n_1 ∧
      45 * 1000 * 1000 ≤ wrap64 (p_sys.subtitle_delaybookmarks.i_time_subtitle -
        p_sys.subtitle_delaybookmarks.i_time_subtitle_n_1) ∧
      p_sys.sub_speed_delay_current.idx_sub_fps_adjust = 0 ∧
      fit_time1 p_sys.subtitle_delaybookmarks = fit_time0 p_sys.subtitle_delaybookmarks ∧
      F32.sub (fit_time1 p_sys.subtitle_delaybookmarks)
        (fit_time0 p_sys.subtitle_delaybookmarks) = F32.fin 0 ∧
      fit_delay p_sys.subtitle_delaybookmarks (GetDemuxSubDelay p_sys) =
        F32.add (fit_delay0 (GetDemuxSubDelay p_sys))
          (F32.div
            (F32.mul (F32.sub (F32.fin 0) (fit_time0 p_sys.subtitle_delaybookmarks))
              (F32.sub (fit_delay1 p_sys.subtitle_delaybookmarks (GetDemuxSubDelay p_sys))
                (fit_delay0 (GetDemuxSubDelay p_sys))))
            (F32.sub (fit_time1 p_sys.subtitle_delaybookmarks)
              (fit_time0 p_sys.subtitle_delaybookmarks))) ∧
      fit_delay p_sys.subtitle_delaybookmarks (GetDemuxSubDelay p_sys) = F32.inf true ∧
      fit_speed p_sys.subtitle_delaybookmarks (GetDemuxSubDelay p_sys) = F32.fin 0 ∧
      ComputeSubSpeedAndDelay p_sys = none := by
  refine ⟨{ session store_example 0 0 with
    subtitle_delaybookmarks := ⟨46000000, 100000000, 1000000, 100000000⟩ }, ?_, ?_, ?_, ?_, ?_,
    ?_, rfl, ?_, ?_, ?_⟩ <;>
    set_option maxRecDepth 100000 in decide

/-- C38: a proposal of `ComputeSubSpeedAndDelay` on the table that
`fill_sub_fps_adjusts` builds has an index from 1 to 12: entry 0, the ratio 1,
has `fps_ratio - 1.f` equal to zero, so its error is infinite or not a number
and never below the threshold, whatever the bookmarks. -/
theorem ComputeSubSpeedAndDelay_index (p_sys : demux_sys_t)
    (htbl : p_sys.sub_fps_adjusts = sub_fps_table) (sd : sub_speed_delay)
    (h : ComputeSubSpeedAndDelay p_sys = some sd) :
    1 ≤ sd.idx_sub_fps_adjust ∧ sd.idx_sub_fps_adjust ≤ 12 ∧
      ∀ sub_speed : F32,
        F32.lt (fit_error (fit_ratio p_sys 0) sub_speed) max_error_applicable = false := by
  have h0 : ∀ sub_speed : F32,
      F32.lt (fit_error (fit_ratio p_sys 0) sub_speed) max_error_applicable = false := by
    intro sub_speed
    apply fit_error_identity
    unfold fit_ratio
    rw [htbl]
    set_option maxRecDepth 100000 in decide
  obtain ⟨e1, e2⟩ := ComputeSubSpeedAndDelay_some p_sys sd h
  rcases fit_scan p_sys (fit_speed p_sys.subtitle_delaybookmarks (GetDemuxSubDelay p_sys))
      NB_SUB_FPS_ADJUSTS with ⟨_, h2⟩ | ⟨i, hi, h2, h3, _, _⟩
  · rw [h2] at e1
    omega
  · rw [h2] at e1
    have hi0 : i ≠ 0 := by
      intro hz
      rw [hz, h0] at h3
      exact absurd h3 Bool.false_ne_true
    have hi13 : i < 13 := hi
    refine ⟨by omega, by omega, h0⟩

/-- C38, an instance: bookmarks at 110 s / 106.000008 s after a pair at 10 s
give the proposal of index 8. -/
theorem ComputeSubSpeedAndDelay_index_witness :
    ComputeSubSpeedAndDelay
        { session store_example 0 0 with
          subtitle_delaybookmarks := ⟨110000000, 106000008, 10000000, 10000000⟩ } =
        some ⟨399999, 8⟩ ∧ (1 : Int) ≤ 8 ∧ (8 : Int) ≤ 12 :=
  ⟨by set_option maxRecDepth 100000 in decide,
    (ComputeSubSpeedAndDelay_index
      { session store_example 0 0 with
        subtitle_delaybookmarks := ⟨110000000, 106000008, 10000000, 10000000⟩ }
      rfl ⟨399999, 8⟩ (by set_option maxRecDepth 100000 in decide)).1,
    (ComputeSubSpeedAndDelay_index
      { session store_example 0 0 with
        subtitle_delaybookmarks := ⟨110000000, 106000008, 10000000, 10000000⟩ }
      rfl ⟨399999, 8⟩ (by set_option maxRecDepth 100000 in decide)).2.1⟩

/-- C39: `sub-syncreset` leaves the pending proposal as it is; when a proposal
is pending (index at least 0), a `sub-syncbookmarks` that follows the reset with
no new bookmark applies it: the current delay and speed index are those of the
proposal (not delay 0 and the identity), the delay is published, and no
proposal is pending any more. -/
theorem subtitle_external_callback_reset_keeps_proposal (p : demux_t) (v w : Int)
    (h : p.p_sys.sub_speed_delay_user_confirm.idx_sub_fps_adjust ≥ 0) :
    (subtitle_external_callback p "sub-syncreset" v).2.p_sys.sub_speed_delay_user_confirm =
        p.p_sys.sub_speed_delay_user_confirm ∧
      (subtitle_external_callback p "sub-syncreset" v).2.p_sys.sub_speed_delay_current = ⟨0, 0⟩ ∧
      (subtitle_external_callback (subtitle_external_callback p "sub-syncreset" v).2
          "sub-syncbookmarks" w).2.p_sys.sub_speed_delay_current =
        p.p_sys.sub_speed_delay_user_confirm ∧
      (subtitle_external_callback (subtitle_external_callback p "sub-syncreset" v).2
          "sub-syncbookmarks" w).2.spu_delay =
        p.p_sys.sub_speed_delay_user_confirm.sub_delay ∧
      (subtitle_external_callback (subtitle_external_callback p "sub-syncreset" v).2
          "sub-syncbookmarks" w).2.p_sys.sub_speed_delay_user_confirm.idx_sub_fps_adjust = -1 := by
  obtain ⟨i, hi, _⟩ := set_current_subtitle_by_time_frame
    { SetDemuxSubDelay p 0 with p_sys := { (SetDemuxSubDelay p 0).p_sys with
        sub_speed_delay_current :=
          { (SetDemuxSubDelay p 0).p_sys.sub_speed_delay_current with idx_sub_fps_adjust := 0 }
        subtitle_delaybookmarks := ⟨0, 0, 0, 0⟩ } }
    p.p_sys.i_last_demux_date
  have hq : (subtitle_external_callback p "sub-syncreset" v).2.p_sys =
      { p.p_sys with
        sub_speed_delay_current := ⟨0, 0⟩
        subtitle_delaybookmarks := ⟨0, 0, 0, 0⟩
        i_subtitle := i } := by
    rw [callback_syncreset]
    show (set_current_subtitle_by_time _ _).2.p_sys = _
    rw [hi]
    rfl
  generalize (subtitle_external_callback p "sub-syncreset" v).2 = q at hq
  have hc : q.p_sys.sub_speed_delay_user_confirm.idx_sub_fps_adjust ≥ 0 ∧
      q.p_sys.subtitle_delaybookmarks.i_time_audio = 0 ∧
      q.p_sys.subtitle_delaybookmarks.i_time_subtitle = 0 := by
    rw [hq]
    exact ⟨h, rfl, rfl⟩
  have hconf : q.p_sys.sub_speed_delay_user_confirm = p.p_sys.sub_speed_delay_user_confirm := by
    rw [hq]
  obtain ⟨k, hk1, hk2⟩ := Apply_sub_speed_delay_frame q q.p_sys.sub_speed_delay_user_confirm true
  refine ⟨hconf, by rw [hq], ?_, ?_, ?_⟩
  · rw [callback_syncbookmarks, ApplySubtitleDelay_confirm q hc]
    show (Apply_sub_speed_delay q q.p_sys.sub_speed_delay_user_confirm true).p_sys.sub_speed_delay_current = _
    rw [hk1, hconf]
  · rw [callback_syncbookmarks, ApplySubtitleDelay_confirm q hc]
    show (Apply_sub_speed_delay q q.p_sys.sub_speed_delay_user_confirm true).spu_delay = _
    rw [hk2, hconf]
  · rw [callback_syncbookmarks, ApplySubtitleDelay_confirm q hc]
    rfl

/-- C39, an instance: with the proposal (delay 399999, index 8) pending, reset
then sync leaves delay 399999 and index 8. -/
theorem subtitle_external_callback_reset_keeps_proposal_witness :
    (subtitle_external_callback
        (subtitle_external_callback
          ⟨{ session store_example 0 0 with sub_speed_delay_user_confirm := ⟨399999, 8⟩ }, 0, []⟩
          "sub-syncreset" 0).2
        "sub-syncbookmarks" 0).2.p_sys.sub_speed_delay_current = ⟨399999, 8⟩ :=
  (subtitle_external_callback_reset_keeps_proposal
    ⟨{ session store_example 0 0 with sub_speed_delay_user_confirm := ⟨399999, 8⟩ }, 0, []⟩
    0 0 (by decide)).2.2.1

/-! ## Format parsers: termination, short time spellings, the time resolution -/

/-- C34: on the SAMI text whose second line holds two `Start=` markers,
`<SYNC Start=100><P>Hello<SYNC Start=200><P>World`, every call of `ParseSami`
from that line returns the cue `Hello` at 100 ms and leaves the read position on
that line (the hand-back of the second marker undoes the one line read), so the
parse loop of `Open` never reaches the end of the text: it runs out of every
fuel.  With the two markers on two lines the same loop ends with the two
cues. -/
theorem ParseSami_no_progress :
    (∀ (p_sys : demux_sys_t) (i_idx : Int) (k : Nat), k ≤ 1 →
      ParseSami
          { p_sys with
            txt := ⟨["<SAMI>".data, "<SYNC Start=100><P>Hello<SYNC Start=200><P>World".data], k⟩ }
          i_idx =
        (some ⟨100000, -1, "Hello".data⟩,
          { p_sys with
            txt :=
              ⟨["<SAMI>".data, "<SYNC Start=100><P>Hello<SYNC Start=200><P>World".data], 1⟩ })) ∧
    (∀ (fuel : Nat) (p_sys : demux_sys_t),
      Open_parse_loop ParseSami fuel
          { p_sys with
            txt :=
              ⟨["<SAMI>".data, "<SYNC Start=100><P>Hello<SYNC Start=200><P>World".data], 0⟩ } =
        none) ∧
    (Open_parse ParseSami (session [] 0 0)
        ["<SAMI>".data, "<SYNC Start=100><P>Hello".data, "<SYNC Start=200><P>World".data]).map
        (fun p => p.subtitle) =
      some [⟨100000, -1, "Hello".data⟩, ⟨200000, -1, "World".data⟩] := by
  have hcall : ∀ (p_sys : demux_sys_t) (i_idx : Int) (k : Nat), k ≤ 1 →
      ParseSami
          { p_sys with
            txt := ⟨["<SAMI>".data, "<SYNC Start=100><P>Hello<SYNC Start=200><P>World".data], k⟩ }
          i_idx =
        (some ⟨100000, -1, "Hello".data⟩,
          { p_sys with
            txt :=
              ⟨["<SAMI>".data, "<SYNC Start=100><P>Hello<SYNC Start=200><P>World".data], 1⟩ }) := by
    intro p_sys i_idx k hk
    have hk2 : k = 0 ∨ k = 1 := by omega
    rcases hk2 with h | h <;> subst h <;> set_option maxRecDepth 100000 in rfl
  have hloop : ∀ (fuel : Nat) (p_sys : demux_sys_t),
      Open_parse_loop ParseSami fuel
          { p_sys with
            txt :=
              ⟨["<SAMI>".data, "<SYNC Start=100><P>Hello<SYNC Start=200><P>World".data], 1⟩ } =
        none := by
    intro fuel
    induction fuel with
    | zero => intro p_sys; rfl
    | succ n ih =>
      intro p_sys
      rw [Open_parse_loop, hcall p_sys _ 1 (Nat.le_refl 1)]
      exact ih { p_sys with subtitle := p_sys.subtitle ++ [⟨100000, -1, "Hello".data⟩] }
  refine ⟨hcall, ?_, ?_⟩
  · intro fuel p_sys
    cases fuel with
    | zero => rfl
    | succ n =>
      rw [Open_parse_loop, hcall p_sys _ 0 (Nat.zero_le 1)]
      exact hloop n { p_sys with subtitle := p_sys.subtitle ++ [⟨100000, -1, "Hello".data⟩] }
  · set_option maxRecDepth 100000 in decide

/-- C35: for the time 999600 us `WriteSubViewerTiming` writes `00:00:00,1000`:
the fraction rounds up to 1000 milliseconds and is printed without a carry
into the seconds, so the last field is not in `000..999`; the same happens for
999500 us and for 59999600 us.  For 36000001000 us (10 h and 1 ms) it writes
`10:00:00,004`, the single-precision seconds being 4 ms off.  Below the
rounding point the output is the expected one (999499 us gives
`00:00:00,999`). -/
theorem WriteSubViewerTiming_millis_overflow :
    WriteSubViewerTiming 40 999600 = "00:00:00,1000".data ∧
      WriteSubViewerTiming 40 999500 = "00:00:00,1000".data ∧
      WriteSubViewerTiming 40 59999600 = "00:00:59,1000".data ∧
      WriteSubViewerTiming 40 36000001000 = "10:00:00,004".data ∧
      WriteSubViewerTiming 40 999499 = "00:00:00,999".data := by
  refine ⟨?_, ?_, ?_, ?_, ?_⟩ <;> set_option maxRecDepth 100000 in decide

/-- C36: called as `ParseRealText` calls it, with `h m s f` all 0,
`ParseRealTime` gives 3690000000 us for `1:30` (the claim: 90000000),
18305500000 us for `5.50` (the claim: 5500000), 3690050000 us for `1:30.5`
(the claim: 90050000) and 25627000000 us for `7` (the claim: 7000000): the
scans that fail before the one that succeeds have already stored the leading
number in `h` and `m`.  The full spelling `0:1:30.0` and a spelling whose
leading number is 0 give the expected time. -/
theorem ParseRealTime_short_spelling :
    ParseRealTime "1:30".data 0 0 0 0 = 3690000000 ∧
      ParseRealTime "5.50".data 0 0 0 0 = 18305500000 ∧
      ParseRealTime "1:30.5".data 0 0 0 0 = 3690050000 ∧
      ParseRealTime "7".data 0 0 0 0 = 25627000000 ∧
      ParseRealTime "0:1:30.0".data 0 0 0 0 = 90000000 ∧
      ParseRealTime "0:30".data 0 0 0 0 = 30000000 := by
  refine ⟨?_, ?_, ?_, ?_, ?_, ?_⟩ <;> set_option maxRecDepth 100000 in decide

/-- C37: for the timing line `05:01.000 --> 05:02.000` the timing test of
`ParseVTT` gives start 18301000000 us and stop 18302000000 us (the claim:
301000000 and 302000000): the scans with an hour field, which fail, have
already stored 5 in `h1` and `h2`.  A line with the hour on one side only
keeps the stale hour on the other side; with both hours written, or with a
leading 00, the times are the expected ones. -/
theorem ParseVTT_hour_omitted :
    ParseVTT_timing "05:01.000 --> 05:02.000".data = some (18301000000, 18302000000) ∧
      ParseVTT_timing "00:05:01.000 --> 05:02.000".data = some (301000000, 18302000000) ∧
      ParseVTT_timing "00:05:01.000 --> 00:05:02.000".data = some (301000000, 302000000) ∧
      ParseVTT_timing "00:01.000 --> 00:02.000".data = some (1000000, 2000000) ∧
      (ParseVTT
        { session [] 0 0 with txt := ⟨["05:01.000 --> 05:02.000".data, "Hello".data], 0⟩ } 0).1 =
        some ⟨18301000000, 18302000000, "Hello\n".data⟩ := by
  refine ⟨?_, ?_, ?_, ?_, ?_⟩ <;> set_option maxRecDepth 100000 in decide

/-- C40: the directive line `#T0` sets the time resolution of `ParseJSS` to 0,
whatever the state, and the next timing line, complete or short, then divides
by zero, which C leaves undefined.  Without the directive the resolution is 30
and the same lines give their cue times. -/
theorem ParseJSS_zero_resolution :
    (∀ jss : jss_t, ParseJSS_directive "#T0".data jss = some { jss with i_time_resolution := 0 }) ∧
      (∀ (jss : jss_t) (rest : List (List Char)),
        ParseJSS_loop ("0:00:01.00 0:00:02.00 D Hello".data :: rest)
          { jss with i_time_resolution := 0 } = ParseJSS_outcome.undefined) ∧
      (∀ (jss : jss_t) (rest : List (List Char)),
        ParseJSS_loop ("@30 @60 D Hello".data :: rest)
          { jss with i_time_resolution := 0 } = ParseJSS_outcome.undefined) ∧
      ParseJSS_loop ["#T0".data, "0:00:01.00 0:00:02.00 D Hello".data]
        (ParseJSS_init ⟨false, 0, 0, 0⟩) = ParseJSS_outcome.undefined ∧
      ParseJSS_loop ["#T0".data, "@30 @60 D Hello".data]
        (ParseJSS_init ⟨false, 0, 0, 0⟩) = ParseJSS_outcome.undefined ∧
      ParseJSS_loop ["0:00:01.00 0:00:02.00 D Hello".data] (ParseJSS_init ⟨false, 0, 0, 0⟩) =
        ParseJSS_outcome.timing 1000000 2000000 "D Hello".data ⟨true, 0, 30, 0⟩ [] ∧
      ParseJSS_loop ["@30 @60 D Hello".data] (ParseJSS_init ⟨false, 0, 0, 0⟩) =
        ParseJSS_outcome.timing 1000000 2000000 "D Hello".data ⟨true, 0, 30, 0⟩ [] := by
  refine ⟨?_, ?_, ?_, ?_, ?_, ?_, ?_⟩
  · intro jss
    set_option maxRecDepth 100000 in rfl
  · intro jss rest
    have h9 : sscanf "0:00:01.00 0:00:02.00 D Hello".data "%d:%d:%d.%d %d:%d:%d.%d %[^\n\r]" = 9 := by
      set_option maxRecDepth 100000 in decide
    rw [ParseJSS_loop]
    simp only []
    rw [if_pos h9]
    simp [int_div]
  · intro jss rest
    have h9 : ¬ sscanf "@30 @60 D Hello".data "%d:%d:%d.%d %d:%d:%d.%d %[^\n\r]" = 9 := by
      set_option maxRecDepth 100000 in decide
    have h3 : sscanf "@30 @60 D Hello".data "@%d @%d %[^\n\r]" = 3 := by
      set_option maxRecDepth 100000 in decide
    rw [ParseJSS_loop]
    simp only []
    rw [if_neg h9, if_pos h3]
    simp [int_div]
  all_goals set_option maxRecDepth 100000 in decide

end Subtitle
